import Mathlib

/-!
MoT-Voellmy: a shallow embedding of the numerical core.

Source: `src/MoT-Voellmy.2025-02-10.c`.

Conventions of the embedding.

* A C `double` is an element of an arbitrary linearly ordered field `α`
  (the reals for the statements, the rationals for evaluation).  Rounding,
  infinities and NaN are outside the model.  Decimal literals are written as
  fractions: `0.8` is `4/5`, `0.25` is `1/4`, `0.001` is `1/1000`.
* The `math.h` functions `sqrt` and `exp` are fields of `Config`; nothing is
  assumed about them unless a theorem says so.  `fabs` is the absolute value.
* A C array `double **a` is a total function `Int → Int → α`, a
  `double ***f` is `Int → Int → Nat → α`; an assignment to an element is
  `set2` / `set3`.
* All C globals that the time loop changes are fields of `State`; globals
  that are fixed after `read_command_file` are fields of `Config`.
* A `for` loop whose bounds are not changed in its body is `forRange`; the
  loops with `break` / `continue` are written out as recursive functions.
-/

set_option linter.unusedSectionVars false
set_option linter.unusedVariables false

namespace MoTVoellmy

/-! Definitions -/

section Defs

variable {α : Type} [LinearOrderedField α]

/-- C macro `SQ(A) ((A) * (A))`. -/
def SQ (a : α) : α := a * a

/-- C macro `MAX(a,b) ((a) > (b) ? (a) : (b))`. -/
def MAX {β : Type} [LinearOrder β] (a b : β) : β := if a > b then a else b

/-- C macro `MIN(a,b) ((a) < (b) ? (a) : (b))`. -/
def MIN {β : Type} [LinearOrder β] (a b : β) : β := if a < b then a else b

/-- A C array `double **a`, indexed `a[i][j]`. -/
abbrev Grid (α : Type) := Int → Int → α

/-- A C array `double ***f`, indexed `f[i][j][c]`. -/
abbrev Grid3 (α : Type) := Int → Int → Nat → α

/-- Assignment `a[i][j] = x`. -/
def set2 (a : Grid α) (i j : Int) (x : α) : Grid α :=
  fun p q => if p = i ∧ q = j then x else a p q

/-- Assignment `f[i][j][c] = x`. -/
def set3 (f : Grid3 α) (i j : Int) (c : Nat) (x : α) : Grid3 α :=
  fun p q e => if p = i ∧ q = j ∧ e = c then x else f p q e

/-- The body of `for (i = lo; ...; i++)` run `k` times from index `i`. -/
def loopN {σ : Type} : Nat → Int → (Int → σ → σ) → σ → σ
  | 0, _, _, s => s
  | k + 1, i, body, s => loopN k (i + 1) body (body i s)

/-- Loop `for (i = lo; i < hi; i++) body`, bounds fixed during the loop. -/
def forRange {σ : Type} (lo hi : Int) (body : Int → σ → σ) (s : σ) : σ :=
  loopN (hi - lo).toNat lo body s

/-- Globals that are fixed once `read_command_file` and `read_grid_file`
have run (lines 103-182 of the source), and the two `math.h` functions. -/
structure Config (α : Type) where
  sqrt : α → α
  exp : α → α
  m : Int
  n : Int
  cellsize : α
  dt_min : α
  dt_max : α
  t_max : α
  cfl : α
  h_min : α
  u_min : α
  mom_thr : α
  g : α
  rho : α
  rrb : α
  rrd : α
  sigma : α
  mu_g : α
  mu_s0 : α
  k_g : α
  kp : α
  cD : α
  MoR : α
  decay_coeff : α
  h_drag : α
  k_erod : α
  para : Int
  curve : Int
  forest : Int
  dyn_surf : Int
  dep : Int
  eromod : Int
  grad : Int

/-- Global `double nD_min = 0.001`, never assigned elsewhere. -/
def nD_min : α := 1 / 1000

/-- Globals and locals of `main` that change during the time loop. -/
structure State (α : Type) where
  t : α
  dt : α
  mov_vol : α
  n_step : Int
  repeat_flag : Int
  stop_code : Int
  i_min : Int
  i_max : Int
  j_min : Int
  j_max : Int
  dx : Grid α
  dy : Grid α
  dA : Grid α
  gx : Grid α
  gy : Grid α
  gz0 : Grid α
  gz : Grid α
  IIxx : Grid α
  IIxy : Grid α
  IIyy : Grid α
  G_xy : Grid α
  h : Grid α
  u : Grid α
  v : Grid α
  s : Grid α
  p_imp : Grid α
  f_old : Grid3 α
  f_new : Grid3 α
  src : Grid3 α
  d : Grid α
  z0 : Grid α
  z : Grid α
  b : Grid α
  tau_c : Grid α
  mu : Grid α
  k : Grid α
  mu_s : Grid α
  h_max : Grid α
  s_max : Grid α
  p_max : Grid α
  u_max : Grid α
  v_max : Grid α
  b_min : Grid α
  d_max : Grid α
  nD : Grid α
  tD : Grid α
  decay_const : Grid α

/-! Function `find_dt` (lines 818-833) -/

/-- The local `aux` of `find_dt` at cell `(i,j)`. -/
def find_dt_aux (C : Config α) (st : State α) (i j : Int) : α :=
  MAX (C.sqrt (SQ (st.u i j) + SQ (st.v i j)) + C.sqrt (st.gz i j * st.h i j)) C.u_min

/-- Function `find_dt(h, u, v, gz, cfl)`, called on the globals. -/
def find_dt (C : Config α) (st : State α) : α :=
  let dt : α :=
    forRange st.i_min st.i_max (fun i dt =>
      forRange st.j_min st.j_max (fun j dt =>
        MIN (C.cfl * MIN (st.dx i j) (st.dy i j) / find_dt_aux C st i j) dt) dt) 1000
  MIN dt C.dt_max

/-- The admissible local step of the specification, §4.2, written with the
library `min` and `max`: CFL × min(edge lengths) / wave speed, the wave speed
floored by `u_min`. -/
def cfl_local_bound (C : Config α) (st : State α) (i j : Int) : α :=
  C.cfl * min (st.dx i j) (st.dy i j)
    / max (C.sqrt ((st.u i j) ^ 2 + (st.v i j) ^ 2) + C.sqrt (st.gz i j * st.h i j)) C.u_min

/-- Cell `(i,j)` belongs to the Active Domain `[i_min,i_max) × [j_min,j_max)`. -/
def inDomain (st : State α) (i j : Int) : Prop :=
  st.i_min ≤ i ∧ i < st.i_max ∧ st.j_min ≤ j ∧ j < st.j_max

instance inDomainDecidable (st : State α) (i j : Int) : Decidable (inDomain st i j) := by
  unfold inDomain
  infer_instance

/-! Transport pass of `main` (lines 366-520) -/

/-- Statement `f[i][j][c] += x`. -/
def add3 (f : Grid3 α) (i j : Int) (c : Nat) (x : α) : Grid3 α :=
  set3 f i j c (f i j c + x)

/-- Statement `f[i][j][c] -= x`. -/
def sub3 (f : Grid3 α) (i j : Int) (c : Nat) (x : α) : Grid3 α :=
  set3 f i j c (f i j c - x)

/-- Call `memcpy(dst[p][q], orig[p][q], 3*sizeof(double))`. -/
def memcpy3 (dst orig : Grid3 α) (p q : Int) : Grid3 α :=
  fun a b c => if a = p ∧ b = q ∧ c < 3 then orig p q c else dst a b c

/-- Line 390: `di = (u[i][j] >= 0.0 ? 1 : -1)`. -/
def flux_di (st : State α) (i j : Int) : Int := if st.u i j ≥ 0 then 1 else -1

/-- Line 391: `dj = (v[i][j] >= 0.0 ? 1 : -1)`. -/
def flux_dj (st : State α) (i j : Int) : Int := if st.v i j ≥ 0 then 1 else -1

/-- Line 392: `aux = fabs(u[i][j]) * dt`. -/
def flux_aux (st : State α) (i j : Int) : α := |st.u i j| * st.dt

/-- Line 393: `auy = fabs(v[i][j]) * dt`. -/
def flux_auy (st : State α) (i j : Int) : α := |st.v i j| * st.dt

/-- Line 416 with 394: `qhx = h[i][j] * dAx`, `dAx = aux * (dy[i][j] - auy)`. -/
def qhx (st : State α) (i j : Int) : α :=
  st.h i j * (flux_aux st i j * (st.dy i j - flux_auy st i j))

/-- Line 417 with 395: `qhy = h[i][j] * dAy`, `dAy = auy * (dx[i][j] - aux)`. -/
def qhy (st : State α) (i j : Int) : α :=
  st.h i j * (flux_auy st i j * (st.dx i j - flux_aux st i j))

/-- Line 418 with 396: `qhd = h[i][j] * dAd`, `dAd = aux * auy`. -/
def qhd (st : State α) (i j : Int) : α :=
  st.h i j * (flux_aux st i j * flux_auy st i j)

/-- Lines 398-413: the mass source is limited by the bed depth (erosion) or
by the flow depth (deposition), and the reservoir is updated; otherwise the
mass source is set to zero. -/
def limit_source (C : Config α) (i j : Int) (st : State α) : State α :=
  if C.eromod > 0 ∧ st.src i j 0 > 0 then
    let src1 := set3 st.src i j 0
      (MIN (st.src i j 0) (st.b i j * st.dA i j / (C.rrb * st.dt)))
    { st with
      src := src1
      b := set2 st.b i j (MAX 0 (st.b i j - src1 i j 0 * C.rrb * st.dt / st.dA i j)) }
  else if C.dep > 0 ∧ st.src i j 0 < 0 then
    let src1 := set3 st.src i j 0 (MAX (st.src i j 0) (-(st.f_old i j 0) / st.dt))
    { st with
      src := src1
      d := set2 st.d i j (st.d i j - src1 i j 0 * C.rrd * st.dt / st.dA i j) }
  else { st with src := set3 st.src i j 0 0 }

/-- Lines 428-430: the outflow is taken from the donor cell `(i,j)`. -/
def flux_out (i j : Int) (st : State α) : Grid3 α :=
  let f0 := sub3 st.f_new i j 0 (qhx st i j + qhy st i j + qhd st i j - st.src i j 0 * st.dt)
  let f1 := sub3 f0 i j 1
    (qhx st i j * st.u i j + qhy st i j * st.u i j + qhd st i j * st.u i j)
  sub3 f1 i j 2 (qhx st i j * st.v i j + qhy st i j * st.v i j + qhd st i j * st.v i j)

/-- Lines 433-435 (and 438-440, 443-445): the mass flux `qh` and the
momentum fluxes `qh * u[i][j]`, `qh * v[i][j]` of the donor cell are added to
the neighbour `(a,b)`. -/
def add_flux (f : Grid3 α) (a b : Int) (qh uu vv : α) : Grid3 α :=
  add3 (add3 (add3 f a b 0 qh) a b 1 (qh * uu)) a b 2 (qh * vv)

/-- Lines 432-446: the three fluxes are added to the downstream neighbours
that exist in the Grid. -/
def flux_in (C : Config α) (i j : Int) (st : State α) (f : Grid3 α) : Grid3 α :=
  let di := flux_di st i j
  let dj := flux_dj st i j
  let fa : Grid3 α :=
    if i + di ≥ 0 ∧ i + di < C.m then add_flux f (i + di) j (qhx st i j) (st.u i j) (st.v i j)
    else f
  let fb : Grid3 α :=
    if j + dj ≥ 0 ∧ j + dj < C.n then add_flux fa i (j + dj) (qhy st i j) (st.u i j) (st.v i j)
    else fa
  if i + di ≥ 0 ∧ i + di < C.m ∧ j + dj ≥ 0 ∧ j + dj < C.n then
    add_flux fb (i + di) (j + dj) (qhd st i j) (st.u i j) (st.v i j)
  else fb

/-- Lines 389-446: the body of the j-loop up to the test for negative flow
heights. -/
def cell_flux (C : Config α) (i j : Int) (st : State α) : State α :=
  let st1 := limit_source C i j st
  { st1 with f_new := flux_in C i j st1 (flux_out i j st1) }

/-- Lines 461-476: earth pressure `pEx` at the east boundary of cell `(i,j)`. -/
def pEx (C : Config α) (st : State α) (i j : Int) : α :=
  if i > st.i_min ∧ i < st.i_max - 1 then
    1 / 4 * C.kp * st.dy (i + 1) j * (st.gz i j + st.gz (i + 1) j) * st.h i j * st.h (i + 1) j
  else if i = st.i_min then
    1 / 4 * C.kp * st.dy (i + 1) j * (st.gz i j + st.gz (i + 1) j) * st.h i j * st.h (i + 1) j
  else if i = st.i_max - 1 then
    1 / 4 * C.kp * st.dy i j * (st.gz (i - 1) j + st.gz i j) * st.h (i - 1) j * st.h i j
  else 0

/-- Lines 461-476: earth pressure `pWx` at the west boundary of cell `(i,j)`. -/
def pWx (C : Config α) (st : State α) (i j : Int) : α :=
  if i > st.i_min ∧ i < st.i_max - 1 then
    1 / 4 * C.kp * st.dy i j * (st.gz (i - 1) j + st.gz i j) * st.h (i - 1) j * st.h i j
  else if i = st.i_min then
    1 / 4 * C.kp * st.dy (i + 1) j * (st.gz i j + st.gz (i + 1) j) * st.h i j * st.h (i + 1) j
  else if i = st.i_max - 1 then
    1 / 4 * C.kp * st.dy i j * (st.gz (i - 1) j + st.gz i j) * st.h (i - 1) j * st.h i j
  else 0

/-- Lines 479-494: earth pressure `pNy` at the north boundary of cell `(i,j)`. -/
def pNy (C : Config α) (st : State α) (i j : Int) : α :=
  if j > st.j_min ∧ j < st.j_max - 1 then
    1 / 4 * C.kp * st.dx i (j + 1) * (st.gz i j + st.gz i (j + 1)) * st.h i j * st.h i (j + 1)
  else if j = st.j_min then
    1 / 4 * C.kp * st.dx i (j + 1) * (st.gz i j + st.gz i (j + 1)) * st.h i j * st.h i (j + 1)
  else if j = st.j_max - 1 then
    1 / 4 * C.kp * st.dx i j * (st.gz i (j - 1) + st.gz i j) * st.h i (j - 1) * st.h i j
  else 0

/-- Lines 479-494: earth pressure `pSy` at the south boundary of cell `(i,j)`. -/
def pSy (C : Config α) (st : State α) (i j : Int) : α :=
  if j > st.j_min ∧ j < st.j_max - 1 then
    1 / 4 * C.kp * st.dx i j * (st.gz i (j - 1) + st.gz i j) * st.h i (j - 1) * st.h i j
  else if j = st.j_min then
    1 / 4 * C.kp * st.dx i (j + 1) * (st.gz i j + st.gz i (j + 1)) * st.h i j * st.h i (j + 1)
  else if j = st.j_max - 1 then
    1 / 4 * C.kp * st.dx i j * (st.gz i (j - 1) + st.gz i j) * st.h i (j - 1) * st.h i j
  else 0

/-- Line 500: `F_drive_x = gx[i][j] * f_old[i][j][0] + pWx - pEx`. -/
def F_drive_x (C : Config α) (st : State α) (i j : Int) : α :=
  st.gx i j * st.f_old i j 0 + pWx C st i j - pEx C st i j

/-- Line 501: `F_drive_y = gy[i][j] * f_old[i][j][0] + pSy - pNy`. -/
def F_drive_y (C : Config α) (st : State α) (i j : Int) : α :=
  st.gy i j * st.f_old i j 0 + pSy C st i j - pNy C st i j

/-- Lines 502-503: squared driving force in the non-orthogonal metric. -/
def F_drive_2 (C : Config α) (st : State α) (i j : Int) : α :=
  SQ (F_drive_x C st i j) + SQ (F_drive_y C st i j)
    + 2 * st.G_xy i j * F_drive_x C st i j * F_drive_y C st i j

/-- Line 507: `F_fric_2 = SQ(mu[i][j] * gz[i][j] * f_old[i][j][0])`. -/
def F_fric_2 (st : State α) (i j : Int) : α :=
  SQ (st.mu i j * st.gz i j * st.f_old i j 0)

/-- Lines 496-518: momentum update of cell `(i,j)` by pressure gradient,
gravity and friction; a cell at rest (`s <= u_min`) starts moving only if the
driving force exceeds the static friction. -/
def cell_momentum (C : Config α) (i j : Int) (st : State α) : State α :=
  if st.s i j ≤ C.u_min then
    if F_drive_2 C st i j > F_fric_2 st i j then
      let dir_cos := F_drive_x C st i j / C.sqrt (F_drive_2 C st i j)
      let dir_sin := F_drive_y C st i j / C.sqrt (F_drive_2 C st i j)
      let f1 := add3 st.f_new i j 1
        ((F_drive_x C st i j - dir_cos * C.sqrt (F_fric_2 st i j)) * st.dt)
      { st with
        f_new := add3 f1 i j 2
          ((F_drive_y C st i j - dir_sin * C.sqrt (F_fric_2 st i j)) * st.dt) }
    else st
  else
    let f1 := add3 st.f_new i j 1 ((pWx C st i j - pEx C st i j + st.src i j 1) * st.dt)
    { st with f_new := add3 f1 i j 2 ((pSy C st i j - pNy C st i j + st.src i j 2) * st.dt) }

/-- The j-loop of the transport pass (lines 387-519), `k` cells left to
visit from column `j` of row `i`.  A negative mass sets `repeat_flag = 1` and
leaves the loop (lines 449-452). -/
def jloop (C : Config α) (i : Int) : Nat → Int → State α → State α
  | 0, _, st => st
  | k + 1, j, st =>
    let st1 := cell_flux C i j st
    if st1.f_new i j 0 < 0 then { st1 with repeat_flag := 1 }
    else jloop C i k (j + 1) (cell_momentum C i j st1)

/-- Lines 370-372: `f_new` is reset to `f_old` on the Active Domain. -/
def restore (st : State α) : Grid3 α :=
  forRange st.i_min st.i_max (fun p f =>
    forRange st.j_min st.j_max (fun q f => memcpy3 f st.f_old p q) f) st.f_new

/-- Lines 370-375: the block executed when `repeat_flag == 1`, up to the
test of `dt`: `f_new` is reset, the flag cleared and `dt` multiplied by 0.8. -/
def retry_state (st : State α) : State α :=
  { st with f_new := restore st, repeat_flag := 0, dt := st.dt * (4 / 5) }

/-- Lines 377-379: the step size has collapsed. -/
def collapse (st : State α) : State α :=
  { st with repeat_flag := -1, stop_code := 2 }

/-- Lines 387-519: the j-loop over row `i`. -/
def row_pass (C : Config α) (i : Int) (st : State α) : State α :=
  jloop C i (st.j_max - st.j_min).toNat st.j_min st

/-- The i-loop of the transport pass (lines 366-520) from row `i`.  When
`repeat_flag == 1` the block of lines 368-385 resets `f_new`, reduces `dt` by
the factor 0.8 and restarts at `i_min` (`i = i_min - 1; continue;`), or leaves
the loop with `repeat_flag = -1`, `stop_code = 2` when `dt < dt_min`.  The
loop has no syntactic bound, so the model counts its iterations down from
`fuel`; `none` means that the fuel did not suffice. -/
def iloop (C : Config α) : Nat → Int → State α → Option (State α)
  | 0, _, _ => none
  | fuel + 1, i, st =>
    if i < st.i_max then
      if st.repeat_flag = 1 then
        if (retry_state st).dt < C.dt_min then some (collapse (retry_state st))
        else iloop C fuel (st.i_min - 1 + 1) (retry_state st)
      else iloop C fuel (i + 1) (row_pass C i st)
    else some st

/-- Lines 526-537: a cell whose momentum has reversed and points uphill is
arrested. -/
def arrest_cell (C : Config α) (i j : Int) (st : State α) : State α :=
  if st.f_old i j 1 * st.f_new i j 1 + st.f_old i j 2 * st.f_new i j 2 < 0
      ∧ st.f_new i j 1 * st.gx i j + st.f_new i j 2 * st.gy i j < 0 then
    let st1 : State α :=
      if C.dep = 1 then
        { st with
          d := set2 st.d i j (st.d i j + st.f_new i j 0 / st.dA i j)
          f_new := set3 st.f_new i j 0 0 }
      else st
    { st1 with f_new := set3 (set3 st1.f_new i j 1 0) i j 2 0 }
  else st

/-- Lines 526-537: the arrest loop over the Active Domain. -/
def arrest (C : Config α) (st : State α) : State α :=
  forRange st.i_min st.i_max (fun i st1 =>
    forRange st.j_min st.j_max (fun j st2 => arrest_cell C i j st2) st1) st

/-! Function `primivar` (lines 596-615) -/

/-- Body of the loops of `primivar(f, h, u, v, s, p)` at cell `(i,j)`; the
only call passes `f_new` and the global fields `h, u, v, s, p_imp`. -/
def primivar_cell (C : Config α) (f : Grid3 α) (i j : Int) (st : State α) : State α :=
  let aux1 : α := 1 / st.dA i j
  let aux2 : α := if f i j 0 > 0 then 1 / MAX (f i j 0) (C.h_min * st.dA i j) else 0
  let hh : α := f i j 0 * aux1
  let uu : α := f i j 1 * aux2
  let vv : α := f i j 2 * aux2
  let p : α := SQ uu + SQ vv + 2 * st.G_xy i j * uu * vv
  { st with
    h := set2 st.h i j hh
    u := set2 st.u i j uu
    v := set2 st.v i j vv
    s := set2 st.s i j (C.sqrt p)
    p_imp := set2 st.p_imp i j (p * (1 / 1000 * C.rho)) }

/-- Function `primivar`, a loop over the Active Domain. -/
def primivar (C : Config α) (f : Grid3 α) (st : State α) : State α :=
  forRange st.i_min st.i_max (fun i st1 =>
    forRange st.j_min st.j_max (fun j st2 => primivar_cell C f i j st2) st1) st

/-! Function `source_terms` (lines 632-800) -/

/-- Lines 661-684: friction parameters `(mu_loc, k_loc)` of the chosen
variant `2*para + forest`; `none` is the `exit(21)` of the default case. -/
def friction_params (C : Config α) (st : State α) (i j : Int) : Option (α × α) :=
  let cos_th : α := SQ C.cellsize / st.dA i j
  let variant : Int := 2 * C.para + C.forest
  if variant = 0 then some (C.mu_g, C.k_g)
  else if variant = 1 then
    some (C.mu_g + 5 / 4 * cos_th * st.nD i j * st.h i j,
      C.k_g + 1 / 2 * C.cD * cos_th * st.nD i j * st.h i j)
  else if variant = 2 then some (st.mu i j, st.k i j)
  else if variant = 3 then
    some (st.mu i j + 5 / 4 * cos_th * st.nD i j * st.h i j,
      st.k i j + 1 / 2 * C.cD * cos_th * st.nD i j * st.h i j)
  else none

/-- Lines 690-691: the optional increase of the drag coefficient. -/
def drag_adjust (C : Config α) (st : State α) (i j : Int) (k_loc : α) : α :=
  if C.h_drag > 0 then k_loc / (1 - C.exp (-C.h_drag / MAX (st.h i j) C.h_min)) else k_loc

/-- Lines 713-714 and 756-757: local bed shear strength `tau_c_loc`. -/
def tau_c_loc (C : Config α) (st : State α) (i j : Int) : α :=
  if C.grad < 2 then st.tau_c i j + C.mu_s0 * st.gz i j * st.h i j
  else st.tau_c i j + st.mu_s i j * st.gz i j * st.h i j

/-- Lines 740-744: `dbdx`, the x-gradient of the snow surface (GOEM). -/
def dbdx (C : Config α) (st : State α) (i j : Int) : α :=
  if i > 0 ∧ i < C.m - 1 then 1 / 2 * (st.b (i + 1) j - st.b (i - 1) j) / st.dx i j
  else if i = 0 then (st.b 1 j - st.b 0 j) / st.dx 0 j
  else (st.b (C.m - 1) j - st.b (C.m - 2) j) / st.dx (C.m - 2) j

/-- Lines 745-749: `dbdy`, the y-gradient of the snow surface (GOEM). -/
def dbdy (C : Config α) (st : State α) (i j : Int) : α :=
  if j > 0 ∧ j < C.n - 1 then 1 / 2 * (st.b i (j + 1) - st.b i (j - 1)) / st.dy i j
  else if j = 0 then (st.b i 1 - st.b i 0) / st.dy i 0
  else (st.b i (C.n - 1) - st.b i (C.n - 2)) / st.dy i (C.n - 2)

/-- Lines 699-765: the erosion switch.  From the bed shear stress `tau_b` it
gives the mass source `src[i][j][0]` and the shear stress used afterwards
(changed only by the TJEM, lines 722-723); `none` is the `exit(29)` of the
default case. -/
def erosion_source (C : Config α) (st : State α) (i j : Int) (tau_b : α) : Option (α × α) :=
  let speed : α := st.s i j
  if C.eromod = 0 then some (0, tau_b)
  else if C.eromod = 1 then
    if st.h i j > C.h_min ∧ speed > 1 then some (C.k_erod * speed * st.dA i j, tau_b)
    else some (0, tau_b)
  else if C.eromod = 2 then
    let src0 : α :=
      if speed > 10 * C.u_min ∧ st.h i j > 10 * C.h_min then
        MAX 0 (tau_b - tau_c_loc C st i j) * st.dA i j / speed
      else 0
    if src0 > 0 ∧ st.b i j > 0 then some (src0, MAX (tau_c_loc C st i j) tau_b)
    else some (src0, tau_b)
  else if C.eromod = 3 then
    if st.h i j > C.h_min ∧ speed > 1 then
      some (speed * st.dA i j / st.tau_c i j
        * (st.mu i j * st.gz i j * st.h i j + st.k i j * SQ speed), tau_b)
    else some (0, tau_b)
  else if C.eromod = 4 then
    let talpha : α :=
      ((st.u i j + st.v i j * st.G_xy i j) * dbdx C st i j
        + (st.v i j + st.u i j * st.G_xy i j) * dbdy C st i j) / MAX (1 / 100) speed
    let calpha : α := 1 / C.sqrt (1 + SQ talpha)
    let salpha : α := talpha * calpha
    let dp : α :=
      MAX 0 (st.gz i j * st.h i j * calpha + C.k_erod * SQ speed * salpha - st.tau_c i j)
    some (C.sigma * C.sqrt dp * st.dA i j * calpha, tau_b)
  else none

/-- Lines 768-773: momentum sources, written only where `speed > u_min`. -/
def momentum_source (C : Config α) (i j : Int) (tau_b : α) (st : State α) : State α :=
  if st.s i j > C.u_min then
    let dir_cos : α := st.u i j / st.s i j
    let dir_sin : α := st.v i j / st.s i j
    { st with
      src := set3 (set3 st.src i j 1 ((st.gx i j * st.h i j - dir_cos * tau_b) * st.dA i j))
        i j 2 ((st.gy i j * st.h i j - dir_sin * tau_b) * st.dA i j) }
  else st

/-- Lines 784-785: bending moment on the average tree. -/
def bend_mom (C : Config α) (st : State α) (i j : Int) : α :=
  let cos_th : α := SQ C.cellsize / st.dA i j
  let hs : α := if C.eromod > 0 then st.b i j else 1
  1 / 4 * C.cD * C.rho * (SQ (st.s i j) + 5 * C.g * st.h i j * cos_th)
    * st.tD i j * st.h i j * (st.h i j + 2 * hs)

/-- Lines 778-795: fate of the forest in cell `(i,j)`.  An intact forest
(`decay_const == 0`) starts decaying when the bending moment exceeds the
strength; a decaying forest loses opacity. -/
def forest_cell (C : Config α) (i j : Int) (st : State α) : State α :=
  if C.forest = 1 ∧ st.nD i j > nD_min then
    if st.decay_const i j = 0 then
      if bend_mom C st i j > C.MoR * st.tD i j * st.tD i j * st.tD i j then
        { st with decay_const := set2 st.decay_const i j (C.decay_coeff / st.tD i j) }
      else st
    else
      { st with nD := set2 st.nD i j (st.nD i j * MAX 0 (1 - st.decay_const i j * st.dt)) }
  else st

/-- Lines 656-795: body of the loops of `source_terms` at cell `(i,j)`. -/
def source_cell (C : Config α) (i j : Int) (st : State α) : Option (State α) :=
  match friction_params C st i j with
  | none => none
  | some (mu_loc, k_loc0) =>
    let k_loc : α := drag_adjust C st i j k_loc0
    let tau_b : α := mu_loc * st.gz i j * st.h i j + k_loc * SQ (st.s i j)
    match erosion_source C st i j tau_b with
    | none => none
    | some (src0, tau_b1) =>
      some (forest_cell C i j
        (momentum_source C i j tau_b1 { st with src := set3 st.src i j 0 src0 }))

/-- Loop `for (i = ...; ...; i++)` with a body that may call `exit`, run `k`
times from index `i`. -/
def loopM {σ : Type} : Nat → Int → (Int → σ → Option σ) → σ → Option σ
  | 0, _, _, s => some s
  | k + 1, i, body, s =>
    match body i s with
    | none => none
    | some s1 => loopM k (i + 1) body s1

/-- Loop `for (i = lo; i < hi; i++) body` with a body that may call `exit`. -/
def forRangeM {σ : Type} (lo hi : Int) (body : Int → σ → Option σ) (s : σ) : Option σ :=
  loopM (hi - lo).toNat lo body s

/-- Function `source_terms(h, u, v)` on the globals; `none` when the program
has left through `exit`. -/
def source_terms (C : Config α) (st : State α) : Option (State α) :=
  forRangeM st.i_min st.i_max (fun i st1 =>
    forRangeM st.j_min st.j_max (fun j st2 => source_cell C i j st2) st1) st

/-! Function `update_boundaries` (lines 853-904) -/

/-- Locals `west, east, south, north, mom` of `update_boundaries`. -/
structure Bounds (α : Type) where
  west : Int
  east : Int
  south : Int
  north : Int
  mom : α

/-- Lines 862-888: body of the loops of `update_boundaries(f)` at cell
`(i,j)`. -/
def boundaries_cell (C : Config α) (f : Grid3 α) (i j : Int)
    (x : State α × Bounds α) : State α × Bounds α :=
  let st := x.1
  let bd := x.2
  let vol_min : α := C.h_min * st.dA i j
  let speed : α := st.s i j
  let moving : Prop := f i j 0 > vol_min ∧ speed > C.u_min
  let bd1 : Bounds α :=
    if moving then
      { bd with
        west := MIN bd.west (i - 1)
        east := MAX bd.east (i + 1)
        south := MIN bd.south (j - 1)
        north := MAX bd.north (j + 1) }
    else bd
  let st1 : State α := if moving then { st with mov_vol := st.mov_vol + f i j 0 } else st
  let st2 : State α := { st1 with h_max := set2 st1.h_max i j (MAX (st1.h_max i j) (st1.h i j)) }
  let st3 : State α :=
    if speed > st2.s_max i j then
      { st2 with
        s_max := set2 st2.s_max i j speed
        u_max := set2 st2.u_max i j (st2.u i j)
        v_max := set2 st2.v_max i j (st2.v i j)
        p_max := set2 st2.p_max i j (1 / 1000 * C.rho * SQ speed) }
    else st2
  let bd2 : Bounds α := { bd1 with mom := bd1.mom + speed * f i j 0 }
  let st4 : State α :=
    if C.eromod > 0 then { st3 with b_min := set2 st3.b_min i j (MIN (st3.b i j) (st3.b_min i j)) }
    else st3
  let st5 : State α :=
    if C.dep > 0 then { st4 with d_max := set2 st4.d_max i j (MAX (st4.d i j) (st4.d_max i j)) }
    else st4
  (st5, bd2)

/-- Function `update_boundaries(f)`: the new state and the returned momentum
`mom`.  The loop of lines 897-901 only prints the total volume and is left
out. -/
def update_boundaries (C : Config α) (f : Grid3 α) (st : State α) : State α × α :=
  let x0 : State α × Bounds α :=
    ({ st with mov_vol := 0 }, { west := C.m, east := 0, south := C.n, north := 0, mom := 0 })
  let x1 : State α × Bounds α :=
    forRange st.i_min st.i_max (fun i y =>
      forRange st.j_min st.j_max (fun j y1 => boundaries_cell C f i j y1) y) x0
  ({ x1.1 with
     i_min := MAX 0 x1.2.west
     i_max := MIN C.m (x1.2.east + 1)
     j_min := MAX 0 x1.2.south
     j_max := MIN C.n (x1.2.north + 1) }, x1.2.mom)

/-! Function `update_surface` (lines 1517-1582) -/

/-- Lines 1531-1536: slope `dZdX` at node `(i,j)`. -/
def dZdX (C : Config α) (Z : Grid α) (i j : Int) : α :=
  if i = 0 then (Z 1 j - Z 0 j) / C.cellsize
  else if i = C.m - 1 then (Z (C.m - 1) j - Z (C.m - 2) j) / C.cellsize
  else 1 / 2 * (Z (i + 1) j - Z (i - 1) j) / C.cellsize

/-- Lines 1537-1542: slope `dZdY` at node `(i,j)`. -/
def dZdY (C : Config α) (Z : Grid α) (i j : Int) : α :=
  if j = 0 then (Z i 1 - Z i 0) / C.cellsize
  else if j = C.n - 1 then (Z i (C.n - 1) - Z i (C.n - 2)) / C.cellsize
  else 1 / 2 * (Z i (j + 1) - Z i (j - 1)) / C.cellsize

/-- Lines 1566-1569: second derivative `d2ZdX2`. -/
def d2ZdX2 (C : Config α) (Z : Grid α) (i j : Int) : α :=
  if i = 0 ∨ i = C.m - 1 then 0
  else (Z (i + 1) j + Z (i - 1) j - 2 * Z i j) / SQ C.cellsize

/-- Lines 1570-1573: second derivative `d2ZdY2`. -/
def d2ZdY2 (C : Config α) (Z : Grid α) (i j : Int) : α :=
  if j = 0 ∨ j = C.n - 1 then 0
  else (Z i (j + 1) + Z i (j - 1) - 2 * Z i j) / SQ C.cellsize

/-- Lines 1574-1578: mixed second derivative `d2ZdXY`. -/
def d2ZdXY (C : Config α) (Z : Grid α) (i j : Int) : α :=
  if i = 0 ∨ i = C.m - 1 ∨ j = 0 ∨ j = C.n - 1 then 0
  else (Z (i + 1) (j + 1) + Z (i - 1) (j - 1) - Z (i + 1) (j - 1) - Z (i - 1) (j + 1))
    / (4 * SQ C.cellsize)

/-- Lines 1529-1582: body of the loops of `update_surface(Z)` at node
`(i,j)`.  The self-test of lines 1561-1564 only prints and is left out. -/
def surface_cell (C : Config α) (Z : Grid α) (i j : Int) (st : State α) : State α :=
  let sx : α := dZdX C Z i j
  let sy : α := dZdY C Z i j
  let aux : α := C.sqrt (1 + SQ sx)
  let auy : α := C.sqrt (1 + SQ sy)
  let auz0 : α := 1 + SQ sx + SQ sy
  let auz : α := C.sqrt auz0
  { st with
    dx := set2 st.dx i j (C.cellsize * aux)
    dy := set2 st.dy i j (C.cellsize * auy)
    gx := set2 st.gx i j (-C.g * sx * aux / auz0)
    gy := set2 st.gy i j (-C.g * sy * auy / auz0)
    gz0 := set2 st.gz0 i j (C.g / auz)
    gz := set2 st.gz i j (C.g / auz)
    dA := set2 st.dA i j (SQ C.cellsize * auz)
    G_xy := set2 st.G_xy i j (sx * sy / (aux * auy))
    IIxx := set2 st.IIxx i j (d2ZdX2 C Z i j / auz)
    IIyy := set2 st.IIyy i j (d2ZdY2 C Z i j / auz)
    IIxy := set2 st.IIxy i j (d2ZdXY C Z i j / auz) }

/-- Function `update_surface(Z)`, a loop over all nodes of the Grid. -/
def update_surface (C : Config α) (Z : Grid α) (st : State α) : State α :=
  forRange 0 C.m (fun i st1 => forRange 0 C.n (fun j st2 => surface_cell C Z i j st2) st1) st

/-! Time loop of `main` (lines 321-560) -/

/-- Lines 333-355 at cell `(i,j)`: `f_new` is saved in `f_old`; with
curvature effects the bed-normal gravity `gz` is corrected. -/
def snapshot_cell (C : Config α) (i j : Int) (st : State α) : State α :=
  let st1 : State α := { st with f_old := memcpy3 st.f_old st.f_new i j }
  if C.curve = 0 then st1
  else
    let U : α := st.u i j
    let V : α := st.v i j
    { st1 with
      gz := set2 st.gz i j
        (MAX 0 (st.gz0 i j
          + (st.IIxx i j * U * U + st.IIyy i j * V * V + 2 * st.IIxy i j * U * V)
            / MAX (1 / 10000) (U * U + V * V + 2 * st.G_xy i j * U * V))) }

/-- Lines 333-355: the two alternative loops; nothing is done when `curve`
is neither 0 nor 1. -/
def snapshot (C : Config α) (st : State α) : State α :=
  if C.curve = 0 ∨ C.curve = 1 then
    forRange st.i_min st.i_max (fun i st1 =>
      forRange st.j_min st.j_max (fun j st2 => snapshot_cell C i j st2) st1) st
  else st

/-- Lines 541-544: the surface elevation follows bed and deposit depth. -/
def elevation (C : Config α) (st : State α) : State α :=
  forRange st.i_min (st.i_max + 1) (fun i s1 =>
    forRange st.j_min (st.j_max + 1) (fun j s2 =>
      { s2 with
        z := set2 s2.z i j (s2.z0 i j + (s2.b i j + s2.d i j) * C.g / s2.gz0 i j) }) s1) st

/-- Lines 540-546: update of the surface for a dynamic bed. -/
def dynamic_surface (C : Config α) (st : State α) : State α :=
  if C.dyn_surf ≠ 0 then update_surface C (elevation C st).z (elevation C st) else st

/-- How one pass through the body of the time loop, or the loop itself, ends. -/
inductive Outcome (α : Type) where
  | next : State α → Outcome α
  | done : State α → Outcome α
  | halted : Outcome α
  | nofuel : Outcome α

/-- Lines 333-357: the old fields are saved and the time step is computed. -/
def step_head (C : Config α) (st : State α) : State α :=
  { snapshot C st with dt := find_dt C (snapshot C st) }

/-- Lines 524-559: what follows a transport pass that has not collapsed: the
reversal check, the surface update, `primivar`, `update_boundaries`, the
momentum test and the update of the time. -/
def step_tail (C : Config α) (st4 : State α) : Outcome α :=
  let st5 : State α := dynamic_surface C (arrest C st4)
  let st6 : State α := primivar C st5.f_new st5
  let r : State α × α := update_boundaries C st6.f_new st6
  if r.2 < C.mom_thr ∧ r.1.n_step > 10 then Outcome.done { r.1 with stop_code := 1 }
  else Outcome.next { r.1 with t := r.1.t + r.1.dt, n_step := r.1.n_step + 1 }

/-- Lines 323-559: the body of the time loop.  `next` is the normal end of
the body (the step is accepted), `done` a `break`, `halted` an `exit` inside
`source_terms`, `nofuel` an i-loop that did not end within `pf` iterations.
The output calls (`printf`, `write_data`) and their bookkeeping are left
out. -/
def time_step (C : Config α) (pf : Nat) (st : State α) : Outcome α :=
  if (step_head C st).dt < C.dt_min then Outcome.done { step_head C st with stop_code := 2 }
  else
    match source_terms C (step_head C st) with
    | none => Outcome.halted
    | some st3 =>
      match iloop C pf st3.i_min st3 with
      | none => Outcome.nofuel
      | some st4 => if st4.repeat_flag = -1 then Outcome.done st4 else step_tail C st4

/-- The time loop `while (t < t_max)` of `main`, at most `fuel` passes
through its body; `done st` is the state in which the loop is left. -/
def time_loop (C : Config α) (pf : Nat) : Nat → State α → Outcome α
  | 0, st => if st.t < C.t_max then Outcome.nofuel else Outcome.done st
  | fuel + 1, st =>
    if st.t < C.t_max then
      match time_step C pf st with
      | Outcome.next st1 => time_loop C pf fuel st1
      | o => o
    else Outcome.done st

/-! Auxiliary notions for the statements -/

/-- The transport pass changes only `f_new`, `src`, `b`, `d` and
`repeat_flag`: `st1` with these five fields taken from `st` is `st`. -/
def PassFrame (st st1 : State α) : Prop :=
  { st1 with
    f_new := st.f_new
    src := st.src
    b := st.b
    d := st.d
    repeat_flag := st.repeat_flag } = st

/-- Number of rows of the Active Domain. -/
def rows (st : State α) : Nat := (st.i_max - st.i_min).toNat

/-- The i-loop with its retries changes, besides the fields of `PassFrame`,
only `dt` and `stop_code`. -/
def LoopFrame (st st1 : State α) : Prop :=
  { st1 with
    f_new := st.f_new
    src := st.src
    b := st.b
    d := st.d
    repeat_flag := st.repeat_flag
    dt := st.dt
    stop_code := st.stop_code } = st

/-- The control variables of the time loop (`t`, `dt`, `n_step`,
`stop_code`, `repeat_flag`) agree in the two states. -/
def SameCtl (st st1 : State α) : Prop :=
  st1.t = st.t ∧ st1.dt = st.dt ∧ st1.n_step = st.n_step ∧ st1.stop_code = st.stop_code
    ∧ st1.repeat_flag = st.repeat_flag

/-- The Active Domain is the same in the two states. -/
def SameDomain (st st1 : State α) : Prop :=
  st1.i_min = st.i_min ∧ st1.i_max = st.i_max ∧ st1.j_min = st.j_min ∧ st1.j_max = st.j_max

/-- The values that `read_command_file` can give to the switches `para`
(lines 1079-1090), `forest` (lines 1124-1132) and `eromod` (lines 1146-1160). -/
def ValidSwitches (C : Config α) : Prop :=
  (C.para = 0 ∨ C.para = 1) ∧ (C.forest = 0 ∨ C.forest = 1) ∧ 0 ≤ C.eromod ∧ C.eromod ≤ 4

/-- What holds at the head of the time loop: the Active Domain lies within
the rows of the Grid and `repeat_flag` is not the failure value `-1`. -/
def LoopInv (C : Config α) (st : State α) : Prop :=
  0 ≤ st.i_min ∧ st.i_max ≤ C.m ∧ st.repeat_flag ≠ -1

/-- A sequence of calls of `source_terms` with `dt >= 0`, seen from the
forest of cell `(i,j)`: `ForestRun i j nD0 dc0 nD1 dc1` says that some
sequence of calls takes the opacity `nD[i][j]` and the decay constant
`decay_const[i][j]` from `(nD0, dc0)` to `(nD1, dc1)`.  Between two calls
everything may change except these two values, which only `source_terms`
writes. -/
inductive ForestRun (i j : Int) : α → α → α → α → Prop where
  | start (nD0 dc0 : α) : ForestRun i j nD0 dc0 nD0 dc0
  | call (nD0 dc0 : α) (C : Config α) (st st1 : State α) :
      ForestRun i j nD0 dc0 (st.nD i j) (st.decay_const i j) →
      0 ≤ st.dt → source_terms C st = some st1 →
      ForestRun i j nD0 dc0 (st1.nD i j) (st1.decay_const i j)

/-- The values with which `main` enters the time loop (lines 259-261 and
303-310): time and step counter 0, the whole Grid as Active Domain,
`repeat_flag = 0`, `stop_code = 0`. -/
def MainInit (C : Config α) (st : State α) : Prop :=
  st.t = 0 ∧ st.n_step = 0 ∧ st.i_min = 0 ∧ st.j_min = 0 ∧ st.i_max = C.m ∧ st.j_max = C.n
    ∧ st.repeat_flag = 0 ∧ st.stop_code = 0

/-- No mass flows into cell `(i,j)`: whatever the time step, every active
cell has a zero mass flux (and with it zero momentum fluxes) toward each of
its downstream neighbours that is the cell `(i,j)`. -/
def NoInflow (st : State α) (i j : Int) : Prop :=
  ∀ (p q : Int) (dt1 : α), inDomain st p q →
    ((p + flux_di st p q = i ∧ q = j) → qhx { st with dt := dt1 } p q = 0) ∧
    ((p = i ∧ q + flux_dj st p q = j) → qhy { st with dt := dt1 } p q = 0) ∧
    ((p + flux_di st p q = i ∧ q + flux_dj st p q = j) → qhd { st with dt := dt1 } p q = 0)

/-! Concrete configurations and states used to evaluate the model -/

/-- State after a pass through the body of the time loop that accepted the
step. -/
def Outcome.accepted {β : Type} : Outcome β → Option (State β)
  | Outcome.next st => some st
  | _ => none

/-- Lines 897-899: the total volume `tot_vol`, the sum of `f[i][j][0]` over
the whole Grid. -/
def tot_vol (C : Config α) (f : Grid3 α) : α :=
  forRange 0 C.m (fun i x => forRange 0 C.n (fun j y => y + f i j 0) x) 0

/-- State at the start of the transport pass of a time step: after
`find_dt` and `source_terms`. -/
def pass_start (C : Config α) (st : State α) : Option (State α) :=
  source_terms C (step_head C st)

/-- State after the transport pass (i-loop with its retries) of a time
step. -/
def pass_result (C : Config α) (pf : Nat) (st : State α) : Option (State α) :=
  (pass_start C st).bind (fun st3 => iloop C pf st3.i_min st3)

/-- A square root on the rationals, exact at the squares 0, 1/4, 1 and 9
that occur in the examples. -/
def sqrtTab (x : ℚ) : ℚ :=
  if x = 9 then 3 else if x = 1 then 1 else if x = 1 / 4 then 1 / 2 else 0

/-- A field that is `x` in cell `(i,j)` and 0 elsewhere. -/
def cellG (i j : Int) (x : ℚ) : Grid ℚ := fun p q => if p = i ∧ q = j then x else 0

/-- A field with two non-zero cells. -/
def cellG2 (i j : Int) (x : ℚ) (k l : Int) (y : ℚ) : Grid ℚ :=
  fun p q => if p = i ∧ q = j then x else if p = k ∧ q = l then y else 0

/-- A conserved field with one non-zero cell. -/
def cell3 (i j : Int) (x0 x1 x2 : ℚ) : Grid3 ℚ :=
  fun p q c =>
    if p = i ∧ q = j then (if c = 0 then x0 else if c = 1 then x1 else if c = 2 then x2 else 0)
    else 0

/-- A conserved field with two non-zero cells. -/
def cell3two (i j : Int) (x0 x1 x2 : ℚ) (k l : Int) (y0 y1 y2 : ℚ) : Grid3 ℚ :=
  fun p q c =>
    if p = i ∧ q = j then (if c = 0 then x0 else if c = 1 then x1 else if c = 2 then x2 else 0)
    else if p = k ∧ q = l then
      (if c = 0 then y0 else if c = 1 then y1 else if c = 2 then y2 else 0)
    else 0

/-- Configuration A: a horizontal Grid of 2 x 2 nodes with cell size 0.5 m,
`g = 10`, no friction, no erosion, no deposition, CFL number 1.5; the other
parameters have the default values of the source. -/
def cfgA : Config ℚ where
  sqrt := sqrtTab
  exp := fun _ => 1
  m := 2
  n := 2
  cellsize := 1 / 2
  dt_min := 1 / 10000
  dt_max := 1 / 5
  t_max := 1000
  cfl := 3 / 2
  h_min := 1 / 20
  u_min := 1 / 100
  mom_thr := 1 / 250
  g := 10
  rho := 250
  rrb := 5 / 4
  rrd := 5 / 4
  sigma := 2
  mu_g := 0
  mu_s0 := 0
  k_g := 0
  kp := 1
  cD := 1
  MoR := 50000000
  decay_coeff := 1 / 10
  h_drag := 0
  k_erod := 0
  para := 0
  curve := 0
  forest := 0
  dyn_surf := 0
  dep := 0
  eromod := 0
  grad := 0

/-- A state on horizontal terrain with cell size 0.5 m (`dx = dy = 0.5`,
`dA = 0.25`, `gx = gy = 0`, `gz = 10`) in which everything else is zero. -/
def flatState : State ℚ where
  t := 0
  dt := 0
  mov_vol := 0
  n_step := 0
  repeat_flag := 0
  stop_code := 0
  i_min := 0
  i_max := 0
  j_min := 0
  j_max := 0
  dx := fun _ _ => 1 / 2
  dy := fun _ _ => 1 / 2
  dA := fun _ _ => 1 / 4
  gx := fun _ _ => 0
  gy := fun _ _ => 0
  gz0 := fun _ _ => 10
  gz := fun _ _ => 10
  IIxx := fun _ _ => 0
  IIxy := fun _ _ => 0
  IIyy := fun _ _ => 0
  G_xy := fun _ _ => 0
  h := fun _ _ => 0
  u := fun _ _ => 0
  v := fun _ _ => 0
  s := fun _ _ => 0
  p_imp := fun _ _ => 0
  f_old := fun _ _ _ => 0
  f_new := fun _ _ _ => 0
  src := fun _ _ _ => 0
  d := fun _ _ => 0
  z0 := fun _ _ => 0
  z := fun _ _ => 0
  b := fun _ _ => 0
  tau_c := fun _ _ => 0
  mu := fun _ _ => 0
  k := fun _ _ => 0
  mu_s := fun _ _ => 0
  h_max := fun _ _ => 0
  s_max := fun _ _ => 0
  p_max := fun _ _ => 0
  u_max := fun _ _ => 0
  v_max := fun _ _ => 0
  b_min := fun _ _ => 0
  d_max := fun _ _ => 0
  nD := fun _ _ => 0
  tD := fun _ _ => 0
  decay_const := fun _ _ => 0

/-- State A, the initial state of a run with configuration A: the Active
Domain is the whole Grid, cell `(1,0)` holds a release depth of 0.1 m moving
with `u = 3` m/s (mass `0.1 * 0.25`, x-momentum `mass * 3`). -/
def stA : State ℚ :=
  { flatState with
    i_max := 2
    j_max := 2
    h := cellG 1 0 (1 / 10)
    u := cellG 1 0 3
    s := cellG 1 0 3
    f_new := cell3 1 0 (1 / 40) (3 / 40) 0 }

/-- Configuration B: as configuration A, on a Grid of 4 x 3 nodes. -/
def cfgB : Config ℚ := { cfgA with m := 4, n := 3 }

/-- State B, at the head of a time step with configuration B.  Cell `(1,0)`
moves (depth 0.1 m, `u = 3`); cell `(0,1)` holds a thin layer (depth 0.025 m,
below `h_min`) with `v = 3`.  The Active Domain `[0,3) x [0,2)` is the one
that `update_boundaries` computes for these fields. -/
def stB : State ℚ :=
  { flatState with
    i_max := 3
    j_max := 2
    h := cellG2 1 0 (1 / 10) 0 1 (1 / 40)
    u := cellG 1 0 3
    v := cellG 0 1 3
    s := cellG2 1 0 3 0 1 3
    f_new := cell3two 1 0 (1 / 40) (3 / 40) 0 0 1 (1 / 160) 0 (3 / 80) }

/-- Configuration E: configuration A with the erosion model TJEM. -/
def cfgE : Config ℚ := { cfgA with eromod := 2 }

/-- State E: state A with a time step, a bed of depth 1 m and a positive
mass source in cell `(1,0)`. -/
def stE : State ℚ :=
  { stA with
    dt := 1 / 10
    b := fun _ _ => 1
    src := cell3 1 0 5 0 0 }

/-- Configuration F: configuration A with forest, a modulus of rupture of
100 and a negative forest decay coefficient. -/
def cfgF : Config ℚ := { cfgA with forest := 1, MoR := 100, decay_coeff := -1 }

/-- State F: state A with a time step of 0.1 s and an intact forest of
opacity 1 and stem diameter 1 m in cell `(1,0)`. -/
def stF : State ℚ :=
  { stA with
    dt := 1 / 10
    nD := cellG 1 0 1
    tD := cellG 1 0 1 }

/-- Configuration G: configuration A with forest. -/
def cfgG : Config ℚ := { cfgA with forest := 1 }

/-- State G: state F with a forest that is already decaying at the rate
`decay_coeff / tD = 0.1`. -/
def stG : State ℚ := { stF with decay_const := cellG 1 0 (1 / 10) }

/-- State W, at the start of a transport pass with configuration A: cell
`(0,0)` holds a layer of depth 0.1 m at rest on a slope with `gx = 1`,
`gz = 10` and dry-friction coefficient 0.5; all other cells are empty; the time
step is 0.2 s. -/
def stW : State ℚ :=
  { flatState with
    i_max := 2
    j_max := 2
    dt := 1 / 5
    gx := cellG 0 0 1
    mu := cellG 0 0 (1 / 2)
    h := cellG 0 0 (1 / 10)
    f_old := cell3 0 0 (1 / 40) 0 0
    f_new := cell3 0 0 (1 / 40) 0 0 }

/-! Auxiliary notions for the claims on `update_boundaries`, `update_surface`
and the end of the run -/

/-- Line 867: the test `f[i][j][0] > vol_min && speed > u_min` of
`update_boundaries(f)` for cell `(i,j)`. -/
def is_moving (C : Config α) (f : Grid3 α) (st : State α) (i j : Int) : Prop :=
  f i j 0 > C.h_min * st.dA i j ∧ st.s i j > C.u_min

/-- The fields that `update_boundaries` reads and does not write agree in
the two states. -/
def TrackEnv (st st1 : State α) : Prop :=
  st1.dA = st.dA ∧ st1.s = st.s ∧ st1.h = st.h ∧ st1.u = st.u ∧ st1.v = st.v ∧
    st1.b = st.b ∧ st1.d = st.d

/-- The tracking fields agree at cell `(i,j)` in the two states. -/
def SameTrack (st st1 : State α) (i j : Int) : Prop :=
  st1.h_max i j = st.h_max i j ∧ st1.s_max i j = st.s_max i j ∧
    st1.u_max i j = st.u_max i j ∧ st1.v_max i j = st.v_max i j ∧
    st1.p_max i j = st.p_max i j ∧ st1.b_min i j = st.b_min i j ∧
    st1.d_max i j = st.d_max i j

/-- The update of the tracking fields at cell `(i,j)` (lines 876-889), from
the values in `st` to those in `st1`. -/
def TrackUpdate (C : Config α) (st st1 : State α) (i j : Int) : Prop :=
  st1.h_max i j = MAX (st.h_max i j) (st.h i j) ∧
  (st.s i j > st.s_max i j →
    st1.s_max i j = st.s i j ∧ st1.u_max i j = st.u i j ∧ st1.v_max i j = st.v i j ∧
      st1.p_max i j = 1 / 1000 * C.rho * SQ (st.s i j)) ∧
  (¬ st.s i j > st.s_max i j →
    st1.s_max i j = st.s_max i j ∧ st1.u_max i j = st.u_max i j ∧
      st1.v_max i j = st.v_max i j ∧ st1.p_max i j = st.p_max i j) ∧
  st1.b_min i j = (if C.eromod > 0 then MIN (st.b i j) (st.b_min i j) else st.b_min i j) ∧
  st1.d_max i j = (if C.dep > 0 then MAX (st.d i j) (st.d_max i j) else st.d_max i j)

/-- The sum of `g i j` over `i_lo <= i < i_hi`, `j_lo <= j < j_hi`. -/
def rect_sum (i_lo i_hi j_lo j_hi : Int) (g : Int → Int → α) : α :=
  Finset.sum (Finset.range (i_hi - i_lo).toNat) (fun p =>
    Finset.sum (Finset.range (j_hi - j_lo).toNat) (fun q => g (i_lo + p) (j_lo + q)))

/-- Lines 856-890 of `update_boundaries(f)`: the state and the locals after
the loops over the Active Domain. -/
def boundaries_loops (C : Config α) (f : Grid3 α) (st : State α) : State α × Bounds α :=
  forRange st.i_min st.i_max (fun i y =>
    forRange st.j_min st.j_max (fun j y1 => boundaries_cell C f i j y1) y)
    ({ st with mov_vol := 0 }, { west := C.m, east := 0, south := C.n, north := 0, mom := 0 })

/-- State T, at a call of `update_boundaries` with configuration B (Grid of
4 x 3 nodes).  Cell `(1,0)` moves (depth 0.1 m, `u = 3`); cell `(3,2)` holds
a thin layer (depth 0.025 m, below `h_min`) with `v = 3`.  The Active Domain
`[0,3) x [0,2)` is the one that `update_boundaries` computes for these
fields; cell `(3,2)` lies in the Grid and outside the Active Domain. -/
def stT : State ℚ :=
  { flatState with
    i_max := 3
    j_max := 2
    h := cellG2 1 0 (1 / 10) 3 2 (1 / 40)
    u := cellG 1 0 3
    v := cellG 3 2 3
    s := cellG2 1 0 3 3 2 3
    f_new := cell3two 1 0 (1 / 40) (3 / 40) 0 3 2 (1 / 160) 0 (3 / 80) }

/-- Lines 1561-1562: the value `gsq` of the self-test of `update_surface`
at node `(i,j)`, computed from the fields that have just been written. -/
def surface_gsq (C : Config α) (Z : Grid α) (i j : Int) (st : State α) : α :=
  let auz : α := C.sqrt (1 + SQ (dZdX C Z i j) + SQ (dZdY C Z i j))
  let st1 : State α := surface_cell C Z i j st
  SQ (C.g / auz) + SQ (st1.gx i j) + SQ (st1.gy i j)
    + 2 * st1.G_xy i j * st1.gx i j * st1.gy i j

/-- Lines 1561-1563: the self-test reports a deviation at node `(i,j)`, that
is, the condition of the `printf` holds. -/
def self_test_reports (C : Config α) (Z : Grid α) (i j : Int) (st : State α) : Prop :=
  |surface_gsq C Z i j st - SQ C.g| > 1 / 10000

/-- The square roots computed at node `(i,j)` by `update_surface(Z)` are
exact: `sqrt(x) * sqrt(x) = x` for `x = 1 + dZdX^2`, `1 + dZdY^2` and
`1 + dZdX^2 + dZdY^2`. -/
def ExactRoots (C : Config α) (Z : Grid α) (i j : Int) : Prop :=
  C.sqrt (1 + SQ (dZdX C Z i j)) * C.sqrt (1 + SQ (dZdX C Z i j)) = 1 + SQ (dZdX C Z i j) ∧
  C.sqrt (1 + SQ (dZdY C Z i j)) * C.sqrt (1 + SQ (dZdY C Z i j)) = 1 + SQ (dZdY C Z i j) ∧
  C.sqrt (1 + SQ (dZdX C Z i j) + SQ (dZdY C Z i j))
      * C.sqrt (1 + SQ (dZdX C Z i j) + SQ (dZdY C Z i j))
    = 1 + SQ (dZdX C Z i j) + SQ (dZdY C Z i j)

/-- The elevation grid `Z` is a plane with slope `t` in x (`dZ/dX = t`, the
tangent of the slope angle) and no slope in y: `Z[i][j] = c0 + t * cellsize * i`. -/
def IsPlane (C : Config α) (Z : Grid α) (t c0 : α) : Prop :=
  ∀ i j : Int, Z i j = c0 + t * (C.cellsize * (i : α))

/-- A square-root table for the inclined plane of slope 3/4: state A's table
and `sqrt(25/16) = 5/4`, `sqrt(36/25) = 6/5`, `sqrt(225/4096) = 15/64`. -/
def sqrtInc (x : ℚ) : ℚ :=
  if x = 25 / 16 then 5 / 4
  else if x = 36 / 25 then 6 / 5
  else if x = 225 / 4096 then 15 / 64
  else sqrtTab x

/-- Configuration S: configuration A with the square-root table `sqrtInc`. -/
def cfgS : Config ℚ := { cfgA with sqrt := sqrtInc }

/-- An elevation grid for configuration S (cell size 0.5): a plane that
rises by 0.375 per node in x, so `dZ/dX = 3/4`, and is level in y. -/
def planeZ : Grid ℚ := fun i _ => 3 / 8 * (i : ℚ)

/-- The release of state S: the Active Domain is the whole Grid, cell `(0,0)`
holds a release depth of 0.125 m at rest (mass `0.125 * dA` with
`dA = 0.25 * 5/4`), all other cells are empty. -/
def stS0 : State ℚ :=
  { flatState with
    i_max := 2
    j_max := 2
    h := cellG 0 0 (1 / 8)
    f_new := cell3 0 0 (5 / 128) 0 0 }

/-- State S, the initial state of a run with configuration S on the plane
`planeZ`: the release `stS0` with the geometry written by `update_surface`. -/
def stS : State ℚ := update_surface cfgS planeZ stS0

/-- Lines 333-357 change only `f_old`, `gz` and `dt`. -/
def HeadFrame (st st1 : State α) : Prop :=
  { st1 with f_old := st.f_old, gz := st.gz, dt := st.dt } = st

/-- Function `source_terms` changes only `src`, `nD` and `decay_const`. -/
def SrcFrame (st st1 : State α) : Prop :=
  { st1 with src := st.src, nD := st.nD, decay_const := st.decay_const } = st

/-- The reversal check of lines 526-537 changes only `f_new` and `d`. -/
def ArrestFrame (st st1 : State α) : Prop :=
  { st1 with f_new := st.f_new, d := st.d } = st

/-- The surface update of lines 540-546 changes only `z` and the geometry
fields written by `update_surface`. -/
def SurfFrame (st st1 : State α) : Prop :=
  { st1 with
    z := st.z
    dx := st.dx
    dy := st.dy
    gx := st.gx
    gy := st.gy
    gz0 := st.gz0
    gz := st.gz
    dA := st.dA
    G_xy := st.G_xy
    IIxx := st.IIxx
    IIyy := st.IIyy
    IIxy := st.IIxy } = st

/-- Function `primivar` changes only `h`, `u`, `v`, `s` and `p_imp`. -/
def PrimFrame (st st1 : State α) : Prop :=
  { st1 with h := st.h, u := st.u, v := st.v, s := st.s, p_imp := st.p_imp } = st

/-- Function `update_boundaries` changes only `mov_vol`, the tracking fields
and the Active Domain. -/
def BoundFrame (st st1 : State α) : Prop :=
  { st1 with
    mov_vol := st.mov_vol
    h_max := st.h_max
    s_max := st.s_max
    u_max := st.u_max
    v_max := st.v_max
    p_max := st.p_max
    b_min := st.b_min
    d_max := st.d_max
    i_min := st.i_min
    i_max := st.i_max
    j_min := st.j_min
    j_max := st.j_max } = st

/-- The values that the switch `curve` can have: 0 by its initialiser (line
175), 1 when `read_command_file` finds the answer `yes` (lines 1109-1110). -/
def ValidCurve (C : Config α) : Prop := C.curve = 0 ∨ C.curve = 1

/-- The states at the head of the time loop that follow `st` after any
number of accepted time steps. -/
inductive AcceptedRun (C : Config α) (pf : Nat) (st : State α) : State α → Prop where
  | start : AcceptedRun C pf st st
  | step (s s1 : State α) : AcceptedRun C pf st s → time_step C pf s = Outcome.next s1 →
      AcceptedRun C pf st s1

/-- Scenario A, the release: cell `(i,j)` of the Active Domain is at rest
(zero velocity, speed and momentum) with a depth of at least `h_min`, its mass
is `h*dA`, and every other cell is empty (zero depth, zero mass). -/
def SingleCell (C : Config α) (st : State α) (i j : Int) : Prop :=
  inDomain st i j ∧ st.u i j = 0 ∧ st.v i j = 0 ∧ st.s i j = 0 ∧
  C.h_min ≤ st.h i j ∧ st.f_new i j 0 = st.h i j * st.dA i j ∧
  st.f_new i j 1 = 0 ∧ st.f_new i j 2 = 0 ∧
  ∀ p q : Int, ¬ (p = i ∧ q = j) → st.h p q = 0 ∧ st.f_new p q 0 = 0

/-! Function `read_command_file`: the entrainment selector (lines 1146-1160)
and the consistency checks (lines 1286-1368) -/

/-- The values read from the command file that the checks of lines 1146-1160
and 1286-1368 use, as they are after the `fscanf` calls. -/
structure CommandFile (α : Type) where
  erosion : String
  rheology : String
  params : String
  write_vectors : String
  write_max_press : String
  write_press : String
  rho : α
  rho_b : α
  rho_d : α
  g : α
  mu_g : α
  k_g : α
  t_max : α
  dt_min : α
  dt_max : α
  h_min : α
  u_min : α
  mom_thr : α

/-- Lines 1146-1160: the erosion variant `eromod` chosen by the entrainment
name.  Each `strncmp` compares the whole name with its terminator, so it is
an equality of strings; a name that matches none gets `eromod = 0` after a
message (lines 1156-1160). -/
def entrainment_selector (erosion : String) : Int :=
  if erosion = "none" then 0
  else if erosion = "RAMMS" then 1
  else if erosion = "TJEM" ∨ erosion = "IsJo" then 2
  else if erosion = "AVAFRAME" ∨ erosion = "AvaFrame" then 3
  else if erosion = "GOEM" then 4
  else 0

/-- The globals that the checks of `read_command_file` derive from the
values read. -/
structure Derived (α : Type) where
  eromod : Int
  rrb : α
  rrd : α
  mom_thr : α

/-- Lines 1146-1160 and 1286-1368 of `read_command_file`: the checks in
their order; `Except.error c` is `exit(c)`, `Except.ok` the values with which
the function goes on.  The messages, the clamp of `h_drag` and
`sigma = 1/sqrt(rrb - 1)` are left out. -/
def command_checks (cf : CommandFile α) : Except Int (Derived α) :=
  let eromod : Int := entrainment_selector cf.erosion
  if cf.rho ≤ 0 then Except.error 17
  else if cf.rho_b ≤ 0 ∨ cf.rho_d ≤ 0 then Except.error 18
  else if eromod = 4 ∧ cf.rho / cf.rho_b ≤ 1 then Except.error 28
  else if cf.g < 0 then Except.error 19
  else if cf.rheology ≠ "Voellmy" then Except.error 20
  else if cf.params ≠ "constant" ∧ cf.params ≠ "variable" then Except.error 21
  else if cf.params = "constant" ∧ (cf.mu_g < 0 ∨ cf.k_g < 0) then Except.error 22
  else if cf.t_max < 0 then Except.error 23
  else if cf.dt_min ≤ 0 ∨ cf.dt_min > cf.dt_max then Except.error 24
  else if cf.write_vectors ≠ "yes" ∧ cf.write_vectors ≠ "no" then Except.error 25
  else if cf.write_max_press ≠ "yes" ∧ cf.write_max_press ≠ "no" then Except.error 25
  else if cf.write_press ≠ "yes" ∧ cf.write_press ≠ "no" then Except.error 25
  else if cf.h_min ≤ 0 ∨ cf.u_min ≤ 0 ∨ cf.mom_thr ≤ 0 then Except.error 26
  else
    Except.ok
      { eromod := eromod
        rrb := cf.rho / cf.rho_b
        rrd := cf.rho / cf.rho_d
        mom_thr := cf.mom_thr / cf.rho }

/-- The entrainment names that `read_command_file` knows (lines 1146-1155). -/
def SupportedEntrainment (erosion : String) : Prop :=
  erosion = "none" ∨ erosion = "RAMMS" ∨ erosion = "TJEM" ∨ erosion = "IsJo" ∨
    erosion = "AVAFRAME" ∨ erosion = "AvaFrame" ∨ erosion = "GOEM"

/-- A command file with valid values, the rheology `Voellmy` and the
entrainment name `Coulomb`, which `read_command_file` does not know. -/
def cfU : CommandFile ℚ where
  erosion := "Coulomb"
  rheology := "Voellmy"
  params := "constant"
  write_vectors := "no"
  write_max_press := "no"
  write_press := "no"
  rho := 250
  rho_b := 200
  rho_d := 400
  g := 981 / 100
  mu_g := 1 / 4
  k_g := 1 / 1000
  t_max := 100
  dt_min := 1 / 10000
  dt_max := 1 / 5
  h_min := 1 / 20
  u_min := 1 / 100
  mom_thr := 100

/-- The state in which line 550 calls `update_boundaries(f_new)`: after the
reversal check, the surface update and `primivar`. -/
def tail_state (C : Config α) (st4 : State α) : State α :=
  primivar C (dynamic_surface C (arrest C st4)).f_new (dynamic_surface C (arrest C st4))

/-- Line 550: `mom_tot = update_boundaries(f_new)`, for the state `st4` left
by the transport pass. -/
def mom_tot (C : Config α) (st4 : State α) : α :=
  (update_boundaries C (tail_state C st4).f_new (tail_state C st4)).2

/-- Line 577: the exit status of the program is `stop_code`. -/
def exit_status (st : State α) : Int := st.stop_code

/-- The states at the head of the time loop of a run: `LoopRun C pf st0 k st`
says that the loop, started in `st0`, is at its head in state `st` after `k`
passes through its body, each entered with `t < t_max` and ended by accepting
the step. -/
inductive LoopRun (C : Config α) (pf : Nat) (st0 : State α) : Nat → State α → Prop where
  | start : LoopRun C pf st0 0 st0
  | step (k : Nat) (s s1 : State α) : LoopRun C pf st0 k s → s.t < C.t_max →
      time_step C pf s = Outcome.next s1 → LoopRun C pf st0 (k + 1) s1

/-- State in which the time loop has been left. -/
def Outcome.ended {β : Type} : Outcome β → Option (State β)
  | Outcome.done st => some st
  | _ => none

/-- A valid command file for configuration A: no entrainment, momentum
threshold 1 kg m/s with `rho = 250`, so that `mom_thr / rho = 1/250`. -/
def cfN : CommandFile ℚ := { cfU with erosion := "none", mom_thr := 1 }

/-- Configuration Z: configuration A with the time limit 0.1 s. -/
def cfgZ : Config ℚ := { cfgA with t_max := 1 / 10 }

/-! Auxiliary notions for the claims on the reversal check, the erosion
variants and the index ranges -/

/-- Lines 528-530: the test of the reversal check at cell `(i,j)`: the new
momentum has reversed relative to the momentum of the snapshot `f_old`, and it
points uphill. -/
def reversal_uphill (st : State α) (i j : Int) : Prop :=
  st.f_old i j 1 * st.f_new i j 1 + st.f_old i j 2 * st.f_new i j 2 < 0
    ∧ st.f_new i j 1 * st.gx i j + st.f_new i j 2 * st.gy i j < 0

/-- Configuration R: configuration A with the dry-friction coefficient 2 and
deposition switched on. -/
def cfgR : Config ℚ := { cfgA with mu_g := 2, dep := 1 }

/-- State R, at the head of a time step with configuration R: cell `(0,0)`
holds a layer of depth 0.1 m that moves downhill with `u = 0.5` on a slope
with `gx = 1`; all other cells are empty. -/
def stR : State ℚ :=
  { flatState with
    i_max := 2
    j_max := 2
    gx := cellG 0 0 1
    h := cellG 0 0 (1 / 10)
    u := cellG 0 0 (1 / 2)
    s := cellG 0 0 (1 / 2)
    f_new := cell3 0 0 (1 / 40) (1 / 80) 0 }

/-- Configuration K: configuration B (Grid of 4 x 3 nodes) with the erosion
model RAMMS and the erosion coefficient 0.1. -/
def cfgK : Config ℚ := { cfgB with eromod := 1, k_erod := 1 / 10 }

/-- State K, at the head of a time step with configuration K.  Cell `(0,0)`
holds a layer of depth 0.1 m moving with `v = 3` over an erodible bed of depth
1 m; cell `(1,0)` holds a layer of depth 0.1 m moving with `u = 3` and has no
erodible bed; the bed is 1 m deep everywhere else.  The Active Domain
`[0,3) x [0,2)` is the one that `update_boundaries` computes for these
fields. -/
def stK : State ℚ :=
  { flatState with
    i_max := 3
    j_max := 2
    h := cellG2 0 0 (1 / 10) 1 0 (1 / 10)
    u := cellG 1 0 3
    v := cellG 0 0 3
    s := cellG2 0 0 3 1 0 3
    b := fun i j => if i = 1 ∧ j = 0 then 0 else 1
    f_new := cell3two 0 0 (1 / 40) 0 (3 / 40) 1 0 (1 / 40) (3 / 40) 0 }

/-- Lines 663-696: the bed shear stress `tau_b` of cell `(i,j)`, computed
from the friction parameters of the chosen variant and the optional drag
factor; `none` is the `exit(21)` of the friction switch. -/
def bed_shear (C : Config α) (st : State α) (i j : Int) : Option α :=
  match friction_params C st i j with
  | none => none
  | some (mu_loc, k_loc0) =>
    some (mu_loc * st.gz i j * st.h i j + drag_adjust C st i j k_loc0 * SQ (st.s i j))

/-- Configuration J: configuration A with the erosion model TJEM and the
dry-friction coefficient 0.5 (bed strength profile `constant`, so
`mu_s0 = 0`). -/
def cfgJ : Config ℚ := { cfgA with eromod := 2, mu_g := 1 / 2 }

/-- State J, at a call of `source_terms` with configuration J: cell `(0,0)`
holds a layer of depth 0.9 m moving with `u = 1`; the erodible bed is 1 m deep
and its shear strength (over density) is 0.5 in every cell. -/
def stJ : State ℚ :=
  { flatState with
    i_max := 2
    j_max := 2
    h := cellG 0 0 (9 / 10)
    u := cellG 0 0 1
    s := cellG 0 0 1
    b := fun _ _ => 1
    tau_c := fun _ _ => 1 / 2
    f_new := cell3 0 0 (9 / 40) (9 / 40) 0 }

/-- Configuration V0: configuration A with the erosion model of AvaFrame
(variant 3) and the constant friction parameters `mu_g = 0.25`, `k_g = 0`. -/
def cfgV0 : Config ℚ := { cfgA with eromod := 3, mu_g := 1 / 4 }

/-- Configuration V: configuration V0 with forest. -/
def cfgV : Config ℚ := { cfgV0 with forest := 1 }

/-- State V, at a call of `source_terms`: cell `(0,0)` holds a layer of depth
0.1 m moving with `u = 3` through a forest of opacity 1 and stem diameter 1 m;
the friction fields hold the constant parameters (lines 1729-1733), the
specific erosion energy is 1. -/
def stV : State ℚ :=
  { flatState with
    i_max := 2
    j_max := 2
    h := cellG 0 0 (1 / 10)
    u := cellG 0 0 3
    s := cellG 0 0 3
    b := fun _ _ => 1
    tau_c := fun _ _ => 1
    mu := fun _ _ => 1 / 4
    k := fun _ _ => 0
    nD := cellG 0 0 1
    tD := cellG 0 0 1
    f_new := cell3 0 0 (1 / 40) (3 / 40) 0 }

/-- Configuration O: configuration A with the erosion model GOEM, the bed
strength profile `global` and the bed friction coefficient `mu_s0 = 0.5`;
`sigma = 1/sqrt(rrb - 1) = 2`. -/
def cfgO : Config ℚ := { cfgA with eromod := 4, grad := 1, mu_s0 := 1 / 2 }

/-- State O, the initial state of a run with configuration O: a release of
depth 0.1 m at rest in cell `(0,0)`, no erodible bed there and a bed of depth
1 m elsewhere, bed shear strength (over density) 0.75. -/
def stO : State ℚ :=
  { flatState with
    i_max := 2
    j_max := 2
    h := cellG 0 0 (1 / 10)
    b := fun i j => if i = 0 ∧ j = 0 then 0 else 1
    tau_c := fun _ _ => 3 / 4
    f_new := cell3 0 0 (1 / 40) 0 0 }

/-- The excess pressure of the GOEM as the comment of lines 754-755 describes
it, with the depth-dependent bed strength `tau_c_loc`: the value that line 758
would give with `tau_c_loc` in the place of `tau_c[i][j]`. -/
def dp_with_local_strength (C : Config α) (st : State α) (i j : Int) : α :=
  let talpha : α :=
    ((st.u i j + st.v i j * st.G_xy i j) * dbdx C st i j
      + (st.v i j + st.u i j * st.G_xy i j) * dbdy C st i j) / MAX (1 / 100) (st.s i j)
  let calpha : α := 1 / C.sqrt (1 + SQ talpha)
  let salpha : α := talpha * calpha
  MAX 0 (st.gz i j * st.h i j * calpha + C.k_erod * SQ (st.s i j) * salpha
    - tau_c_loc C st i j)

/-- Lines 461-494: the cells whose fields `dx`, `dy`, `gz`, `h` the
earth-pressure computation reads when the transport pass visits cell `(i,j)`:
the cell and its neighbours in x (lines 461-476), then the cell and its
neighbours in y (lines 479-494), by the branch taken. -/
def pressure_cells (st : State α) (i j : Int) : List (Int × Int) :=
  (if i > st.i_min ∧ i < st.i_max - 1 then [(i, j), (i + 1, j), (i - 1, j)]
   else if i = st.i_min then [(i, j), (i + 1, j)]
   else if i = st.i_max - 1 then [(i, j), (i - 1, j)]
   else []) ++
  (if j > st.j_min ∧ j < st.j_max - 1 then [(i, j), (i, j + 1), (i, j - 1)]
   else if j = st.j_min then [(i, j), (i, j + 1)]
   else if j = st.j_max - 1 then [(i, j), (i, j - 1)]
   else [])

/-- Lines 432-446: the cells of `f_new` to which the visit of cell `(i,j)`
adds a flux. -/
def flux_targets (C : Config α) (st : State α) (i j : Int) : List (Int × Int) :=
  (if i + flux_di st i j ≥ 0 ∧ i + flux_di st i j < C.m then [(i + flux_di st i j, j)]
   else []) ++
  (if j + flux_dj st i j ≥ 0 ∧ j + flux_dj st i j < C.n then [(i, j + flux_dj st i j)]
   else []) ++
  (if i + flux_di st i j ≥ 0 ∧ i + flux_di st i j < C.m
      ∧ j + flux_dj st i j ≥ 0 ∧ j + flux_dj st i j < C.n then
    [(i + flux_di st i j, j + flux_dj st i j)]
   else [])

/-- The index pair `x` is a node of the Grid: `0 <= i < m`, `0 <= j < n`. -/
def inGrid (C : Config α) (x : Int × Int) : Prop :=
  0 ≤ x.1 ∧ x.1 < C.m ∧ 0 ≤ x.2 ∧ x.2 < C.n

/-- The states whose Active Domain occurs in a run: the Active Domain is the
initial one of lines 306-308 (the whole Grid), or the one that
`update_boundaries` has computed from such a state; between two calls of
`update_boundaries` the Active Domain does not change. -/
inductive RunDomain (C : Config α) : State α → Prop where
  | init (st : State α) : st.i_min = 0 → st.i_max = C.m → st.j_min = 0 → st.j_max = C.n →
      RunDomain C st
  | update (f : Grid3 α) (st : State α) : RunDomain C st →
      RunDomain C (update_boundaries C f st).1
  | same (st st1 : State α) : RunDomain C st → SameDomain st st1 → RunDomain C st1

/-- Lines 541-542: the nodes `(i,j)` that the loops of the surface-elevation
update visit, `i_min <= i <= i_max` and `j_min <= j <= j_max`, in their
order. -/
def elevation_nodes (st : State α) : List (Int × Int) :=
  (List.range (st.i_max + 1 - st.i_min).toNat).flatMap (fun (p : Nat) =>
    (List.range (st.j_max + 1 - st.j_min).toNat).map (fun (q : Nat) =>
      (st.i_min + (p : Int), st.j_min + (q : Int))))

/-- Configuration D: configuration A (Grid of 2 x 2 nodes) with the erosion
model RAMMS and the dynamic surface switched on. -/
def cfgD : Config ℚ := { cfgA with eromod := 1, dyn_surf := 1 }

/-- State D, the initial state of a run with configuration D: the Active
Domain is the whole Grid, cell `(0,0)` holds a release of depth 0.1 m at rest
and no erodible bed, the bed is 1 m deep elsewhere. -/
def stD : State ℚ :=
  { flatState with
    i_max := 2
    j_max := 2
    h := cellG 0 0 (1 / 10)
    b := fun i j => if i = 0 ∧ j = 0 then 0 else 1
    f_new := cell3 0 0 (1 / 40) 0 0 }

/-- Configuration C: configuration A with curvature effects. -/
def cfgC : Config ℚ := { cfgA with curve := 1 }

/-- State C: state A on curved terrain, with the curvature coefficients
`IIxx = 1/10`, `IIyy = -1/5`, `IIxy = 1/20` in every cell. -/
def stC : State ℚ :=
  { stA with
    IIxx := fun _ _ => 1 / 10
    IIyy := fun _ _ => -1 / 5
    IIxy := fun _ _ => 1 / 20 }

/-- State C with the velocity of cell `(1,0)` doubled. -/
def stC2 : State ℚ := { stC with u := cellG 1 0 6 }

/-- The tracking fields of cell `(i,j)` bound its current fields: `h <= h_max`
and `s <= s_max`, with erosion on `b_min <= b`, with deposition on
`d <= d_max`.  At such a cell the assignments of lines 876-889 change
nothing. -/
def Tracked (C : Config α) (st : State α) (i j : Int) : Prop :=
  st.h i j ≤ st.h_max i j ∧ st.s i j ≤ st.s_max i j ∧
  (C.eromod > 0 → st.b_min i j ≤ st.b i j) ∧ (C.dep > 0 → st.d i j ≤ st.d_max i j)

/-- What the body of the time loop keeps up to the call of line 550: the
Active Domain, the tracking fields `h_max`, `s_max`, `b_min`, `d_max`, and,
in every cell outside the Active Domain, `h`, `s`, `b` and `d`. -/
def OutsideKept (st st1 : State α) : Prop :=
  SameDomain st st1 ∧ st1.h_max = st.h_max ∧ st1.s_max = st.s_max ∧
  st1.b_min = st.b_min ∧ st1.d_max = st.d_max ∧
  ∀ i j : Int, ¬ inDomain st i j →
    st1.h i j = st.h i j ∧ st1.s i j = st.s i j ∧ st1.b i j = st.b i j ∧ st1.d i j = st.d i j

/-- State I, the initial state of a run with configuration B: the cells of
state B with the whole Grid of 4 x 3 nodes as Active Domain (lines
306-308). -/
def stI : State ℚ := { stB with i_max := 4, j_max := 3 }

end Defs

/-! Theorems -/

section Theorems

variable {α : Type} [LinearOrderedField α]

theorem MAX_eq_max {β : Type} [LinearOrder β] (a b : β) : MAX a b = max a b := by
  unfold MAX
  split_ifs with h
  · exact (max_eq_left (le_of_lt h)).symm
  · exact (max_eq_right (not_lt.mp h)).symm

theorem MIN_eq_min {β : Type} [LinearOrder β] (a b : β) : MIN a b = min a b := by
  unfold MIN
  split_ifs with h
  · exact (min_eq_left (le_of_lt h)).symm
  · exact (min_eq_right (not_lt.mp h)).symm

/-- Loop invariant rule for `loopN`. -/
theorem loopN_inv {σ : Type} (P : Int → σ → Prop) (body : Int → σ → σ) :
    ∀ (k : Nat) (lo : Int) (s : σ), P lo s →
      (∀ i s, lo ≤ i → i < lo + k → P i s → P (i + 1) (body i s)) →
      P (lo + k) (loopN k lo body s) := by
  intro k
  induction k with
  | zero => intro lo s h0 _; simpa [loopN] using h0
  | succ k ih =>
    intro lo s h0 hstep
    have h1 : P (lo + 1) (body lo s) := hstep lo s le_rfl (by push_cast; linarith) h0
    have := ih (lo + 1) (body lo s) h1 (fun i s hi1 hi2 hP =>
      hstep i s (by linarith) (by push_cast; linarith) hP)
    have e : lo + ((k + 1 : Nat) : Int) = lo + 1 + (k : Int) := by push_cast; ring
    rw [e]
    simpa [loopN] using this

/-- Loop invariant rule for `forRange`: the invariant is carried from `lo`
to `max lo hi`. -/
theorem forRange_inv {σ : Type} (P : Int → σ → Prop) (body : Int → σ → σ)
    (lo hi : Int) (s : σ) (h0 : P lo s)
    (hstep : ∀ i s, lo ≤ i → i < hi → P i s → P (i + 1) (body i s)) :
    P (max lo hi) (forRange lo hi body s) := by
  unfold forRange
  have e : max lo hi = lo + ((hi - lo).toNat : Int) := by
    rcases le_total lo hi with h | h
    · rw [max_eq_right h, Int.toNat_of_nonneg (by linarith)]; ring
    · rw [max_eq_left h, Int.toNat_eq_zero.mpr (by linarith)]; simp
  rw [e]
  apply loopN_inv P body _ lo s h0
  intro i s hi1 hi2 hP
  apply hstep i s hi1 _ hP
  rcases le_total lo hi with h | h
  · rw [Int.toNat_of_nonneg (by linarith)] at hi2; linarith
  · rw [Int.toNat_eq_zero.mpr (by linarith)] at hi2; simp at hi2; linarith

/-- Invariant of the two nested loops of `find_dt`: the running value is
below the start value and below every bound already visited, and it is the
start value or one of the visited bounds. -/
theorem find_dt_inner (g : Int → α) (lo hi : Int) (a : α) :
    let r := forRange lo hi (fun j dt => MIN (g j) dt) a
    r ≤ a ∧ (∀ j, lo ≤ j → j < hi → r ≤ g j) ∧ (r = a ∨ ∃ j, lo ≤ j ∧ j < hi ∧ r = g j) := by
  intro r
  have key := forRange_inv
    (fun (j : Int) (x : α) => x ≤ a ∧ (∀ q, lo ≤ q → q < j → q < hi → x ≤ g q) ∧
      (x = a ∨ ∃ q, lo ≤ q ∧ q < hi ∧ x = g q))
    (fun j dt => MIN (g j) dt) lo hi a
    ⟨le_rfl, fun q h1 h2 => absurd h2 (not_lt.mpr h1), Or.inl rfl⟩
    (by
      intro i x hi1 hi2 ⟨h1, h2, h3⟩
      simp only [MIN_eq_min]
      refine ⟨le_trans (min_le_right _ _) h1, ?_, ?_⟩
      · intro q hq1 hq2 hq3
        rcases eq_or_lt_of_le (Int.lt_add_one_iff.mp hq2) with e | l
        · subst e; exact min_le_left _ _
        · exact le_trans (min_le_right _ _) (h2 q hq1 l hq3)
      · rcases le_total (g i) x with hle | hle
        · right; exact ⟨i, hi1, hi2, min_eq_left hle⟩
        · rw [min_eq_right hle]; exact h3)
  obtain ⟨k1, k2, k3⟩ := key
  refine ⟨k1, ?_, k3⟩
  intro j hj1 hj2
  exact k2 j hj1 (lt_of_lt_of_le hj2 (le_max_right _ _)) hj2

/-- The two nested loops of `find_dt` compute a lower bound of all visited
local bounds that is attained or equal to the start value. -/
theorem find_dt_outer (G : Int → Int → α) (ilo ihi jlo jhi : Int) (a : α) :
    let r := forRange ilo ihi (fun i dt => forRange jlo jhi (fun j dt => MIN (G i j) dt) dt) a
    r ≤ a ∧ (∀ i j, ilo ≤ i → i < ihi → jlo ≤ j → j < jhi → r ≤ G i j) ∧
      (r = a ∨ ∃ i j, ilo ≤ i ∧ i < ihi ∧ jlo ≤ j ∧ j < jhi ∧ r = G i j) := by
  intro r
  have key := forRange_inv
    (fun (i : Int) (x : α) => x ≤ a ∧
      (∀ p q, ilo ≤ p → p < i → p < ihi → jlo ≤ q → q < jhi → x ≤ G p q) ∧
      (x = a ∨ ∃ p q, ilo ≤ p ∧ p < ihi ∧ jlo ≤ q ∧ q < jhi ∧ x = G p q))
    (fun i dt => forRange jlo jhi (fun j dt => MIN (G i j) dt) dt) ilo ihi a
    ⟨le_rfl, fun p q h1 h2 => absurd h2 (not_lt.mpr h1), Or.inl rfl⟩
    (by
      intro i x hi1 hi2 ⟨h1, h2, h3⟩
      obtain ⟨e1, e2, e3⟩ := find_dt_inner (G i) jlo jhi x
      beta_reduce
      refine ⟨le_trans e1 h1, ?_, ?_⟩
      · intro p q hp1 hp2 hp3 hq1 hq2
        rcases eq_or_lt_of_le (Int.lt_add_one_iff.mp hp2) with e | l
        · subst e; exact e2 q hq1 hq2
        · exact le_trans e1 (h2 p q hp1 l hp3 hq1 hq2)
      · rcases e3 with e | ⟨q, hq1, hq2, e⟩
        · rw [e]; exact h3
        · right; exact ⟨i, q, hi1, hi2, hq1, hq2, e⟩)
  obtain ⟨k1, k2, k3⟩ := key
  refine ⟨k1, ?_, k3⟩
  intro i j hi1 hi2 hj1 hj2
  exact k2 i j hi1 (lt_of_lt_of_le hi2 (le_max_right _ _)) hi2 hj1 hj2

/-- The quotient formed in the loop of `find_dt` is the local bound of the
specification. -/
theorem find_dt_quot_eq (C : Config α) (st : State α) (i j : Int) :
    C.cfl * MIN (st.dx i j) (st.dy i j) / find_dt_aux C st i j = cfl_local_bound C st i j := by
  simp only [find_dt_aux, cfl_local_bound, MIN_eq_min, MAX_eq_max, SQ, pow_two]

theorem find_dt_le_dt_max (C : Config α) (st : State α) : find_dt C st ≤ C.dt_max := by
  unfold find_dt
  simp only [MIN_eq_min]
  exact min_le_right _ _

/-- C7 (step bound). The value returned by `find_dt` is at most `dt_max`, at
most the built-in cap 1000, and at most the local bound
`cfl * min(dx,dy) / max(sqrt(u²+v²) + sqrt(gz*h), u_min)` of every cell of the
Active Domain; and it is attained: it equals `dt_max`, 1000, or the local bound
of some active cell, hence it is the minimum of all of them. -/
theorem find_dt_is_min_of_bounds (C : Config α) (st : State α) :
    find_dt C st ≤ C.dt_max ∧ find_dt C st ≤ 1000 ∧
    (∀ i j, inDomain st i j → find_dt C st ≤ cfl_local_bound C st i j) ∧
    (find_dt C st = C.dt_max ∨ find_dt C st = 1000 ∨
      ∃ i j, inDomain st i j ∧ find_dt C st = cfl_local_bound C st i j) := by
  have hfd : find_dt C st = MIN (forRange st.i_min st.i_max (fun i dt =>
      forRange st.j_min st.j_max (fun j dt => MIN (cfl_local_bound C st i j) dt) dt) 1000)
      C.dt_max := by
    simp only [find_dt, find_dt_quot_eq]
  obtain ⟨e1, e2, e3⟩ := find_dt_outer (fun i j => cfl_local_bound C st i j)
    st.i_min st.i_max st.j_min st.j_max 1000
  rw [hfd, MIN_eq_min]
  generalize forRange st.i_min st.i_max (fun i dt =>
      forRange st.j_min st.j_max (fun j dt => MIN (cfl_local_bound C st i j) dt) dt) 1000 = r
    at e1 e2 e3
  refine ⟨min_le_right _ _, le_trans (min_le_left _ _) e1, ?_, ?_⟩
  · rintro i j ⟨h1, h2, h3, h4⟩
    exact le_trans (min_le_left _ _) (e2 i j h1 h2 h3 h4)
  · rcases le_total r C.dt_max with hle | hle
    · rw [min_eq_left hle]
      rcases e3 with e | ⟨i, j, h1, h2, h3, h4, e⟩
      · right; left; exact e
      · right; right; exact ⟨i, j, ⟨h1, h2, h3, h4⟩, e⟩
    · left; exact min_eq_right hle

/-! Frame of the transport pass -/

theorem PassFrame.prefl (st : State α) : PassFrame st st := rfl

theorem PassFrame.ptrans {a b c : State α} (h1 : PassFrame a b) (h2 : PassFrame b c) :
    PassFrame a c := by
  unfold PassFrame at *
  rw [← h1, ← h2]

theorem PassFrame.dt_eq {a b : State α} (h : PassFrame a b) : b.dt = a.dt := by
  unfold PassFrame at h; have e := congrArg State.dt h; exact e

theorem PassFrame.i_min_eq {a b : State α} (h : PassFrame a b) : b.i_min = a.i_min := by
  unfold PassFrame at h; have e := congrArg State.i_min h; exact e

theorem PassFrame.i_max_eq {a b : State α} (h : PassFrame a b) : b.i_max = a.i_max := by
  unfold PassFrame at h; have e := congrArg State.i_max h; exact e

theorem PassFrame.j_min_eq {a b : State α} (h : PassFrame a b) : b.j_min = a.j_min := by
  unfold PassFrame at h; have e := congrArg State.j_min h; exact e

theorem PassFrame.j_max_eq {a b : State α} (h : PassFrame a b) : b.j_max = a.j_max := by
  unfold PassFrame at h; have e := congrArg State.j_max h; exact e

theorem PassFrame.stop_code_eq {a b : State α} (h : PassFrame a b) :
    b.stop_code = a.stop_code := by
  unfold PassFrame at h; have e := congrArg State.stop_code h; exact e

theorem PassFrame.f_old_eq {a b : State α} (h : PassFrame a b) : b.f_old = a.f_old := by
  unfold PassFrame at h; have e := congrArg State.f_old h; exact e

theorem PassFrame.t_eq {a b : State α} (h : PassFrame a b) : b.t = a.t := by
  unfold PassFrame at h; have e := congrArg State.t h; exact e

theorem PassFrame.n_step_eq {a b : State α} (h : PassFrame a b) : b.n_step = a.n_step := by
  unfold PassFrame at h; have e := congrArg State.n_step h; exact e

theorem limit_source_frame (C : Config α) (i j : Int) (st : State α) :
    PassFrame st (limit_source C i j st) := by
  unfold limit_source PassFrame
  split_ifs <;> rfl

theorem cell_flux_frame (C : Config α) (i j : Int) (st : State α) :
    PassFrame st (cell_flux C i j st) := by
  have h := limit_source_frame C i j st
  unfold cell_flux
  unfold PassFrame at *
  exact h

theorem cell_momentum_frame (C : Config α) (i j : Int) (st : State α) :
    PassFrame st (cell_momentum C i j st) := by
  unfold cell_momentum PassFrame
  split_ifs <;> rfl

theorem jloop_frame (C : Config α) (i : Int) : ∀ (k : Nat) (j : Int) (st : State α),
    PassFrame st (jloop C i k j st) := by
  intro k
  induction k with
  | zero => intro j st; exact PassFrame.prefl st
  | succ k ih =>
    intro j st
    unfold jloop
    simp only
    split_ifs
    · exact cell_flux_frame C i j st
    · exact ((cell_flux_frame C i j st).ptrans (cell_momentum_frame C i j _)).ptrans (ih _ _)

/-! Termination of the retry loop -/

/-- More fuel does not change the result of the i-loop. -/
theorem iloop_mono (C : Config α) : ∀ (fuel : Nat) (i : Int) (st st1 : State α),
    iloop C fuel i st = some st1 → iloop C (fuel + 1) i st = some st1 := by
  intro fuel
  induction fuel with
  | zero => intro i st st1 h; simp [iloop] at h
  | succ fuel ih =>
    intro i st st1 h
    rw [iloop] at h
    rw [iloop]
    split_ifs at h ⊢ with h1 h2 h3
    · exact h
    · exact ih _ _ _ h
    · exact ih _ _ _ h
    · exact h

theorem iloop_mono_le (C : Config α) (i : Int) (st st1 : State α) (f1 f2 : Nat)
    (hle : f1 ≤ f2) (h : iloop C f1 i st = some st1) : iloop C f2 i st = some st1 := by
  induction hle with
  | refl => exact h
  | step _ ih => exact iloop_mono C _ i st st1 ih

theorem LoopFrame.lrefl (st : State α) : LoopFrame st st := rfl

theorem LoopFrame.ltrans {a b c : State α} (h1 : LoopFrame a b) (h2 : LoopFrame b c) :
    LoopFrame a c := by
  unfold LoopFrame at *
  rw [← h1, ← h2]

theorem PassFrame.toLoop {a b : State α} (h : PassFrame a b) : LoopFrame a b := by
  unfold PassFrame at h
  unfold LoopFrame
  rw [← h]

theorem LoopFrame.l_i_min_eq {a b : State α} (h : LoopFrame a b) : b.i_min = a.i_min := by
  unfold LoopFrame at h; have e := congrArg State.i_min h; exact e

theorem LoopFrame.l_i_max_eq {a b : State α} (h : LoopFrame a b) : b.i_max = a.i_max := by
  unfold LoopFrame at h; have e := congrArg State.i_max h; exact e

theorem LoopFrame.l_j_min_eq {a b : State α} (h : LoopFrame a b) : b.j_min = a.j_min := by
  unfold LoopFrame at h; have e := congrArg State.j_min h; exact e

theorem LoopFrame.l_j_max_eq {a b : State α} (h : LoopFrame a b) : b.j_max = a.j_max := by
  unfold LoopFrame at h; have e := congrArg State.j_max h; exact e

theorem LoopFrame.l_t_eq {a b : State α} (h : LoopFrame a b) : b.t = a.t := by
  unfold LoopFrame at h; have e := congrArg State.t h; exact e

theorem LoopFrame.l_n_step_eq {a b : State α} (h : LoopFrame a b) : b.n_step = a.n_step := by
  unfold LoopFrame at h; have e := congrArg State.n_step h; exact e

theorem LoopFrame.l_f_old_eq {a b : State α} (h : LoopFrame a b) : b.f_old = a.f_old := by
  unfold LoopFrame at h; have e := congrArg State.f_old h; exact e

theorem row_pass_frame (C : Config α) (i : Int) (st : State α) :
    PassFrame st (row_pass C i st) :=
  jloop_frame C i _ _ st

theorem retry_state_frame (st : State α) : LoopFrame st (retry_state st) := rfl

theorem collapse_frame (st : State α) : LoopFrame st (collapse st) := rfl

theorem rows_eq_of_frame {a b : State α} (h : LoopFrame a b) : rows b = rows a := by
  unfold rows; rw [h.l_i_min_eq, h.l_i_max_eq]

/-- The retry loop ends.  If `k` reductions by the factor 0.8 bring `dt`
below `dt_min`, the i-loop started at row `i` with at most `n` rows to go
returns within `n + 1 + k * (rows + 2)` iterations, after `r <= k`
reductions; a final `dt` below `dt_min` comes with `repeat_flag = -1` and
`stop_code = 2`. -/
theorem iloop_bounded (C : Config α) :
    ∀ (k n : Nat) (i : Int) (st : State α),
      C.dt_min ≤ st.dt → (4 / 5 : α) ^ k * st.dt < C.dt_min → (st.i_max - i).toNat ≤ n →
      ∃ (st1 : State α) (r : Nat),
        iloop C (n + 1 + k * (rows st + 2)) i st = some st1 ∧ r ≤ k ∧
        st1.dt = (4 / 5 : α) ^ r * st.dt ∧ LoopFrame st st1 ∧
        (st1.dt < C.dt_min → st1.repeat_flag = -1 ∧ st1.stop_code = 2) := by
  intro k
  induction k with
  | zero =>
    intro n i st h1 h2 _
    simp only [pow_zero, one_mul] at h2
    exact absurd h2 (not_lt.mpr h1)
  | succ k ihk =>
    intro n
    induction n with
    | zero =>
      intro i st h1 _ h3
      have hi : ¬ i < st.i_max := by
        intro hlt
        have : 0 < (st.i_max - i).toNat := by
          rw [Int.lt_toNat]; simpa using hlt
        omega
      refine ⟨st, 0, ?_, Nat.zero_le _, by simp, LoopFrame.lrefl st,
        fun h => absurd h (not_lt.mpr h1)⟩
      apply iloop_mono_le C i st st 1 _ (by omega)
      simp [iloop, hi]
    | succ n ihn =>
      intro i st h1 h2 h3
      by_cases hi : i < st.i_max
      · by_cases hf : st.repeat_flag = 1
        · by_cases hd : (retry_state st).dt < C.dt_min
          · refine ⟨collapse (retry_state st), 1, ?_, by omega, ?_,
              (retry_state_frame st).ltrans (collapse_frame _), fun _ => ⟨rfl, rfl⟩⟩
            · apply iloop_mono_le C i st _ 1 _ (by omega)
              simp [iloop, hi, hf, hd]
            · show st.dt * (4 / 5) = (4 / 5 : α) ^ 1 * st.dt
              ring
          · have e1 : C.dt_min ≤ (retry_state st).dt := not_lt.mp hd
            have e2 : (4 / 5 : α) ^ k * (retry_state st).dt < C.dt_min := by
              have : (retry_state st).dt = st.dt * (4 / 5) := rfl
              rw [this]
              calc (4 / 5 : α) ^ k * (st.dt * (4 / 5)) = (4 / 5 : α) ^ (k + 1) * st.dt := by ring
                _ < C.dt_min := h2
            have e3 : ((retry_state st).i_max - (st.i_min - 1 + 1)).toNat ≤ rows st := by
              show (st.i_max - (st.i_min - 1 + 1)).toNat ≤ (st.i_max - st.i_min).toNat
              simp
            obtain ⟨st1, r, r1, r2, r3, r4, r5⟩ :=
              ihk (rows st) (st.i_min - 1 + 1) (retry_state st) e1 e2 e3
            refine ⟨st1, r + 1, ?_, by omega, ?_, (retry_state_frame st).ltrans r4, r5⟩
            · have hr : rows (retry_state st) = rows st := rfl
              rw [hr] at r1
              apply iloop_mono_le C i st st1 (rows st + 1 + k * (rows st + 2) + 1) _ ?_ ?_
              · have : (k + 1) * (rows st + 2) = k * (rows st + 2) + (rows st + 2) := by ring
                omega
              · rw [iloop]
                simp only [hi, hf, hd, if_true, if_false]
                exact r1
            · rw [r3]
              show (4 / 5 : α) ^ r * (st.dt * (4 / 5)) = (4 / 5 : α) ^ (r + 1) * st.dt
              ring
        · have fr := row_pass_frame C i st
          have e1 : C.dt_min ≤ (row_pass C i st).dt := by rw [fr.dt_eq]; exact h1
          have e2 : (4 / 5 : α) ^ (k + 1) * (row_pass C i st).dt < C.dt_min := by
            rw [fr.dt_eq]; exact h2
          have e3 : ((row_pass C i st).i_max - (i + 1)).toNat ≤ n := by
            rw [fr.i_max_eq]; omega
          obtain ⟨st1, r, r1, r2, r3, r4, r5⟩ := ihn (i + 1) (row_pass C i st) e1 e2 e3
          refine ⟨st1, r, ?_, r2, by rw [r3, fr.dt_eq], fr.toLoop.ltrans r4, r5⟩
          rw [rows_eq_of_frame fr.toLoop] at r1
          have : n + 1 + 1 + (k + 1) * (rows st + 2) = (n + 1 + (k + 1) * (rows st + 2)) + 1 := by
            ring
          rw [this, iloop]
          simp only [hi, hf, if_true, if_false]
          exact r1
      · refine ⟨st, 0, ?_, Nat.zero_le _, by simp, LoopFrame.lrefl st,
          fun h => absurd h (not_lt.mpr h1)⟩
        apply iloop_mono_le C i st st 1 _ (by omega)
        simp [iloop, hi]

/-! Frames of the other parts of a time step -/

/-- Invariant rule for two nested `forRange` loops. -/
theorem forRange2_inv {σ : Type} (P : σ → Prop) (body : Int → Int → σ → σ)
    (a b c d : Int) (s : σ) (h0 : P s) (hstep : ∀ i j s, P s → P (body i j s)) :
    P (forRange a b (fun i s1 => forRange c d (fun j s2 => body i j s2) s1) s) := by
  apply forRange_inv (fun _ x => P x) _ a b s h0
  intro i x _ _ hx
  exact forRange_inv (fun _ y => P y) _ c d x hx (fun j y _ _ hy => hstep i j y hy)

/-- Invariant rule for `loopM`. -/
theorem loopM_inv {σ : Type} (P : σ → Prop) (body : Int → σ → Option σ)
    (hstep : ∀ i s s1, P s → body i s = some s1 → P s1) :
    ∀ (k : Nat) (lo : Int) (s s1 : σ), P s → loopM k lo body s = some s1 → P s1 := by
  intro k
  induction k with
  | zero => intro lo s s1 h0 h; simp only [loopM, Option.some.injEq] at h; exact h ▸ h0
  | succ k ih =>
    intro lo s s1 h0 h
    rw [loopM] at h
    cases hb : body lo s with
    | none => rw [hb] at h; simp at h
    | some s2 => rw [hb] at h; exact ih (lo + 1) s2 s1 (hstep lo s s2 h0 hb) h

/-- Invariant rule for two nested `forRangeM` loops. -/
theorem forRangeM2_inv {σ : Type} (P : σ → Prop) (body : Int → Int → σ → Option σ)
    (a b c d : Int) (s s1 : σ) (h0 : P s) (hstep : ∀ i j s s1, P s → body i j s = some s1 → P s1)
    (h : forRangeM a b (fun i x => forRangeM c d (fun j y => body i j y) x) s = some s1) :
    P s1 := by
  unfold forRangeM at h
  refine loopM_inv P _ ?_ _ a s s1 h0 h
  intro i x x1 hx hb
  exact loopM_inv P _ (fun j y y1 hy hc => hstep i j y y1 hy hc) _ c x x1 hx hb

theorem SameCtl.ctrans {a b c : State α} (h1 : SameCtl a b) (h2 : SameCtl b c) : SameCtl a c := by
  obtain ⟨a1, a2, a3, a4, a5⟩ := h1
  obtain ⟨b1, b2, b3, b4, b5⟩ := h2
  exact ⟨b1.trans a1, b2.trans a2, b3.trans a3, b4.trans a4, b5.trans a5⟩

theorem SameDomain.dtrans {a b c : State α} (h1 : SameDomain a b) (h2 : SameDomain b c) :
    SameDomain a c := by
  obtain ⟨a1, a2, a3, a4⟩ := h1
  obtain ⟨b1, b2, b3, b4⟩ := h2
  exact ⟨b1.trans a1, b2.trans a2, b3.trans a3, b4.trans a4⟩

theorem snapshot_cell_frame (C : Config α) (i j : Int) (st : State α) :
    SameCtl st (snapshot_cell C i j st) ∧ SameDomain st (snapshot_cell C i j st) := by
  unfold snapshot_cell SameCtl SameDomain
  split_ifs <;> simp

theorem snapshot_frame (C : Config α) (st : State α) :
    SameCtl st (snapshot C st) ∧ SameDomain st (snapshot C st) := by
  unfold snapshot
  split_ifs
  · apply forRange2_inv (fun x => SameCtl st x ∧ SameDomain st x)
    · exact ⟨⟨rfl, rfl, rfl, rfl, rfl⟩, ⟨rfl, rfl, rfl, rfl⟩⟩
    · intro i j s hs
      have := snapshot_cell_frame C i j s
      exact ⟨hs.1.ctrans this.1, hs.2.dtrans this.2⟩
  · exact ⟨⟨rfl, rfl, rfl, rfl, rfl⟩, ⟨rfl, rfl, rfl, rfl⟩⟩

theorem arrest_cell_frame (C : Config α) (i j : Int) (st : State α) :
    SameCtl st (arrest_cell C i j st) ∧ SameDomain st (arrest_cell C i j st) := by
  unfold arrest_cell SameCtl SameDomain
  split_ifs <;> simp

theorem arrest_frame (C : Config α) (st : State α) :
    SameCtl st (arrest C st) ∧ SameDomain st (arrest C st) := by
  unfold arrest
  apply forRange2_inv (fun x => SameCtl st x ∧ SameDomain st x)
  · exact ⟨⟨rfl, rfl, rfl, rfl, rfl⟩, ⟨rfl, rfl, rfl, rfl⟩⟩
  · intro i j s hs
    have := arrest_cell_frame C i j s
    exact ⟨hs.1.ctrans this.1, hs.2.dtrans this.2⟩

theorem primivar_frame (C : Config α) (f : Grid3 α) (st : State α) :
    SameCtl st (primivar C f st) ∧ SameDomain st (primivar C f st) := by
  unfold primivar
  apply forRange2_inv (fun x => SameCtl st x ∧ SameDomain st x)
  · exact ⟨⟨rfl, rfl, rfl, rfl, rfl⟩, ⟨rfl, rfl, rfl, rfl⟩⟩
  · intro i j s hs
    exact ⟨hs.1.ctrans ⟨rfl, rfl, rfl, rfl, rfl⟩, hs.2.dtrans ⟨rfl, rfl, rfl, rfl⟩⟩

theorem update_surface_frame (C : Config α) (Z : Grid α) (st : State α) :
    SameCtl st (update_surface C Z st) ∧ SameDomain st (update_surface C Z st) := by
  unfold update_surface
  apply forRange2_inv (fun x => SameCtl st x ∧ SameDomain st x)
  · exact ⟨⟨rfl, rfl, rfl, rfl, rfl⟩, ⟨rfl, rfl, rfl, rfl⟩⟩
  · intro i j s hs
    exact ⟨hs.1.ctrans ⟨rfl, rfl, rfl, rfl, rfl⟩, hs.2.dtrans ⟨rfl, rfl, rfl, rfl⟩⟩

theorem elevation_frame (C : Config α) (st : State α) :
    SameCtl st (elevation C st) ∧ SameDomain st (elevation C st) := by
  unfold elevation
  apply forRange2_inv (fun x => SameCtl st x ∧ SameDomain st x)
  · exact ⟨⟨rfl, rfl, rfl, rfl, rfl⟩, ⟨rfl, rfl, rfl, rfl⟩⟩
  · intro i j s hs
    exact ⟨hs.1.ctrans ⟨rfl, rfl, rfl, rfl, rfl⟩, hs.2.dtrans ⟨rfl, rfl, rfl, rfl⟩⟩

theorem dynamic_surface_frame (C : Config α) (st : State α) :
    SameCtl st (dynamic_surface C st) ∧ SameDomain st (dynamic_surface C st) := by
  unfold dynamic_surface
  split_ifs
  · have h1 := elevation_frame C st
    have h2 := update_surface_frame C (elevation C st).z (elevation C st)
    exact ⟨h1.1.ctrans h2.1, h1.2.dtrans h2.2⟩
  · exact ⟨⟨rfl, rfl, rfl, rfl, rfl⟩, ⟨rfl, rfl, rfl, rfl⟩⟩

theorem momentum_source_frame (C : Config α) (i j : Int) (tau_b : α) (st : State α) :
    SameCtl st (momentum_source C i j tau_b st) ∧
      SameDomain st (momentum_source C i j tau_b st) := by
  unfold momentum_source SameCtl SameDomain
  split_ifs <;> simp

theorem forest_cell_frame (C : Config α) (i j : Int) (st : State α) :
    SameCtl st (forest_cell C i j st) ∧ SameDomain st (forest_cell C i j st) := by
  unfold forest_cell SameCtl SameDomain
  split_ifs <;> simp

/-- The state produced by `source_cell`, when the program goes on. -/
theorem source_cell_some (C : Config α) (i j : Int) (st st1 : State α)
    (h : source_cell C i j st = some st1) :
    ∃ src0 tau_b, st1 = forest_cell C i j
      (momentum_source C i j tau_b { st with src := set3 st.src i j 0 src0 }) := by
  unfold source_cell at h
  cases hf : friction_params C st i j with
  | none => rw [hf] at h; simp at h
  | some p =>
    rw [hf] at h
    simp only at h
    cases he : erosion_source C st i j
        (p.1 * st.gz i j * st.h i j + drag_adjust C st i j p.2 * SQ (st.s i j)) with
    | none => rw [he] at h; simp at h
    | some q =>
      rw [he] at h
      simp only [Option.some.injEq] at h
      exact ⟨q.1, q.2, h.symm⟩

theorem source_cell_frame (C : Config α) (i j : Int) (st st1 : State α)
    (h : source_cell C i j st = some st1) : SameCtl st st1 ∧ SameDomain st st1 := by
  obtain ⟨src0, tau_b, e⟩ := source_cell_some C i j st st1 h
  subst e
  have h1 := momentum_source_frame C i j tau_b { st with src := set3 st.src i j 0 src0 }
  have h2 := forest_cell_frame C i j
    (momentum_source C i j tau_b { st with src := set3 st.src i j 0 src0 })
  have h0 : SameCtl st { st with src := set3 st.src i j 0 src0 } ∧
      SameDomain st { st with src := set3 st.src i j 0 src0 } :=
    ⟨⟨rfl, rfl, rfl, rfl, rfl⟩, ⟨rfl, rfl, rfl, rfl⟩⟩
  exact ⟨(h0.1.ctrans h1.1).ctrans h2.1, (h0.2.dtrans h1.2).dtrans h2.2⟩

theorem source_terms_frame (C : Config α) (st st1 : State α)
    (h : source_terms C st = some st1) : SameCtl st st1 ∧ SameDomain st st1 := by
  unfold source_terms at h
  refine forRangeM2_inv (fun x => SameCtl st x ∧ SameDomain st x) _ _ _ _ _ st st1
    ⟨⟨rfl, rfl, rfl, rfl, rfl⟩, ⟨rfl, rfl, rfl, rfl⟩⟩ ?_ h
  intro i j s s1 hs hb
  have := source_cell_frame C i j s s1 hb
  exact ⟨hs.1.ctrans this.1, hs.2.dtrans this.2⟩

/-- With valid switches `source_cell` never reaches an `exit`. -/
theorem source_cell_isSome (C : Config α) (hv : ValidSwitches C) (i j : Int) (st : State α) :
    ∃ st1, source_cell C i j st = some st1 := by
  obtain ⟨hp, hf, he1, he2⟩ := hv
  have h1 : ∃ p, friction_params C st i j = some p := by
    unfold friction_params
    rcases hp with hp | hp <;> rcases hf with hf | hf <;> simp [hp, hf]
  obtain ⟨p, hp1⟩ := h1
  have h2 : ∀ tb, ∃ q, erosion_source C st i j tb = some q := by
    intro tb
    have hcases : C.eromod = 0 ∨ C.eromod = 1 ∨ C.eromod = 2 ∨ C.eromod = 3 ∨ C.eromod = 4 := by
      omega
    unfold erosion_source
    rcases hcases with e | e | e | e | e <;> simp only [e] <;> norm_num <;> split_ifs <;> simp
  obtain ⟨q, hq⟩ := h2 (p.1 * st.gz i j * st.h i j + drag_adjust C st i j p.2 * SQ (st.s i j))
  unfold source_cell
  rw [hp1]
  simp only
  rw [hq]
  exact ⟨_, rfl⟩

theorem loopM_isSome {σ : Type} (body : Int → σ → Option σ)
    (hb : ∀ i s, ∃ s1, body i s = some s1) :
    ∀ (k : Nat) (lo : Int) (s : σ), ∃ s1, loopM k lo body s = some s1 := by
  intro k
  induction k with
  | zero => intro lo s; exact ⟨s, rfl⟩
  | succ k ih =>
    intro lo s
    obtain ⟨s2, h2⟩ := hb lo s
    obtain ⟨s3, h3⟩ := ih (lo + 1) s2
    exact ⟨s3, by rw [loopM, h2]; exact h3⟩

/-- With valid switches `source_terms` returns. -/
theorem source_terms_isSome (C : Config α) (hv : ValidSwitches C) (st : State α) :
    ∃ st1, source_terms C st = some st1 := by
  unfold source_terms forRangeM
  apply loopM_isSome
  intro i s
  apply loopM_isSome
  intro j s2
  exact source_cell_isSome C hv i j s2

theorem boundaries_cell_frame (C : Config α) (f : Grid3 α) (i j : Int)
    (x : State α × Bounds α) :
    SameCtl x.1 (boundaries_cell C f i j x).1 ∧ SameDomain x.1 (boundaries_cell C f i j x).1 := by
  unfold boundaries_cell SameCtl SameDomain
  simp only
  split_ifs <;> simp

theorem update_boundaries_frame (C : Config α) (f : Grid3 α) (st : State α) :
    SameCtl st (update_boundaries C f st).1 ∧
      0 ≤ (update_boundaries C f st).1.i_min ∧ (update_boundaries C f st).1.i_max ≤ C.m := by
  unfold update_boundaries
  simp only
  refine ⟨?_, ?_, ?_⟩
  · have := forRange2_inv (fun (x : State α × Bounds α) => SameCtl st x.1)
      (fun i j y => boundaries_cell C f i j y) st.i_min st.i_max st.j_min st.j_max
      ({ st with mov_vol := 0 }, { west := C.m, east := 0, south := C.n, north := 0, mom := 0 })
      ⟨rfl, rfl, rfl, rfl, rfl⟩
      (fun i j s hs => hs.ctrans (boundaries_cell_frame C f i j s).1)
    exact this
  · rw [MAX_eq_max]; exact le_max_left _ _
  · rw [MIN_eq_min]; exact min_le_left _ _

theorem jloop_flag (C : Config α) (i : Int) : ∀ (k : Nat) (j : Int) (st : State α),
    (jloop C i k j st).repeat_flag = st.repeat_flag ∨ (jloop C i k j st).repeat_flag = 1 := by
  intro k
  induction k with
  | zero => intro j st; left; rfl
  | succ k ih =>
    intro j st
    unfold jloop
    simp only
    split_ifs
    · right; rfl
    · rcases ih (j + 1) (cell_momentum C i j (cell_flux C i j st)) with h | h
      · left
        rw [h]
        have fr := (cell_flux_frame C i j st).ptrans (cell_momentum_frame C i j _)
        have e1 : (cell_momentum C i j (cell_flux C i j st)).repeat_flag
            = (cell_flux C i j st).repeat_flag := by
          unfold cell_momentum; split_ifs <;> rfl
        have e2 : (cell_flux C i j st).repeat_flag = st.repeat_flag := by
          unfold cell_flux limit_source; split_ifs <;> rfl
        rw [e1, e2]
      · right; exact h

/-- What the i-loop returns, for any amount of fuel: `dt` has been reduced
`r` times by the factor 0.8; only the fields of `LoopFrame` have changed; a
final `dt` below `dt_min` comes with `repeat_flag = -1` and `stop_code = 2`,
and these two values are set together. -/
theorem iloop_sound (C : Config α) : ∀ (fuel : Nat) (i : Int) (st st1 : State α),
    iloop C fuel i st = some st1 → C.dt_min ≤ st.dt →
    ∃ r : Nat, st1.dt = (4 / 5 : α) ^ r * st.dt ∧ LoopFrame st st1 ∧
      (st1.dt < C.dt_min → st1.repeat_flag = -1 ∧ st1.stop_code = 2) ∧
      (st.repeat_flag ≠ -1 → st1.repeat_flag = -1 → st1.dt < C.dt_min ∧ st1.stop_code = 2) ∧
      (st.repeat_flag ≠ -1 → st1.repeat_flag ≠ -1 → st1.stop_code = st.stop_code) := by
  intro fuel
  induction fuel with
  | zero => intro i st st1 h; simp [iloop] at h
  | succ fuel ih =>
    intro i st st1 h hdt
    rw [iloop] at h
    split_ifs at h with h1 h2 h3
    · simp only [Option.some.injEq] at h
      subst h
      refine ⟨1, ?_, (retry_state_frame st).ltrans (collapse_frame _), fun _ => ⟨rfl, rfl⟩,
        fun _ _ => ⟨h3, rfl⟩, fun _ hne => absurd rfl hne⟩
      show st.dt * (4 / 5) = (4 / 5 : α) ^ 1 * st.dt
      ring
    · obtain ⟨r, r1, r2, r3, r4, r5⟩ := ih _ _ _ h (not_lt.mp h3)
      have hf0 : (retry_state st).repeat_flag ≠ -1 := by
        show (0 : Int) ≠ -1
        decide
      refine ⟨r + 1, ?_, (retry_state_frame st).ltrans r2, r3, fun _ => r4 hf0,
        fun _ hne => r5 hf0 hne⟩
      rw [r1]
      show (4 / 5 : α) ^ r * (st.dt * (4 / 5)) = (4 / 5 : α) ^ (r + 1) * st.dt
      ring
    · have fr := row_pass_frame C i st
      obtain ⟨r, r1, r2, r3, r4, r5⟩ := ih _ _ _ h (by rw [fr.dt_eq]; exact hdt)
      have hfl : st.repeat_flag ≠ -1 → (row_pass C i st).repeat_flag ≠ -1 := by
        intro hne
        rcases jloop_flag C i (st.j_max - st.j_min).toNat st.j_min st with e | e
        · unfold row_pass; rw [e]; exact hne
        · unfold row_pass; rw [e]; decide
      refine ⟨r, by rw [r1, fr.dt_eq], fr.toLoop.ltrans r2, r3, fun hne => r4 (hfl hne),
        fun hne hne1 => ?_⟩
      rw [r5 (hfl hne) hne1, fr.stop_code_eq]
    · simp only [Option.some.injEq] at h
      subst h
      exact ⟨0, by simp, LoopFrame.lrefl _, fun hlt => absurd hlt (not_lt.mpr hdt),
        fun hne he => absurd he hne, fun _ _ => rfl⟩

theorem step_head_frame (C : Config α) (st : State α) :
    (step_head C st).t = st.t ∧ (step_head C st).n_step = st.n_step ∧
    (step_head C st).stop_code = st.stop_code ∧ (step_head C st).repeat_flag = st.repeat_flag ∧
    SameDomain st (step_head C st) ∧ (step_head C st).dt = find_dt C (snapshot C st) := by
  obtain ⟨⟨a1, a2, a3, a4, a5⟩, hd⟩ := snapshot_frame C st
  exact ⟨a1, a3, a4, a5, hd, rfl⟩

/-- The end of an accepted pass: either the step is accepted (`next`) and
the time advances by `dt`, or the run is stopped by the momentum test with
`stop_code = 1`. -/
theorem step_tail_cases (C : Config α) (st4 : State α) :
    (∃ st1, step_tail C st4 = Outcome.next st1 ∧ st1.t = st4.t + st4.dt ∧ st1.dt = st4.dt ∧
        st1.n_step = st4.n_step + 1 ∧ st1.stop_code = st4.stop_code ∧
        st1.repeat_flag = st4.repeat_flag ∧ 0 ≤ st1.i_min ∧ st1.i_max ≤ C.m) ∨
    (∃ st1, step_tail C st4 = Outcome.done st1 ∧ st1.t = st4.t ∧ st1.n_step = st4.n_step ∧
        st1.stop_code = 1) := by
  have h1 := (arrest_frame C st4).1
  have h2 := (dynamic_surface_frame C (arrest C st4)).1
  have h3 := (primivar_frame C (dynamic_surface C (arrest C st4)).f_new
    (dynamic_surface C (arrest C st4))).1
  have h4 := update_boundaries_frame C
    (primivar C (dynamic_surface C (arrest C st4)).f_new (dynamic_surface C (arrest C st4))).f_new
    (primivar C (dynamic_surface C (arrest C st4)).f_new (dynamic_surface C (arrest C st4)))
  obtain ⟨b1, b2, b3, b4, b5⟩ := ((h1.ctrans h2).ctrans h3).ctrans h4.1
  unfold step_tail
  simp only
  split_ifs with hc
  · right
    exact ⟨_, rfl, b1, b3, rfl⟩
  · left
    refine ⟨_, rfl, ?_, b2, ?_, b4, b5, h4.2.1, h4.2.2⟩
    · show _ + _ = _
      rw [b1, b2]
    · show _ + 1 = _
      rw [b3]

theorem pow_four_fifths_le_one (r : Nat) : (4 / 5 : α) ^ r ≤ 1 :=
  pow_le_one₀ (by norm_num) (by norm_num)

theorem pow_four_fifths_nonneg (r : Nat) : (0 : α) ≤ (4 / 5 : α) ^ r :=
  pow_nonneg (by norm_num) r

/-- An accepted step advances the time by its `dt`, and
`dt_min <= dt <= dt_max`. -/
theorem time_step_next (C : Config α) (hmin : 0 < C.dt_min) (pf : Nat) (st st1 : State α)
    (h : time_step C pf st = Outcome.next st1) :
    st1.t = st.t + st1.dt ∧ C.dt_min ≤ st1.dt ∧ st1.dt ≤ C.dt_max ∧
      st1.n_step = st.n_step + 1 ∧ 0 ≤ st1.i_min ∧ st1.i_max ≤ C.m ∧
      st1.repeat_flag ≠ -1 ∧ (st.repeat_flag ≠ -1 → st1.stop_code = st.stop_code) := by
  unfold time_step at h
  split_ifs at h with hd
  cases hs : source_terms C (step_head C st) with
  | none => rw [hs] at h; simp at h
  | some st3 =>
    rw [hs] at h
    simp only at h
    cases hi : iloop C pf st3.i_min st3 with
    | none => rw [hi] at h; simp at h
    | some st4 =>
      rw [hi] at h
      simp only at h
      split_ifs at h with hf
      obtain ⟨c1, c2, c3, c4, c5, c6⟩ := step_head_frame C st
      obtain ⟨⟨d1, d2, d3, d4, d5⟩, dd⟩ := source_terms_frame C _ _ hs
      have hdt3 : C.dt_min ≤ st3.dt := by rw [d2]; exact not_lt.mp hd
      obtain ⟨r, r1, r2, r3, r4, r5⟩ := iloop_sound C pf _ st3 st4 hi hdt3
      rcases step_tail_cases C st4 with ⟨s1, e0, e1, e2, e3, e4, e5, e6, e7⟩ | ⟨s1, e0, _⟩
      · rw [e0] at h
        simp only [Outcome.next.injEq] at h
        subst h
        have hge : C.dt_min ≤ st4.dt := by
          by_contra hlt
          exact hf (r3 (not_le.mp hlt)).1
        have hle : st4.dt ≤ C.dt_max := by
          rw [r1, d2, c6]
          have h0 : (0 : α) ≤ find_dt C (snapshot C st) := by
            rw [← c6, ← d2]; exact le_trans (le_of_lt hmin) hdt3
          calc (4 / 5 : α) ^ r * find_dt C (snapshot C st)
              ≤ 1 * find_dt C (snapshot C st) :=
                mul_le_mul_of_nonneg_right (pow_four_fifths_le_one r) h0
            _ = find_dt C (snapshot C st) := one_mul _
            _ ≤ C.dt_max := find_dt_le_dt_max C (snapshot C st)
        refine ⟨?_, by rw [e2]; exact hge, by rw [e2]; exact hle, ?_, e6, e7,
          by rw [e5]; exact hf, ?_⟩
        · rw [e1, e2, r2.l_t_eq, d1, c1]
        · rw [e3, r2.l_n_step_eq, d3, c2]
        · intro hne
          rw [e4, r5 (by rw [d5, c4]; exact hne) hf, d4, c3]
      · rw [e0] at h
        simp at h

/-- With valid switches and enough fuel for the retries, the body of the
time loop ends in an accepted step or in a `break` with `stop_code` 1 or 2. -/
theorem time_step_cases (C : Config α) (hv : ValidSwitches C) (hmin : 0 < C.dt_min)
    (K : Nat) (hK : (4 / 5 : α) ^ K * C.dt_max < C.dt_min)
    (pf : Nat) (hpf : (K + 1) * (C.m.toNat + 2) ≤ pf) (st : State α) (hinv : LoopInv C st) :
    (∃ st1, time_step C pf st = Outcome.next st1) ∨
    (∃ st1, time_step C pf st = Outcome.done st1 ∧ st1.t = st.t ∧ st1.n_step = st.n_step ∧
        (st1.stop_code = 1 ∨ st1.stop_code = 2)) := by
  obtain ⟨c1, c2, c3, c4, c5, c6⟩ := step_head_frame C st
  unfold time_step
  split_ifs with hd
  · right
    exact ⟨_, rfl, c1, c2, Or.inr rfl⟩
  · obtain ⟨st3, hs⟩ := source_terms_isSome C hv (step_head C st)
    obtain ⟨⟨d1, d2, d3, d4, d5⟩, dd⟩ := source_terms_frame C _ _ hs
    have hdt3 : C.dt_min ≤ st3.dt := by rw [d2]; exact not_lt.mp hd
    have hK3 : (4 / 5 : α) ^ K * st3.dt < C.dt_min := by
      have : st3.dt ≤ C.dt_max := by rw [d2, c6]; exact find_dt_le_dt_max C _
      exact lt_of_le_of_lt (mul_le_mul_of_nonneg_left this (pow_four_fifths_nonneg K)) hK
    obtain ⟨st4, r, r1, _, _, _, _⟩ :=
      iloop_bounded C K (rows st3) st3.i_min st3 hdt3 hK3 (le_refl _)
    have hrows : rows st3 ≤ C.m.toNat := by
      unfold rows
      rw [dd.1, dd.2.1, c5.1, c5.2.1]
      have := hinv.1
      have := hinv.2.1
      omega
    have hi : iloop C pf st3.i_min st3 = some st4 := by
      apply iloop_mono_le C _ st3 st4 _ pf _ r1
      calc rows st3 + 1 + K * (rows st3 + 2) ≤ (K + 1) * (rows st3 + 2) := by ring_nf; omega
        _ ≤ (K + 1) * (C.m.toNat + 2) := Nat.mul_le_mul_left _ (by omega)
        _ ≤ pf := hpf
    obtain ⟨q, q1, q2, q3, q4, q5⟩ := iloop_sound C pf _ st3 st4 hi hdt3
    rw [hs]
    simp only
    rw [hi]
    simp only
    split_ifs with hf
    · right
      have hne : st3.repeat_flag ≠ -1 := by rw [d5, c4]; exact hinv.2.2
      exact ⟨st4, rfl, by rw [q2.l_t_eq, d1, c1], by rw [q2.l_n_step_eq, d3, c2],
        Or.inr (q4 hne hf).2⟩
    · rcases step_tail_cases C st4 with ⟨s1, e0, _⟩ | ⟨s1, e0, e1, e2, e3⟩
      · left; exact ⟨s1, e0⟩
      · right
        exact ⟨s1, e0, by rw [e1, q2.l_t_eq, d1, c1], by rw [e2, q2.l_n_step_eq, d3, c2], Or.inl e3⟩

/-- The time loop ends: if at most `N` steps of size `dt_min` fit between the
current time and `t_max`, then `N` passes through the body suffice, the loop
is left after at most `N` accepted steps, and it is left because the time
limit is reached (`stop_code` unchanged) or with `stop_code` 1 or 2. -/
theorem time_loop_bounded (C : Config α) (hv : ValidSwitches C) (hmin : 0 < C.dt_min)
    (K : Nat) (hK : (4 / 5 : α) ^ K * C.dt_max < C.dt_min)
    (pf : Nat) (hpf : (K + 1) * (C.m.toNat + 2) ≤ pf) :
    ∀ (N : Nat) (st : State α), LoopInv C st → C.t_max ≤ st.t + N * C.dt_min →
      ∀ fuel, N ≤ fuel →
      ∃ st1, time_loop C pf fuel st = Outcome.done st1 ∧ st1.n_step ≤ st.n_step + N ∧
        st.n_step ≤ st1.n_step ∧
        (st1.stop_code = 1 ∨ st1.stop_code = 2 ∨
          (st1.stop_code = st.stop_code ∧ C.t_max ≤ st1.t)) := by
  intro N
  induction N with
  | zero =>
    intro st _ ht fuel _
    have hnot : ¬ st.t < C.t_max := by
      simp only [Nat.cast_zero, zero_mul, add_zero] at ht
      exact not_lt.mpr ht
    refine ⟨st, ?_, by simp, le_refl _, Or.inr (Or.inr ⟨rfl, not_lt.mp hnot⟩)⟩
    cases fuel with
    | zero => simp [time_loop, hnot]
    | succ f => simp [time_loop, hnot]
  | succ N ih =>
    intro st hinv ht fuel hfuel
    by_cases hlt : st.t < C.t_max
    · obtain ⟨f, rfl⟩ : ∃ f, fuel = f + 1 := ⟨fuel - 1, by omega⟩
      rw [time_loop]
      simp only [hlt, if_true]
      rcases time_step_cases C hv hmin K hK pf hpf st hinv with ⟨s1, e0⟩ | ⟨s1, e0, e1, e2, e3⟩
      · obtain ⟨a1, a2, a3, a4, a5, a6, a7, a8⟩ := time_step_next C hmin pf st s1 e0
        rw [e0]
        simp only
        have ht1 : C.t_max ≤ s1.t + N * C.dt_min := by
          rw [a1]
          have : (((N + 1 : Nat) : α)) * C.dt_min = N * C.dt_min + C.dt_min := by
            push_cast; ring
          rw [this] at ht
          linarith
        obtain ⟨s2, b1, b2, b3, b4⟩ := ih s1 ⟨a5, a6, a7⟩ ht1 f (by omega)
        refine ⟨s2, b1, by rw [a4] at b2; push_cast; linarith, by rw [a4] at b3; linarith, ?_⟩
        rcases b4 with b | b | ⟨b, b'⟩
        · exact Or.inl b
        · exact Or.inr (Or.inl b)
        · exact Or.inr (Or.inr ⟨by rw [b, a8 hinv.2.2], b'⟩)
      · rw [e0]
        simp only
        refine ⟨s1, rfl, by rw [e2]; push_cast; linarith, by rw [e2], ?_⟩
        rcases e3 with e | e
        · exact Or.inl e
        · exact Or.inr (Or.inl e)
    · refine ⟨st, ?_, by push_cast; linarith, le_refl _,
        Or.inr (Or.inr ⟨rfl, not_lt.mp hlt⟩)⟩
      cases fuel with
      | zero => simp [time_loop, hlt]
      | succ f => simp [time_loop, hlt]

/-- C5 (bounded retry). Let `dt0 >= dt_min > 0` be the step returned by
`find_dt` at the head of a time step, and `k` the least number with
`0.8^k * dt0 < dt_min`.  Then the transport pass with its retries ends within
`(k+1) * (rows+2)` iterations of the i-loop, after `r <= k` reductions of `dt`
by the factor 0.8 (one per retry); and when the reduced `dt` is below `dt_min`
the pass is not retried again: `stop_code` is 2 and the time loop is left. -/
theorem retry_is_bounded [Archimedean α] (C : Config α) (st : State α)
    (hv : ValidSwitches C) (hmin : 0 < C.dt_min)
    (hdt : C.dt_min ≤ find_dt C (snapshot C st)) :
    ∃ k : Nat, (4 / 5 : α) ^ k * find_dt C (snapshot C st) < C.dt_min ∧
      (∀ l, l < k → C.dt_min ≤ (4 / 5 : α) ^ l * find_dt C (snapshot C st)) ∧
      ∃ (st3 st4 : State α) (r : Nat),
        source_terms C (step_head C st) = some st3 ∧ r ≤ k ∧
        st4.dt = (4 / 5 : α) ^ r * find_dt C (snapshot C st) ∧
        ∀ pf, (k + 1) * (rows st + 2) ≤ pf →
          iloop C pf st3.i_min st3 = some st4 ∧
          (st4.dt < C.dt_min →
            st4.stop_code = 2 ∧ time_step C pf st = Outcome.done st4 ∧
            ∀ fuel, st.t < C.t_max → time_loop C pf (fuel + 1) st = Outcome.done st4) := by
  have hpos : 0 < find_dt C (snapshot C st) := lt_of_lt_of_le hmin hdt
  have hex : ∃ n : Nat, (4 / 5 : α) ^ n * find_dt C (snapshot C st) < C.dt_min := by
    obtain ⟨n, hn⟩ := exists_pow_lt_of_lt_one (div_pos hmin hpos)
      (show (4 / 5 : α) < 1 by norm_num)
    exact ⟨n, (lt_div_iff₀ hpos).mp hn⟩
  classical
  refine ⟨Nat.find hex, Nat.find_spec hex, fun l hl => not_lt.mp (Nat.find_min hex hl), ?_⟩
  obtain ⟨c1, c2, c3, c4, c5, c6⟩ := step_head_frame C st
  obtain ⟨st3, hs⟩ := source_terms_isSome C hv (step_head C st)
  obtain ⟨⟨d1, d2, d3, d4, d5⟩, dd⟩ := source_terms_frame C _ _ hs
  have e3 : st3.dt = find_dt C (snapshot C st) := by rw [d2, c6]
  have hrows : rows st3 = rows st := by
    unfold rows; rw [dd.1, dd.2.1, c5.1, c5.2.1]
  obtain ⟨st4, r, r1, r2, r3, r4, r5⟩ := iloop_bounded C (Nat.find hex) (rows st3) st3.i_min st3
    (by rw [e3]; exact hdt) (by rw [e3]; exact Nat.find_spec hex) (le_refl _)
  refine ⟨st3, st4, r, hs, r2, by rw [r3, e3], ?_⟩
  intro pf hpf
  have hi : iloop C pf st3.i_min st3 = some st4 := by
    apply iloop_mono_le C _ st3 st4 _ pf _ r1
    rw [hrows]
    have hm := add_mul (Nat.find hex) 1 (rows st + 2)
    rw [one_mul] at hm
    omega
  refine ⟨hi, fun hlt => ?_⟩
  have hts : time_step C pf st = Outcome.done st4 := by
    unfold time_step
    rw [if_neg (by rw [c6]; exact not_lt.mpr hdt), hs]
    simp only
    rw [hi]
    simp only
    rw [if_pos (r5 hlt).1]
  refine ⟨(r5 hlt).2, hts, fun fuel ht => ?_⟩
  rw [time_loop, if_pos ht, hts]

/-- C6 (time loop termination). For `0 < dt_min`, every accepted step
advances `t` by a `dt` with `dt_min <= dt <= dt_max` and increases `n_step` by
one; and the time loop, entered by `main` with `t = 0`, ends within
`ceil(t_max / dt_min)` passes through its body, hence after at most that many
accepted steps, because the time limit is reached (`stop_code = 0`), by the
momentum threshold (`stop_code = 1`) or by step-size collapse
(`stop_code = 2`). -/
theorem time_loop_terminates [FloorRing α] (C : Config α) (st0 : State α)
    (hv : ValidSwitches C) (hmin : 0 < C.dt_min) (hinit : MainInit C st0) :
    (∀ pf st st1, time_step C pf st = Outcome.next st1 →
      st1.t = st.t + st1.dt ∧ C.dt_min ≤ st1.dt ∧ st1.dt ≤ C.dt_max ∧
        st1.n_step = st.n_step + 1) ∧
    ∃ K : Nat, ∀ pf fuel, (K + 1) * (C.m.toNat + 2) ≤ pf → ⌈C.t_max / C.dt_min⌉₊ ≤ fuel →
      ∃ st1, time_loop C pf fuel st0 = Outcome.done st1 ∧
        0 ≤ st1.n_step ∧ st1.n_step ≤ ⌈C.t_max / C.dt_min⌉₊ ∧
        (st1.stop_code = 1 ∨ st1.stop_code = 2 ∨ (st1.stop_code = 0 ∧ C.t_max ≤ st1.t)) := by
  obtain ⟨i1, i2, i3, i4, i5, i6, i7, i8⟩ := hinit
  have hinv : LoopInv C st0 := by
    refine ⟨by rw [i3], by rw [i5], ?_⟩
    rw [i7]; decide
  constructor
  · intro pf st st1 h
    obtain ⟨a1, a2, a3, a4, _⟩ := time_step_next C hmin pf st st1 h
    exact ⟨a1, a2, a3, a4⟩
  · have hK : ∃ K : Nat, (4 / 5 : α) ^ K * C.dt_max < C.dt_min := by
      rcases le_or_lt C.dt_max 0 with hle | hgt
      · exact ⟨0, by simp only [pow_zero, one_mul]; exact lt_of_le_of_lt hle hmin⟩
      · obtain ⟨n, hn⟩ := exists_pow_lt_of_lt_one (div_pos hmin hgt)
          (show (4 / 5 : α) < 1 by norm_num)
        exact ⟨n, (lt_div_iff₀ hgt).mp hn⟩
    obtain ⟨K, hK⟩ := hK
    refine ⟨K, fun pf fuel hpf hfuel => ?_⟩
    have hN : C.t_max ≤ st0.t + (⌈C.t_max / C.dt_min⌉₊ : α) * C.dt_min := by
      have h1 : C.t_max / C.dt_min ≤ (⌈C.t_max / C.dt_min⌉₊ : α) := Nat.le_ceil _
      have h2 : C.t_max ≤ (⌈C.t_max / C.dt_min⌉₊ : α) * C.dt_min := (div_le_iff₀ hmin).mp h1
      rw [i1]
      linarith
    obtain ⟨st1, b1, b2, b3, b4⟩ :=
      time_loop_bounded C hv hmin K hK pf hpf _ st0 hinv hN fuel hfuel
    rw [i2] at b2 b3
    rw [i8] at b4
    exact ⟨st1, b1, b3, by simpa using b2, b4⟩

/-! Erosion rate limit (lines 398-406) -/

theorem limit_source_erosion (C : Config α) (i j : Int) (st : State α)
    (he : C.eromod > 0) (hs : st.src i j 0 > 0) :
    (limit_source C i j st).src i j 0 = min (st.src i j 0) (st.b i j * st.dA i j / (C.rrb * st.dt))
    ∧ (limit_source C i j st).b i j
      = max 0 (st.b i j - (limit_source C i j st).src i j 0 * C.rrb * st.dt / st.dA i j) := by
  unfold limit_source
  rw [if_pos ⟨he, hs⟩]
  simp [set3, set2, MIN_eq_min, MAX_eq_max]

theorem cell_flux_src_b (C : Config α) (i j : Int) (st : State α) :
    (cell_flux C i j st).src = (limit_source C i j st).src ∧
      (cell_flux C i j st).b = (limit_source C i j st).b := ⟨rfl, rfl⟩

/-- C9 (erosion rate limiting). When cell `(i,j)` is visited by the
transport pass with erosion active (`eromod > 0`, positive mass source) and
bed depth `D = b[i][j]`, the mass source used for the cell is at most
`D * dA / (rrb * dt)`, the bed depth removed is at most `D`, and the updated
bed depth is non-negative. -/
theorem erosion_rate_limited (C : Config α) (i j : Int) (st : State α)
    (he : C.eromod > 0) (hs : st.src i j 0 > 0) :
    (cell_flux C i j st).src i j 0 ≤ st.b i j * st.dA i j / (C.rrb * st.dt) ∧
    st.b i j - (cell_flux C i j st).b i j ≤ st.b i j ∧
    0 ≤ (cell_flux C i j st).b i j := by
  obtain ⟨e1, e2⟩ := limit_source_erosion C i j st he hs
  obtain ⟨f1, f2⟩ := cell_flux_src_b C i j st
  rw [f1, f2, e1]
  have hb : 0 ≤ (limit_source C i j st).b i j := by rw [e2]; exact le_max_left _ _
  exact ⟨min_le_right _ _, by linarith, hb⟩

/-! Forest destruction (lines 778-795) -/

theorem nD_min_pos : (0 : α) < nD_min := by
  unfold nD_min; norm_num

/-- One visit of `forest_cell`, seen from cell `(i,j)`: a non-zero decay
constant stays as it is; with `decay_const * dt >= 0` the opacity does not
increase, and a non-negative opacity stays non-negative. -/
theorem forest_cell_step (C : Config α) (p q i j : Int) (st : State α) :
    (st.decay_const i j ≠ 0 →
      (forest_cell C p q st).decay_const i j = st.decay_const i j) ∧
    (st.decay_const i j ≠ 0 → 0 ≤ st.decay_const i j * st.dt →
      (forest_cell C p q st).nD i j ≤ st.nD i j) ∧
    (0 ≤ st.nD i j → 0 ≤ (forest_cell C p q st).nD i j) := by
  unfold forest_cell
  split_ifs with h1 h2 h3
  · refine ⟨fun hne => ?_, fun _ _ => le_refl _, fun h => h⟩
    simp only [set2]
    split_ifs with e
    · obtain ⟨rfl, rfl⟩ := e; exact absurd h2 hne
    · rfl
  · exact ⟨fun _ => rfl, fun _ _ => le_refl _, fun h => h⟩
  · refine ⟨fun _ => rfl, fun _ hdc => ?_, fun h => ?_⟩
    · simp only [set2]
      split_ifs with e
      · obtain ⟨rfl, rfl⟩ := e
        have hpos : 0 < st.nD i j := lt_trans nD_min_pos h1.2
        rw [MAX_eq_max]
        have : max 0 (1 - st.decay_const i j * st.dt) ≤ 1 := max_le (by norm_num) (by linarith)
        calc st.nD i j * max 0 (1 - st.decay_const i j * st.dt) ≤ st.nD i j * 1 :=
              mul_le_mul_of_nonneg_left this (le_of_lt hpos)
          _ = st.nD i j := mul_one _
      · exact le_refl _
    · simp only [set2]
      split_ifs with e
      · obtain ⟨rfl, rfl⟩ := e
        rw [MAX_eq_max]
        exact mul_nonneg h (le_max_left _ _)
      · exact h
  · exact ⟨fun _ => rfl, fun _ _ => le_refl _, fun h => h⟩

theorem momentum_source_forest (C : Config α) (i j : Int) (tau_b : α) (st : State α) :
    (momentum_source C i j tau_b st).nD = st.nD ∧
      (momentum_source C i j tau_b st).decay_const = st.decay_const ∧
      (momentum_source C i j tau_b st).dt = st.dt := by
  unfold momentum_source
  split_ifs <;> exact ⟨rfl, rfl, rfl⟩

/-- One visit of `source_cell`, seen from the forest of cell `(i,j)`. -/
theorem source_cell_forest (C : Config α) (p q i j : Int) (s s1 : State α)
    (hb : source_cell C p q s = some s1) :
    s1.dt = s.dt ∧
    (s.decay_const i j ≠ 0 → s1.decay_const i j = s.decay_const i j) ∧
    (s.decay_const i j ≠ 0 → 0 ≤ s.decay_const i j * s.dt → s1.nD i j ≤ s.nD i j) ∧
    (0 ≤ s.nD i j → 0 ≤ s1.nD i j) := by
  obtain ⟨src0, tau_b, e⟩ := source_cell_some C p q s s1 hb
  have hdt : s1.dt = s.dt := (source_cell_frame C p q s s1 hb).1.2.1
  have m1 : (momentum_source C p q tau_b { s with src := set3 s.src p q 0 src0 }).nD = s.nD :=
    (momentum_source_forest C p q tau_b { s with src := set3 s.src p q 0 src0 }).1
  have m2 : (momentum_source C p q tau_b { s with src := set3 s.src p q 0 src0 }).decay_const
      = s.decay_const :=
    (momentum_source_forest C p q tau_b { s with src := set3 s.src p q 0 src0 }).2.1
  have m3 : (momentum_source C p q tau_b { s with src := set3 s.src p q 0 src0 }).dt = s.dt :=
    (momentum_source_forest C p q tau_b { s with src := set3 s.src p q 0 src0 }).2.2
  have f := forest_cell_step C p q i j
    (momentum_source C p q tau_b { s with src := set3 s.src p q 0 src0 })
  rw [← e] at f
  generalize momentum_source C p q tau_b { s with src := set3 s.src p q 0 src0 } = m at m1 m2 m3 f
  rw [m1, m2, m3] at f
  exact ⟨hdt, f.1, f.2.1, f.2.2⟩

/-- One call of `source_terms`, seen from the forest of cell `(i,j)`. -/
theorem source_terms_forest (C : Config α) (i j : Int) (st st1 : State α)
    (h : source_terms C st = some st1) (hne : st.decay_const i j ≠ 0) :
    st1.decay_const i j = st.decay_const i j ∧
    (0 ≤ st.decay_const i j * st.dt → st1.nD i j ≤ st.nD i j) ∧
    (0 ≤ st.nD i j → 0 ≤ st1.nD i j) := by
  unfold source_terms at h
  have key := forRangeM2_inv
    (fun x : State α => x.dt = st.dt ∧ x.decay_const i j = st.decay_const i j ∧
      (0 ≤ st.decay_const i j * st.dt → x.nD i j ≤ st.nD i j) ∧
      (0 ≤ st.nD i j → 0 ≤ x.nD i j))
    (fun p q y => source_cell C p q y) _ _ _ _ st st1
    ⟨rfl, rfl, fun _ => le_refl _, fun h => h⟩ ?_ h
  · exact key.2
  · intro p q s s1 ⟨a1, a2, a3, a4⟩ hb
    obtain ⟨b1, b2, b3, b4⟩ := source_cell_forest C p q i j s s1 hb
    have hne1 : s.decay_const i j ≠ 0 := by rw [a2]; exact hne
    refine ⟨b1.trans a1, (b2 hne1).trans a2, fun h0 => ?_, fun h0 => b4 (a4 h0)⟩
    have h0s : 0 ≤ s.decay_const i j * s.dt := by rw [a2, a1]; exact h0
    exact le_trans (b3 hne1 h0s) (a3 h0)

/-- C10, as amended (forest monotonicity). Over every sequence of calls of
`source_terms` with `dt >= 0`: once `decay_const[i][j]` is non-zero it never
changes again (the cell never returns to the intact state `decay_const == 0`);
and if that constant is positive, the opacity `nD[i][j]` does not increase, and
a non-negative opacity stays non-negative. -/
theorem forest_monotone (i j : Int) (nD0 dc0 nD1 dc1 : α)
    (hrun : ForestRun i j nD0 dc0 nD1 dc1) (hne : dc0 ≠ 0) :
    dc1 = dc0 ∧ dc1 ≠ 0 ∧ (0 < dc0 → nD1 ≤ nD0) ∧ (0 ≤ nD0 → 0 ≤ nD1) := by
  induction hrun with
  | start => exact ⟨rfl, hne, fun _ => le_refl _, fun h => h⟩
  | call C st st1 _ hdt hsrc ih =>
    obtain ⟨a1, a2, a3, a4⟩ := ih
    obtain ⟨b1, b2, b3⟩ := source_terms_forest C i j st st1 hsrc a2
    refine ⟨b1.trans a1, by rw [b1]; exact a2, fun hpos => ?_, fun h0 => b3 (a4 h0)⟩
    have : 0 ≤ st.decay_const i j * st.dt := by
      rw [a1]; exact mul_nonneg (le_of_lt hpos) hdt
    exact le_trans (b2 this) (a3 hpos)

/-! Rest-state stability (lines 389-537) -/

/-- A state in the frame of the i-loop, written as an update of the first
state. -/
theorem LoopFrame.env {st s : State α} (h : LoopFrame st s) :
    s = { st with
          f_new := s.f_new
          src := s.src
          b := s.b
          d := s.d
          repeat_flag := s.repeat_flag
          dt := s.dt
          stop_code := s.stop_code } := by
  unfold LoopFrame at h
  rw [← h]

theorem add3_apply (f : Grid3 α) (a b : Int) (c : Nat) (x : α) (i j : Int) (e : Nat) :
    add3 f a b c x i j e = if i = a ∧ j = b ∧ e = c then f a b c + x else f i j e := rfl

theorem sub3_apply (f : Grid3 α) (a b : Int) (c : Nat) (x : α) (i j : Int) (e : Nat) :
    sub3 f a b c x i j e = if i = a ∧ j = b ∧ e = c then f a b c - x else f i j e := rfl

/-- A flux added to another cell does not change cell `(i,j)`. -/
theorem add_flux_other (f : Grid3 α) (a b : Int) (qh uu vv : α) (i j : Int) (e : Nat)
    (hne : ¬ (i = a ∧ j = b)) : add_flux f a b qh uu vv i j e = f i j e := by
  unfold add_flux
  simp only [add3_apply]
  have h1 : ∀ c : Nat, ¬ (i = a ∧ j = b ∧ e = c) := fun c hc => hne ⟨hc.1, hc.2.1⟩
  simp only [h1, if_false]

/-- A zero flux changes nothing. -/
theorem add_flux_zero (f : Grid3 α) (a b : Int) (uu vv : α) (i j : Int) (e : Nat) :
    add_flux f a b 0 uu vv i j e = f i j e := by
  unfold add_flux
  simp only [add3_apply, zero_mul, add_zero]
  split_ifs with h1 h2 h3 <;> simp_all

/-- A flux that vanishes whenever its target is `(i,j)` does not change cell
`(i,j)`. -/
theorem add_flux_inert (f : Grid3 α) (a b : Int) (qh uu vv : α) (i j : Int) (e : Nat)
    (h0 : (a = i ∧ b = j) → qh = 0) : add_flux f a b qh uu vv i j e = f i j e := by
  by_cases hab : i = a ∧ j = b
  · rw [h0 ⟨hab.1.symm, hab.2.symm⟩]
    exact add_flux_zero f a b uu vv i j e
  · exact add_flux_other f a b qh uu vv i j e hab

/-- The fluxes of a donor cell `(p,q)` do not change cell `(i,j)` when each
flux that is aimed at `(i,j)` vanishes. -/
theorem flux_in_inert (C : Config α) (p q : Int) (st : State α) (f : Grid3 α) (i j : Int)
    (e : Nat)
    (hx : (p + flux_di st p q = i ∧ q = j) → qhx st p q = 0)
    (hy : (p = i ∧ q + flux_dj st p q = j) → qhy st p q = 0)
    (hd : (p + flux_di st p q = i ∧ q + flux_dj st p q = j) → qhd st p q = 0) :
    flux_in C p q st f i j e = f i j e := by
  unfold flux_in
  try dsimp only
  split_ifs <;>
    first
    | rfl
    | simp only [add_flux_inert _ _ _ _ _ _ _ _ _ hx, add_flux_inert _ _ _ _ _ _ _ _ _ hy,
        add_flux_inert _ _ _ _ _ _ _ _ _ hd]

theorem flux_di_cases (st : State α) (p q : Int) :
    flux_di st p q = 1 ∨ flux_di st p q = -1 := by
  unfold flux_di; split_ifs
  · left; rfl
  · right; rfl

theorem flux_dj_cases (st : State α) (p q : Int) :
    flux_dj st p q = 1 ∨ flux_dj st p q = -1 := by
  unfold flux_dj; split_ifs
  · left; rfl
  · right; rfl

/-- The outflow of lines 428-430 changes only the donor cell. -/
theorem flux_out_other (p q : Int) (st : State α) (i j : Int) (e : Nat)
    (hne : ¬ (i = p ∧ j = q)) : flux_out p q st i j e = st.f_new i j e := by
  unfold flux_out
  simp only [sub3_apply]
  have h1 : ∀ c : Nat, ¬ (i = p ∧ j = q ∧ e = c) := fun c hc => hne ⟨hc.1, hc.2.1⟩
  simp only [h1, if_false]

/-- A donor cell with zero velocity has no outflow of momentum. -/
theorem flux_out_rest (i j : Int) (st : State α) (hu : st.u i j = 0) (hv : st.v i j = 0)
    (e : Nat) (he : e = 1 ∨ e = 2) : flux_out i j st i j e = st.f_new i j e := by
  unfold flux_out
  simp only [sub3_apply, hu, hv, mul_zero, add_zero, sub_zero]
  rcases he with rfl | rfl <;> simp

theorem limit_source_env (C : Config α) (p q : Int) (st : State α) :
    (limit_source C p q st).f_new = st.f_new ∧ (limit_source C p q st).u = st.u ∧
    (limit_source C p q st).v = st.v ∧ (limit_source C p q st).h = st.h ∧
    (limit_source C p q st).dt = st.dt ∧ (limit_source C p q st).dx = st.dx ∧
    (limit_source C p q st).dy = st.dy := by
  unfold limit_source
  split_ifs <;> exact ⟨rfl, rfl, rfl, rfl, rfl, rfl, rfl⟩

/-- The fluxes depend on the state only through `h, u, v, dx, dy, dt`. -/
theorem flux_congr (s1 s2 : State α) (hh : s1.h = s2.h) (hu : s1.u = s2.u) (hv : s1.v = s2.v)
    (hx : s1.dx = s2.dx) (hy : s1.dy = s2.dy) (ht : s1.dt = s2.dt) (p q : Int) :
    qhx s1 p q = qhx s2 p q ∧ qhy s1 p q = qhy s2 p q ∧ qhd s1 p q = qhd s2 p q ∧
    flux_di s1 p q = flux_di s2 p q ∧ flux_dj s1 p q = flux_dj s2 p q := by
  unfold qhx qhy qhd flux_di flux_dj flux_aux flux_auy
  rw [hh, hu, hv, hx, hy, ht]
  exact ⟨rfl, rfl, rfl, rfl, rfl⟩

/-- Visiting a cell `(p,q)` whose fluxes toward `(i,j)` vanish leaves the
momentum of cell `(i,j)` as it is, provided `(i,j)` itself is at rest. -/
theorem cell_flux_inert (C : Config α) (p q : Int) (st : State α) (i j : Int)
    (hu : st.u i j = 0) (hv : st.v i j = 0)
    (hx : (p + flux_di st p q = i ∧ q = j) → qhx st p q = 0)
    (hy : (p = i ∧ q + flux_dj st p q = j) → qhy st p q = 0)
    (hd : (p + flux_di st p q = i ∧ q + flux_dj st p q = j) → qhd st p q = 0)
    (e : Nat) (he : e = 1 ∨ e = 2) :
    (cell_flux C p q st).f_new i j e = st.f_new i j e := by
  obtain ⟨a1, a2, a3, a4, a5, a6, a7⟩ := limit_source_env C p q st
  obtain ⟨b1, b2, b3, b4, b5⟩ := flux_congr (limit_source C p q st) st a4 a2 a3 a6 a7 a5 p q
  show flux_in C p q (limit_source C p q st) (flux_out p q (limit_source C p q st)) i j e = _
  rw [flux_in_inert C p q (limit_source C p q st) _ i j e
    (by rw [b4, b1]; exact hx) (by rw [b5, b2]; exact hy) (by rw [b4, b5, b3]; exact hd)]
  by_cases hpq : i = p ∧ j = q
  · obtain ⟨rfl, rfl⟩ := hpq
    rw [flux_out_rest i j _ (by rw [a2]; exact hu) (by rw [a3]; exact hv) e he, a1]
  · rw [flux_out_other p q _ i j e hpq, a1]

/-- The momentum update of lines 496-518 changes only the visited cell, and
not even that one when it is at rest and the driving force does not exceed
the static friction. -/
theorem cell_momentum_inert (C : Config α) (p q : Int) (st : State α) (i j : Int)
    (hrest : st.s i j ≤ C.u_min ∧ ¬ F_drive_2 C st i j > F_fric_2 st i j) (e : Nat) :
    (cell_momentum C p q st).f_new i j e = st.f_new i j e := by
  by_cases hpq : i = p ∧ j = q
  · obtain ⟨rfl, rfl⟩ := hpq
    unfold cell_momentum
    rw [if_pos hrest.1, if_neg hrest.2]
  · unfold cell_momentum
    have h1 : ∀ c : Nat, ¬ (i = p ∧ j = q ∧ e = c) := fun c hc => hpq ⟨hc.1, hc.2.1⟩
    split_ifs <;> simp only [add3_apply, h1, if_false]

/-- One row of `memcpy` calls (lines 371-372). -/
theorem memcpy_row (f orig : Grid3 α) (i c d : Int) (p q : Int) (e : Nat) :
    forRange c d (fun j g => memcpy3 g orig i j) f p q e
      = if p = i ∧ c ≤ q ∧ q < d ∧ e < 3 then orig p q e else f p q e := by
  have key := forRange_inv
    (fun (j : Int) (g : Grid3 α) => ∀ p q e, g p q e
      = if p = i ∧ c ≤ q ∧ q < j ∧ q < d ∧ e < 3 then orig p q e else f p q e)
    (fun j g => memcpy3 g orig i j) c d f
    (by
      intro p q e
      rw [if_neg]
      rintro ⟨_, h1, h2, _⟩
      omega)
    (by
      intro j g hj1 hj2 hg p q e
      simp only [memcpy3, hg]
      by_cases h1 : p = i ∧ q = j ∧ e < 3
      · obtain ⟨rfl, rfl, h3⟩ := h1
        rw [if_pos ⟨rfl, rfl, h3⟩, if_pos ⟨rfl, hj1, by omega, hj2, h3⟩]
      · rw [if_neg h1]
        by_cases h2 : p = i ∧ c ≤ q ∧ q < j ∧ q < d ∧ e < 3
        · rw [if_pos h2, if_pos ⟨h2.1, h2.2.1, by omega, h2.2.2.2.1, h2.2.2.2.2⟩]
        · rw [if_neg h2, if_neg]
          rintro ⟨a1, a2, a3, a4, a5⟩
          by_cases h3 : q = j
          · exact h1 ⟨a1, h3, a5⟩
          · exact h2 ⟨a1, a2, by omega, a4, a5⟩)
  rw [key p q e]
  by_cases h : p = i ∧ c ≤ q ∧ q < d ∧ e < 3
  · rw [if_pos h, if_pos ⟨h.1, h.2.1, lt_of_lt_of_le h.2.2.1 (le_max_right _ _), h.2.2.1, h.2.2.2⟩]
  · rw [if_neg h, if_neg]
    rintro ⟨a1, a2, _, a4, a5⟩
    exact h ⟨a1, a2, a4, a5⟩

/-- The two nested loops of `memcpy` calls (lines 370-372): the cells of the
index rectangle are copied, all other cells are left as they are. -/
theorem memcpy_loops (dst orig : Grid3 α) (a b c d : Int) (p q : Int) (e : Nat) :
    forRange a b (fun i f => forRange c d (fun j g => memcpy3 g orig i j) f) dst p q e
      = if a ≤ p ∧ p < b ∧ c ≤ q ∧ q < d ∧ e < 3 then orig p q e else dst p q e := by
  have key := forRange_inv
    (fun (i : Int) (f : Grid3 α) => ∀ p q e, f p q e
      = if a ≤ p ∧ p < i ∧ p < b ∧ c ≤ q ∧ q < d ∧ e < 3 then orig p q e else dst p q e)
    (fun i f => forRange c d (fun j g => memcpy3 g orig i j) f) a b dst
    (by
      intro p q e
      rw [if_neg]
      rintro ⟨h1, h2, _⟩
      omega)
    (by
      intro i f hi1 hi2 hf p q e
      simp only [memcpy_row, hf]
      by_cases h1 : p = i ∧ c ≤ q ∧ q < d ∧ e < 3
      · obtain ⟨rfl, h2, h3, h4⟩ := h1
        rw [if_pos ⟨rfl, h2, h3, h4⟩, if_pos ⟨hi1, by omega, hi2, h2, h3, h4⟩]
      · rw [if_neg h1]
        by_cases h2 : a ≤ p ∧ p < i ∧ p < b ∧ c ≤ q ∧ q < d ∧ e < 3
        · rw [if_pos h2, if_pos ⟨h2.1, by omega, h2.2.2⟩]
        · rw [if_neg h2, if_neg]
          rintro ⟨a1, a2, a3, a4, a5, a6⟩
          by_cases h3 : p = i
          · exact h1 ⟨h3, a4, a5, a6⟩
          · exact h2 ⟨a1, by omega, a3, a4, a5, a6⟩)
  rw [key p q e]
  by_cases h : a ≤ p ∧ p < b ∧ c ≤ q ∧ q < d ∧ e < 3
  · rw [if_pos h, if_pos ⟨h.1, lt_of_lt_of_le h.2.1 (le_max_right _ _), h.2⟩]
  · rw [if_neg h, if_neg]
    rintro ⟨a1, _, a3⟩
    exact h ⟨a1, a3⟩

/-- What the restore block of lines 370-372 does: the cells of the Active
Domain are reset to `f_old`, all other cells of the Grid keep their value. -/
theorem restore_apply (st : State α) (p q : Int) (e : Nat) :
    restore st p q e
      = if inDomain st p q ∧ e < 3 then st.f_old p q e else st.f_new p q e := by
  unfold restore
  rw [memcpy_loops]
  unfold inDomain
  by_cases h : st.i_min ≤ p ∧ p < st.i_max ∧ st.j_min ≤ q ∧ q < st.j_max ∧ e < 3
  · rw [if_pos h, if_pos ⟨⟨h.1, h.2.1, h.2.2.1, h.2.2.2.1⟩, h.2.2.2.2⟩]
  · rw [if_neg h, if_neg]
    rintro ⟨⟨a1, a2, a3, a4⟩, a5⟩
    exact h ⟨a1, a2, a3, a4, a5⟩

/-- Invariant rule for the j-loop of the transport pass. -/
theorem jloop_inv (C : Config α) (i : Int) (P : State α → Prop)
    (hflag : ∀ s, P s → P { s with repeat_flag := 1 }) :
    ∀ (k : Nat) (j : Int) (st : State α),
      (∀ q s, j ≤ q → q < j + k → P s → P (cell_flux C i q s)) →
      (∀ q s, j ≤ q → q < j + k → P s → P (cell_momentum C i q s)) →
      P st → P (jloop C i k j st) := by
  intro k
  induction k with
  | zero => intro j st _ _ h; exact h
  | succ k ih =>
    intro j st hflux hmom h
    have hb : j < j + ((k + 1 : Nat) : Int) := by push_cast; omega
    unfold jloop
    simp only
    split_ifs
    · exact hflag _ (hflux j st le_rfl hb h)
    · apply ih
      · intro q s h1 h2 hs
        exact hflux q s (by omega) (by push_cast; omega) hs
      · intro q s h1 h2 hs
        exact hmom q s (by omega) (by push_cast; omega) hs
      · exact hmom j _ le_rfl hb (hflux j st le_rfl hb h)

/-- Invariant rule for the i-loop of the transport pass with its retries. -/
theorem iloop_inv (C : Config α) (P : State α → Prop)
    (hrow : ∀ i s, s.i_min ≤ i → i < s.i_max → P s → P (row_pass C i s))
    (hretry : ∀ s, P s → P (retry_state s))
    (hcoll : ∀ s, P s → P (collapse s)) :
    ∀ (fuel : Nat) (i : Int) (st st1 : State α), st.i_min ≤ i → P st →
      iloop C fuel i st = some st1 → P st1 := by
  intro fuel
  induction fuel with
  | zero => intro i st st1 _ _ h; simp [iloop] at h
  | succ fuel ih =>
    intro i st st1 hi hP h
    rw [iloop] at h
    split_ifs at h with h1 h2 h3
    · simp only [Option.some.injEq] at h
      subst h
      exact hcoll _ (hretry _ hP)
    · refine ih _ _ _ ?_ (hretry _ hP) h
      show st.i_min ≤ st.i_min - 1 + 1
      omega
    · refine ih _ _ _ ?_ (hrow _ _ hi h1 hP) h
      rw [(row_pass_frame C i st).i_min_eq]
      omega
    · simp only [Option.some.injEq] at h
      subst h
      exact hP

/-- The fields that the transport pass reads and never writes. -/
theorem LoopFrame.fields {st s : State α} (hf : LoopFrame st s) :
    s.u = st.u ∧ s.v = st.v ∧ s.s = st.s ∧ s.h = st.h ∧ s.dx = st.dx ∧ s.dy = st.dy ∧
    s.f_old = st.f_old ∧ s.gx = st.gx ∧ s.gy = st.gy ∧
    (∀ (C : Config α) i j, F_drive_2 C s i j = F_drive_2 C st i j) ∧
    (∀ i j, F_fric_2 s i j = F_fric_2 st i j) ∧
    (∀ p q, inDomain s p q ↔ inDomain st p q) := by
  unfold LoopFrame at hf
  refine ⟨?_, ?_, ?_, ?_, ?_, ?_, ?_, ?_, ?_, ?_, ?_, ?_⟩
  · have e := congrArg State.u hf; exact e
  · have e := congrArg State.v hf; exact e
  · have e := congrArg State.s hf; exact e
  · have e := congrArg State.h hf; exact e
  · have e := congrArg State.dx hf; exact e
  · have e := congrArg State.dy hf; exact e
  · have e := congrArg State.f_old hf; exact e
  · have e := congrArg State.gx hf; exact e
  · have e := congrArg State.gy hf; exact e
  · intro C i j
    have e := congrArg (fun x => F_drive_2 C x i j) hf
    exact e
  · intro i j
    have e := congrArg (fun x => F_fric_2 x i j) hf
    exact e
  · intro p q
    have e := congrArg (fun x => inDomain x p q) hf
    exact Iff.of_eq e

theorem set3_other (f : Grid3 α) (p q : Int) (c : Nat) (x : α) (i j : Int) (e : Nat)
    (hne : ¬ (i = p ∧ j = q)) : set3 f p q c x i j e = f i j e := by
  unfold set3
  rw [if_neg (fun hc => hne ⟨hc.1, hc.2.1⟩)]

/-- The reversal check of lines 528-537 at cell `(p,q)` leaves a cell
`(i,j)` alone whose momentum is the one of the snapshot. -/
theorem arrest_cell_inert (C : Config α) (p q : Int) (s : State α) (i j : Int)
    (h1 : s.f_new i j 1 = s.f_old i j 1) (h2 : s.f_new i j 2 = s.f_old i j 2) :
    (arrest_cell C p q s).f_old = s.f_old ∧
    (arrest_cell C p q s).f_new i j 1 = s.f_new i j 1 ∧
    (arrest_cell C p q s).f_new i j 2 = s.f_new i j 2 := by
  unfold arrest_cell
  by_cases hpq : i = p ∧ j = q
  · obtain ⟨rfl, rfl⟩ := hpq
    have hnot : ¬ (s.f_old i j 1 * s.f_new i j 1 + s.f_old i j 2 * s.f_new i j 2 < 0
        ∧ s.f_new i j 1 * s.gx i j + s.f_new i j 2 * s.gy i j < 0) := by
      rintro ⟨hneg, _⟩
      rw [h1, h2] at hneg
      nlinarith [mul_self_nonneg (s.f_old i j 1), mul_self_nonneg (s.f_old i j 2)]
    rw [if_neg hnot]
    exact ⟨rfl, rfl, rfl⟩
  · split_ifs <;> refine ⟨rfl, ?_, ?_⟩ <;>
      first
      | rfl
      | simp only [set3_other _ _ _ _ _ _ _ _ hpq]

/-- The reversal check of lines 526-537 leaves a cell alone whose momentum
is the one of the snapshot. -/
theorem arrest_inert (C : Config α) (st : State α) (i j : Int)
    (h1 : st.f_new i j 1 = st.f_old i j 1) (h2 : st.f_new i j 2 = st.f_old i j 2) :
    (arrest C st).f_new i j 1 = st.f_new i j 1 ∧ (arrest C st).f_new i j 2 = st.f_new i j 2 := by
  unfold arrest
  have key := forRange2_inv
    (fun x : State α => x.f_old = st.f_old ∧ x.f_new i j 1 = st.f_new i j 1 ∧
      x.f_new i j 2 = st.f_new i j 2)
    (fun p q y => arrest_cell C p q y) st.i_min st.i_max st.j_min st.j_max st ⟨rfl, rfl, rfl⟩ ?_
  · exact key.2
  · intro p q s ⟨a0, a1, a2⟩
    obtain ⟨b0, b1, b2⟩ := arrest_cell_inert C p q s i j (by rw [a1, a0, h1]) (by rw [a2, a0, h2])
    exact ⟨b0.trans a0, b1.trans a1, b2.trans a2⟩

/-- C8 (rest-state stability). Let `st` be the state at the start of the
transport pass of a time step (the snapshot `f_old` holds the momentum of the
cell).  If the active cell `(i,j)` has zero velocity and speed `s <= u_min`,
receives no advective inflow, and its squared driving force `F_drive_2` does
not exceed the squared static friction `F_fric_2 = (mu*gz*mass)^2`, then after
the pass, with any number of retries, and after the reversal check its
momentum components `f_new[i][j][1]` and `f_new[i][j][2]` are unchanged. -/
theorem rest_state_is_stable (C : Config α) (st : State α) (i j : Int)
    (hdom : inDomain st i j) (hu : st.u i j = 0) (hv : st.v i j = 0)
    (hs : st.s i j ≤ C.u_min) (hin : NoInflow st i j)
    (hF : F_drive_2 C st i j ≤ F_fric_2 st i j)
    (hold1 : st.f_old i j 1 = st.f_new i j 1) (hold2 : st.f_old i j 2 = st.f_new i j 2)
    (fuel : Nat) (st4 : State α) (hpass : iloop C fuel st.i_min st = some st4) :
    (arrest C st4).f_new i j 1 = st.f_new i j 1 ∧
    (arrest C st4).f_new i j 2 = st.f_new i j 2 := by
  have key := iloop_inv C
    (fun s : State α => LoopFrame st s ∧ s.f_new i j 1 = st.f_new i j 1 ∧
      s.f_new i j 2 = st.f_new i j 2) ?_ ?_ ?_ fuel st.i_min st st4 le_rfl
      ⟨LoopFrame.lrefl st, rfl, rfl⟩ hpass
  · obtain ⟨k0, k1, k2⟩ := key
    obtain ⟨_, _, _, _, _, _, e7, _⟩ := k0.fields
    obtain ⟨a1, a2⟩ := arrest_inert C st4 i j (by rw [k1, e7, hold1]) (by rw [k2, e7, hold2])
    exact ⟨a1.trans k1, a2.trans k2⟩
  · -- a row of the pass
    intro p s hp1 hp2 ⟨hf, h1, h2⟩
    unfold row_pass
    apply jloop_inv C p
      (fun x : State α => LoopFrame st x ∧ x.f_new i j 1 = st.f_new i j 1 ∧
        x.f_new i j 2 = st.f_new i j 2)
    · intro x ⟨xf, x1, x2⟩
      exact ⟨xf.ltrans rfl, x1, x2⟩
    · intro q x hq1 hq2 ⟨xf, x1, x2⟩
      obtain ⟨e1, e2, e3, e4, e5, e6, e7, _, _, e8, e9, e10⟩ := xf.fields
      have hq3 : q < s.j_max := by
        have := Int.toNat_of_nonneg (show 0 ≤ s.j_max - s.j_min by
          by_contra hneg
          rw [Int.toNat_eq_zero.mpr (by omega)] at hq2
          simp at hq2
          omega)
        omega
      have hpq : inDomain st p q := by
        have := (hf.fields.2.2.2.2.2.2.2.2.2.2.2 p q).mp ⟨hp1, hp2, hq1, hq3⟩
        exact this
      obtain ⟨n1, n2, n3⟩ := hin p q x.dt hpq
      obtain ⟨c1, c2, c3, c4, c5⟩ :=
        flux_congr x { st with dt := x.dt } e4 e1 e2 e5 e6 rfl p q
      have c4a : flux_di x p q = flux_di st p q := c4
      have c5a : flux_dj x p q = flux_dj st p q := c5
      have hux : x.u i j = 0 := by rw [e1]; exact hu
      have hvx : x.v i j = 0 := by rw [e2]; exact hv
      have g1 := cell_flux_inert C p q x i j hux hvx
        (by rw [c4a, c1]; exact n1) (by rw [c5a, c2]; exact n2)
        (by rw [c4a, c5a, c3]; exact n3)
      exact ⟨xf.ltrans (cell_flux_frame C p q x).toLoop, (g1 1 (Or.inl rfl)).trans x1,
        (g1 2 (Or.inr rfl)).trans x2⟩
    · intro q x _ _ ⟨xf, x1, x2⟩
      obtain ⟨e1, e2, e3, e4, e5, e6, e7, _, _, e8, e9, e10⟩ := xf.fields
      have hrest : x.s i j ≤ C.u_min ∧ ¬ F_drive_2 C x i j > F_fric_2 x i j := by
        rw [e3, e8, e9]
        exact ⟨hs, not_lt.mpr hF⟩
      exact ⟨xf.ltrans (cell_momentum_frame C p q x).toLoop,
        (cell_momentum_inert C p q x i j hrest 1).trans x1,
        (cell_momentum_inert C p q x i j hrest 2).trans x2⟩
    · exact ⟨hf, h1, h2⟩
  · -- the restore block
    intro s ⟨hf, _, _⟩
    obtain ⟨_, _, _, _, _, _, e7, _, _, _, _, e10⟩ := hf.fields
    have hd : inDomain s i j := (e10 i j).mpr hdom
    refine ⟨hf.ltrans (retry_state_frame s), ?_, ?_⟩
    · show restore s i j 1 = _
      rw [restore_apply, if_pos ⟨hd, by norm_num⟩, e7, hold1]
    · show restore s i j 2 = _
      rw [restore_apply, if_pos ⟨hd, by norm_num⟩, e7, hold2]
  · -- the collapse of the step size
    intro s ⟨hf, h1, h2⟩
    exact ⟨hf.ltrans (collapse_frame s), h1, h2⟩

/-- A negative mass found in the last row of the Active Domain ends the
i-loop: the row after it does not exist, so the block for `repeat_flag == 1`
is not reached, and the pass returns the state of the aborted row. -/
theorem iloop_last_row_abort (C : Config α) (fuel : Nat) (i : Int) (st : State α)
    (hlast : i = st.i_max - 1) (hflag : st.repeat_flag ≠ 1) :
    iloop C (fuel + 2) i st = some (row_pass C i st) := by
  have h1 : i < st.i_max := by omega
  have h2 : ¬ (i + 1 < (row_pass C i st).i_max) := by
    rw [(row_pass_frame C i st).i_max_eq]; omega
  rw [iloop, if_pos h1, if_neg hflag, iloop, if_neg h2]

/-! Evaluation of the model at concrete states -/

set_option maxRecDepth 1000000 in
/-- C3 (negative-height retry), evaluated in state A. Cell `(1,0)` lies in
the last row `i = i_max - 1` of the Active Domain.  With the step 3/16
returned by `find_dt` its updated mass is `-1/320 < 0`; the i-loop then ends
with `repeat_flag = 1`: `f_new` is not restored from the snapshot (`1/40`),
`dt` is not multiplied by 0.8, the pass is not restarted, and the step is
accepted. -/
theorem last_row_abort_is_not_retried :
    stA.i_max - 1 = 1 ∧
    (step_head cfgA stA).dt = 3 / 16 ∧
    (pass_start cfgA stA).map (fun s => s.f_old 1 0 0) = some (1 / 40) ∧
    (pass_result cfgA 10 stA).map (fun s => s.f_new 1 0 0) = some (-1 / 320) ∧
    (pass_result cfgA 10 stA).map (fun s => s.repeat_flag) = some 1 ∧
    (pass_result cfgA 10 stA).map (fun s => s.dt) = some (3 / 16) ∧
    (Outcome.accepted (time_step cfgA 10 stA)).isSome = true := by
  refine ⟨by decide, ?_, ?_, ?_, ?_, ?_, ?_⟩ <;> decide!

theorem stA_mass_nonneg : ∀ i j : Int, 0 ≤ stA.f_new i j 0 := by
  intro i j
  simp only [stA, cell3]
  split_ifs <;> norm_num

set_option maxRecDepth 1000000 in
/-- C2 (non-negativity), evaluated in state A. All cell masses are
non-negative at the start of the step; the time step is accepted
(`stop_code` 0, the time advances to 3/16, `n_step` becomes 1), and the
committed state has the negative mass `-1/320` in cell `(1,0)`. -/
theorem accepted_step_with_negative_mass :
    (∀ i j : Int, 0 ≤ stA.f_new i j 0) ∧
    (Outcome.accepted (time_step cfgA 10 stA)).map (fun s => s.f_new 1 0 0) = some (-1 / 320) ∧
    (Outcome.accepted (time_step cfgA 10 stA)).map (fun s => s.stop_code) = some 0 ∧
    (Outcome.accepted (time_step cfgA 10 stA)).map (fun s => s.t) = some (3 / 16) ∧
    (Outcome.accepted (time_step cfgA 10 stA)).map (fun s => s.n_step) = some 1 := by
  refine ⟨stA_mass_nonneg, ?_, ?_, ?_, ?_⟩ <;> decide!

set_option maxRecDepth 1000000 in
/-- C4 (atomic whole-grid restore), evaluated in state B. Row 0 of the pass
is aborted at cell `(0,1)` (`repeat_flag = 1`).  After the block that restores
`f_new` (`retry_state`), cell `(0,1)` of the Active Domain has its start value
`1/160` again, but cell `(0,2)`, inside the Grid and outside the Active Domain,
keeps the flux `9/1280` that the aborted pass added to its start value 0.  At
the end of the retried pass it holds `9/1280 + 9/1600 = 81/6400`, where
`9/1600` is the flux of the pass with the reduced step 3/20. -/
theorem restore_misses_cells_outside_domain :
    (pass_start cfgB stB).map (fun s => (s.f_new 0 2 0, s.f_old 0 2 0)) = some (0, 0) ∧
    (pass_start cfgB stB).map (fun s => (row_pass cfgB 0 s).repeat_flag) = some 1 ∧
    (pass_start cfgB stB).map (fun s => (retry_state (row_pass cfgB 0 s)).f_new 0 1 0)
      = some (1 / 160) ∧
    (pass_start cfgB stB).map (fun s => (retry_state (row_pass cfgB 0 s)).f_new 0 2 0)
      = some (9 / 1280) ∧
    (pass_result cfgB 20 stB).map (fun s => s.dt) = some (3 / 20) ∧
    (pass_result cfgB 20 stB).map (fun s => s.repeat_flag) = some 0 ∧
    (pass_result cfgB 20 stB).map (fun s => s.f_new 0 2 0) = some (81 / 6400) ∧
    (pass_result cfgB 20 stB).map (fun s => qhy s 0 1) = some (9 / 1600) := by
  refine ⟨?_, ?_, ?_, ?_, ?_, ?_, ?_, ?_⟩ <;> decide!

theorem stB_targets_in_grid : ∀ i j : Int, inDomain stB i j →
    0 ≤ i + flux_di stB i j ∧ i + flux_di stB i j < cfgB.m ∧
    0 ≤ j + flux_dj stB i j ∧ j + flux_dj stB i j < cfgB.n := by
  intro i j ⟨h1, h2, h3, h4⟩
  have hu : stB.u i j ≥ 0 := by
    simp only [stB, cellG]
    split_ifs <;> norm_num
  have hv : stB.v i j ≥ 0 := by
    simp only [stB, cellG]
    split_ifs <;> norm_num
  have e1 : stB.i_min = 0 := rfl
  have e2 : stB.i_max = 3 := rfl
  have e3 : stB.j_min = 0 := rfl
  have e4 : stB.j_max = 2 := rfl
  have e5 : cfgB.m = 4 := rfl
  have e6 : cfgB.n = 3 := rfl
  rw [e1] at h1
  rw [e2] at h2
  rw [e3] at h3
  rw [e4] at h4
  rw [e5, e6]
  unfold flux_di flux_dj
  rw [if_pos hu, if_pos hv]
  omega

set_option maxRecDepth 1000000 in
/-- C1 (mass conservation), evaluated in state B. Erosion and deposition
are off and every downstream neighbour of every active cell lies inside the
Grid, yet the total mass on the Grid, `1/32` before the step, is `49/1280`
after the accepted step: it has grown by the flux `9/1280` that the aborted
pass left in cell `(0,2)`. -/
theorem mass_grows_over_a_retried_step :
    cfgB.eromod = 0 ∧ cfgB.dep = 0 ∧
    (∀ i j : Int, inDomain stB i j →
      0 ≤ i + flux_di stB i j ∧ i + flux_di stB i j < cfgB.m ∧
      0 ≤ j + flux_dj stB i j ∧ j + flux_dj stB i j < cfgB.n) ∧
    tot_vol cfgB stB.f_new = 1 / 32 ∧
    (Outcome.accepted (time_step cfgB 20 stB)).map (fun s => tot_vol cfgB s.f_new)
      = some (49 / 1280) ∧
    (Outcome.accepted (time_step cfgB 20 stB)).map (fun s => s.stop_code) = some 0 := by
  refine ⟨rfl, rfl, stB_targets_in_grid, ?_, ?_, ?_⟩ <;> decide!

theorem cfgB_valid : ValidSwitches cfgB := by
  unfold ValidSwitches
  decide

theorem cfgA_valid : ValidSwitches cfgA := by
  unfold ValidSwitches
  decide

set_option maxRecDepth 1000000 in
/-- Witness of C5 in state B, where the pass is retried once. -/
theorem retry_is_bounded_witness :
    ValidSwitches cfgB ∧ 0 < cfgB.dt_min ∧ cfgB.dt_min ≤ find_dt cfgB (snapshot cfgB stB) ∧
    ∃ k : Nat, (4 / 5 : ℚ) ^ k * find_dt cfgB (snapshot cfgB stB) < cfgB.dt_min ∧
      (∀ l, l < k → cfgB.dt_min ≤ (4 / 5 : ℚ) ^ l * find_dt cfgB (snapshot cfgB stB)) ∧
      ∃ (st3 st4 : State ℚ) (r : Nat),
        source_terms cfgB (step_head cfgB stB) = some st3 ∧ r ≤ k ∧
        st4.dt = (4 / 5 : ℚ) ^ r * find_dt cfgB (snapshot cfgB stB) ∧
        ∀ pf, (k + 1) * (rows stB + 2) ≤ pf →
          iloop cfgB pf st3.i_min st3 = some st4 ∧
          (st4.dt < cfgB.dt_min →
            st4.stop_code = 2 ∧ time_step cfgB pf stB = Outcome.done st4 ∧
            ∀ fuel, stB.t < cfgB.t_max → time_loop cfgB pf (fuel + 1) stB = Outcome.done st4) :=
  ⟨cfgB_valid, by decide!, by decide!,
    retry_is_bounded cfgB stB cfgB_valid (by decide!) (by decide!)⟩

theorem stA_init : MainInit cfgA stA := by
  unfold MainInit
  exact ⟨rfl, rfl, rfl, rfl, rfl, rfl, rfl, rfl⟩

set_option maxRecDepth 1000000 in
/-- Witness of C6 for the run that starts in state A. -/
theorem time_loop_terminates_witness :
    ValidSwitches cfgA ∧ 0 < cfgA.dt_min ∧ MainInit cfgA stA ∧
    ((∀ pf st st1, time_step cfgA pf st = Outcome.next st1 →
      st1.t = st.t + st1.dt ∧ cfgA.dt_min ≤ st1.dt ∧ st1.dt ≤ cfgA.dt_max ∧
        st1.n_step = st.n_step + 1) ∧
    ∃ K : Nat, ∀ pf fuel, (K + 1) * (cfgA.m.toNat + 2) ≤ pf →
      ⌈cfgA.t_max / cfgA.dt_min⌉₊ ≤ fuel →
      ∃ st1, time_loop cfgA pf fuel stA = Outcome.done st1 ∧
        0 ≤ st1.n_step ∧ st1.n_step ≤ ⌈cfgA.t_max / cfgA.dt_min⌉₊ ∧
        (st1.stop_code = 1 ∨ st1.stop_code = 2 ∨
          (st1.stop_code = 0 ∧ cfgA.t_max ≤ st1.t))) :=
  ⟨cfgA_valid, by decide!, stA_init,
    time_loop_terminates cfgA stA cfgA_valid (by decide!) stA_init⟩

set_option maxRecDepth 1000000 in
/-- Witness of C9 in state E: the mass source 5 is cut to
`b * dA / (rrb * dt) = 2` and the bed of depth 1 is used up. -/
theorem erosion_rate_limited_witness :
    cfgE.eromod > 0 ∧ stE.src 1 0 0 > 0 ∧
    ((cell_flux cfgE 1 0 stE).src 1 0 0 ≤ stE.b 1 0 * stE.dA 1 0 / (cfgE.rrb * stE.dt) ∧
      stE.b 1 0 - (cell_flux cfgE 1 0 stE).b 1 0 ≤ stE.b 1 0 ∧
      0 ≤ (cell_flux cfgE 1 0 stE).b 1 0) :=
  ⟨by decide, by decide!, erosion_rate_limited cfgE 1 0 stE (by decide) (by decide!)⟩

set_option maxRecDepth 1000000 in
theorem stG_call_isSome : (source_terms cfgG stG).isSome = true := by decide!

set_option maxRecDepth 1000000 in
theorem stG_run : ForestRun 1 0 (1 : ℚ) (1 / 10) (99 / 100) (1 / 10) := by
  have e : source_terms cfgG stG = some ((source_terms cfgG stG).get stG_call_isSome) :=
    (Option.some_get stG_call_isSome).symm
  have r0 : ForestRun 1 0 (1 : ℚ) (1 / 10) (stG.nD 1 0) (stG.decay_const 1 0) := by
    have n0 : stG.nD 1 0 = 1 := by decide!
    have d0 : stG.decay_const 1 0 = 1 / 10 := by decide!
    rw [n0, d0]
    exact ForestRun.start _ _
  have r1 := ForestRun.call 1 (1 / 10) cfgG stG _ r0 (by decide!) e
  have n1 : ((source_terms cfgG stG).get stG_call_isSome).nD 1 0 = 99 / 100 := by decide!
  have d1 : ((source_terms cfgG stG).get stG_call_isSome).decay_const 1 0 = 1 / 10 := by decide!
  rw [n1, d1] at r1
  exact r1

/-- Witness of C10 as amended: one call of `source_terms` in state G, whose
forest decays at the rate 0.1, takes the opacity from 1 to 0.99. -/
theorem forest_monotone_witness :
    ForestRun 1 0 (1 : ℚ) (1 / 10) (99 / 100) (1 / 10) ∧ (1 / 10 : ℚ) ≠ 0 ∧
    ((1 / 10 : ℚ) = 1 / 10 ∧ (1 / 10 : ℚ) ≠ 0 ∧ (0 < (1 / 10 : ℚ) → (99 / 100 : ℚ) ≤ 1) ∧
      (0 ≤ (1 : ℚ) → 0 ≤ (99 / 100 : ℚ))) :=
  ⟨stG_run, by norm_num, forest_monotone 1 0 1 (1 / 10) (99 / 100) (1 / 10) stG_run (by norm_num)⟩

set_option maxRecDepth 1000000 in
theorem stF_call_isSome : (source_terms cfgF stF).isSome = true := by decide!

set_option maxRecDepth 1000000 in
theorem stF_call2_isSome :
    (source_terms cfgF ((source_terms cfgF stF).get stF_call_isSome)).isSome = true := by
  decide!

set_option maxRecDepth 1000000 in
/-- C10 as stated fails. In state F the forest of cell `(1,0)` is intact
(`decay_const = 0`).  With the decay coefficient `-1` of configuration F a
first call of `source_terms` sets `decay_const = decay_coeff / tD = -1`, and a
second call with `dt = 0.1 >= 0` multiplies the opacity by
`max(0, 1 - (-1) * 0.1) = 1.1`: the opacity of a decaying forest grows from 1
to 1.1. -/
theorem forest_opacity_can_increase :
    stF.decay_const 1 0 = 0 ∧
    (source_terms cfgF stF).map (fun s => (s.nD 1 0, s.decay_const 1 0, s.dt))
      = some (1, -1, 1 / 10) ∧
    ForestRun 1 0 (1 : ℚ) (-1) (11 / 10) (-1) ∧ (-1 : ℚ) ≠ 0 ∧ ¬ ((11 / 10 : ℚ) ≤ 1) := by
  refine ⟨by decide!, by decide!, ?_, by norm_num, by norm_num⟩
  have e : source_terms cfgF ((source_terms cfgF stF).get stF_call_isSome)
      = some ((source_terms cfgF ((source_terms cfgF stF).get stF_call_isSome)).get
          stF_call2_isSome) :=
    (Option.some_get stF_call2_isSome).symm
  have r0 : ForestRun 1 0 (1 : ℚ) (-1) (((source_terms cfgF stF).get stF_call_isSome).nD 1 0)
      (((source_terms cfgF stF).get stF_call_isSome).decay_const 1 0) := by
    have n0 : ((source_terms cfgF stF).get stF_call_isSome).nD 1 0 = 1 := by decide!
    have d0 : ((source_terms cfgF stF).get stF_call_isSome).decay_const 1 0 = -1 := by decide!
    rw [n0, d0]
    exact ForestRun.start _ _
  have r1 := ForestRun.call 1 (-1) cfgF _ _ r0 (by decide!) e
  have n1 : ((source_terms cfgF ((source_terms cfgF stF).get stF_call_isSome)).get
      stF_call2_isSome).nD 1 0 = 11 / 10 := by decide!
  have d1 : ((source_terms cfgF ((source_terms cfgF stF).get stF_call_isSome)).get
      stF_call2_isSome).decay_const 1 0 = -1 := by decide!
  rw [n1, d1] at r1
  exact r1

theorem stW_no_inflow : NoInflow stW 0 0 := by
  intro p q dt1 _
  have hu : stW.u p q = 0 := rfl
  have hv : stW.v p q = 0 := rfl
  refine ⟨fun _ => ?_, fun _ => ?_, fun _ => ?_⟩
  · show stW.h p q * (|stW.u p q| * dt1 * (stW.dy p q - |stW.v p q| * dt1)) = 0
    rw [hu]; simp
  · show stW.h p q * (|stW.v p q| * dt1 * (stW.dx p q - |stW.u p q| * dt1)) = 0
    rw [hv]; simp
  · show stW.h p q * (|stW.u p q| * dt1 * (|stW.v p q| * dt1)) = 0
    rw [hu]; simp

set_option maxRecDepth 1000000 in
theorem stW_pass_isSome : (iloop cfgA 10 stW.i_min stW).isSome = true := by decide!

set_option maxRecDepth 1000000 in
/-- Witness of C8 in state W: the driving force `gx * mass = 1/40` stays
below the static friction `mu * gz * mass = 1/8`, and the cell keeps its zero
momentum. -/
theorem rest_state_is_stable_witness :
    inDomain stW 0 0 ∧ stW.u 0 0 = 0 ∧ stW.v 0 0 = 0 ∧ stW.s 0 0 ≤ cfgA.u_min ∧
    NoInflow stW 0 0 ∧ F_drive_2 cfgA stW 0 0 ≤ F_fric_2 stW 0 0 ∧
    stW.f_old 0 0 1 = stW.f_new 0 0 1 ∧ stW.f_old 0 0 2 = stW.f_new 0 0 2 ∧
    F_drive_2 cfgA stW 0 0 = 1 / 1600 ∧ F_fric_2 stW 0 0 = 1 / 64 ∧
    ((arrest cfgA ((iloop cfgA 10 stW.i_min stW).get stW_pass_isSome)).f_new 0 0 1
        = stW.f_new 0 0 1 ∧
      (arrest cfgA ((iloop cfgA 10 stW.i_min stW).get stW_pass_isSome)).f_new 0 0 2
        = stW.f_new 0 0 2) :=
  ⟨by decide!, rfl, rfl, by decide!, stW_no_inflow, by decide!, rfl, rfl, by decide!, by decide!,
    rest_state_is_stable cfgA stW 0 0 (by decide!) rfl rfl (by decide!) stW_no_inflow
      (by decide!) rfl rfl 10 _ (Option.some_get stW_pass_isSome).symm⟩

/-! Loops that visit every index pair of their range once -/

/-- Invariant rule for two nested `forRange` loops whose steps may use the
bounds of the indices. -/
theorem forRange2_inv_mem {σ : Type} (P : σ → Prop) (body : Int → Int → σ → σ)
    (a b c d : Int) (s : σ) (h0 : P s)
    (hstep : ∀ i j s, a ≤ i → i < b → c ≤ j → j < d → P s → P (body i j s)) :
    P (forRange a b (fun i s1 => forRange c d (fun j s2 => body i j s2) s1) s) := by
  apply forRange_inv (fun _ x => P x) _ a b s h0
  intro i x hi1 hi2 hx
  exact forRange_inv (fun _ y => P y) _ c d x hx
    (fun j y hj1 hj2 hy => hstep i j y hi1 hi2 hj1 hj2 hy)

/-- Two nested loops visit the index pair `(i,j)` of their range exactly
once: `R0` holds until the visit, the visit turns it into `R1`, and `R1`
holds from then on. -/
theorem forRange2_visit {σ : Type} (R0 R1 : σ → Prop) (body : Int → Int → σ → σ)
    (a b c d i j : Int) (hi : a ≤ i ∧ i < b) (hj : c ≤ j ∧ j < d)
    (h00 : ∀ p q s, ¬ (p = i ∧ q = j) → R0 s → R0 (body p q s))
    (h01 : ∀ s, R0 s → R1 (body i j s))
    (h11 : ∀ p q s, ¬ (p = i ∧ q = j) → R1 s → R1 (body p q s))
    (s : σ) (h0 : R0 s) :
    R1 (forRange a b (fun p s1 => forRange c d (fun q s2 => body p q s2) s1) s) := by
  have key := forRange_inv (fun p x => (p ≤ i → R0 x) ∧ (i < p → R1 x))
    (fun p s1 => forRange c d (fun q s2 => body p q s2) s1) a b s
    ⟨fun _ => h0, fun h => absurd hi.1 (not_le.mpr h)⟩ ?_
  · exact key.2 (lt_of_lt_of_le hi.2 (le_max_right a b))
  · intro p x _ _ hx
    rcases lt_trichotomy p i with hlt | heq | hgt
    · have hR := forRange_inv (fun _ y => R0 y) (fun q s2 => body p q s2) c d x
        (hx.1 (le_of_lt hlt))
        (fun q y _ _ hy => h00 p q y (fun h => absurd h.1 (ne_of_lt hlt)) hy)
      exact ⟨fun _ => hR, fun h => absurd h (by omega)⟩
    · subst heq
      have hR := forRange_inv (fun q y => (q ≤ j → R0 y) ∧ (j < q → R1 y))
        (fun q s2 => body p q s2) c d x
        ⟨fun _ => hx.1 le_rfl, fun h => absurd hj.1 (not_le.mpr h)⟩ ?_
      · exact ⟨fun h => absurd h (by omega),
          fun _ => hR.2 (lt_of_lt_of_le hj.2 (le_max_right c d))⟩
      · intro q y _ _ hy
        rcases lt_trichotomy q j with h1 | h1 | h1
        · exact ⟨fun _ => h00 p q y (fun h => absurd h.2 (ne_of_lt h1)) (hy.1 (le_of_lt h1)),
            fun h => absurd h (by omega)⟩
        · subst h1
          exact ⟨fun h => absurd h (by omega), fun _ => h01 y (hy.1 le_rfl)⟩
        · exact ⟨fun h => absurd h (by omega),
            fun _ => h11 p q y (fun h => absurd h.2 (ne_of_gt h1)) (hy.2 h1)⟩
    · have hR := forRange_inv (fun _ y => R1 y) (fun q s2 => body p q s2) c d x
        (hx.2 hgt)
        (fun q y _ _ hy => h11 p q y (fun h => absurd h.1 (ne_of_gt hgt)) hy)
      exact ⟨fun h => absurd h (by omega), fun _ => hR⟩

theorem set2_same (a : Grid α) (i j : Int) (x : α) : set2 a i j x i j = x := by
  unfold set2; simp

theorem set2_other (a : Grid α) (i j p q : Int) (x : α) (h : ¬ (p = i ∧ q = j)) :
    set2 a i j x p q = a p q := by
  unfold set2; rw [if_neg h]

/-! Primitive variable recovery (lines 596-615) -/

/-- The values that `primivar` leaves in cell `(i,j)` of the Active Domain,
in the form of the source: the cell is written once, from `f`, `dA` and
`G_xy`, which the loops do not change. -/
theorem primivar_visit (C : Config α) (f : Grid3 α) (st : State α) (i j : Int)
    (hin : inDomain st i j) :
    (primivar C f st).dA = st.dA ∧ (primivar C f st).G_xy = st.G_xy ∧
    (primivar C f st).h i j = (primivar_cell C f i j st).h i j ∧
    (primivar C f st).u i j = (primivar_cell C f i j st).u i j ∧
    (primivar C f st).v i j = (primivar_cell C f i j st).v i j ∧
    (primivar C f st).s i j = (primivar_cell C f i j st).s i j ∧
    (primivar C f st).p_imp i j = (primivar_cell C f i j st).p_imp i j := by
  unfold primivar
  apply forRange2_visit (fun s => s.dA = st.dA ∧ s.G_xy = st.G_xy)
    (fun s => s.dA = st.dA ∧ s.G_xy = st.G_xy ∧
      s.h i j = (primivar_cell C f i j st).h i j ∧
      s.u i j = (primivar_cell C f i j st).u i j ∧
      s.v i j = (primivar_cell C f i j st).v i j ∧
      s.s i j = (primivar_cell C f i j st).s i j ∧
      s.p_imp i j = (primivar_cell C f i j st).p_imp i j)
    (fun p q s => primivar_cell C f p q s) st.i_min st.i_max st.j_min st.j_max i j
    ⟨hin.1, hin.2.1⟩ ⟨hin.2.2.1, hin.2.2.2⟩
  · intro p q s _ hs
    exact hs
  · intro s hs
    refine ⟨hs.1, hs.2, ?_, ?_, ?_, ?_, ?_⟩ <;>
      simp only [primivar_cell, set2_same, hs.1, hs.2]
  · intro p q s hpq hs
    have hij : ¬ (i = p ∧ j = q) := fun h => hpq ⟨h.1.symm, h.2.symm⟩
    obtain ⟨h1, h2, h3, h4, h5, h6, h7⟩ := hs
    refine ⟨h1, h2, ?_, ?_, ?_, ?_, ?_⟩
    · rw [← h3]; exact set2_other _ _ _ _ _ _ hij
    · rw [← h4]; exact set2_other _ _ _ _ _ _ hij
    · rw [← h5]; exact set2_other _ _ _ _ _ _ hij
    · rw [← h6]; exact set2_other _ _ _ _ _ _ hij
    · rw [← h7]; exact set2_other _ _ _ _ _ _ hij
  · exact ⟨rfl, rfl⟩

/-- C11 (primitive recovery). For every cell `(i,j)` of the Active Domain
with `dA > 0`, after `primivar(f, ...)`: the depth is `f0/dA`; the velocity
components are `f1` and `f2` divided by `max(f0, h_min*dA)` when `f0 > 0`,
and zero when `f0 <= 0`; the speed is the square root of
`u^2 + v^2 + 2*G_xy*u*v`; and the impact pressure is that same term times
the flow density times 0.001. -/
theorem primivar_recovers (C : Config α) (f : Grid3 α) (st : State α) (i j : Int)
    (hin : inDomain st i j) (hdA : 0 < st.dA i j) :
    (primivar C f st).h i j = f i j 0 / st.dA i j ∧
    (f i j 0 > 0 →
      (primivar C f st).u i j = f i j 1 / max (f i j 0) (C.h_min * st.dA i j) ∧
      (primivar C f st).v i j = f i j 2 / max (f i j 0) (C.h_min * st.dA i j)) ∧
    (f i j 0 ≤ 0 → (primivar C f st).u i j = 0 ∧ (primivar C f st).v i j = 0) ∧
    (primivar C f st).s i j =
      C.sqrt ((primivar C f st).u i j ^ 2 + (primivar C f st).v i j ^ 2
        + 2 * (primivar C f st).G_xy i j * (primivar C f st).u i j * (primivar C f st).v i j) ∧
    (primivar C f st).p_imp i j =
      ((primivar C f st).u i j ^ 2 + (primivar C f st).v i j ^ 2
        + 2 * (primivar C f st).G_xy i j * (primivar C f st).u i j * (primivar C f st).v i j)
        * C.rho * (1 / 1000) := by
  obtain ⟨_, hG, hh, hu, hv, hs, hp⟩ := primivar_visit C f st i j hin
  rw [hG, hh, hu, hv, hs, hp]
  simp only [primivar_cell, set2_same, MAX_eq_max, SQ]
  refine ⟨by ring, ?_, ?_, ?_, ?_⟩
  · intro hpos
    rw [if_pos hpos]
    constructor <;> ring
  · intro hneg
    rw [if_neg (not_lt.mpr hneg)]
    constructor <;> ring
  · congr 1; ring
  · ring

/-- Witness for C11: cell `(1,0)` of state A. -/
theorem primivar_recovers_witness :
    inDomain stA 1 0 ∧ 0 < stA.dA 1 0 ∧
    (primivar cfgA stA.f_new stA).h 1 0 = stA.f_new 1 0 0 / stA.dA 1 0 :=
  ⟨by decide, by decide!, (primivar_recovers cfgA stA.f_new stA 1 0 (by decide) (by decide!)).1⟩

/-! Function `update_boundaries` (lines 853-904) -/

theorem TrackEnv.trefl (st : State α) : TrackEnv st st :=
  ⟨rfl, rfl, rfl, rfl, rfl, rfl, rfl⟩

theorem TrackEnv.ttrans {a b c : State α} (h1 : TrackEnv a b) (h2 : TrackEnv b c) :
    TrackEnv a c := by
  obtain ⟨a1, a2, a3, a4, a5, a6, a7⟩ := h1
  obtain ⟨b1, b2, b3, b4, b5, b6, b7⟩ := h2
  exact ⟨b1.trans a1, b2.trans a2, b3.trans a3, b4.trans a4, b5.trans a5, b6.trans a6,
    b7.trans a7⟩

/-- A visit of `update_boundaries` writes none of the fields it reads. -/
theorem boundaries_cell_env (C : Config α) (f : Grid3 α) (p q : Int)
    (x : State α × Bounds α) : TrackEnv x.1 (boundaries_cell C f p q x).1 := by
  unfold boundaries_cell TrackEnv
  simp only
  split_ifs <;> simp

/-- The visit of cell `(p,q)` leaves the tracking fields of every other
cell alone. -/
theorem boundaries_cell_other (C : Config α) (f : Grid3 α) (p q i j : Int)
    (x : State α × Bounds α) (h : ¬ (i = p ∧ j = q)) :
    SameTrack x.1 (boundaries_cell C f p q x).1 i j := by
  unfold boundaries_cell SameTrack
  simp only
  split_ifs <;> simp [set2_other _ _ _ _ _ _ h]

/-- The visit of cell `(i,j)` updates its tracking fields as in lines
876-889. -/
theorem boundaries_cell_same (C : Config α) (f : Grid3 α) (i j : Int)
    (x : State α × Bounds α) :
    TrackUpdate C x.1 (boundaries_cell C f i j x).1 i j := by
  unfold boundaries_cell TrackUpdate
  simp only
  split_ifs <;> simp_all [set2_same]

/-- The locals `west, east, south, north, mom` after the visit of cell
`(p,q)`. -/
theorem boundaries_cell_bounds (C : Config α) (f : Grid3 α) (p q : Int)
    (x : State α × Bounds α) :
    (boundaries_cell C f p q x).2.mom = x.2.mom + x.1.s p q * f p q 0 ∧
    (is_moving C f x.1 p q →
      (boundaries_cell C f p q x).2.west = MIN x.2.west (p - 1) ∧
      (boundaries_cell C f p q x).2.east = MAX x.2.east (p + 1) ∧
      (boundaries_cell C f p q x).2.south = MIN x.2.south (q - 1) ∧
      (boundaries_cell C f p q x).2.north = MAX x.2.north (q + 1) ∧
      (boundaries_cell C f p q x).1.mov_vol = x.1.mov_vol + f p q 0) ∧
    (¬ is_moving C f x.1 p q →
      (boundaries_cell C f p q x).2.west = x.2.west ∧
      (boundaries_cell C f p q x).2.east = x.2.east ∧
      (boundaries_cell C f p q x).2.south = x.2.south ∧
      (boundaries_cell C f p q x).2.north = x.2.north ∧
      (boundaries_cell C f p q x).1.mov_vol = x.1.mov_vol) := by
  unfold boundaries_cell is_moving
  simp only
  refine ⟨?_, ?_, ?_⟩
  · split_ifs <;> rfl
  · intro hm
    simp only [if_pos hm]
    split_ifs <;> simp
  · intro hm
    simp only [if_neg hm]
    split_ifs <;> simp

/-- Function `update_boundaries` in terms of its loops. -/
theorem update_boundaries_eq (C : Config α) (f : Grid3 α) (st : State α) :
    update_boundaries C f st =
      ({ (boundaries_loops C f st).1 with
         i_min := MAX 0 (boundaries_loops C f st).2.west
         i_max := MIN C.m ((boundaries_loops C f st).2.east + 1)
         j_min := MAX 0 (boundaries_loops C f st).2.south
         j_max := MIN C.n ((boundaries_loops C f st).2.north + 1) },
       (boundaries_loops C f st).2.mom) := rfl

theorem boundaries_loops_env (C : Config α) (f : Grid3 α) (st : State α) :
    TrackEnv st (boundaries_loops C f st).1 := by
  unfold boundaries_loops
  apply forRange2_inv (fun (x : State α × Bounds α) => TrackEnv st x.1)
    (fun i j y => boundaries_cell C f i j y)
  · exact ⟨rfl, rfl, rfl, rfl, rfl, rfl, rfl⟩
  · intro i j s hs
    exact hs.ttrans (boundaries_cell_env C f i j s)

/-- A cell of the Active Domain is visited once by the loops of
`update_boundaries`, which update its tracking fields from the values at
entry. -/
theorem boundaries_loops_track (C : Config α) (f : Grid3 α) (st : State α) (i j : Int)
    (hin : inDomain st i j) : TrackUpdate C st (boundaries_loops C f st).1 i j := by
  unfold boundaries_loops
  have key := forRange2_visit
    (fun (x : State α × Bounds α) => TrackEnv st x.1 ∧ SameTrack st x.1 i j)
    (fun (x : State α × Bounds α) => TrackEnv st x.1 ∧ TrackUpdate C st x.1 i j)
    (fun p q y => boundaries_cell C f p q y) st.i_min st.i_max st.j_min st.j_max i j
    ⟨hin.1, hin.2.1⟩ ⟨hin.2.2.1, hin.2.2.2⟩ ?_ ?_ ?_
    ({ st with mov_vol := 0 }, { west := C.m, east := 0, south := C.n, north := 0, mom := 0 })
    ⟨⟨rfl, rfl, rfl, rfl, rfl, rfl, rfl⟩, ⟨rfl, rfl, rfl, rfl, rfl, rfl, rfl⟩⟩
  · exact key.2
  · intro p q s hpq hs
    have hij : ¬ (i = p ∧ j = q) := fun h => hpq ⟨h.1.symm, h.2.symm⟩
    obtain ⟨b1, b2, b3, b4, b5, b6, b7⟩ := boundaries_cell_other C f p q i j s hij
    obtain ⟨a1, a2, a3, a4, a5, a6, a7⟩ := hs.2
    exact ⟨hs.1.ttrans (boundaries_cell_env C f p q s),
      b1.trans a1, b2.trans a2, b3.trans a3, b4.trans a4, b5.trans a5, b6.trans a6, b7.trans a7⟩
  · intro s hs
    obtain ⟨e1, e2, e3, e4, e5, e6, e7⟩ := hs.1
    obtain ⟨a1, a2, a3, a4, a5, a6, a7⟩ := hs.2
    have hu := boundaries_cell_same C f i j s
    unfold TrackUpdate at hu ⊢
    rw [a1, a2, a3, a4, a5, a6, a7, e2, e3, e4, e5, e6, e7] at hu
    exact ⟨hs.1.ttrans (boundaries_cell_env C f i j s), hu⟩
  · intro p q s hpq hs
    have hij : ¬ (i = p ∧ j = q) := fun h => hpq ⟨h.1.symm, h.2.symm⟩
    obtain ⟨b1, b2, b3, b4, b5, b6, b7⟩ := boundaries_cell_other C f p q i j s hij
    have hu := hs.2
    unfold TrackUpdate at hu ⊢
    rw [b1, b2, b3, b4, b5, b6, b7]
    exact ⟨hs.1.ttrans (boundaries_cell_env C f p q s), hu⟩

/-- A cell outside the Active Domain is not visited by the loops of
`update_boundaries`: its tracking fields keep their values. -/
theorem boundaries_loops_outside (C : Config α) (f : Grid3 α) (st : State α) (i j : Int)
    (hout : ¬ inDomain st i j) : SameTrack st (boundaries_loops C f st).1 i j := by
  unfold boundaries_loops
  apply forRange2_inv_mem (fun (x : State α × Bounds α) => SameTrack st x.1 i j)
    (fun p q y => boundaries_cell C f p q y)
  · exact ⟨rfl, rfl, rfl, rfl, rfl, rfl, rfl⟩
  · intro p q s hp1 hp2 hq1 hq2 hs
    have hij : ¬ (i = p ∧ j = q) := by
      rintro ⟨rfl, rfl⟩
      exact hout ⟨hp1, hp2, hq1, hq2⟩
    obtain ⟨b1, b2, b3, b4, b5, b6, b7⟩ := boundaries_cell_other C f p q i j s hij
    obtain ⟨a1, a2, a3, a4, a5, a6, a7⟩ := hs
    exact ⟨b1.trans a1, b2.trans a2, b3.trans a3, b4.trans a4, b5.trans a5, b6.trans a6,
      b7.trans a7⟩

theorem is_moving_env (C : Config α) (f : Grid3 α) (st s : State α) (p q : Int)
    (h : TrackEnv st s) : is_moving C f s p q ↔ is_moving C f st p q := by
  unfold is_moving
  rw [h.1, h.2.1]

/-- The locals `west, east, south, north` after the loops bound every
moving cell of the Active Domain with one cell of margin. -/
theorem boundaries_loops_margin (C : Config α) (f : Grid3 α) (st : State α) (i j : Int)
    (hin : inDomain st i j) (hm : is_moving C f st i j) :
    (boundaries_loops C f st).2.west ≤ i - 1 ∧ i + 1 ≤ (boundaries_loops C f st).2.east ∧
    (boundaries_loops C f st).2.south ≤ j - 1 ∧ j + 1 ≤ (boundaries_loops C f st).2.north := by
  unfold boundaries_loops
  have key := forRange2_visit
    (fun (x : State α × Bounds α) => TrackEnv st x.1)
    (fun (x : State α × Bounds α) => TrackEnv st x.1 ∧
      x.2.west ≤ i - 1 ∧ i + 1 ≤ x.2.east ∧ x.2.south ≤ j - 1 ∧ j + 1 ≤ x.2.north)
    (fun p q y => boundaries_cell C f p q y) st.i_min st.i_max st.j_min st.j_max i j
    ⟨hin.1, hin.2.1⟩ ⟨hin.2.2.1, hin.2.2.2⟩ ?_ ?_ ?_
    ({ st with mov_vol := 0 }, { west := C.m, east := 0, south := C.n, north := 0, mom := 0 })
    ⟨rfl, rfl, rfl, rfl, rfl, rfl, rfl⟩
  · exact key.2
  · intro p q s _ hs
    exact hs.ttrans (boundaries_cell_env C f p q s)
  · intro s hs
    obtain ⟨_, h1, _⟩ := boundaries_cell_bounds C f i j s
    obtain ⟨w, e, so, n, _⟩ := h1 ((is_moving_env C f st s.1 i j hs).mpr hm)
    refine ⟨hs.ttrans (boundaries_cell_env C f i j s), ?_, ?_, ?_, ?_⟩
    · rw [w, MIN_eq_min]; exact min_le_right _ _
    · rw [e, MAX_eq_max]; exact le_max_right _ _
    · rw [so, MIN_eq_min]; exact min_le_right _ _
    · rw [n, MAX_eq_max]; exact le_max_right _ _
  · intro p q s _ hs
    obtain ⟨he, c1, c2, c3, c4⟩ := hs
    refine ⟨he.ttrans (boundaries_cell_env C f p q s), ?_⟩
    obtain ⟨_, h1, h2⟩ := boundaries_cell_bounds C f p q s
    by_cases hmv : is_moving C f s.1 p q
    · obtain ⟨w, e, so, n, _⟩ := h1 hmv
      rw [w, e, so, n, MIN_eq_min, MAX_eq_max, MIN_eq_min, MAX_eq_max]
      exact ⟨le_trans (min_le_left _ _) c1, le_trans c2 (le_max_left _ _),
        le_trans (min_le_left _ _) c3, le_trans c4 (le_max_left _ _)⟩
    · obtain ⟨w, e, so, n, _⟩ := h2 hmv
      rw [w, e, so, n]
      exact ⟨c1, c2, c3, c4⟩

/-- Each of the locals `west, east, south, north` has after the loops its
initial value or the value given by a moving cell of the Active Domain. -/
theorem boundaries_loops_attained (C : Config α) (f : Grid3 α) (st : State α) :
    ((boundaries_loops C f st).2.west = C.m ∨ ∃ i j, inDomain st i j ∧ is_moving C f st i j ∧
      (boundaries_loops C f st).2.west = i - 1) ∧
    ((boundaries_loops C f st).2.east = 0 ∨ ∃ i j, inDomain st i j ∧ is_moving C f st i j ∧
      (boundaries_loops C f st).2.east = i + 1) ∧
    ((boundaries_loops C f st).2.south = C.n ∨ ∃ i j, inDomain st i j ∧ is_moving C f st i j ∧
      (boundaries_loops C f st).2.south = j - 1) ∧
    ((boundaries_loops C f st).2.north = 0 ∨ ∃ i j, inDomain st i j ∧ is_moving C f st i j ∧
      (boundaries_loops C f st).2.north = j + 1) := by
  unfold boundaries_loops
  have key := forRange2_inv_mem
    (fun (x : State α × Bounds α) => TrackEnv st x.1 ∧
      (x.2.west = C.m ∨ ∃ i j, inDomain st i j ∧ is_moving C f st i j ∧ x.2.west = i - 1) ∧
      (x.2.east = 0 ∨ ∃ i j, inDomain st i j ∧ is_moving C f st i j ∧ x.2.east = i + 1) ∧
      (x.2.south = C.n ∨ ∃ i j, inDomain st i j ∧ is_moving C f st i j ∧ x.2.south = j - 1) ∧
      (x.2.north = 0 ∨ ∃ i j, inDomain st i j ∧ is_moving C f st i j ∧ x.2.north = j + 1))
    (fun p q y => boundaries_cell C f p q y) st.i_min st.i_max st.j_min st.j_max
    ({ st with mov_vol := 0 }, { west := C.m, east := 0, south := C.n, north := 0, mom := 0 })
    ⟨⟨rfl, rfl, rfl, rfl, rfl, rfl, rfl⟩, Or.inl rfl, Or.inl rfl, Or.inl rfl, Or.inl rfl⟩ ?_
  · exact key.2
  · intro p q s hp1 hp2 hq1 hq2 hs
    obtain ⟨he, c1, c2, c3, c4⟩ := hs
    refine ⟨he.ttrans (boundaries_cell_env C f p q s), ?_⟩
    obtain ⟨_, h1, h2⟩ := boundaries_cell_bounds C f p q s
    by_cases hmv : is_moving C f s.1 p q
    · obtain ⟨w, e, so, n, _⟩ := h1 hmv
      have hmv0 := (is_moving_env C f st s.1 p q he).mp hmv
      have hd : inDomain st p q := ⟨hp1, hp2, hq1, hq2⟩
      rw [w, e, so, n]
      refine ⟨?_, ?_, ?_, ?_⟩
      · unfold MIN; split_ifs
        · exact c1
        · exact Or.inr ⟨p, q, hd, hmv0, rfl⟩
      · unfold MAX; split_ifs
        · exact c2
        · exact Or.inr ⟨p, q, hd, hmv0, rfl⟩
      · unfold MIN; split_ifs
        · exact c3
        · exact Or.inr ⟨p, q, hd, hmv0, rfl⟩
      · unfold MAX; split_ifs
        · exact c4
        · exact Or.inr ⟨p, q, hd, hmv0, rfl⟩
    · obtain ⟨w, e, so, n, _⟩ := h2 hmv
      rw [w, e, so, n]
      exact ⟨c1, c2, c3, c4⟩

theorem update_boundaries_track (C : Config α) (f : Grid3 α) (st : State α) (i j : Int)
    (hin : inDomain st i j) : TrackUpdate C st (update_boundaries C f st).1 i j :=
  boundaries_loops_track C f st i j hin

theorem update_boundaries_outside (C : Config α) (f : Grid3 α) (st : State α) (i j : Int)
    (hout : ¬ inDomain st i j) : SameTrack st (update_boundaries C f st).1 i j :=
  boundaries_loops_outside C f st i j hout

theorem update_boundaries_env (C : Config α) (f : Grid3 α) (st : State α) :
    TrackEnv st (update_boundaries C f st).1 :=
  boundaries_loops_env C f st

/-- A cell whose tracking fields already dominate the current fields is left
as it is by the update of lines 876-889. -/
theorem TrackUpdate_of_dominated (C : Config α) (st st1 : State α) (i j : Int)
    (hs : SameTrack st st1 i j)
    (h1 : st.h i j ≤ st.h_max i j) (h2 : st.s i j ≤ st.s_max i j)
    (h3 : C.eromod > 0 → st.b_min i j ≤ st.b i j)
    (h4 : C.dep > 0 → st.d i j ≤ st.d_max i j) : TrackUpdate C st st1 i j := by
  obtain ⟨a1, a2, a3, a4, a5, a6, a7⟩ := hs
  refine ⟨?_, fun h => absurd h (not_lt.mpr h2), fun _ => ⟨a2, a3, a4, a5⟩, ?_, ?_⟩
  · rw [a1, MAX_eq_max, max_eq_left h1]
  · rw [a6]
    split_ifs with h
    · rw [MIN_eq_min, min_eq_right (h3 h)]
    · rfl
  · rw [a7]
    split_ifs with h
    · unfold MAX
      rw [if_neg (not_lt.mpr (h4 h))]
    · rfl

/-- The loop `for (i = lo; ...)` run `k` times adds `g i` to the value
`acc` of the state in each pass. -/
theorem loopN_acc {σ : Type} (P : σ → Prop) (acc : σ → α) (g : Int → α) (body : Int → σ → σ)
    (hP : ∀ i s, P s → P (body i s)) (hacc : ∀ i s, P s → acc (body i s) = acc s + g i) :
    ∀ (k : Nat) (lo : Int) (s : σ), P s →
      P (loopN k lo body s) ∧
      acc (loopN k lo body s) = acc s + Finset.sum (Finset.range k) (fun t => g (lo + t)) := by
  intro k
  induction k with
  | zero => intro lo s h; exact ⟨h, by simp [loopN]⟩
  | succ k ih =>
    intro lo s h
    obtain ⟨h1, h2⟩ := ih (lo + 1) (body lo s) (hP lo s h)
    refine ⟨h1, ?_⟩
    show acc (loopN k (lo + 1) body (body lo s)) = _
    rw [h2, hacc lo s h, Finset.sum_range_succ']
    have e : ∀ t : Nat, g (lo + 1 + (t : Int)) = g (lo + ((t + 1 : Nat) : Int)) := by
      intro t
      congr 1
      push_cast
      ring
    simp only [e, Nat.cast_zero, add_zero]
    ring

/-- The momentum accumulated by the loops of `update_boundaries` is the sum
of `s[i][j] * f[i][j][0]` over the cells of the Active Domain. -/
theorem boundaries_loops_mom (C : Config α) (f : Grid3 α) (st : State α) :
    (boundaries_loops C f st).2.mom =
      rect_sum st.i_min st.i_max st.j_min st.j_max (fun i j => st.s i j * f i j 0) := by
  unfold boundaries_loops forRange rect_sum
  have inner : ∀ (i : Int) (x : State α × Bounds α), TrackEnv st x.1 →
      TrackEnv st (loopN (st.j_max - st.j_min).toNat st.j_min
        (fun j y1 => boundaries_cell C f i j y1) x).1 ∧
      (loopN (st.j_max - st.j_min).toNat st.j_min
        (fun j y1 => boundaries_cell C f i j y1) x).2.mom = x.2.mom +
          Finset.sum (Finset.range (st.j_max - st.j_min).toNat)
            (fun q => st.s i (st.j_min + q) * f i (st.j_min + q) 0) := by
    intro i x hx
    exact loopN_acc (fun (y : State α × Bounds α) => TrackEnv st y.1) (fun y => y.2.mom)
      (fun j => st.s i j * f i j 0) (fun j y1 => boundaries_cell C f i j y1)
      (fun j y hy => hy.ttrans (boundaries_cell_env C f i j y))
      (fun j y hy => by
        show (boundaries_cell C f i j y).2.mom = y.2.mom + st.s i j * f i j 0
        rw [(boundaries_cell_bounds C f i j y).1, hy.2.1])
      _ _ x hx
  have outer := loopN_acc (fun (y : State α × Bounds α) => TrackEnv st y.1) (fun y => y.2.mom)
    (fun i => Finset.sum (Finset.range (st.j_max - st.j_min).toNat)
      (fun q => st.s i (st.j_min + q) * f i (st.j_min + q) 0))
    (fun i y => loopN (st.j_max - st.j_min).toNat st.j_min
      (fun j y1 => boundaries_cell C f i j y1) y)
    (fun i y hy => (inner i y hy).1) (fun i y hy => (inner i y hy).2)
    (st.i_max - st.i_min).toNat st.i_min
    ({ st with mov_vol := 0 }, { west := C.m, east := 0, south := C.n, north := 0, mom := 0 })
    ⟨rfl, rfl, rfl, rfl, rfl, rfl, rfl⟩
  have h2 := outer.2
  simp only at h2
  rw [h2]
  simp

/-- C12 (active-domain margin). After `update_boundaries(f)`: every Grid
index `(p,q)` within one cell of a cell `(i,j)` of the previous Active Domain
with mass above `h_min*dA` and speed above `u_min` lies in the new Active
Domain; the new Active Domain lies within the Grid `[0,m) x [0,n)`; and, the
previous Active Domain lying within the Grid, every index rectangle
`[a,b) x [c,d)` with the first property contains the new Active Domain. -/
theorem active_domain_margin (C : Config α) (f : Grid3 α) (st : State α) :
    (∀ i j, inDomain st i j → is_moving C f st i j →
      ∀ p q, 0 ≤ p → p < C.m → 0 ≤ q → q < C.n → |p - i| ≤ 1 → |q - j| ≤ 1 →
        inDomain (update_boundaries C f st).1 p q) ∧
    (0 ≤ (update_boundaries C f st).1.i_min ∧ (update_boundaries C f st).1.i_max ≤ C.m ∧
      0 ≤ (update_boundaries C f st).1.j_min ∧ (update_boundaries C f st).1.j_max ≤ C.n) ∧
    (0 ≤ st.i_min → st.i_max ≤ C.m → 0 ≤ st.j_min → st.j_max ≤ C.n →
      ∀ a b c d : Int,
        (∀ i j, inDomain st i j → is_moving C f st i j →
          ∀ p q, 0 ≤ p → p < C.m → 0 ≤ q → q < C.n → |p - i| ≤ 1 → |q - j| ≤ 1 →
            a ≤ p ∧ p < b ∧ c ≤ q ∧ q < d) →
        ∀ p q, inDomain (update_boundaries C f st).1 p q → a ≤ p ∧ p < b ∧ c ≤ q ∧ q < d) := by
  have hdom : ∀ p q, inDomain (update_boundaries C f st).1 p q ↔
      (max 0 (boundaries_loops C f st).2.west ≤ p ∧
       p < min C.m ((boundaries_loops C f st).2.east + 1) ∧
       max 0 (boundaries_loops C f st).2.south ≤ q ∧
       q < min C.n ((boundaries_loops C f st).2.north + 1)) := by
    intro p q
    rw [update_boundaries_eq]
    unfold inDomain
    simp only [MAX_eq_max, MIN_eq_min]
  refine ⟨?_, ?_, ?_⟩
  · intro i j hin hm p q hp0 hp1 hq0 hq1 hpi hqj
    rw [hdom]
    obtain ⟨w, e, so, n⟩ := boundaries_loops_margin C f st i j hin hm
    rw [abs_le] at hpi hqj
    omega
  · have h00 := (hdom (max 0 (boundaries_loops C f st).2.west)
      (max 0 (boundaries_loops C f st).2.south))
    rw [update_boundaries_eq]
    simp only [MAX_eq_max, MIN_eq_min]
    omega
  · intro hg1 hg2 hg3 hg4 a b c d hrect p q hpq
    rw [hdom] at hpq
    -- the new rectangle is not empty, so each local was set by a moving cell
    have kw : (boundaries_loops C f st).2.west ≠ C.m := by omega
    have ks : (boundaries_loops C f st).2.south ≠ C.n := by omega
    have hatt := boundaries_loops_attained C f st
    obtain ⟨i1, j1, hin1, hm1, hw1⟩ := hatt.1.resolve_left kw
    obtain ⟨i3, j3, hin3, hm3, hs3⟩ := hatt.2.2.1.resolve_left ks
    obtain ⟨_, e0, _, n0⟩ := boundaries_loops_margin C f st i1 j1 hin1 hm1
    have d1 := hin1
    have d3 := hin3
    unfold inDomain at d1 d3
    have ke : (boundaries_loops C f st).2.east ≠ 0 := by clear hatt; omega
    have kn : (boundaries_loops C f st).2.north ≠ 0 := by clear hatt; omega
    obtain ⟨i2, j2, hin2, hm2, he2⟩ := hatt.2.1.resolve_left ke
    obtain ⟨i4, j4, hin4, hm4, hn4⟩ := hatt.2.2.2.resolve_left kn
    clear hatt
    have d2 := hin2
    have d4 := hin4
    unfold inDomain at d2 d4
    have r1 := hrect i1 j1 hin1 hm1 (max 0 (i1 - 1)) j1 (by omega) (by omega) (by omega)
      (by omega) (by rw [abs_le]; omega) (by rw [abs_le]; omega)
    have r2 := hrect i2 j2 hin2 hm2 (min (C.m - 1) (i2 + 1)) j2 (by omega) (by omega) (by omega)
      (by omega) (by rw [abs_le]; omega) (by rw [abs_le]; omega)
    have r3 := hrect i3 j3 hin3 hm3 i3 (max 0 (j3 - 1)) (by omega) (by omega) (by omega)
      (by omega) (by rw [abs_le]; omega) (by rw [abs_le]; omega)
    have r4 := hrect i4 j4 hin4 hm4 i4 (min (C.n - 1) (j4 + 1)) (by omega) (by omega) (by omega)
      (by omega) (by rw [abs_le]; omega) (by rw [abs_le]; omega)
    clear hrect
    omega

/-- One call of `update_boundaries(f)`, whatever the state it is given: the
loops of lines 860-861 update the tracking fields `h_max`, `s_max` (with
`u_max`, `v_max`, `p_max`), `b_min` and `d_max` of every cell of the current
Active Domain, whether or not the cell passes the mass and speed thresholds,
and leave those of every other cell as they are; in a cell outside the Active
Domain whose tracking fields bound its current fields, the values left in
place are those of the update. -/
theorem tracking_covers_active_domain (C : Config α) (f : Grid3 α) (st : State α) (i j : Int) :
    (inDomain st i j → TrackUpdate C st (update_boundaries C f st).1 i j) ∧
    (¬ inDomain st i j → SameTrack st (update_boundaries C f st).1 i j) ∧
    (¬ inDomain st i j → st.h i j ≤ st.h_max i j → st.s i j ≤ st.s_max i j →
      (C.eromod > 0 → st.b_min i j ≤ st.b i j) → (C.dep > 0 → st.d i j ≤ st.d_max i j) →
      TrackUpdate C st (update_boundaries C f st).1 i j) :=
  ⟨update_boundaries_track C f st i j, update_boundaries_outside C f st i j,
    fun hout h1 h2 h3 h4 =>
      TrackUpdate_of_dominated C st _ i j (update_boundaries_outside C f st i j hout) h1 h2 h3 h4⟩

/-- The single call on state T: cell `(1,0)` of the Active Domain is updated,
the tracking fields of cell `(3,2)` outside it are left as they are. -/
theorem tracking_covers_active_domain_witness :
    inDomain stT 1 0 ∧ ¬ inDomain stT 3 2 ∧
    TrackUpdate cfgB stT (update_boundaries cfgB stT.f_new stT).1 1 0 ∧
    SameTrack stT (update_boundaries cfgB stT.f_new stT).1 3 2 :=
  ⟨by decide, by decide,
    (tracking_covers_active_domain cfgB stT.f_new stT 1 0).1 (by decide),
    (tracking_covers_active_domain cfgB stT.f_new stT 3 2).2.1 (by decide)⟩

set_option maxRecDepth 1000000 in
/-- The coverage of the whole Grid rests on the states that a run hands to
`update_boundaries`.  State T is not such a state: its cell `(3,2)` lies in the
Grid of 4 x 3 nodes and outside the Active Domain `[0,3) x [0,2)` with a depth
0.025 above its `h_max = 0` and a speed 3 above its `s_max = 0`, which the
body of the time loop never leaves behind (`run_tracked`).  Called on state T,
the function leaves `h_max` and `s_max` of that cell at 0. -/
theorem tracking_skips_cells_outside_domain :
    (0 ≤ (3 : Int) ∧ 3 < cfgB.m ∧ 0 ≤ (2 : Int) ∧ 2 < cfgB.n) ∧ ¬ inDomain stT 3 2 ∧
    stT.h 3 2 = 1 / 40 ∧ stT.h_max 3 2 = 0 ∧ MAX (stT.h_max 3 2) (stT.h 3 2) = 1 / 40 ∧
    (update_boundaries cfgB stT.f_new stT).1.h_max 3 2 = 0 ∧
    stT.s 3 2 = 3 ∧ stT.s_max 3 2 = 0 ∧
    (update_boundaries cfgB stT.f_new stT).1.s_max 3 2 = 0 ∧
    ¬ TrackUpdate cfgB stT (update_boundaries cfgB stT.f_new stT).1 3 2 := by
  have e1 : (update_boundaries cfgB stT.f_new stT).1.h_max 3 2 = 0 := by decide!
  have e2 : MAX (stT.h_max 3 2) (stT.h 3 2) = 1 / 40 := by decide!
  refine ⟨by decide, by decide, by decide!, by decide!, e2, e1, by decide!, by decide!,
    by decide!, ?_⟩
  intro h
  have h1 := h.1
  rw [e1, e2] at h1
  norm_num at h1

/-- C14 (total momentum metric), amended.  The value returned by
`update_boundaries(f)` is the sum of speed `s[i][j]` times mass `f[i][j][0]`
over the cells of the Active Domain as it is when the function is called. -/
theorem momentum_sums_active_domain (C : Config α) (f : Grid3 α) (st : State α) :
    (update_boundaries C f st).2 =
      rect_sum st.i_min st.i_max st.j_min st.j_max (fun i j => st.s i j * f i j 0) :=
  boundaries_loops_mom C f st

set_option maxRecDepth 1000000 in
/-- C14 (total momentum metric) as stated fails in state T: the value
returned is 3/40, the contribution of cell `(1,0)`, while the sum over the
whole Grid of 4 x 3 nodes is 3/32, since cell `(3,2)` outside the Active
Domain has speed 3 and mass 1/160. -/
theorem momentum_misses_cells_outside_domain :
    (update_boundaries cfgB stT.f_new stT).2 = 3 / 40 ∧
    rect_sum 0 cfgB.m 0 cfgB.n (fun i j => stT.s i j * stT.f_new i j 0) = 3 / 32 ∧
    (update_boundaries cfgB stT.f_new stT).2 ≠
      rect_sum 0 cfgB.m 0 cfgB.n (fun i j => stT.s i j * stT.f_new i j 0) ∧
    (update_boundaries cfgB stT.f_new stT).1.i_min = stT.i_min ∧
    (update_boundaries cfgB stT.f_new stT).1.i_max = stT.i_max ∧
    (update_boundaries cfgB stT.f_new stT).1.j_min = stT.j_min ∧
    (update_boundaries cfgB stT.f_new stT).1.j_max = stT.j_max := by
  have e1 : (update_boundaries cfgB stT.f_new stT).2 = 3 / 40 := by decide!
  have e2 : rect_sum 0 cfgB.m 0 cfgB.n (fun i j => stT.s i j * stT.f_new i j 0) = 3 / 32 := by
    decide!
  refine ⟨e1, e2, ?_, by decide!, by decide!, by decide!, by decide!⟩
  rw [e1, e2]
  norm_num

/-- C15 (monotone tracking fields).  For every cell `(i,j)` and every call
of `update_boundaries(f)`: `h_max`, `s_max` and `d_max` after the call are at
least their values before it and `b_min` is at most its value before it; and
for every cell of the Active Domain over which the call runs, afterwards
`h_max >= h`, `s_max >= s`, `b_min <= b` when erosion is enabled and
`d_max >= d` when deposition is enabled. -/
theorem tracking_is_monotone (C : Config α) (f : Grid3 α) (st : State α) (i j : Int) :
    (st.h_max i j ≤ (update_boundaries C f st).1.h_max i j ∧
     st.s_max i j ≤ (update_boundaries C f st).1.s_max i j ∧
     st.d_max i j ≤ (update_boundaries C f st).1.d_max i j ∧
     (update_boundaries C f st).1.b_min i j ≤ st.b_min i j) ∧
    (inDomain st i j →
      (update_boundaries C f st).1.h i j ≤ (update_boundaries C f st).1.h_max i j ∧
      (update_boundaries C f st).1.s i j ≤ (update_boundaries C f st).1.s_max i j ∧
      (C.eromod > 0 →
        (update_boundaries C f st).1.b_min i j ≤ (update_boundaries C f st).1.b i j) ∧
      (C.dep > 0 →
        (update_boundaries C f st).1.d i j ≤ (update_boundaries C f st).1.d_max i j)) := by
  obtain ⟨_, e2, e3, _, _, e6, e7⟩ := update_boundaries_env C f st
  have hin : inDomain st i j →
      (st.h_max i j ≤ (update_boundaries C f st).1.h_max i j ∧
       st.s_max i j ≤ (update_boundaries C f st).1.s_max i j ∧
       st.d_max i j ≤ (update_boundaries C f st).1.d_max i j ∧
       (update_boundaries C f st).1.b_min i j ≤ st.b_min i j) ∧
      st.h i j ≤ (update_boundaries C f st).1.h_max i j ∧
      st.s i j ≤ (update_boundaries C f st).1.s_max i j ∧
      (C.eromod > 0 → (update_boundaries C f st).1.b_min i j ≤ st.b i j) ∧
      (C.dep > 0 → st.d i j ≤ (update_boundaries C f st).1.d_max i j) := by
    intro hd
    obtain ⟨t1, t2, t3, t4, t5⟩ := update_boundaries_track C f st i j hd
    have hs : st.s_max i j ≤ (update_boundaries C f st).1.s_max i j ∧
        st.s i j ≤ (update_boundaries C f st).1.s_max i j := by
      by_cases hgt : st.s i j > st.s_max i j
      · rw [(t2 hgt).1]; exact ⟨le_of_lt hgt, le_rfl⟩
      · rw [(t3 hgt).1]; exact ⟨le_rfl, not_lt.mp hgt⟩
    have hb : (update_boundaries C f st).1.b_min i j ≤ st.b_min i j ∧
        (C.eromod > 0 → (update_boundaries C f st).1.b_min i j ≤ st.b i j) := by
      rw [t4]
      split_ifs with he
      · rw [MIN_eq_min]; exact ⟨min_le_right _ _, fun _ => min_le_left _ _⟩
      · exact ⟨le_rfl, fun h => absurd h he⟩
    have hdm : st.d_max i j ≤ (update_boundaries C f st).1.d_max i j ∧
        (C.dep > 0 → st.d i j ≤ (update_boundaries C f st).1.d_max i j) := by
      rw [t5]
      split_ifs with he
      · rw [MAX_eq_max]; exact ⟨le_max_right _ _, fun _ => le_max_left _ _⟩
      · exact ⟨le_rfl, fun h => absurd h he⟩
    have hh : st.h_max i j ≤ (update_boundaries C f st).1.h_max i j ∧
        st.h i j ≤ (update_boundaries C f st).1.h_max i j := by
      rw [t1, MAX_eq_max]; exact ⟨le_max_left _ _, le_max_right _ _⟩
    exact ⟨⟨hh.1, hs.1, hdm.1, hb.1⟩, hh.2, hs.2, hb.2, hdm.2⟩
  constructor
  · by_cases hd : inDomain st i j
    · exact (hin hd).1
    · obtain ⟨a1, a2, _, _, _, a6, a7⟩ := update_boundaries_outside C f st i j hd
      rw [a1, a2, a6, a7]
      exact ⟨le_rfl, le_rfl, le_rfl, le_rfl⟩
  · intro hd
    rw [e2, e3, e6, e7]
    exact (hin hd).2

/-- Witness for C15: cell `(1,0)` of the Active Domain of state T. -/
theorem tracking_is_monotone_witness :
    inDomain stT 1 0 ∧
    (update_boundaries cfgB stT.f_new stT).1.h 1 0
      ≤ (update_boundaries cfgB stT.f_new stT).1.h_max 1 0 ∧
    (update_boundaries cfgB stT.f_new stT).1.s 1 0
      ≤ (update_boundaries cfgB stT.f_new stT).1.s_max 1 0 :=
  ⟨by decide, ((tracking_is_monotone cfgB stT.f_new stT 1 0).2 (by decide)).1,
    ((tracking_is_monotone cfgB stT.f_new stT 1 0).2 (by decide)).2.1⟩

/-- Witness for C12: the moving cell `(1,0)` of state T and its Grid
neighbour `(2,1)`. -/
theorem active_domain_margin_witness :
    inDomain stT 1 0 ∧ is_moving cfgB stT.f_new stT 1 0 ∧
    inDomain (update_boundaries cfgB stT.f_new stT).1 2 1 :=
  ⟨by decide, by unfold is_moving; constructor <;> decide!,
    (active_domain_margin cfgB stT.f_new stT).1 1 0 (by decide)
      (by unfold is_moving; constructor <;> decide!) 2 1 (by decide) (by decide) (by decide)
      (by decide) (by decide) (by decide)⟩

/-! Function `update_surface` (lines 1517-1582) -/

/-- A node of the Grid is visited once by `update_surface(Z)`: its geometry
fields are those written by `surface_cell`. -/
theorem update_surface_visit (C : Config α) (Z : Grid α) (st : State α) (i j : Int)
    (hi : 0 ≤ i ∧ i < C.m) (hj : 0 ≤ j ∧ j < C.n) :
    (update_surface C Z st).gx i j = (surface_cell C Z i j st).gx i j ∧
    (update_surface C Z st).gy i j = (surface_cell C Z i j st).gy i j ∧
    (update_surface C Z st).gz0 i j = (surface_cell C Z i j st).gz0 i j ∧
    (update_surface C Z st).gz i j = (surface_cell C Z i j st).gz i j ∧
    (update_surface C Z st).G_xy i j = (surface_cell C Z i j st).G_xy i j ∧
    (update_surface C Z st).dA i j = (surface_cell C Z i j st).dA i j ∧
    (update_surface C Z st).dx i j = (surface_cell C Z i j st).dx i j ∧
    (update_surface C Z st).dy i j = (surface_cell C Z i j st).dy i j := by
  unfold update_surface
  apply forRange2_visit (fun _ => True)
    (fun s => s.gx i j = (surface_cell C Z i j st).gx i j ∧
      s.gy i j = (surface_cell C Z i j st).gy i j ∧
      s.gz0 i j = (surface_cell C Z i j st).gz0 i j ∧
      s.gz i j = (surface_cell C Z i j st).gz i j ∧
      s.G_xy i j = (surface_cell C Z i j st).G_xy i j ∧
      s.dA i j = (surface_cell C Z i j st).dA i j ∧
      s.dx i j = (surface_cell C Z i j st).dx i j ∧
      s.dy i j = (surface_cell C Z i j st).dy i j)
    (fun p q s => surface_cell C Z p q s) 0 C.m 0 C.n i j hi hj
  · intro p q s _ _
    trivial
  · intro s _
    simp [surface_cell, set2_same]
  · intro p q s hpq hs
    have hij : ¬ (i = p ∧ j = q) := fun h => hpq ⟨h.1.symm, h.2.symm⟩
    obtain ⟨h1, h2, h3, h4, h5, h6, h7, h8⟩ := hs
    refine ⟨?_, ?_, ?_, ?_, ?_, ?_, ?_, ?_⟩
    · rw [← h1]; exact set2_other _ _ _ _ _ _ hij
    · rw [← h2]; exact set2_other _ _ _ _ _ _ hij
    · rw [← h3]; exact set2_other _ _ _ _ _ _ hij
    · rw [← h4]; exact set2_other _ _ _ _ _ _ hij
    · rw [← h5]; exact set2_other _ _ _ _ _ _ hij
    · rw [← h6]; exact set2_other _ _ _ _ _ _ hij
    · rw [← h7]; exact set2_other _ _ _ _ _ _ hij
    · rw [← h8]; exact set2_other _ _ _ _ _ _ hij
  · trivial

/-- The algebra behind the self-test: with `A^2 = 1 + a^2`, `B^2 = 1 + b^2`
and `W^2 = 1 + a^2 + b^2`, the components `gx = -g a A / W^2`,
`gy = -g b B / W^2`, `gz0 = g / W` and the metric term `a b / (A B)` give back
`g^2`. -/
theorem gravity_identity (g a b A B W : α) (hA : A * A = 1 + a * a) (hB : B * B = 1 + b * b)
    (hW : W * W = 1 + a * a + b * b) :
    (g / W) * (g / W) + (-g * a * A / (1 + a * a + b * b)) * (-g * a * A / (1 + a * a + b * b))
      + (-g * b * B / (1 + a * a + b * b)) * (-g * b * B / (1 + a * a + b * b))
      + 2 * (a * b / (A * B)) * (-g * a * A / (1 + a * a + b * b))
          * (-g * b * B / (1 + a * a + b * b)) = g * g := by
  have hWpos : 0 < 1 + a * a + b * b := by nlinarith [mul_self_nonneg a, mul_self_nonneg b]
  have hW0 : W ≠ 0 := by
    intro h
    rw [h, mul_zero] at hW
    linarith
  have hA0 : A ≠ 0 := by
    intro h
    rw [h, mul_zero] at hA
    nlinarith [mul_self_nonneg a]
  have hB0 : B ≠ 0 := by
    intro h
    rw [h, mul_zero] at hB
    nlinarith [mul_self_nonneg b]
  have hD : (1 + a * a + b * b) ≠ 0 := ne_of_gt hWpos
  have t1 : (g / W) * (g / W) = g * g / (1 + a * a + b * b) := by
    rw [div_mul_div_comm, hW]
  have t2 : (-g * a * A / (1 + a * a + b * b)) * (-g * a * A / (1 + a * a + b * b))
      = g * g * (a * a) * (1 + a * a) / ((1 + a * a + b * b) * (1 + a * a + b * b)) := by
    rw [div_mul_div_comm, ← hA]
    congr 1
    ring
  have t3 : (-g * b * B / (1 + a * a + b * b)) * (-g * b * B / (1 + a * a + b * b))
      = g * g * (b * b) * (1 + b * b) / ((1 + a * a + b * b) * (1 + a * a + b * b)) := by
    rw [div_mul_div_comm, ← hB]
    congr 1
    ring
  have t4 : 2 * (a * b / (A * B)) * (-g * a * A / (1 + a * a + b * b))
      * (-g * b * B / (1 + a * a + b * b))
      = 2 * (g * g * (a * a) * (b * b)) / ((1 + a * a + b * b) * (1 + a * a + b * b)) := by
    field_simp
    ring
  rw [t1, t2, t3, t4]
  field_simp
  ring

/-- The gravity components written by `surface_cell` give back `g^2` when
the three square roots are exact. -/
theorem surface_cell_gravity (C : Config α) (Z : Grid α) (i j : Int) (s : State α)
    (hroots : ExactRoots C Z i j) :
    SQ ((surface_cell C Z i j s).gz0 i j) + SQ ((surface_cell C Z i j s).gx i j)
      + SQ ((surface_cell C Z i j s).gy i j)
      + 2 * (surface_cell C Z i j s).G_xy i j * (surface_cell C Z i j s).gx i j
          * (surface_cell C Z i j s).gy i j = SQ C.g ∧
    surface_gsq C Z i j s = SQ C.g := by
  obtain ⟨hA, hB, hW⟩ := hroots
  unfold surface_gsq
  simp only [surface_cell, set2_same, SQ] at hA hB hW ⊢
  exact ⟨gravity_identity C.g _ _ _ _ _ hA hB hW, gravity_identity C.g _ _ _ _ _ hA hB hW⟩

/-- C20 (gravity decomposition).  For every elevation grid `Z` and every
node `(i,j)` of the Grid at which the three square roots taken by
`update_surface(Z)` are exact (as they are over the reals), the fields
written by `update_surface` satisfy
`gz0^2 + gx^2 + gy^2 + 2*G_xy*gx*gy = g^2`, and the self-test of lines
1561-1563, whenever it is evaluated at that node, finds `gsq = g^2` and does
not report a deviation. -/
theorem gravity_decomposition_exact (C : Config α) (Z : Grid α) (st : State α) (i j : Int)
    (hi : 0 ≤ i ∧ i < C.m) (hj : 0 ≤ j ∧ j < C.n) (hroots : ExactRoots C Z i j) :
    SQ ((update_surface C Z st).gz0 i j) + SQ ((update_surface C Z st).gx i j)
      + SQ ((update_surface C Z st).gy i j)
      + 2 * (update_surface C Z st).G_xy i j * (update_surface C Z st).gx i j
          * (update_surface C Z st).gy i j = SQ C.g ∧
    (∀ s : State α, surface_gsq C Z i j s = SQ C.g ∧ ¬ self_test_reports C Z i j s) := by
  obtain ⟨e1, e2, e3, _, e5, _, _, _⟩ := update_surface_visit C Z st i j hi hj
  rw [e1, e2, e3, e5]
  refine ⟨(surface_cell_gravity C Z i j st hroots).1, fun s => ?_⟩
  have hg := (surface_cell_gravity C Z i j s hroots).2
  refine ⟨hg, ?_⟩
  unfold self_test_reports
  rw [hg, sub_self, abs_zero]
  norm_num

/-- Over the reals, with the real square root, the square roots taken by
`update_surface` are exact at every node. -/
theorem exactRoots_real (C : Config ℝ) (hs : C.sqrt = Real.sqrt) (Z : Grid ℝ) (i j : Int) :
    ExactRoots C Z i j := by
  unfold ExactRoots
  rw [hs]
  have h1 : (0 : ℝ) ≤ 1 + SQ (dZdX C Z i j) := by
    unfold SQ; nlinarith [mul_self_nonneg (dZdX C Z i j)]
  have h2 : (0 : ℝ) ≤ 1 + SQ (dZdY C Z i j) := by
    unfold SQ; nlinarith [mul_self_nonneg (dZdY C Z i j)]
  have h3 : (0 : ℝ) ≤ 1 + SQ (dZdX C Z i j) + SQ (dZdY C Z i j) := by
    unfold SQ; nlinarith [mul_self_nonneg (dZdX C Z i j), mul_self_nonneg (dZdY C Z i j)]
  exact ⟨Real.mul_self_sqrt h1, Real.mul_self_sqrt h2, Real.mul_self_sqrt h3⟩

/-- The gravity decomposition over the reals: no condition on the square
roots is left. -/
theorem gravity_decomposition_real (C : Config ℝ) (hs : C.sqrt = Real.sqrt) (Z : Grid ℝ)
    (st : State ℝ) (i j : Int) (hi : 0 ≤ i ∧ i < C.m) (hj : 0 ≤ j ∧ j < C.n) :
    SQ ((update_surface C Z st).gz0 i j) + SQ ((update_surface C Z st).gx i j)
      + SQ ((update_surface C Z st).gy i j)
      + 2 * (update_surface C Z st).G_xy i j * (update_surface C Z st).gx i j
          * (update_surface C Z st).gy i j = SQ C.g ∧
    (∀ s : State ℝ, ¬ self_test_reports C Z i j s) := by
  obtain ⟨e1, e2, e3, _, e5, _, _, _⟩ := update_surface_visit C Z st i j hi hj
  have hroots := exactRoots_real C hs Z i j
  rw [e1, e2, e3, e5]
  refine ⟨(surface_cell_gravity C Z i j st hroots).1, fun s => ?_⟩
  unfold self_test_reports
  rw [(surface_cell_gravity C Z i j s hroots).2, sub_self, abs_zero]
  norm_num

set_option maxRecDepth 1000000 in
theorem planeZ_roots : ExactRoots cfgS planeZ 0 0 := by
  unfold ExactRoots
  refine ⟨?_, ?_, ?_⟩ <;> decide!

/-- Witness for C20: node `(0,0)` of the plane of slope 3/4 on the Grid of
configuration S. -/
theorem gravity_decomposition_exact_witness :
    ((0 : Int) ≤ 0 ∧ (0 : Int) < cfgS.m) ∧ ((0 : Int) ≤ 0 ∧ (0 : Int) < cfgS.n) ∧
    ExactRoots cfgS planeZ 0 0 ∧
    SQ ((update_surface cfgS planeZ flatState).gz0 0 0)
      + SQ ((update_surface cfgS planeZ flatState).gx 0 0)
      + SQ ((update_surface cfgS planeZ flatState).gy 0 0)
      + 2 * (update_surface cfgS planeZ flatState).G_xy 0 0
          * (update_surface cfgS planeZ flatState).gx 0 0
          * (update_surface cfgS planeZ flatState).gy 0 0 = SQ cfgS.g :=
  ⟨by decide, by decide, planeZ_roots,
    (gravity_decomposition_exact cfgS planeZ flatState 0 0 (by decide) (by decide)
      planeZ_roots).1⟩

/-! Scenario A: the frictionless incline -/

/-- On a plane with slope `t` in x the slopes computed by `update_surface`
are `dZdX = t` and `dZdY = 0` at every node. -/
theorem plane_slopes (C : Config α) (Z : Grid α) (t c0 : α) (hcs : C.cellsize ≠ 0)
    (hpl : IsPlane C Z t c0) (i j : Int) : dZdX C Z i j = t ∧ dZdY C Z i j = 0 := by
  unfold dZdX dZdY
  constructor
  · split_ifs
    · rw [hpl 1 j, hpl 0 j]
      field_simp
    · rw [hpl (C.m - 1) j, hpl (C.m - 2) j]
      field_simp
      ring
    · rw [hpl (i + 1) j, hpl (i - 1) j]
      field_simp
      ring
  · split_ifs
    · rw [hpl i 1, hpl i 0]; simp
    · rw [hpl i (C.n - 1), hpl i (C.n - 2)]; simp
    · rw [hpl i (j + 1), hpl i (j - 1)]; simp

/-- Gravity on the incline: with `r = sqrt(1 + t^2)`, `r^2 = 1 + t^2`,
`update_surface` writes `gx = -g * (t/r)`, `gy = 0`, `gz0 = g * (1/r)` and
`G_xy = 0` at every node of the Grid. -/
theorem incline_gravity (C : Config α) (Z : Grid α) (t c0 : α) (hcs : C.cellsize ≠ 0)
    (hpl : IsPlane C Z t c0) (hr : C.sqrt (1 + SQ t) * C.sqrt (1 + SQ t) = 1 + SQ t)
    (st : State α) (i j : Int) (hi : 0 ≤ i ∧ i < C.m) (hj : 0 ≤ j ∧ j < C.n) :
    (update_surface C Z st).gx i j = -(C.g * (t / C.sqrt (1 + SQ t))) ∧
    (update_surface C Z st).gy i j = 0 ∧
    (update_surface C Z st).gz0 i j = C.g * (1 / C.sqrt (1 + SQ t)) ∧
    (update_surface C Z st).G_xy i j = 0 := by
  obtain ⟨e1, e2, e3, _, e5, _, _, _⟩ := update_surface_visit C Z st i j hi hj
  obtain ⟨sx, sy⟩ := plane_slopes C Z t c0 hcs hpl i j
  have h0 : (1 + SQ t + SQ (0 : α)) = 1 + SQ t := by simp [SQ]
  have hr0 : C.sqrt (1 + SQ t) ≠ 0 := by
    intro h
    rw [h, mul_zero] at hr
    unfold SQ at hr
    nlinarith [mul_self_nonneg t]
  rw [e1, e2, e3, e5]
  simp only [surface_cell, set2_same, sx, sy, h0]
  generalize C.sqrt (1 + SQ t) = r at hr hr0 ⊢
  refine ⟨?_, by simp, by ring, by simp⟩
  rw [← hr]
  field_simp
  ring

/-! Frames of the parts of a time step -/

theorem snapshot_cell_head (C : Config α) (i j : Int) (st s : State α) (h : HeadFrame st s) :
    HeadFrame st (snapshot_cell C i j s) := by
  unfold snapshot_cell
  unfold HeadFrame at *
  split_ifs <;> exact h

theorem step_head_headFrame (C : Config α) (st : State α) : HeadFrame st (step_head C st) := by
  have h : HeadFrame st (snapshot C st) := by
    unfold snapshot
    split_ifs
    · exact forRange2_inv (fun x => HeadFrame st x) (fun i j s => snapshot_cell C i j s)
        _ _ _ _ st rfl (fun i j s hs => snapshot_cell_head C i j st s hs)
    · rfl
  unfold step_head
  unfold HeadFrame at *
  exact h

theorem source_terms_srcFrame (C : Config α) (st st1 : State α)
    (h : source_terms C st = some st1) : SrcFrame st st1 := by
  unfold source_terms at h
  refine forRangeM2_inv (fun x => SrcFrame st x) (fun i j s => source_cell C i j s)
    _ _ _ _ st st1 rfl ?_ h
  intro i j s s1 hs hc
  obtain ⟨src0, tau_b, rfl⟩ := source_cell_some C i j s s1 hc
  unfold forest_cell momentum_source
  unfold SrcFrame at *
  split_ifs <;> exact hs

theorem arrest_cell_arrestFrame (C : Config α) (i j : Int) (st s : State α)
    (h : ArrestFrame st s) : ArrestFrame st (arrest_cell C i j s) := by
  unfold arrest_cell
  unfold ArrestFrame at *
  split_ifs <;> exact h

theorem arrest_arrestFrame (C : Config α) (st : State α) : ArrestFrame st (arrest C st) := by
  unfold arrest
  exact forRange2_inv (fun x => ArrestFrame st x) (fun i j s => arrest_cell C i j s)
    _ _ _ _ st rfl (fun i j s hs => arrest_cell_arrestFrame C i j st s hs)

theorem update_surface_surfFrame (C : Config α) (Z : Grid α) (st s : State α)
    (h : SurfFrame st s) : SurfFrame st (update_surface C Z s) := by
  unfold update_surface
  refine forRange2_inv (fun x => SurfFrame st x) (fun i j s => surface_cell C Z i j s)
    _ _ _ _ s h ?_
  intro i j x hx
  unfold surface_cell
  unfold SurfFrame at *
  exact hx

theorem elevation_surfFrame (C : Config α) (st : State α) : SurfFrame st (elevation C st) := by
  unfold elevation
  refine forRange2_inv (fun x => SurfFrame st x)
    (fun i j (s2 : State α) =>
      { s2 with z := set2 s2.z i j (s2.z0 i j + (s2.b i j + s2.d i j) * C.g / s2.gz0 i j) })
    _ _ _ _ st rfl ?_
  intro i j x hx
  unfold SurfFrame at *
  exact hx

theorem dynamic_surface_surfFrame (C : Config α) (st : State α) :
    SurfFrame st (dynamic_surface C st) := by
  unfold dynamic_surface
  split_ifs
  · exact update_surface_surfFrame C _ st _ (elevation_surfFrame C st)
  · rfl

theorem primivar_primFrame (C : Config α) (f : Grid3 α) (st : State α) :
    PrimFrame st (primivar C f st) := by
  unfold primivar
  refine forRange2_inv (fun x => PrimFrame st x) (fun i j s => primivar_cell C f i j s)
    _ _ _ _ st rfl ?_
  intro i j x hx
  unfold primivar_cell
  unfold PrimFrame at *
  exact hx

theorem boundaries_cell_boundFrame (C : Config α) (f : Grid3 α) (i j : Int) (st : State α)
    (x : State α × Bounds α) (h : BoundFrame st x.1) :
    BoundFrame st (boundaries_cell C f i j x).1 := by
  unfold boundaries_cell
  unfold BoundFrame at *
  simp only
  split_ifs <;> exact h

theorem update_boundaries_boundFrame (C : Config α) (f : Grid3 α) (st : State α) :
    BoundFrame st (update_boundaries C f st).1 := by
  have h : BoundFrame st (boundaries_loops C f st).1 := by
    unfold boundaries_loops
    exact forRange2_inv (fun (x : State α × Bounds α) => BoundFrame st x.1)
      (fun i j y => boundaries_cell C f i j y) _ _ _ _ _ rfl
      (fun i j s hs => boundaries_cell_boundFrame C f i j st s hs)
  rw [update_boundaries_eq]
  unfold BoundFrame at *
  exact h

/-! What the parts of a time step do to single cells -/

/-- With `curve` 0 or 1 the snapshot of lines 333-355 copies the conserved
state of every cell of the Active Domain into `f_old`. -/
theorem step_head_f_old (C : Config α) (hc : ValidCurve C) (st : State α) (i j : Int)
    (hin : inDomain st i j) (c : Nat) (hlt : c < 3) :
    (step_head C st).f_old i j c = st.f_new i j c := by
  have h : (snapshot C st).f_old i j c = st.f_new i j c := by
    unfold snapshot
    have hc1 : C.curve = 0 ∨ C.curve = 1 := hc
    rw [if_pos hc1]
    have key := forRange2_visit (fun (s : State α) => s.f_new = st.f_new)
      (fun (s : State α) => s.f_new = st.f_new ∧ s.f_old i j c = st.f_new i j c)
      (fun p q s => snapshot_cell C p q s) st.i_min st.i_max st.j_min st.j_max i j
      ⟨hin.1, hin.2.1⟩ ⟨hin.2.2.1, hin.2.2.2⟩ ?_ ?_ ?_ st rfl
    · exact key.2
    · intro p q s _ hs
      unfold snapshot_cell
      split_ifs <;> exact hs
    · intro s hs
      unfold snapshot_cell
      split_ifs <;> simp [memcpy3, hlt, hs]
    · intro p q s hpq hs
      have hij : ¬ (i = p ∧ j = q ∧ c < 3) := fun h => hpq ⟨h.1.symm, h.2.1.symm⟩
      unfold snapshot_cell
      split_ifs <;> simp only [memcpy3, if_neg hij] <;> exact hs
  exact h

/-- Index-dependent invariant rule for `loopM`. -/
theorem loopM_inv_idx {σ : Type} (P : Int → σ → Prop) (body : Int → σ → Option σ) :
    ∀ (k : Nat) (lo : Int) (s s1 : σ), P lo s →
      (∀ i s s2, lo ≤ i → i < lo + k → P i s → body i s = some s2 → P (i + 1) s2) →
      loopM k lo body s = some s1 → P (lo + k) s1 := by
  intro k
  induction k with
  | zero =>
    intro lo s s1 h0 _ h
    simp only [loopM, Option.some.injEq] at h
    subst h
    simpa using h0
  | succ k ih =>
    intro lo s s1 h0 hstep h
    rw [loopM] at h
    cases hb : body lo s with
    | none => rw [hb] at h; simp at h
    | some s2 =>
      rw [hb] at h
      have h1 : P (lo + 1) s2 := hstep lo s s2 le_rfl (by push_cast; linarith) h0 hb
      have := ih (lo + 1) s2 s1 h1 (fun i s s3 hi1 hi2 hP hbi =>
        hstep i s s3 (by linarith) (by push_cast; linarith) hP hbi) h
      have e : lo + ((k + 1 : Nat) : Int) = lo + 1 + (k : Int) := by push_cast; ring
      rw [e]
      exact this

/-- Index-dependent invariant rule for `forRangeM`. -/
theorem forRangeM_inv_idx {σ : Type} (P : Int → σ → Prop) (body : Int → σ → Option σ)
    (lo hi : Int) (s s1 : σ) (h0 : P lo s)
    (hstep : ∀ i s s2, lo ≤ i → i < hi → P i s → body i s = some s2 → P (i + 1) s2)
    (h : forRangeM lo hi body s = some s1) : P (max lo hi) s1 := by
  unfold forRangeM at h
  have e : max lo hi = lo + ((hi - lo).toNat : Int) := by
    rcases le_total lo hi with h | h
    · rw [max_eq_right h, Int.toNat_of_nonneg (by linarith)]; ring
    · rw [max_eq_left h, Int.toNat_eq_zero.mpr (by linarith)]; simp
  rw [e]
  refine loopM_inv_idx P body _ lo s s1 h0 ?_ h
  intro i s s2 hi1 hi2 hP hb
  refine hstep i s s2 hi1 ?_ hP hb
  rcases le_total lo hi with h | h
  · rw [Int.toNat_of_nonneg (by linarith)] at hi2; linarith
  · rw [Int.toNat_eq_zero.mpr (by linarith)] at hi2
    simp only [Nat.cast_zero, add_zero] at hi2
    linarith

/-- Two nested `forRangeM` loops visit the index pair `(i,j)` of their range
exactly once. -/
theorem forRangeM2_visit {σ : Type} (R0 R1 : σ → Prop) (body : Int → Int → σ → Option σ)
    (a b c d i j : Int) (hi : a ≤ i ∧ i < b) (hj : c ≤ j ∧ j < d)
    (h00 : ∀ p q s s2, ¬ (p = i ∧ q = j) → R0 s → body p q s = some s2 → R0 s2)
    (h01 : ∀ s s2, R0 s → body i j s = some s2 → R1 s2)
    (h11 : ∀ p q s s2, ¬ (p = i ∧ q = j) → R1 s → body p q s = some s2 → R1 s2)
    (s s1 : σ) (h0 : R0 s)
    (h : forRangeM a b (fun p x => forRangeM c d (fun q y => body p q y) x) s = some s1) :
    R1 s1 := by
  have key := forRangeM_inv_idx (fun p x => (p ≤ i → R0 x) ∧ (i < p → R1 x))
    (fun p x => forRangeM c d (fun q y => body p q y) x) a b s s1
    ⟨fun _ => h0, fun h => absurd hi.1 (not_le.mpr h)⟩ ?_ h
  · exact key.2 (lt_of_lt_of_le hi.2 (le_max_right a b))
  · intro p x x2 _ _ hx hrow
    rcases lt_trichotomy p i with hlt | heq | hgt
    · have hR := forRangeM_inv_idx (fun _ y => R0 y) (fun q y => body p q y) c d x x2
        (hx.1 (le_of_lt hlt))
        (fun q y y2 _ _ hy hb => h00 p q y y2 (fun h => absurd h.1 (ne_of_lt hlt)) hy hb) hrow
      exact ⟨fun _ => hR, fun h => absurd h (by omega)⟩
    · subst heq
      have hR := forRangeM_inv_idx (fun q y => (q ≤ j → R0 y) ∧ (j < q → R1 y))
        (fun q y => body p q y) c d x x2
        ⟨fun _ => hx.1 le_rfl, fun h => absurd hj.1 (not_le.mpr h)⟩ ?_ hrow
      · exact ⟨fun h => absurd h (by omega),
          fun _ => hR.2 (lt_of_lt_of_le hj.2 (le_max_right c d))⟩
      · intro q y y2 _ _ hy hb
        rcases lt_trichotomy q j with h1 | h1 | h1
        · exact ⟨fun _ => h00 p q y y2 (fun h => absurd h.2 (ne_of_lt h1))
            (hy.1 (le_of_lt h1)) hb, fun h => absurd h (by omega)⟩
        · subst h1
          exact ⟨fun h => absurd h (by omega), fun _ => h01 y y2 (hy.1 le_rfl) hb⟩
        · exact ⟨fun h => absurd h (by omega),
            fun _ => h11 p q y y2 (fun h => absurd h.2 (ne_of_gt h1)) (hy.2 h1) hb⟩
    · have hR := forRangeM_inv_idx (fun _ y => R1 y) (fun q y => body p q y) c d x x2
        (hx.2 hgt)
        (fun q y y2 _ _ hy hb => h11 p q y y2 (fun h => absurd h.1 (ne_of_gt hgt)) hy hb) hrow
      exact ⟨fun h => absurd h (by omega), fun _ => hR⟩

/-- The mass source that `source_terms` leaves in a cell, in terms of
`erosion_source`. -/
theorem source_cell_src (C : Config α) (hero : C.eromod = 0) (p q : Int) (s s2 : State α)
    (h : source_cell C p q s = some s2) :
    s2.src p q 0 = 0 ∧ ∀ i j, ¬ (i = p ∧ j = q) → s2.src i j 0 = s.src i j 0 := by
  unfold source_cell at h
  cases hf : friction_params C s p q with
  | none => rw [hf] at h; simp at h
  | some pr =>
    rw [hf] at h
    obtain ⟨mu_loc, k_loc0⟩ := pr
    simp only at h
    have he : ∀ tau, erosion_source C s p q tau = some (0, tau) := by
      intro tau
      unfold erosion_source
      simp only
      rw [if_pos hero]
    rw [he] at h
    simp only [Option.some.injEq] at h
    subst h
    constructor
    · unfold forest_cell momentum_source
      split_ifs <;> simp [set3]
    · intro i j hij
      unfold forest_cell momentum_source
      split_ifs <;> simp [set3, hij]

/-- Without erosion model, `source_terms` leaves a zero mass source in every
cell of the Active Domain. -/
theorem source_terms_src0 (C : Config α) (hero : C.eromod = 0) (st st1 : State α)
    (h : source_terms C st = some st1) (i j : Int) (hin : inDomain st i j) :
    st1.src i j 0 = 0 := by
  unfold source_terms at h
  refine forRangeM2_visit (fun _ => True) (fun (s : State α) => s.src i j 0 = 0)
    (fun p q s => source_cell C p q s) st.i_min st.i_max st.j_min st.j_max i j
    ⟨hin.1, hin.2.1⟩ ⟨hin.2.2.1, hin.2.2.2⟩ ?_ ?_ ?_ st st1 trivial h
  · intro p q s s2 _ _ _
    trivial
  · intro s s2 _ hb
    exact (source_cell_src C hero i j s s2 hb).1
  · intro p q s s2 hpq hs hb
    have hij : ¬ (i = p ∧ j = q) := fun h => hpq ⟨h.1.symm, h.2.symm⟩
    rw [(source_cell_src C hero p q s s2 hb).2 i j hij]
    exact hs

/-- Function `primivar` leaves the cells outside the Active Domain alone. -/
theorem primivar_outside (C : Config α) (f : Grid3 α) (st : State α) (i j : Int)
    (hout : ¬ inDomain st i j) :
    (primivar C f st).u i j = st.u i j ∧ (primivar C f st).v i j = st.v i j ∧
    (primivar C f st).s i j = st.s i j ∧ (primivar C f st).h i j = st.h i j := by
  unfold primivar
  apply forRange2_inv_mem (fun (s : State α) => s.u i j = st.u i j ∧ s.v i j = st.v i j ∧
    s.s i j = st.s i j ∧ s.h i j = st.h i j) (fun p q s => primivar_cell C f p q s)
  · exact ⟨rfl, rfl, rfl, rfl⟩
  · intro p q s hp1 hp2 hq1 hq2 hs
    have hij : ¬ (i = p ∧ j = q) := by
      rintro ⟨rfl, rfl⟩
      exact hout ⟨hp1, hp2, hq1, hq2⟩
    obtain ⟨h1, h2, h3, h4⟩ := hs
    refine ⟨?_, ?_, ?_, ?_⟩
    · rw [← h1]; exact set2_other _ _ _ _ _ _ hij
    · rw [← h2]; exact set2_other _ _ _ _ _ _ hij
    · rw [← h3]; exact set2_other _ _ _ _ _ _ hij
    · rw [← h4]; exact set2_other _ _ _ _ _ _ hij

/-- A cell with zero velocity has no mass flux. -/
theorem flux_zero_of_rest (s : State α) (p q : Int) (hu : s.u p q = 0) (hv : s.v p q = 0) :
    qhx s p q = 0 ∧ qhy s p q = 0 ∧ qhd s p q = 0 := by
  unfold qhx qhy qhd flux_aux flux_auy
  rw [hu, hv]
  simp

/-- The fields that `HeadFrame` keeps, among those used below. -/
theorem HeadFrame.hfields {a b : State α} (h : HeadFrame a b) :
    b.f_new = a.f_new ∧
    b.u = a.u ∧
    b.v = a.v ∧
    b.s = a.s ∧
    b.h = a.h ∧
    b.mu = a.mu ∧
    b.gx = a.gx ∧
    b.gy = a.gy ∧
    b.dA = a.dA ∧
    b.G_xy = a.G_xy ∧
    b.repeat_flag = a.repeat_flag ∧
    b.src = a.src ∧
    b.t = a.t ∧
    b.n_step = a.n_step ∧
    b.stop_code = a.stop_code ∧
    b.i_min = a.i_min ∧
    b.i_max = a.i_max ∧
    b.j_min = a.j_min ∧
    b.j_max = a.j_max := by
  unfold HeadFrame at h
  refine ⟨?_, ?_, ?_, ?_, ?_, ?_, ?_, ?_, ?_, ?_, ?_, ?_, ?_, ?_, ?_, ?_, ?_, ?_, ?_⟩
  · have e := congrArg State.f_new h; exact e
  · have e := congrArg State.u h; exact e
  · have e := congrArg State.v h; exact e
  · have e := congrArg State.s h; exact e
  · have e := congrArg State.h h; exact e
  · have e := congrArg State.mu h; exact e
  · have e := congrArg State.gx h; exact e
  · have e := congrArg State.gy h; exact e
  · have e := congrArg State.dA h; exact e
  · have e := congrArg State.G_xy h; exact e
  · have e := congrArg State.repeat_flag h; exact e
  · have e := congrArg State.src h; exact e
  · have e := congrArg State.t h; exact e
  · have e := congrArg State.n_step h; exact e
  · have e := congrArg State.stop_code h; exact e
  · have e := congrArg State.i_min h; exact e
  · have e := congrArg State.i_max h; exact e
  · have e := congrArg State.j_min h; exact e
  · have e := congrArg State.j_max h; exact e

/-- The fields that `SrcFrame` keeps, among those used below. -/
theorem SrcFrame.sfields {a b : State α} (h : SrcFrame a b) :
    b.f_new = a.f_new ∧
    b.f_old = a.f_old ∧
    b.u = a.u ∧
    b.v = a.v ∧
    b.s = a.s ∧
    b.h = a.h ∧
    b.mu = a.mu ∧
    b.gx = a.gx ∧
    b.gy = a.gy ∧
    b.dA = a.dA ∧
    b.G_xy = a.G_xy ∧
    b.dt = a.dt ∧
    b.repeat_flag = a.repeat_flag ∧
    b.t = a.t ∧
    b.n_step = a.n_step ∧
    b.stop_code = a.stop_code ∧
    b.i_min = a.i_min ∧
    b.i_max = a.i_max ∧
    b.j_min = a.j_min ∧
    b.j_max = a.j_max := by
  unfold SrcFrame at h
  refine ⟨?_, ?_, ?_, ?_, ?_, ?_, ?_, ?_, ?_, ?_, ?_, ?_, ?_, ?_, ?_, ?_, ?_, ?_, ?_, ?_⟩
  · have e := congrArg State.f_new h; exact e
  · have e := congrArg State.f_old h; exact e
  · have e := congrArg State.u h; exact e
  · have e := congrArg State.v h; exact e
  · have e := congrArg State.s h; exact e
  · have e := congrArg State.h h; exact e
  · have e := congrArg State.mu h; exact e
  · have e := congrArg State.gx h; exact e
  · have e := congrArg State.gy h; exact e
  · have e := congrArg State.dA h; exact e
  · have e := congrArg State.G_xy h; exact e
  · have e := congrArg State.dt h; exact e
  · have e := congrArg State.repeat_flag h; exact e
  · have e := congrArg State.t h; exact e
  · have e := congrArg State.n_step h; exact e
  · have e := congrArg State.stop_code h; exact e
  · have e := congrArg State.i_min h; exact e
  · have e := congrArg State.i_max h; exact e
  · have e := congrArg State.j_min h; exact e
  · have e := congrArg State.j_max h; exact e

/-- The fields that `ArrestFrame` keeps, among those used below. -/
theorem ArrestFrame.afields {a b : State α} (h : ArrestFrame a b) :
    b.f_old = a.f_old ∧
    b.u = a.u ∧
    b.v = a.v ∧
    b.s = a.s ∧
    b.h = a.h ∧
    b.mu = a.mu ∧
    b.gx = a.gx ∧
    b.gy = a.gy ∧
    b.dA = a.dA ∧
    b.G_xy = a.G_xy ∧
    b.dt = a.dt ∧
    b.repeat_flag = a.repeat_flag ∧
    b.src = a.src ∧
    b.t = a.t ∧
    b.n_step = a.n_step ∧
    b.stop_code = a.stop_code ∧
    b.i_min = a.i_min ∧
    b.i_max = a.i_max ∧
    b.j_min = a.j_min ∧
    b.j_max = a.j_max := by
  unfold ArrestFrame at h
  refine ⟨?_, ?_, ?_, ?_, ?_, ?_, ?_, ?_, ?_, ?_, ?_, ?_, ?_, ?_, ?_, ?_, ?_, ?_, ?_, ?_⟩
  · have e := congrArg State.f_old h; exact e
  · have e := congrArg State.u h; exact e
  · have e := congrArg State.v h; exact e
  · have e := congrArg State.s h; exact e
  · have e := congrArg State.h h; exact e
  · have e := congrArg State.mu h; exact e
  · have e := congrArg State.gx h; exact e
  · have e := congrArg State.gy h; exact e
  · have e := congrArg State.dA h; exact e
  · have e := congrArg State.G_xy h; exact e
  · have e := congrArg State.dt h; exact e
  · have e := congrArg State.repeat_flag h; exact e
  · have e := congrArg State.src h; exact e
  · have e := congrArg State.t h; exact e
  · have e := congrArg State.n_step h; exact e
  · have e := congrArg State.stop_code h; exact e
  · have e := congrArg State.i_min h; exact e
  · have e := congrArg State.i_max h; exact e
  · have e := congrArg State.j_min h; exact e
  · have e := congrArg State.j_max h; exact e

/-- The fields that `SurfFrame` keeps, among those used below. -/
theorem SurfFrame.zfields {a b : State α} (h : SurfFrame a b) :
    b.f_new = a.f_new ∧
    b.f_old = a.f_old ∧
    b.u = a.u ∧
    b.v = a.v ∧
    b.s = a.s ∧
    b.h = a.h ∧
    b.mu = a.mu ∧
    b.dt = a.dt ∧
    b.repeat_flag = a.repeat_flag ∧
    b.src = a.src ∧
    b.t = a.t ∧
    b.n_step = a.n_step ∧
    b.stop_code = a.stop_code ∧
    b.i_min = a.i_min ∧
    b.i_max = a.i_max ∧
    b.j_min = a.j_min ∧
    b.j_max = a.j_max := by
  unfold SurfFrame at h
  refine ⟨?_, ?_, ?_, ?_, ?_, ?_, ?_, ?_, ?_, ?_, ?_, ?_, ?_, ?_, ?_, ?_, ?_⟩
  · have e := congrArg State.f_new h; exact e
  · have e := congrArg State.f_old h; exact e
  · have e := congrArg State.u h; exact e
  · have e := congrArg State.v h; exact e
  · have e := congrArg State.s h; exact e
  · have e := congrArg State.h h; exact e
  · have e := congrArg State.mu h; exact e
  · have e := congrArg State.dt h; exact e
  · have e := congrArg State.repeat_flag h; exact e
  · have e := congrArg State.src h; exact e
  · have e := congrArg State.t h; exact e
  · have e := congrArg State.n_step h; exact e
  · have e := congrArg State.stop_code h; exact e
  · have e := congrArg State.i_min h; exact e
  · have e := congrArg State.i_max h; exact e
  · have e := congrArg State.j_min h; exact e
  · have e := congrArg State.j_max h; exact e

/-- The fields that `PrimFrame` keeps, among those used below. -/
theorem PrimFrame.pfields {a b : State α} (h : PrimFrame a b) :
    b.f_new = a.f_new ∧
    b.f_old = a.f_old ∧
    b.mu = a.mu ∧
    b.gx = a.gx ∧
    b.gy = a.gy ∧
    b.dA = a.dA ∧
    b.G_xy = a.G_xy ∧
    b.dt = a.dt ∧
    b.repeat_flag = a.repeat_flag ∧
    b.src = a.src ∧
    b.t = a.t ∧
    b.n_step = a.n_step ∧
    b.stop_code = a.stop_code ∧
    b.i_min = a.i_min ∧
    b.i_max = a.i_max ∧
    b.j_min = a.j_min ∧
    b.j_max = a.j_max := by
  unfold PrimFrame at h
  refine ⟨?_, ?_, ?_, ?_, ?_, ?_, ?_, ?_, ?_, ?_, ?_, ?_, ?_, ?_, ?_, ?_, ?_⟩
  · have e := congrArg State.f_new h; exact e
  · have e := congrArg State.f_old h; exact e
  · have e := congrArg State.mu h; exact e
  · have e := congrArg State.gx h; exact e
  · have e := congrArg State.gy h; exact e
  · have e := congrArg State.dA h; exact e
  · have e := congrArg State.G_xy h; exact e
  · have e := congrArg State.dt h; exact e
  · have e := congrArg State.repeat_flag h; exact e
  · have e := congrArg State.src h; exact e
  · have e := congrArg State.t h; exact e
  · have e := congrArg State.n_step h; exact e
  · have e := congrArg State.stop_code h; exact e
  · have e := congrArg State.i_min h; exact e
  · have e := congrArg State.i_max h; exact e
  · have e := congrArg State.j_min h; exact e
  · have e := congrArg State.j_max h; exact e

/-- The fields that `BoundFrame` keeps, among those used below. -/
theorem BoundFrame.bfields {a b : State α} (h : BoundFrame a b) :
    b.f_new = a.f_new ∧
    b.f_old = a.f_old ∧
    b.u = a.u ∧
    b.v = a.v ∧
    b.s = a.s ∧
    b.h = a.h ∧
    b.mu = a.mu ∧
    b.gx = a.gx ∧
    b.gy = a.gy ∧
    b.dA = a.dA ∧
    b.G_xy = a.G_xy ∧
    b.dt = a.dt ∧
    b.repeat_flag = a.repeat_flag ∧
    b.src = a.src ∧
    b.t = a.t ∧
    b.n_step = a.n_step ∧
    b.stop_code = a.stop_code := by
  unfold BoundFrame at h
  refine ⟨?_, ?_, ?_, ?_, ?_, ?_, ?_, ?_, ?_, ?_, ?_, ?_, ?_, ?_, ?_, ?_, ?_⟩
  · have e := congrArg State.f_new h; exact e
  · have e := congrArg State.f_old h; exact e
  · have e := congrArg State.u h; exact e
  · have e := congrArg State.v h; exact e
  · have e := congrArg State.s h; exact e
  · have e := congrArg State.h h; exact e
  · have e := congrArg State.mu h; exact e
  · have e := congrArg State.gx h; exact e
  · have e := congrArg State.gy h; exact e
  · have e := congrArg State.dA h; exact e
  · have e := congrArg State.G_xy h; exact e
  · have e := congrArg State.dt h; exact e
  · have e := congrArg State.repeat_flag h; exact e
  · have e := congrArg State.src h; exact e
  · have e := congrArg State.t h; exact e
  · have e := congrArg State.n_step h; exact e
  · have e := congrArg State.stop_code h; exact e
/-- States with the same Active Domain have the same active cells. -/
theorem inDomain_congr (a b : State α) (h1 : b.i_min = a.i_min) (h2 : b.i_max = a.i_max)
    (h3 : b.j_min = a.j_min) (h4 : b.j_max = a.j_max) (p q : Int) :
    inDomain b p q ↔ inDomain a p q := by
  unfold inDomain
  rw [h1, h2, h3, h4]

theorem accepted_eq_next {β : Type} (o : Outcome β) (s : State β)
    (h : o.accepted = some s) : o = Outcome.next s := by
  cases o with
  | next s2 =>
    simp only [Outcome.accepted, Option.some.injEq] at h
    rw [h]
  | done s2 => simp [Outcome.accepted] at h
  | halted => simp [Outcome.accepted] at h
  | nofuel => simp [Outcome.accepted] at h

/-- Index-dependent invariant rule for the j-loop when the test for negative
flow heights never succeeds: the loop visits every cell of the row. -/
theorem jloop_nobreak (C : Config α) (i : Int) (P : Int → State α → Prop) :
    ∀ (k : Nat) (j : Int) (st : State α), P j st →
      (∀ q s, j ≤ q → q < j + k → P q s →
        ¬ (cell_flux C i q s).f_new i q 0 < 0 ∧
        P (q + 1) (cell_momentum C i q (cell_flux C i q s))) →
      P (j + k) (jloop C i k j st) := by
  intro k
  induction k with
  | zero => intro j st h _; simpa using h
  | succ k ih =>
    intro j st h hstep
    have hb : j < j + ((k + 1 : Nat) : Int) := by push_cast; omega
    obtain ⟨hn, hP⟩ := hstep j st le_rfl hb h
    unfold jloop
    simp only
    rw [if_neg hn]
    have e : j + ((k + 1 : Nat) : Int) = j + 1 + (k : Int) := by push_cast; ring
    rw [e]
    apply ih (j + 1) _ hP
    intro q s h1 h2 hs
    exact hstep q s (by omega) (by push_cast; omega) hs

/-- Index-dependent invariant rule for the i-loop when `repeat_flag` is
never 1: the loop visits the rows from `i` to `i_max - 1` once each. -/
theorem iloop_noretry (C : Config α) (P : Int → State α → Prop) (b : Int)
    (hP : ∀ p s, P p s → s.i_max = b ∧ s.repeat_flag ≠ 1)
    (hrow : ∀ p s, p < b → P p s → P (p + 1) (row_pass C p s)) :
    ∀ (fuel : Nat) (i : Int) (st st4 : State α), P i st →
      iloop C fuel i st = some st4 → P (max i b) st4 := by
  intro fuel
  induction fuel with
  | zero => intro i st st4 _ h; simp [iloop] at h
  | succ fuel ih =>
    intro i st st4 hPi h
    obtain ⟨hb, hf⟩ := hP i st hPi
    rw [iloop] at h
    by_cases h1 : i < st.i_max
    · rw [if_pos h1, if_neg hf] at h
      rw [hb] at h1
      have := ih (i + 1) _ st4 (hrow i st h1 hPi) h
      have e : max (i + 1) b = max i b := by
        rw [max_eq_right (by omega), max_eq_right (by omega)]
      rw [← e]
      exact this
    · rw [if_neg h1] at h
      simp only [Option.some.injEq] at h
      subst h
      rw [hb] at h1
      rw [max_eq_left (by omega)]
      exact hPi

/-- The transport pass without retry visits the cell `(i,j)` of the Active
Domain `[a,b) x [c,d)` exactly once: `R0` holds until the visit, the visit
turns it into `R1`, and `R1` holds from then on, provided no visit makes a
mass negative. -/
theorem pass_visit (C : Config α) (R0 R1 : State α → Prop) (a b c d i j : Int)
    (hi : a ≤ i ∧ i < b) (hj : c ≤ j ∧ j < d)
    (hd0 : ∀ s, R0 s → s.i_max = b ∧ s.j_min = c ∧ s.j_max = d ∧ s.repeat_flag ≠ 1)
    (hd1 : ∀ s, R1 s → s.i_max = b ∧ s.j_min = c ∧ s.j_max = d ∧ s.repeat_flag ≠ 1)
    (h00 : ∀ p q s, a ≤ p → p < b → c ≤ q → q < d → ¬ (p = i ∧ q = j) → R0 s →
      ¬ (cell_flux C p q s).f_new p q 0 < 0 ∧ R0 (cell_momentum C p q (cell_flux C p q s)))
    (h01 : ∀ s, R0 s →
      ¬ (cell_flux C i j s).f_new i j 0 < 0 ∧ R1 (cell_momentum C i j (cell_flux C i j s)))
    (h11 : ∀ p q s, a ≤ p → p < b → c ≤ q → q < d → ¬ (p = i ∧ q = j) → R1 s →
      ¬ (cell_flux C p q s).f_new p q 0 < 0 ∧ R1 (cell_momentum C p q (cell_flux C p q s)))
    (fuel : Nat) (st st4 : State α) (h0 : R0 st) (h : iloop C fuel a st = some st4) :
    R1 st4 := by
  have hcd : c + ((d - c).toNat : Int) = d := by
    rw [Int.toNat_of_nonneg (by omega)]; ring
  have key := iloop_noretry C (fun p s => a ≤ p ∧ (p ≤ i → R0 s) ∧ (i < p → R1 s)) b ?_ ?_
    fuel a st st4 ⟨le_rfl, fun _ => h0, fun hlt => absurd hi.1 (not_le.mpr hlt)⟩ h
  · exact key.2.2 (lt_of_lt_of_le hi.2 (le_max_right a b))
  · rintro p s ⟨_, h1, h2⟩
    rcases le_or_lt p i with hle | hlt
    · obtain ⟨e1, _, _, e4⟩ := hd0 s (h1 hle)
      exact ⟨e1, e4⟩
    · obtain ⟨e1, _, _, e4⟩ := hd1 s (h2 hlt)
      exact ⟨e1, e4⟩
  · rintro p s hpb ⟨hap, h1, h2⟩
    refine ⟨by omega, ?_⟩
    unfold row_pass
    rcases lt_trichotomy p i with hlt | heq | hgt
    · obtain ⟨_, e2, e3, _⟩ := hd0 s (h1 (le_of_lt hlt))
      rw [e2, e3]
      have hR := jloop_nobreak C p (fun _ y => R0 y) (d - c).toNat c s (h1 (le_of_lt hlt))
        (fun q y hq1 hq2 hy => h00 p q y hap hpb hq1 (by rw [hcd] at hq2; exact hq2)
          (fun h => absurd h.1 (ne_of_lt hlt)) hy)
      exact ⟨fun _ => hR, fun h => absurd h (by omega)⟩
    · subst heq
      obtain ⟨_, e2, e3, _⟩ := hd0 s (h1 le_rfl)
      rw [e2, e3]
      have hR := jloop_nobreak C p (fun q y => (q ≤ j → R0 y) ∧ (j < q → R1 y))
        (d - c).toNat c s ⟨fun _ => h1 le_rfl, fun h => absurd hj.1 (not_le.mpr h)⟩ ?_
      · rw [hcd] at hR
        exact ⟨fun h => absurd h (by omega), fun _ => hR.2 hj.2⟩
      · intro q y hq1 hq2 hy
        rw [hcd] at hq2
        rcases lt_trichotomy q j with g1 | g1 | g1
        · obtain ⟨n1, n2⟩ := h00 p q y hap hpb hq1 hq2 (fun h => absurd h.2 (ne_of_lt g1))
            (hy.1 (le_of_lt g1))
          exact ⟨n1, fun _ => n2, fun h => absurd h (by omega)⟩
        · subst g1
          obtain ⟨n1, n2⟩ := h01 y (hy.1 le_rfl)
          exact ⟨n1, fun h => absurd h (by omega), fun _ => n2⟩
        · obtain ⟨n1, n2⟩ := h11 p q y hap hpb hq1 hq2 (fun h => absurd h.2 (ne_of_gt g1))
            (hy.2 g1)
          exact ⟨n1, fun h => absurd h (by omega), fun _ => n2⟩
    · obtain ⟨_, e2, e3, _⟩ := hd1 s (h2 hgt)
      rw [e2, e3]
      have hR := jloop_nobreak C p (fun _ y => R1 y) (d - c).toNat c s (h2 hgt)
        (fun q y hq1 hq2 hy => h11 p q y hap hpb hq1 (by rw [hcd] at hq2; exact hq2)
          (fun h => absurd h.1 (ne_of_gt hgt)) hy)
      exact ⟨fun h => absurd h (by omega), fun _ => hR⟩

/-! Scenario A: the first time step of a single cell -/

/-- An empty cell has no mass flux. -/
theorem flux_zero_of_empty (s : State α) (p q : Int) (hh : s.h p q = 0) :
    qhx s p q = 0 ∧ qhy s p q = 0 ∧ qhd s p q = 0 := by
  unfold qhx qhy qhd
  rw [hh]
  simp

/-- Without erosion model, the visit of a cell without mass flux and with
zero mass source changes neither `f_new` nor any mass source. -/
theorem cell_flux_noflux (C : Config α) (hero : C.eromod = 0) (p q : Int) (s : State α)
    (hq : qhx s p q = 0 ∧ qhy s p q = 0 ∧ qhd s p q = 0) (hsrc : s.src p q 0 = 0) :
    (cell_flux C p q s).f_new = s.f_new ∧
    (∀ i j, (cell_flux C p q s).src i j 0 = s.src i j 0) ∧
    (cell_flux C p q s).repeat_flag = s.repeat_flag := by
  have hl : limit_source C p q s = { s with src := set3 s.src p q 0 0 } := by
    unfold limit_source
    rw [if_neg (by rw [hero]; intro h; exact absurd h.1 (lt_irrefl 0)),
      if_neg (by rw [hsrc]; intro h; exact absurd h.2 (lt_irrefl 0))]
  have hq1 : qhx { s with src := set3 s.src p q 0 0 } p q = 0 ∧
      qhy { s with src := set3 s.src p q 0 0 } p q = 0 ∧
      qhd { s with src := set3 s.src p q 0 0 } p q = 0 := hq
  obtain ⟨x, y, d⟩ := hq1
  refine ⟨?_, ?_, ?_⟩
  · unfold cell_flux
    rw [hl]
    funext i j e
    show flux_in C p q _ (flux_out p q _) i j e = _
    rw [flux_in_inert C p q _ _ i j e (fun _ => x) (fun _ => y) (fun _ => d)]
    unfold flux_out
    have h0 : set3 s.src p q 0 0 p q 0 = 0 := by simp [set3]
    simp only [sub3_apply, x, y, d, h0, zero_mul, add_zero, sub_zero]
    by_cases hpq : i = p ∧ j = q
    · obtain ⟨rfl, rfl⟩ := hpq
      match e with
      | 0 => simp
      | 1 => simp
      | 2 => simp
      | (n + 3) => simp
    · have h1 : ∀ c : Nat, ¬ (i = p ∧ j = q ∧ e = c) := fun c hc => hpq ⟨hc.1, hc.2.1⟩
      simp only [h1, if_false]
  · intro i j
    have e : (cell_flux C p q s).src = (limit_source C p q s).src := rfl
    rw [e, hl]
    show set3 s.src p q 0 0 i j 0 = _
    unfold set3
    split_ifs with h
    · obtain ⟨rfl, rfl, _⟩ := h
      exact hsrc.symm
    · rfl
  · have e : (cell_flux C p q s).repeat_flag = (limit_source C p q s).repeat_flag := rfl
    rw [e, hl]

/-- The momentum update of lines 496-518 writes only the momentum of the
visited cell. -/
theorem cell_momentum_other (C : Config α) (p q : Int) (s : State α) :
    (∀ a b, (cell_momentum C p q s).f_new a b 0 = s.f_new a b 0) ∧
    (∀ i j e, ¬ (i = p ∧ j = q) → (cell_momentum C p q s).f_new i j e = s.f_new i j e) ∧
    (cell_momentum C p q s).src = s.src ∧
    (cell_momentum C p q s).repeat_flag = s.repeat_flag := by
  refine ⟨?_, ?_, ?_, ?_⟩
  · intro a b
    unfold cell_momentum
    split_ifs <;> simp [add3_apply]
  · intro i j e hij
    have h1 : ∀ c : Nat, ¬ (i = p ∧ j = q ∧ e = c) := fun c hc => hij ⟨hc.1, hc.2.1⟩
    unfold cell_momentum
    split_ifs <;> simp only [add3_apply, h1, if_false]
  · unfold cell_momentum
    split_ifs <;> rfl
  · unfold cell_momentum
    split_ifs <;> rfl

/-- The earth pressures on a cell whose four neighbours are empty vanish. -/
theorem pressure_zero (C : Config α) (s : State α) (i j : Int)
    (hnb : ∀ p q : Int, ¬ (p = i ∧ q = j) → s.h p q = 0) :
    pEx C s i j = 0 ∧ pWx C s i j = 0 ∧ pNy C s i j = 0 ∧ pSy C s i j = 0 := by
  have e1 : s.h (i + 1) j = 0 := hnb _ _ (fun h => by omega)
  have e2 : s.h (i - 1) j = 0 := hnb _ _ (fun h => by omega)
  have e3 : s.h i (j + 1) = 0 := hnb _ _ (fun h => by omega)
  have e4 : s.h i (j - 1) = 0 := hnb _ _ (fun h => by omega)
  unfold pEx pWx pNy pSy
  refine ⟨?_, ?_, ?_, ?_⟩ <;> split_ifs <;> simp [e1, e2, e3, e4]

/-- Lines 496-512 for a cell at rest without friction and without slope in
y, whose neighbours are empty: the momentum gains `gx * mass * dt` in x and
nothing in y. -/
theorem cell_momentum_single (C : Config α) (hsq0 : C.sqrt 0 = 0) (s : State α) (i j : Int)
    (hs : s.s i j ≤ C.u_min) (hmu : s.mu i j = 0) (hgy : s.gy i j = 0)
    (hnb : ∀ p q : Int, ¬ (p = i ∧ q = j) → s.h p q = 0) :
    (cell_momentum C i j s).f_new i j 1 = s.f_new i j 1 + s.gx i j * s.f_old i j 0 * s.dt ∧
    (cell_momentum C i j s).f_new i j 2 = s.f_new i j 2 := by
  obtain ⟨p1, p2, p3, p4⟩ := pressure_zero C s i j hnb
  have hx : F_drive_x C s i j = s.gx i j * s.f_old i j 0 := by
    unfold F_drive_x; rw [p1, p2]; ring
  have hy : F_drive_y C s i j = 0 := by
    unfold F_drive_y; rw [p3, p4, hgy]; ring
  have hd : F_drive_2 C s i j = (s.gx i j * s.f_old i j 0) * (s.gx i j * s.f_old i j 0) := by
    unfold F_drive_2 SQ; rw [hx, hy]; ring
  have hf : F_fric_2 s i j = 0 := by
    unfold F_fric_2 SQ; rw [hmu]; ring
  unfold cell_momentum
  rw [if_pos hs]
  split_ifs with hgt
  · simp only [add3_apply, hx, hy, hf, hsq0]
    constructor
    · simp
    · simp
  · rw [hd, hf] at hgt
    have h0 : s.gx i j * s.f_old i j 0 = 0 := by
      by_contra hne
      exact hgt (mul_self_pos.mpr hne)
    rw [h0]
    simp

/-- The reversal check at cell `(p,q)` leaves a cell `(i,j)` alone whose old
momentum is zero. -/
theorem arrest_cell_keep (C : Config α) (p q : Int) (s : State α) (i j : Int)
    (h1 : s.f_old i j 1 = 0) (h2 : s.f_old i j 2 = 0) :
    (arrest_cell C p q s).f_old = s.f_old ∧
    ∀ e, (arrest_cell C p q s).f_new i j e = s.f_new i j e := by
  unfold arrest_cell
  by_cases hpq : i = p ∧ j = q
  · obtain ⟨rfl, rfl⟩ := hpq
    rw [if_neg]
    · exact ⟨rfl, fun _ => rfl⟩
    · rw [h1, h2]
      simp
  · split_ifs
    · exact ⟨rfl, fun e => by simp only [set3_other _ _ _ _ _ _ _ _ hpq]⟩
    · exact ⟨rfl, fun e => by simp only [set3_other _ _ _ _ _ _ _ _ hpq]⟩
    · exact ⟨rfl, fun _ => rfl⟩

/-- The reversal check leaves a cell alone whose old momentum is zero. -/
theorem arrest_keep (C : Config α) (st : State α) (i j : Int)
    (h1 : st.f_old i j 1 = 0) (h2 : st.f_old i j 2 = 0) (c : Nat) :
    (arrest C st).f_new i j c = st.f_new i j c := by
  unfold arrest
  have key := forRange2_inv
    (fun x : State α => x.f_old = st.f_old ∧ ∀ e, x.f_new i j e = st.f_new i j e)
    (fun p q y => arrest_cell C p q y) st.i_min st.i_max st.j_min st.j_max st
    ⟨rfl, fun _ => rfl⟩ ?_
  · exact key.2 c
  · rintro p q s ⟨a0, a1⟩
    obtain ⟨b0, b1⟩ := arrest_cell_keep C p q s i j (by rw [a0]; exact h1) (by rw [a0]; exact h2)
    exact ⟨b0.trans a0, fun e => (b1 e).trans (a1 e)⟩

/-- More fields that the transport pass reads and never writes. -/
theorem LoopFrame.more {st s : State α} (hf : LoopFrame st s) :
    s.mu = st.mu ∧ s.dA = st.dA ∧ s.G_xy = st.G_xy := by
  unfold LoopFrame at hf
  refine ⟨?_, ?_, ?_⟩
  · have e := congrArg State.mu hf; exact e
  · have e := congrArg State.dA hf; exact e
  · have e := congrArg State.G_xy hf; exact e

/-- Scenario A, the transport pass: a cell at rest without friction and
without slope in y, alone among empty cells, keeps its mass and gains the
x-momentum `gx * mass * dt`; the pass is not retried. -/
theorem pass_single (C : Config α) (hero : C.eromod = 0) (hsq0 : C.sqrt 0 = 0)
    (st3 : State α) (i j : Int) (hin : inDomain st3 i j) (hflag : st3.repeat_flag ≠ 1)
    (hu : st3.u i j = 0) (hv : st3.v i j = 0) (hs : st3.s i j ≤ C.u_min)
    (hmu : st3.mu i j = 0) (hgy : st3.gy i j = 0)
    (hm1 : st3.f_new i j 1 = 0) (hm2 : st3.f_new i j 2 = 0)
    (hnb : ∀ p q : Int, ¬ (p = i ∧ q = j) → st3.h p q = 0)
    (hpos : ∀ p q, inDomain st3 p q → 0 ≤ st3.f_new p q 0)
    (hsrc : ∀ p q, inDomain st3 p q → st3.src p q 0 = 0)
    (fuel : Nat) (st4 : State α) (h : iloop C fuel st3.i_min st3 = some st4) :
    st4.f_new i j 0 = st3.f_new i j 0 ∧
    st4.f_new i j 1 = st3.gx i j * st3.f_old i j 0 * st3.dt ∧
    st4.f_new i j 2 = 0 ∧ st4.dt = st3.dt ∧ LoopFrame st3 st4 := by
  -- what every visit keeps
  have hflux : ∀ p q s, inDomain st3 p q →
      (LoopFrame st3 s ∧ s.dt = st3.dt ∧ s.repeat_flag = st3.repeat_flag ∧
        (∀ a b, s.f_new a b 0 = st3.f_new a b 0) ∧
        (∀ a b, inDomain st3 a b → s.src a b 0 = 0)) →
      (cell_flux C p q s).f_new = s.f_new ∧
      (LoopFrame st3 (cell_flux C p q s) ∧ (cell_flux C p q s).dt = st3.dt ∧
        (cell_flux C p q s).repeat_flag = st3.repeat_flag ∧
        (∀ a b, (cell_flux C p q s).f_new a b 0 = st3.f_new a b 0) ∧
        (∀ a b, inDomain st3 a b → (cell_flux C p q s).src a b 0 = 0)) := by
    rintro p q s hpq ⟨q1, q2, q3, q4, q5⟩
    obtain ⟨f1, f2, _, f4, _⟩ := q1.fields
    have hq : qhx s p q = 0 ∧ qhy s p q = 0 ∧ qhd s p q = 0 := by
      by_cases hc : p = i ∧ q = j
      · obtain ⟨rfl, rfl⟩ := hc
        exact flux_zero_of_rest s p q (by rw [f1]; exact hu) (by rw [f2]; exact hv)
      · exact flux_zero_of_empty s p q (by rw [f4]; exact hnb p q hc)
    obtain ⟨c1, c2, c3⟩ := cell_flux_noflux C hero p q s hq (q5 p q hpq)
    refine ⟨c1, q1.ltrans (cell_flux_frame C p q s).toLoop,
      by rw [(cell_flux_frame C p q s).dt_eq]; exact q2, by rw [c3]; exact q3,
      fun a b => by rw [c1]; exact q4 a b, fun a b hab => by rw [c2]; exact q5 a b hab⟩
  have hmom : ∀ p q s,
      (LoopFrame st3 s ∧ s.dt = st3.dt ∧ s.repeat_flag = st3.repeat_flag ∧
        (∀ a b, s.f_new a b 0 = st3.f_new a b 0) ∧
        (∀ a b, inDomain st3 a b → s.src a b 0 = 0)) →
      (LoopFrame st3 (cell_momentum C p q s) ∧ (cell_momentum C p q s).dt = st3.dt ∧
        (cell_momentum C p q s).repeat_flag = st3.repeat_flag ∧
        (∀ a b, (cell_momentum C p q s).f_new a b 0 = st3.f_new a b 0) ∧
        (∀ a b, inDomain st3 a b → (cell_momentum C p q s).src a b 0 = 0)) := by
    rintro p q s ⟨q1, q2, q3, q4, q5⟩
    obtain ⟨m1, _, m3, m4⟩ := cell_momentum_other C p q s
    exact ⟨q1.ltrans (cell_momentum_frame C p q s).toLoop,
      by rw [(cell_momentum_frame C p q s).dt_eq]; exact q2, by rw [m4]; exact q3,
      fun a b => by rw [m1]; exact q4 a b, fun a b hab => by rw [m3]; exact q5 a b hab⟩
  have hdom : ∀ s, LoopFrame st3 s → s.repeat_flag = st3.repeat_flag →
      s.i_max = st3.i_max ∧ s.j_min = st3.j_min ∧ s.j_max = st3.j_max ∧ s.repeat_flag ≠ 1 :=
    fun s hl hfl => ⟨hl.l_i_max_eq, hl.l_j_min_eq, hl.l_j_max_eq, by rw [hfl]; exact hflag⟩
  have key := pass_visit C
    (fun s => (LoopFrame st3 s ∧ s.dt = st3.dt ∧ s.repeat_flag = st3.repeat_flag ∧
        (∀ a b, s.f_new a b 0 = st3.f_new a b 0) ∧
        (∀ a b, inDomain st3 a b → s.src a b 0 = 0)) ∧
      s.f_new i j 1 = 0 ∧ s.f_new i j 2 = 0)
    (fun s => (LoopFrame st3 s ∧ s.dt = st3.dt ∧ s.repeat_flag = st3.repeat_flag ∧
        (∀ a b, s.f_new a b 0 = st3.f_new a b 0) ∧
        (∀ a b, inDomain st3 a b → s.src a b 0 = 0)) ∧
      s.f_new i j 1 = st3.gx i j * st3.f_old i j 0 * st3.dt ∧ s.f_new i j 2 = 0)
    st3.i_min st3.i_max st3.j_min st3.j_max i j ⟨hin.1, hin.2.1⟩ ⟨hin.2.2.1, hin.2.2.2⟩
    (fun s hs => hdom s hs.1.1 hs.1.2.2.1) (fun s hs => hdom s hs.1.1 hs.1.2.2.1)
    ?_ ?_ ?_ fuel st3 st4
    ⟨⟨LoopFrame.lrefl st3, rfl, rfl, fun _ _ => rfl, hsrc⟩, hm1, hm2⟩ h
  · obtain ⟨⟨q1, q2, _, q4, _⟩, r1, r2⟩ := key
    exact ⟨q4 i j, r1, r2, q2, q1⟩
  · -- another cell, before the visit of (i,j)
    rintro p q s hp1 hp2 hq1 hq2 hpq ⟨hQ, r1, r2⟩
    have hij : ¬ (i = p ∧ j = q) := fun h => hpq ⟨h.1.symm, h.2.symm⟩
    obtain ⟨c1, hQ1⟩ := hflux p q s ⟨hp1, hp2, hq1, hq2⟩ hQ
    refine ⟨?_, hmom p q _ hQ1, ?_, ?_⟩
    · rw [hQ1.2.2.2.1 p q]
      exact not_lt.mpr (hpos p q ⟨hp1, hp2, hq1, hq2⟩)
    · rw [(cell_momentum_other C p q _).2.1 i j 1 hij, c1]; exact r1
    · rw [(cell_momentum_other C p q _).2.1 i j 2 hij, c1]; exact r2
  · -- the visit of (i,j)
    rintro s ⟨hQ, r1, r2⟩
    obtain ⟨c1, hQ1⟩ := hflux i j s hin hQ
    obtain ⟨_, _, f3, f4, _, _, f7, f8, f9, _⟩ := hQ1.1.fields
    obtain ⟨g1, _, _⟩ := hQ1.1.more
    obtain ⟨e1, e2⟩ := cell_momentum_single C hsq0 (cell_flux C i j s) i j
      (by rw [f3]; exact hs) (by rw [g1]; exact hmu) (by rw [f9]; exact hgy)
      (fun p q hpq => by rw [f4]; exact hnb p q hpq)
    refine ⟨?_, hmom i j _ hQ1, ?_, ?_⟩
    · rw [hQ1.2.2.2.1 i j]
      exact not_lt.mpr (hpos i j hin)
    · rw [e1, c1, r1, f8, f7, hQ1.2.1]; ring
    · rw [e2, c1]; exact r2
  · -- another cell, after the visit of (i,j)
    rintro p q s hp1 hp2 hq1 hq2 hpq ⟨hQ, r1, r2⟩
    have hij : ¬ (i = p ∧ j = q) := fun h => hpq ⟨h.1.symm, h.2.symm⟩
    obtain ⟨c1, hQ1⟩ := hflux p q s ⟨hp1, hp2, hq1, hq2⟩ hQ
    refine ⟨?_, hmom p q _ hQ1, ?_, ?_⟩
    · rw [hQ1.2.2.2.1 p q]
      exact not_lt.mpr (hpos p q ⟨hp1, hp2, hq1, hq2⟩)
    · rw [(cell_momentum_other C p q _).2.1 i j 1 hij, c1]; exact r1
    · rw [(cell_momentum_other C p q _).2.1 i j 2 hij, c1]; exact r2

/-- Scenario A, one time step.  Without erosion model and dynamic surface,
an accepted time step from the release state of `SingleCell`, without dry
friction (`mu = 0`) and without slope in y (`gy = 0`) in the cell, leaves the
mass of the cell as it is and gives it the momentum `gx * mass * dt` in x and
none in y, hence the velocity `(gx * dt, 0)`. -/
theorem time_step_single (C : Config α) (hero : C.eromod = 0) (hcurve : ValidCurve C)
    (hdyn : C.dyn_surf = 0) (hsq0 : C.sqrt 0 = 0) (humin : 0 ≤ C.u_min) (hhmin : 0 < C.h_min)
    (pf : Nat) (st st1 : State α) (i j : Int) (hsc : SingleCell C st i j)
    (hflag : st.repeat_flag ≠ 1) (hmu : st.mu i j = 0) (hgy : st.gy i j = 0)
    (hdA : 0 < st.dA i j) (h : time_step C pf st = Outcome.next st1) :
    st1.f_new i j 0 = st.f_new i j 0 ∧
    st1.f_new i j 1 = st.gx i j * st.f_new i j 0 * st1.dt ∧ st1.f_new i j 2 = 0 ∧
    st1.u i j = st.gx i j * st1.dt ∧ st1.v i j = 0 ∧
    st1.s i j = C.sqrt (st1.u i j * st1.u i j) := by
  obtain ⟨hin, hu, hv, hs, hh, hM, hm1, hm2, hnb⟩ := hsc
  have hMpos : 0 < st.f_new i j 0 := by
    rw [hM]
    exact mul_pos (lt_of_lt_of_le hhmin hh) hdA
  unfold time_step at h
  split_ifs at h with hd
  cases hsr : source_terms C (step_head C st) with
  | none => rw [hsr] at h; simp at h
  | some st3 =>
    rw [hsr] at h
    simp only at h
    cases hi : iloop C pf st3.i_min st3 with
    | none => rw [hi] at h; simp at h
    | some st4 =>
      rw [hi] at h
      simp only at h
      split_ifs at h with hf
      have HF := step_head_headFrame C st
      have SF := source_terms_srcFrame C _ _ hsr
      obtain ⟨a_f_new, a_u, a_v, a_s, a_h, a_mu, a_gx, a_gy, a_dA, a_G_xy, a_repeat_flag, _, _, _, _, a_i_min, a_i_max, a_j_min, a_j_max⟩ := HF.hfields
      obtain ⟨b_f_new, b_f_old, b_u, b_v, b_s, b_h, b_mu, b_gx, b_gy, b_dA, b_G_xy, b_dt, b_repeat_flag, _, _, _, b_i_min, b_i_max, b_j_min, b_j_max⟩ := SF.sfields
      have dom3 : ∀ p q, inDomain st3 p q ↔ inDomain st p q := fun p q =>
        (inDomain_congr _ _ b_i_min b_i_max b_j_min b_j_max p q).trans
          (inDomain_congr _ _ a_i_min a_i_max a_j_min a_j_max p q)
      have hdomh : ∀ p q, inDomain (step_head C st) p q ↔ inDomain st p q := fun p q =>
        inDomain_congr _ _ a_i_min a_i_max a_j_min a_j_max p q
      have hin3 : inDomain st3 i j := (dom3 i j).mpr hin
      have f3 : st3.f_new = st.f_new := by rw [b_f_new, a_f_new]
      have hold : ∀ c, c < 3 → st3.f_old i j c = st.f_new i j c := fun c hc => by
        rw [b_f_old]; exact step_head_f_old C hcurve st i j hin c hc
      -- the pass
      obtain ⟨p0, p1, p2, p3, LF⟩ := pass_single C hero hsq0 st3 i j hin3
        (by rw [b_repeat_flag, a_repeat_flag]; exact hflag)
        (by rw [b_u, a_u]; exact hu) (by rw [b_v, a_v]; exact hv)
        (by rw [b_s, a_s, hs]; exact humin) (by rw [b_mu, a_mu]; exact hmu)
        (by rw [b_gy, a_gy]; exact hgy) (by rw [f3]; exact hm1) (by rw [f3]; exact hm2)
        (fun p q hpq => by rw [b_h, a_h]; exact (hnb p q hpq).1)
        (fun p q _ => by
          rw [f3]
          by_cases hc : p = i ∧ q = j
          · obtain ⟨rfl, rfl⟩ := hc; exact le_of_lt hMpos
          · rw [(hnb p q hc).2])
        (fun p q hpq => source_terms_src0 C hero _ _ hsr p q ((hdomh p q).mpr ((dom3 p q).mp hpq)))
        pf st4 hi
      obtain ⟨_, _, _, _, _, _, l_f_old, _, _, _, _, l_dom⟩ := LF.fields
      obtain ⟨_, l_dA, l_G⟩ := LF.more
      rw [f3] at p0
      rw [b_gx, a_gx, hold 0 (by decide)] at p1
      -- the reversal check and the surface update
      have hk : ∀ c, (arrest C st4).f_new i j c = st4.f_new i j c := fun c =>
        arrest_keep C st4 i j (by rw [l_f_old, hold 1 (by decide)]; exact hm1)
          (by rw [l_f_old, hold 2 (by decide)]; exact hm2) c
      have AF := arrest_arrestFrame C st4
      obtain ⟨_, _, _, _, _, _, _, _, c_dA, c_G_xy, c_dt, _, _, _, _, _, c_i_min, c_i_max, c_j_min, c_j_max⟩ := AF.afields
      have hds : dynamic_surface C (arrest C st4) = arrest C st4 := by
        unfold dynamic_surface
        rw [if_neg (by rw [hdyn]; simp)]
      have hin5 : inDomain (arrest C st4) i j :=
        (inDomain_congr _ _ c_i_min c_i_max c_j_min c_j_max i j).mpr ((l_dom i j).mpr hin3)
      have dA5 : (arrest C st4).dA i j = st.dA i j := by rw [c_dA, l_dA, b_dA, a_dA]
      -- primivar
      obtain ⟨_, _, _, vu, vv, vs, _⟩ :=
        primivar_visit C (arrest C st4).f_new (arrest C st4) i j hin5
      have PF := primivar_primFrame C (arrest C st4).f_new (arrest C st4)
      obtain ⟨d_f_new, _, _, _, _, _, _, d_dt, _, _, _, _, _, _, _, _, _⟩ := PF.pfields
      have BF := update_boundaries_boundFrame C
        (primivar C (arrest C st4).f_new (arrest C st4)).f_new
        (primivar C (arrest C st4).f_new (arrest C st4))
      obtain ⟨e_f_new, _, e_u, e_v, e_s, _, _, _, _, _, _, e_dt, _, _, _, _, _⟩ := BF.bfields
      have hmax : MAX (st.f_new i j 0) (C.h_min * st.dA i j) = st.f_new i j 0 := by
        have hge : C.h_min * st.dA i j ≤ st.f_new i j 0 := by
          rw [hM]; exact mul_le_mul_of_nonneg_right hh (le_of_lt hdA)
        unfold MAX
        split_ifs with hgt
        · rfl
        · exact le_antisymm hge (not_lt.mp hgt)
      have hu6 : (primivar C (arrest C st4).f_new (arrest C st4)).u i j = st.gx i j * st4.dt := by
        rw [vu]
        simp only [primivar_cell, set2_same, hk, dA5, p0, p1, p3, hmax, if_pos hMpos, b_dt]
        field_simp
        ring
      have hv6 : (primivar C (arrest C st4).f_new (arrest C st4)).v i j = 0 := by
        rw [vv]
        simp only [primivar_cell, set2_same, hk, p2, zero_mul]
      have hs6 : (primivar C (arrest C st4).f_new (arrest C st4)).s i j
          = C.sqrt ((st.gx i j * st4.dt) * (st.gx i j * st4.dt)) := by
        rw [vs, ← hu6, vu]
        simp only [primivar_cell, set2_same, hk, p2, zero_mul, SQ, mul_zero, add_zero]
      unfold step_tail at h
      rw [hds] at h
      simp only at h
      split_ifs at h with hmom
      simp only [Outcome.next.injEq] at h
      subst h
      have hdt : (update_boundaries C (primivar C (arrest C st4).f_new (arrest C st4)).f_new
          (primivar C (arrest C st4).f_new (arrest C st4))).1.dt = st4.dt := by
        rw [e_dt, d_dt, c_dt]
      refine ⟨?_, ?_, ?_, ?_, ?_, ?_⟩
      · show (update_boundaries C _ _).1.f_new i j 0 = _
        rw [e_f_new, d_f_new, hk, p0]
      · show (update_boundaries C _ _).1.f_new i j 1 = _ * _ * (update_boundaries C _ _).1.dt
        rw [hdt, e_f_new, d_f_new, hk, p1, p3]
      · show (update_boundaries C _ _).1.f_new i j 2 = _
        rw [e_f_new, d_f_new, hk, p2]
      · show (update_boundaries C _ _).1.u i j = _ * (update_boundaries C _ _).1.dt
        rw [e_u, hu6, hdt]
      · show (update_boundaries C _ _).1.v i j = _
        rw [e_v, hv6]
      · show (update_boundaries C _ _).1.s i j
          = C.sqrt ((update_boundaries C _ _).1.u i j * (update_boundaries C _ _).1.u i j)
        rw [e_s, e_u, hs6, hu6]

/-- C17 (scenario A, the frictionless incline).  Let `Z` be a plane with
slope `t = tan(theta)` in x and none in y, and let the square root
`r = sqrt(1 + t^2)` be exact and positive, so that `sin(theta) = t/r` and
`cos(theta) = 1/r` (second part).  Then `update_surface(Z)` gives
`gx = -g*sin(theta)`, `|gx| = g*|sin(theta)|`, `gy = 0` and
`gz0 = g*cos(theta)` at every node of the Grid (first part).  And without
erosion model and dynamic surface, with `sqrt(0) = 0`: a released cell at
rest with depth at least `h_min` and `mu = 0`, alone among empty cells, has
after its first accepted time step of size `dt` the velocity
`u = -g*sin(theta)*dt` (downslope), `v = 0`, and, the square root of `u^2`
being `|u|`, the speed `g*|sin(theta)|*dt` (third part). -/
theorem frictionless_incline (C : Config α) (Z : Grid α) (t c0 : α) (hcs : C.cellsize ≠ 0)
    (hpl : IsPlane C Z t c0) (hr : C.sqrt (1 + SQ t) * C.sqrt (1 + SQ t) = 1 + SQ t)
    (hrpos : 0 < C.sqrt (1 + SQ t)) (hg : 0 ≤ C.g) :
    (∀ (s0 : State α) (i j : Int), 0 ≤ i ∧ i < C.m → 0 ≤ j ∧ j < C.n →
      (update_surface C Z s0).gx i j = -(C.g * (t / C.sqrt (1 + SQ t))) ∧
      |(update_surface C Z s0).gx i j| = C.g * (|t| / C.sqrt (1 + SQ t)) ∧
      (update_surface C Z s0).gy i j = 0 ∧
      (update_surface C Z s0).gz0 i j = C.g * (1 / C.sqrt (1 + SQ t))) ∧
    ((t / C.sqrt (1 + SQ t)) ^ 2 + (1 / C.sqrt (1 + SQ t)) ^ 2 = 1 ∧
      0 < 1 / C.sqrt (1 + SQ t) ∧
      t / C.sqrt (1 + SQ t) = t * (1 / C.sqrt (1 + SQ t))) ∧
    (∀ (pf : Nat) (s0 st1 : State α) (i j : Int), 0 ≤ i ∧ i < C.m → 0 ≤ j ∧ j < C.n →
      C.eromod = 0 → ValidCurve C → C.dyn_surf = 0 → C.sqrt 0 = 0 → 0 ≤ C.u_min →
      0 < C.h_min → SingleCell C (update_surface C Z s0) i j →
      (update_surface C Z s0).repeat_flag ≠ 1 → (update_surface C Z s0).mu i j = 0 →
      time_step C pf (update_surface C Z s0) = Outcome.next st1 →
      st1.u i j = -(C.g * (t / C.sqrt (1 + SQ t))) * st1.dt ∧ st1.v i j = 0 ∧
      (C.sqrt (st1.u i j * st1.u i j) = |st1.u i j| → 0 ≤ st1.dt →
        st1.s i j = C.g * (|t| / C.sqrt (1 + SQ t)) * st1.dt)) := by
  have hr0 : C.sqrt (1 + SQ t) ≠ 0 := ne_of_gt hrpos
  have habs : ∀ x : α, x = -(C.g * (t / C.sqrt (1 + SQ t))) →
      |x| = C.g * (|t| / C.sqrt (1 + SQ t)) := by
    intro x hx
    rw [hx, abs_neg, abs_mul, abs_div, abs_of_nonneg hg, abs_of_pos hrpos]
  refine ⟨?_, ?_, ?_⟩
  · intro s0 i j hi hj
    obtain ⟨e1, e2, e3, _⟩ := incline_gravity C Z t c0 hcs hpl hr s0 i j hi hj
    exact ⟨e1, habs _ e1, e2, e3⟩
  · refine ⟨?_, by positivity, by ring⟩
    rw [div_pow, div_pow, ← add_div, sq (C.sqrt (1 + SQ t)), hr]
    unfold SQ
    rw [one_pow, sq, add_comm]
    exact div_self (by nlinarith [mul_self_nonneg t])
  · intro pf s0 st1 i j hi hj hero hcurve hdyn hsq0 humin hhmin hsc hflag hmu hstep
    obtain ⟨e1, e2, _, _⟩ := incline_gravity C Z t c0 hcs hpl hr s0 i j hi hj
    have hdA : 0 < (update_surface C Z s0).dA i j := by
      obtain ⟨_, _, _, _, _, e6, _, _⟩ := update_surface_visit C Z s0 i j hi hj
      obtain ⟨sx, sy⟩ := plane_slopes C Z t c0 hcs hpl i j
      have h0 : (1 + SQ t + SQ (0 : α)) = 1 + SQ t := by simp [SQ]
      rw [e6]
      simp only [surface_cell, set2_same, sx, sy, h0]
      exact mul_pos (mul_self_pos.mpr hcs) hrpos
    obtain ⟨_, _, _, u1, v1, s1⟩ := time_step_single C hero hcurve hdyn hsq0 humin hhmin pf
      (update_surface C Z s0) st1 i j hsc hflag hmu e2 hdA hstep
    rw [e1] at u1
    refine ⟨u1, v1, fun hsq hdt => ?_⟩
    rw [s1, hsq, u1, abs_mul, habs _ rfl, abs_of_nonneg hdt]

theorem planeZ_isPlane : IsPlane cfgS planeZ (3 / 4) 0 := by
  intro i j
  show (3 / 8 : ℚ) * (i : ℚ) = 0 + 3 / 4 * (1 / 2 * (i : ℚ))
  ring

set_option maxRecDepth 1000000 in
theorem stS_single : SingleCell cfgS (update_surface cfgS planeZ stS0) 0 0 := by
  have ZF := update_surface_surfFrame cfgS planeZ stS0 stS0 rfl
  have eh : (update_surface cfgS planeZ stS0).h = stS0.h := ZF.zfields.2.2.2.2.2.1
  have ef : (update_surface cfgS planeZ stS0).f_new = stS0.f_new := ZF.zfields.1
  refine ⟨by decide!, by decide!, by decide!, by decide!, by decide!, by decide!, by decide!,
    by decide!, ?_⟩
  intro p q hpq
  rw [eh, ef]
  constructor
  · show cellG 0 0 (1 / 8) p q = 0
    unfold cellG
    rw [if_neg hpq]
  · show cell3 0 0 (5 / 128) 0 0 p q 0 = 0
    unfold cell3
    rw [if_neg hpq]

set_option maxRecDepth 1000000 in
theorem stS_step_isSome :
    (time_step cfgS 10 (update_surface cfgS planeZ stS0)).accepted.isSome = true := by decide!

set_option maxRecDepth 1000000 in
/-- Witness for C17: the plane of slope 3/4 (`sin = 3/5`, `cos = 4/5`) with
`g = 10` and the first time step of state S; the computed values are
`gx = -6`, `gz0 = 8`, `dt = 0.2` and `u = -1.2`. -/
theorem frictionless_incline_witness :
    cfgS.cellsize ≠ 0 ∧ IsPlane cfgS planeZ (3 / 4) 0 ∧
    cfgS.sqrt (1 + SQ (3 / 4)) * cfgS.sqrt (1 + SQ (3 / 4)) = 1 + SQ (3 / 4) ∧
    0 < cfgS.sqrt (1 + SQ (3 / 4)) ∧ 0 ≤ cfgS.g ∧
    SingleCell cfgS (update_surface cfgS planeZ stS0) 0 0 ∧
    ((time_step cfgS 10 (update_surface cfgS planeZ stS0)).accepted.get stS_step_isSome).u 0 0
      = -(cfgS.g * (3 / 4 / cfgS.sqrt (1 + SQ (3 / 4))))
        * ((time_step cfgS 10 (update_surface cfgS planeZ stS0)).accepted.get
            stS_step_isSome).dt ∧
    (update_surface cfgS planeZ stS0).gx 0 0 = -6 ∧
    (update_surface cfgS planeZ stS0).gz0 0 0 = 8 ∧
    (time_step cfgS 10 (update_surface cfgS planeZ stS0)).accepted.map (fun s => s.dt)
      = some (1 / 5) ∧
    (time_step cfgS 10 (update_surface cfgS planeZ stS0)).accepted.map (fun s => s.u 0 0)
      = some (-6 / 5) ∧
    (time_step cfgS 10 (update_surface cfgS planeZ stS0)).accepted.map (fun s => s.s 0 0)
      = some (6 / 5) :=
  ⟨by decide!, planeZ_isPlane, by decide!, by decide!, by decide!, stS_single,
    ((frictionless_incline cfgS planeZ (3 / 4) 0 (by decide!) planeZ_isPlane (by decide!)
      (by decide!) (by decide!)).2.2 10 stS0 _ 0 0 (by decide) (by decide) rfl (Or.inl rfl) rfl
      (by decide!) (by decide!) (by decide!) stS_single (by decide!) (by decide!)
      (accepted_eq_next _ _ (Option.some_get stS_step_isSome).symm)).1,
    by decide!, by decide!, by decide!, by decide!, by decide!⟩

/-! Fatal configurations (lines 1146-1160 and 1286-1368) -/

/-- An entrainment name that `read_command_file` does not know selects
`eromod = 0`, as the name `none` does. -/
theorem entrainment_selector_unsupported (erosion : String)
    (h : ¬ SupportedEntrainment erosion) : entrainment_selector erosion = 0 := by
  unfold SupportedEntrainment at h
  unfold entrainment_selector
  split_ifs with h1 h2 h3 h4 h5
  · rfl
  · exact absurd (Or.inr (Or.inl h2)) h
  · rcases h3 with h3 | h3
    · exact absurd (Or.inr (Or.inr (Or.inl h3))) h
    · exact absurd (Or.inr (Or.inr (Or.inr (Or.inl h3)))) h
  · rcases h4 with h4 | h4
    · exact absurd (Or.inr (Or.inr (Or.inr (Or.inr (Or.inl h4))))) h
    · exact absurd (Or.inr (Or.inr (Or.inr (Or.inr (Or.inr (Or.inl h4)))))) h
  · exact absurd (Or.inr (Or.inr (Or.inr (Or.inr (Or.inr (Or.inr h5)))))) h
  · rfl

/-- C19 (fatal configuration), amended.  The checks of `read_command_file`
end in `exit` for a rheology name other than `Voellmy` and for the erosion
variant 4 (GOEM) with `rho <= rho_b`.  An entrainment name that is not one of
the supported selectors does not end the program: it selects `eromod = 0`,
and the checks give what they give for the name `none`. -/
theorem fatal_configuration (cf : CommandFile α) :
    (cf.rheology ≠ "Voellmy" → ∃ c, command_checks cf = Except.error c) ∧
    (entrainment_selector cf.erosion = 4 → cf.rho ≤ cf.rho_b →
      ∃ c, command_checks cf = Except.error c) ∧
    (¬ SupportedEntrainment cf.erosion →
      entrainment_selector cf.erosion = 0 ∧
      command_checks cf = command_checks { cf with erosion := "none" }) := by
  refine ⟨?_, ?_, ?_⟩
  · intro h
    unfold command_checks
    simp only
    split_ifs <;> exact ⟨_, rfl⟩
  · intro h4 hle
    unfold command_checks
    simp only
    by_cases h1 : cf.rho ≤ 0
    · exact ⟨17, by rw [if_pos h1]⟩
    · by_cases h2 : cf.rho_b ≤ 0 ∨ cf.rho_d ≤ 0
      · exact ⟨18, by rw [if_neg h1, if_pos h2]⟩
      · have hb : 0 < cf.rho_b := by
          by_contra hc
          exact h2 (Or.inl (not_lt.mp hc))
        have h3 : entrainment_selector cf.erosion = 4 ∧ cf.rho / cf.rho_b ≤ 1 :=
          ⟨h4, (div_le_one hb).mpr hle⟩
        exact ⟨28, by rw [if_neg h1, if_neg h2, if_pos h3]⟩
  · intro h
    have e0 := entrainment_selector_unsupported cf.erosion h
    refine ⟨e0, ?_⟩
    unfold command_checks
    simp only
    rw [e0]
    rfl

set_option maxRecDepth 1000000 in
/-- Witness for C19 (amended): the command file `cfU` with the rheology
`Bingham`, with the entrainment name `GOEM` and `rho = rho_b`, and as it is,
with the unsupported entrainment name `Coulomb`. -/
theorem fatal_configuration_witness :
    ({ cfU with rheology := "Bingham" } : CommandFile ℚ).rheology ≠ "Voellmy" ∧
    (∃ c, command_checks ({ cfU with rheology := "Bingham" } : CommandFile ℚ)
      = Except.error c) ∧
    ¬ SupportedEntrainment cfU.erosion ∧
    command_checks cfU = command_checks { cfU with erosion := "none" } :=
  ⟨by decide,
    (fatal_configuration ({ cfU with rheology := "Bingham" } : CommandFile ℚ)).1 (by decide),
    by unfold SupportedEntrainment; decide,
    ((fatal_configuration cfU).2.2 (by unfold SupportedEntrainment; decide)).2⟩

set_option maxRecDepth 1000000 in
/-- C19 (fatal configuration) as stated fails for the command file `cfU`:
its entrainment name `Coulomb` is not one of the supported selectors, its
other values are valid, and the checks of `read_command_file` do not end the
program but go on with `eromod = 0` (no entrainment). -/
theorem unsupported_entrainment_is_accepted :
    ¬ SupportedEntrainment cfU.erosion ∧ entrainment_selector cfU.erosion = 0 ∧
    command_checks cfU =
      Except.ok { eromod := 0, rrb := 5 / 4, rrd := 5 / 8, mom_thr := 2 / 5 } ∧
    ¬ ∃ c, command_checks cfU = Except.error c := by
  have e : command_checks cfU =
      Except.ok { eromod := 0, rrb := 5 / 4, rrd := 5 / 8, mom_thr := 2 / 5 } := by
    unfold command_checks
    simp only
    have hs : entrainment_selector cfU.erosion = 0 := by decide
    rw [hs]
    norm_num [cfU]
  refine ⟨by unfold SupportedEntrainment; decide, by decide, e, ?_⟩
  rintro ⟨c, hc⟩
  rw [e] at hc
  cases hc

/-! Termination status (lines 548-577 and 1364-1368) -/

theorem ite_error_eq_ok {β : Type} {c : Prop} [Decidable c] {e : Int} {x : Except Int β}
    {y : β} (h : (if c then Except.error e else x) = Except.ok y) : ¬ c ∧ x = Except.ok y := by
  by_cases hc : c
  · rw [if_pos hc] at h
    cases h
  · rw [if_neg hc] at h
    exact ⟨hc, h⟩

/-- Lines 1364-1368: when the checks of `read_command_file` pass, the
momentum threshold used by the time loop is the configured one divided by
`rho`; `rho`, the configured threshold and `dt_min` are positive. -/
theorem command_checks_mom_thr (cf : CommandFile α) (d : Derived α)
    (h : command_checks cf = Except.ok d) :
    d.mom_thr = cf.mom_thr / cf.rho ∧ 0 < cf.rho ∧ 0 < cf.mom_thr ∧ 0 < cf.dt_min := by
  unfold command_checks at h
  obtain ⟨h1, h⟩ := ite_error_eq_ok h
  obtain ⟨h2, h⟩ := ite_error_eq_ok h
  obtain ⟨h3, h⟩ := ite_error_eq_ok h
  obtain ⟨h4, h⟩ := ite_error_eq_ok h
  obtain ⟨h5, h⟩ := ite_error_eq_ok h
  obtain ⟨h6, h⟩ := ite_error_eq_ok h
  obtain ⟨h7, h⟩ := ite_error_eq_ok h
  obtain ⟨h8, h⟩ := ite_error_eq_ok h
  obtain ⟨h9, h⟩ := ite_error_eq_ok h
  obtain ⟨h10, h⟩ := ite_error_eq_ok h
  obtain ⟨h11, h⟩ := ite_error_eq_ok h
  obtain ⟨h12, h⟩ := ite_error_eq_ok h
  obtain ⟨h13, h⟩ := ite_error_eq_ok h
  injection h with h
  refine ⟨by rw [← h], not_le.mp h1, ?_, ?_⟩
  · by_contra hc
    exact h13 (Or.inr (Or.inr (not_lt.mp hc)))
  · by_contra hc
    exact h9 (Or.inl (not_lt.mp hc))

/-- The step counter seen by the momentum test of line 551 is the one at the
head of the time step. -/
theorem tail_n_step (C : Config α) (st4 : State α) :
    (update_boundaries C (tail_state C st4).f_new (tail_state C st4)).1.n_step = st4.n_step := by
  have h1 := (arrest_frame C st4).1
  have h2 := (dynamic_surface_frame C (arrest C st4)).1
  have h3 := (primivar_frame C (dynamic_surface C (arrest C st4)).f_new
    (dynamic_surface C (arrest C st4))).1
  have h4 := (update_boundaries_frame C (tail_state C st4).f_new (tail_state C st4)).1
  exact (((h1.ctrans h2).ctrans h3).ctrans h4).2.2.1

/-- Lines 548-559 in terms of `mom_tot`: the run is stopped with
`stop_code = 1` when `mom_tot < mom_thr` and `n_step > 10`, and the step is
accepted otherwise. -/
theorem step_tail_iff (C : Config α) (st4 : State α) :
    ((mom_tot C st4 < C.mom_thr ∧ st4.n_step > 10) →
      ∃ st1, step_tail C st4 = Outcome.done st1 ∧ st1.stop_code = 1) ∧
    (¬ (mom_tot C st4 < C.mom_thr ∧ st4.n_step > 10) →
      ∃ st1, step_tail C st4 = Outcome.next st1) := by
  have hn := tail_n_step C st4
  unfold mom_tot
  unfold tail_state at *
  constructor
  · intro h
    rw [← hn] at h
    unfold step_tail
    simp only
    rw [if_pos h]
    exact ⟨_, rfl, rfl⟩
  · intro h
    rw [← hn] at h
    unfold step_tail
    simp only
    rw [if_neg h]
    exact ⟨_, rfl⟩

/-- How the body of the time loop ends, in terms of the step size, the
transport pass and the momentum test. -/
theorem time_step_ends (C : Config α) (pf : Nat) (st : State α) (hfl : st.repeat_flag ≠ -1) :
    ((step_head C st).dt < C.dt_min →
      ∃ st1, time_step C pf st = Outcome.done st1 ∧ st1.stop_code = 2) ∧
    (∀ st4, ¬ (step_head C st).dt < C.dt_min → pass_result C pf st = some st4 →
      (st4.repeat_flag = -1 →
        ∃ st1, time_step C pf st = Outcome.done st1 ∧ st1.stop_code = 2) ∧
      (st4.repeat_flag ≠ -1 → mom_tot C st4 < C.mom_thr ∧ st.n_step > 10 →
        ∃ st1, time_step C pf st = Outcome.done st1 ∧ st1.stop_code = 1) ∧
      (st4.repeat_flag ≠ -1 → ¬ (mom_tot C st4 < C.mom_thr ∧ st.n_step > 10) →
        ∃ st1, time_step C pf st = Outcome.next st1)) ∧
    (¬ (step_head C st).dt < C.dt_min → pass_result C pf st = none →
      time_step C pf st = Outcome.halted ∨ time_step C pf st = Outcome.nofuel) := by
  obtain ⟨c1, c2, c3, c4, c5, c6⟩ := step_head_frame C st
  refine ⟨?_, ?_, ?_⟩
  · intro hd
    unfold time_step
    rw [if_pos hd]
    exact ⟨_, rfl, rfl⟩
  · intro st4 hd hp
    unfold pass_result pass_start at hp
    cases hs : source_terms C (step_head C st) with
    | none => rw [hs] at hp; simp at hp
    | some st3 =>
      rw [hs] at hp
      simp only [Option.some_bind] at hp
      obtain ⟨⟨d1, d2, d3, d4, d5⟩, dd⟩ := source_terms_frame C _ _ hs
      have hdt3 : C.dt_min ≤ st3.dt := by rw [d2]; exact not_lt.mp hd
      obtain ⟨r, r1, r2, r3, r4, r5⟩ := iloop_sound C pf _ st3 st4 hp hdt3
      have hn4 : st4.n_step = st.n_step := by rw [r2.l_n_step_eq, d3, c2]
      have hts : time_step C pf st =
          (if st4.repeat_flag = -1 then Outcome.done st4 else step_tail C st4) := by
        unfold time_step
        rw [if_neg hd, hs]
        simp only
        rw [hp]
      refine ⟨?_, ?_, ?_⟩
      · intro hf
        rw [hts, if_pos hf]
        exact ⟨st4, rfl, (r4 (by rw [d5, c4]; exact hfl) hf).2⟩
      · intro hf hm
        rw [hts, if_neg hf]
        exact (step_tail_iff C st4).1 (by rw [hn4]; exact hm)
      · intro hf hm
        rw [hts, if_neg hf]
        exact (step_tail_iff C st4).2 (by rw [hn4]; exact hm)
  · intro hd hp
    unfold pass_result pass_start at hp
    unfold time_step
    rw [if_neg hd]
    cases hs : source_terms C (step_head C st) with
    | none => left; rfl
    | some st3 =>
      rw [hs] at hp
      simp only [Option.some_bind] at hp
      right
      simp only
      rw [hp]

/-- At the head of the time loop of a run started by `main`, the step
counter is the number of completed steps, `stop_code` is 0 and `repeat_flag`
is not -1. -/
theorem loopRun_inv (C : Config α) (hmin : 0 < C.dt_min) (pf : Nat) (st0 : State α)
    (hinit : MainInit C st0) (k : Nat) (st : State α) (h : LoopRun C pf st0 k st) :
    st.n_step = k ∧ st.stop_code = 0 ∧ st.repeat_flag ≠ -1 := by
  induction h with
  | start =>
    obtain ⟨_, h2, _, _, _, _, h7, h8⟩ := hinit
    refine ⟨by rw [h2]; rfl, h8, ?_⟩
    rw [h7]
    decide
  | step k s s1 _ _ hstep ih =>
    obtain ⟨i1, i2, i3⟩ := ih
    obtain ⟨_, _, _, a4, _, _, a7, a8⟩ := time_step_next C hmin pf s s1 hstep
    refine ⟨by rw [a4, i1]; push_cast; ring, by rw [a8 i3]; exact i2, a7⟩

/-- The time loop is deterministic: it passes through every state of
`LoopRun`, or runs out of fuel before. -/
theorem time_loop_through (C : Config α) (pf : Nat) (st0 : State α) (k : Nat) (st : State α)
    (h : LoopRun C pf st0 k st) (fuel : Nat) :
    time_loop C pf fuel st0 =
      if k ≤ fuel then time_loop C pf (fuel - k) st else Outcome.nofuel := by
  induction h with
  | start => simp
  | step k s s1 _ ht hstep ih =>
    rw [ih]
    by_cases h1 : k + 1 ≤ fuel
    · rw [if_pos (by omega), if_pos h1]
      have e : fuel - k = (fuel - (k + 1)) + 1 := by omega
      rw [e, time_loop]
      rw [if_pos ht, hstep]
    · rw [if_neg h1]
      by_cases h2 : k ≤ fuel
      · rw [if_pos h2]
        have e : fuel - k = 0 := by omega
        rw [e, time_loop, if_pos ht]
      · rw [if_neg h2]

/-- The time loop ends at a state of `LoopRun`: by the time limit, or by a
`break` in the body entered from that state. -/
theorem time_loop_last (C : Config α) (pf : Nat) (st0 st1 : State α) :
    ∀ (fuel k : Nat) (s : State α), LoopRun C pf st0 k s →
      time_loop C pf fuel s = Outcome.done st1 →
      ∃ k1 st, LoopRun C pf st0 k1 st ∧
        ((¬ st.t < C.t_max ∧ st1 = st) ∨
         (st.t < C.t_max ∧ time_step C pf st = Outcome.done st1)) := by
  intro fuel
  induction fuel with
  | zero =>
    intro k s hs h
    rw [time_loop] at h
    split_ifs at h with ht
    simp only [Outcome.done.injEq] at h
    exact ⟨k, s, hs, Or.inl ⟨ht, h.symm⟩⟩
  | succ fuel ih =>
    intro k s hs h
    rw [time_loop] at h
    split_ifs at h with ht
    · cases hstep : time_step C pf s with
      | next s1 =>
        rw [hstep] at h
        exact ih (k + 1) s1 (LoopRun.step k s s1 hs ht hstep) h
      | done x =>
        rw [hstep] at h
        simp only [Outcome.done.injEq] at h
        subst h
        exact ⟨k, s, hs, Or.inr ⟨ht, hstep⟩⟩
      | halted => rw [hstep] at h; simp at h
      | nofuel => rw [hstep] at h; simp at h
    · simp only [Outcome.done.injEq] at h
      exact ⟨k, s, hs, Or.inl ⟨ht, h.symm⟩⟩

/-- The state in which the time loop is left by a `break` in the body that
is entered from a state of `LoopRun`. -/
theorem time_loop_break (C : Config α) (pf : Nat) (st0 st1 x : State α) (k : Nat)
    (st : State α) (h : LoopRun C pf st0 k st) (ht : st.t < C.t_max)
    (hx : time_step C pf st = Outcome.done x) (fuel : Nat)
    (hrun : time_loop C pf fuel st0 = Outcome.done st1) : st1 = x := by
  rw [time_loop_through C pf st0 k st h fuel] at hrun
  split_ifs at hrun with hk
  cases hm : fuel - k with
  | zero =>
    rw [hm, time_loop, if_pos ht] at hrun
    cases hrun
  | succ m =>
    rw [hm, time_loop, if_pos ht, hx] at hrun
    simp only [Outcome.done.injEq] at hrun
    exact hrun.symm

/-- The state in which the time loop is left when the time limit is reached
at a state of `LoopRun`. -/
theorem time_loop_limit (C : Config α) (pf : Nat) (st0 st1 : State α) (k : Nat)
    (st : State α) (h : LoopRun C pf st0 k st) (ht : ¬ st.t < C.t_max) (fuel : Nat)
    (hrun : time_loop C pf fuel st0 = Outcome.done st1) : st1 = st := by
  rw [time_loop_through C pf st0 k st h fuel] at hrun
  split_ifs at hrun with hk
  cases hm : fuel - k with
  | zero =>
    rw [hm, time_loop, if_neg ht] at hrun
    simp only [Outcome.done.injEq] at hrun
    exact hrun.symm
  | succ m =>
    rw [hm, time_loop, if_neg ht] at hrun
    simp only [Outcome.done.injEq] at hrun
    exact hrun.symm

/-- C16 (termination status).  Let the checks of `read_command_file` pass,
with the momentum threshold `mom_thr` and the flow density `rho` of the
command file, and let the time loop, entered by `main`, end in state `st1`;
the exit status is `stop_code` (line 577).  Then (1) the loop is left at a
loop head `st` reached after `k = n_step` completed steps, in one of three
ways with the three distinct exit statuses 0, 1, 2: the time limit is reached
(0); after more than 10 completed steps, the momentum returned by
`update_boundaries` after an accepted transport pass is below
`mom_thr / rho` (1); the step size has collapsed (2).  (2) Conversely, an
accepted pass with momentum below `mom_thr / rho` after more than 10
completed steps gives exit status 1, and after at most 10 completed steps an
accepted pass is never stopped by the momentum test; (3) a collapsed step
size gives exit status 2; (4) the time limit gives exit status 0. -/
theorem termination_status (C : Config α) (cf : CommandFile α) (d : Derived α)
    (hread : command_checks cf = Except.ok d) (hthr : C.mom_thr = d.mom_thr)
    (hdt : C.dt_min = cf.dt_min) (pf fuel : Nat) (st0 st1 : State α)
    (hinit : MainInit C st0) (hrun : time_loop C pf fuel st0 = Outcome.done st1) :
    (∃ k st, LoopRun C pf st0 k st ∧ st.n_step = k ∧
      ((exit_status st1 = 0 ∧ ¬ st.t < C.t_max ∧ st1 = st) ∨
       (exit_status st1 = 1 ∧ st.t < C.t_max ∧ 10 < k ∧ ¬ (step_head C st).dt < C.dt_min ∧
          ∃ st4, pass_result C pf st = some st4 ∧ st4.repeat_flag ≠ -1 ∧
            mom_tot C st4 < cf.mom_thr / cf.rho) ∨
       (exit_status st1 = 2 ∧ st.t < C.t_max ∧
          ((step_head C st).dt < C.dt_min ∨
            ∃ st4, pass_result C pf st = some st4 ∧ st4.repeat_flag = -1)))) ∧
    (∀ k st st4, LoopRun C pf st0 k st → st.t < C.t_max →
      ¬ (step_head C st).dt < C.dt_min → pass_result C pf st = some st4 →
      st4.repeat_flag ≠ -1 →
      ((mom_tot C st4 < cf.mom_thr / cf.rho ∧ 10 < k) → exit_status st1 = 1) ∧
      (k ≤ 10 → ∃ s1, time_step C pf st = Outcome.next s1)) ∧
    (∀ k st, LoopRun C pf st0 k st → st.t < C.t_max →
      ((step_head C st).dt < C.dt_min ∨
        ∃ st4, pass_result C pf st = some st4 ∧ st4.repeat_flag = -1) →
      exit_status st1 = 2) ∧
    (∀ k st, LoopRun C pf st0 k st → ¬ st.t < C.t_max → exit_status st1 = 0 ∧ st1 = st) := by
  obtain ⟨hm, _, _, hdpos⟩ := command_checks_mom_thr cf d hread
  have hmin : 0 < C.dt_min := by rw [hdt]; exact hdpos
  have hC : C.mom_thr = cf.mom_thr / cf.rho := by rw [hthr, hm]
  unfold exit_status
  refine ⟨?_, ?_, ?_, ?_⟩
  · obtain ⟨k, st, hk, hcase⟩ := time_loop_last C pf st0 st1 fuel 0 st0 LoopRun.start hrun
    obtain ⟨i1, i2, i3⟩ := loopRun_inv C hmin pf st0 hinit k st hk
    obtain ⟨e1, e2, e3⟩ := time_step_ends C pf st i3
    refine ⟨k, st, hk, i1, ?_⟩
    rcases hcase with ⟨ht, rfl⟩ | ⟨ht, hstep⟩
    · exact Or.inl ⟨i2, ht, rfl⟩
    · by_cases hd : (step_head C st).dt < C.dt_min
      · obtain ⟨x, hx1, hx2⟩ := e1 hd
        rw [hx1] at hstep
        simp only [Outcome.done.injEq] at hstep
        subst hstep
        exact Or.inr (Or.inr ⟨hx2, ht, Or.inl hd⟩)
      · cases hp : pass_result C pf st with
        | none =>
          rcases e3 hd hp with e | e
          · rw [e] at hstep; cases hstep
          · rw [e] at hstep; cases hstep
        | some st4 =>
          obtain ⟨f1, f2, f3⟩ := e2 st4 hd hp
          by_cases hf : st4.repeat_flag = -1
          · obtain ⟨x, hx1, hx2⟩ := f1 hf
            rw [hx1] at hstep
            simp only [Outcome.done.injEq] at hstep
            subst hstep
            exact Or.inr (Or.inr ⟨hx2, ht, Or.inr ⟨st4, rfl, hf⟩⟩)
          · by_cases hmom : mom_tot C st4 < C.mom_thr ∧ st.n_step > 10
            · obtain ⟨x, hx1, hx2⟩ := f2 hf hmom
              rw [hx1] at hstep
              simp only [Outcome.done.injEq] at hstep
              subst hstep
              refine Or.inr (Or.inl ⟨hx2, ht, ?_, hd, st4, rfl, hf, by rw [← hC]; exact hmom.1⟩)
              have := hmom.2
              rw [i1] at this
              exact_mod_cast this
            · obtain ⟨x, hx1⟩ := f3 hf hmom
              rw [hx1] at hstep
              cases hstep
  · intro k st st4 hk ht hd hp hf
    obtain ⟨i1, i2, i3⟩ := loopRun_inv C hmin pf st0 hinit k st hk
    obtain ⟨_, f2, f3⟩ := (time_step_ends C pf st i3).2.1 st4 hd hp
    constructor
    · rintro ⟨hmom, h10⟩
      obtain ⟨x, hx1, hx2⟩ := f2 hf ⟨by rw [hC]; exact hmom, by rw [i1]; exact_mod_cast h10⟩
      rw [time_loop_break C pf st0 st1 x k st hk ht hx1 fuel hrun]
      exact hx2
    · intro h10
      apply f3 hf
      rintro ⟨_, hgt⟩
      rw [i1] at hgt
      have : (10 : Int) < (k : Int) := hgt
      omega
  · intro k st hk ht hcol
    obtain ⟨i1, i2, i3⟩ := loopRun_inv C hmin pf st0 hinit k st hk
    obtain ⟨e1, e2, _⟩ := time_step_ends C pf st i3
    by_cases hd : (step_head C st).dt < C.dt_min
    · obtain ⟨x, hx1, hx2⟩ := e1 hd
      rw [time_loop_break C pf st0 st1 x k st hk ht hx1 fuel hrun]
      exact hx2
    · rcases hcol with hc | ⟨st4, hp, hf⟩
      · exact absurd hc hd
      · obtain ⟨x, hx1, hx2⟩ := (e2 st4 hd hp).1 hf
        rw [time_loop_break C pf st0 st1 x k st hk ht hx1 fuel hrun]
        exact hx2
  · intro k st hk ht
    have e := time_loop_limit C pf st0 st1 k st hk ht fuel hrun
    obtain ⟨_, i2, _⟩ := loopRun_inv C hmin pf st0 hinit k st hk
    rw [e]
    exact ⟨i2, rfl⟩

theorem ended_eq_done {β : Type} (o : Outcome β) (s : State β)
    (h : o.ended = some s) : o = Outcome.done s := by
  cases o with
  | next s2 => simp [Outcome.ended] at h
  | done s2 =>
    simp only [Outcome.ended, Option.some.injEq] at h
    rw [h]
  | halted => simp [Outcome.ended] at h
  | nofuel => simp [Outcome.ended] at h

theorem cfN_checks :
    command_checks cfN =
      Except.ok { eromod := 0, rrb := 5 / 4, rrd := 5 / 8, mom_thr := 1 / 250 } := by
  unfold command_checks
  simp only
  have hs : entrainment_selector cfN.erosion = 0 := by decide
  rw [hs]
  norm_num [cfN, cfU]

theorem stW_init : MainInit cfgZ stW := by
  unfold MainInit
  exact ⟨rfl, rfl, rfl, rfl, rfl, rfl, rfl, rfl⟩

set_option maxRecDepth 1000000 in
theorem stW_run_isSome : (time_loop cfgZ 10 2 stW).ended.isSome = true := by decide!

set_option maxRecDepth 1000000 in
/-- Witness for C16: the run of configuration Z (time limit 0.1 s) from
state W ends after one accepted step of 0.2 s with exit status 0. -/
theorem termination_status_witness :
    command_checks cfN =
      Except.ok { eromod := 0, rrb := 5 / 4, rrd := 5 / 8, mom_thr := 1 / 250 } ∧
    cfgZ.mom_thr = 1 / 250 ∧ cfgZ.dt_min = cfN.dt_min ∧ MainInit cfgZ stW ∧
    (∀ k st, LoopRun cfgZ 10 stW k st → ¬ st.t < cfgZ.t_max →
      exit_status ((time_loop cfgZ 10 2 stW).ended.get stW_run_isSome) = 0 ∧
      (time_loop cfgZ 10 2 stW).ended.get stW_run_isSome = st) ∧
    (time_loop cfgZ 10 2 stW).ended.map (fun s => exit_status s) = some 0 ∧
    (time_loop cfgZ 10 2 stW).ended.map (fun s => s.n_step) = some 1 ∧
    (time_loop cfgZ 10 2 stW).ended.map (fun s => s.t) = some (1 / 5) :=
  ⟨cfN_checks, by decide!, by decide!, stW_init,
    (termination_status cfgZ cfN _ cfN_checks (by decide!) (by decide!) 10 2 stW _ stW_init
      (ended_eq_done _ _ (Option.some_get stW_run_isSome).symm)).2.2.2,
    by decide!, by decide!, by decide!⟩

/-- Over the reals, for a slope angle `theta` with `cos(theta) > 0` and
`t = tan(theta)`: `t / sqrt(1 + t^2) = sin(theta)` and
`1 / sqrt(1 + t^2) = cos(theta)`, the two ratios of C17. -/
theorem incline_trig (θ : ℝ) (h : 0 < Real.cos θ) :
    Real.tan θ / Real.sqrt (1 + SQ (Real.tan θ)) = Real.sin θ ∧
    1 / Real.sqrt (1 + SQ (Real.tan θ)) = Real.cos θ := by
  have hc : Real.cos θ ≠ 0 := ne_of_gt h
  have e : 1 + SQ (Real.tan θ) = (1 / Real.cos θ) ^ 2 := by
    unfold SQ
    rw [Real.tan_eq_sin_div_cos]
    field_simp
    nlinarith [Real.sin_sq_add_cos_sq θ]
  have hpos : (0 : ℝ) ≤ 1 / Real.cos θ := by positivity
  rw [e, Real.sqrt_sq hpos, Real.tan_eq_sin_div_cos]
  constructor
  · field_simp
  · field_simp

/-! Reversal check (lines 524-537) -/

/-- The reversal check at cell `(p,q)` changes `f_new` and `d` only in cell
`(p,q)`. -/
theorem arrest_cell_other (C : Config α) (p q : Int) (s : State α) (i j : Int)
    (hij : ¬ (i = p ∧ j = q)) :
    (∀ e, (arrest_cell C p q s).f_new i j e = s.f_new i j e) ∧
    (arrest_cell C p q s).d i j = s.d i j := by
  unfold arrest_cell
  split_ifs
  · exact ⟨fun e => by simp only [set3_other _ _ _ _ _ _ _ _ hij],
      by simp only [set2_other _ _ _ _ _ _ hij]⟩
  · exact ⟨fun e => by simp only [set3_other _ _ _ _ _ _ _ _ hij], rfl⟩
  · exact ⟨fun _ => rfl, rfl⟩

/-- The reversal loop treats cell `(i,j)` of the Active Domain exactly as the
check of lines 528-537 applied to the state left by the pass. -/
theorem arrest_visit (C : Config α) (st : State α) (i j : Int) (hin : inDomain st i j) :
    (∀ e, (arrest C st).f_new i j e = (arrest_cell C i j st).f_new i j e) ∧
    (arrest C st).d i j = (arrest_cell C i j st).d i j := by
  unfold arrest
  refine forRange2_visit
    (fun s : State α => ArrestFrame st s ∧ (∀ e, s.f_new i j e = st.f_new i j e) ∧
      s.d i j = st.d i j)
    (fun s : State α => (∀ e, s.f_new i j e = (arrest_cell C i j st).f_new i j e) ∧
      s.d i j = (arrest_cell C i j st).d i j)
    (fun p q s => arrest_cell C p q s) st.i_min st.i_max st.j_min st.j_max i j
    ⟨hin.1, hin.2.1⟩ ⟨hin.2.2.1, hin.2.2.2⟩ ?_ ?_ ?_ st ⟨rfl, fun _ => rfl, rfl⟩
  · rintro p q s hpq ⟨a0, a1, a2⟩
    have hij : ¬ (i = p ∧ j = q) := fun h => hpq ⟨h.1.symm, h.2.symm⟩
    obtain ⟨b1, b2⟩ := arrest_cell_other C p q s i j hij
    exact ⟨arrest_cell_arrestFrame C p q st s a0, fun e => (b1 e).trans (a1 e), b2.trans a2⟩
  · rintro s ⟨a0, a1, a2⟩
    obtain ⟨e1, _, _, _, _, _, e7, e8, e9, _⟩ := a0.afields
    unfold arrest_cell
    simp only [a1, a2, e1, e7, e8, e9]
    split_ifs <;> simp [set3, set2, a1, a2, e9]
  · rintro p q s hpq ⟨a1, a2⟩
    have hij : ¬ (i = p ∧ j = q) := fun h => hpq ⟨h.1.symm, h.2.symm⟩
    obtain ⟨b1, b2⟩ := arrest_cell_other C p q s i j hij
    exact ⟨fun e => (b1 e).trans (a1 e), b2.trans a2⟩

/-- The check of lines 528-537 at cell `(i,j)`, seen from that cell. -/
theorem arrest_cell_at (C : Config α) (st : State α) (i j : Int) :
    (reversal_uphill st i j →
      (arrest_cell C i j st).f_new i j 1 = 0 ∧ (arrest_cell C i j st).f_new i j 2 = 0 ∧
      (C.dep = 1 → (arrest_cell C i j st).f_new i j 0 = 0 ∧
        (arrest_cell C i j st).d i j = st.d i j + st.f_new i j 0 / st.dA i j) ∧
      (C.dep ≠ 1 → (arrest_cell C i j st).f_new i j 0 = st.f_new i j 0 ∧
        (arrest_cell C i j st).d i j = st.d i j)) ∧
    (¬ reversal_uphill st i j →
      (∀ e, (arrest_cell C i j st).f_new i j e = st.f_new i j e) ∧
      (arrest_cell C i j st).d i j = st.d i j) := by
  unfold reversal_uphill arrest_cell
  constructor
  · intro h
    rw [if_pos h]
    by_cases hd : C.dep = 1
    · simp [hd, set3, set2]
    · simp [hd, set3]
  · intro h
    rw [if_neg h]
    exact ⟨fun _ => rfl, rfl⟩

/-- After the reversal check nothing in the body of the time loop changes
`f_new`, the deposit depth `d` or the bed depth `b`. -/
theorem step_tail_reservoirs (C : Config α) (st4 s1 : State α)
    (h : step_tail C st4 = Outcome.next s1 ∨ step_tail C st4 = Outcome.done s1) :
    s1.f_new = (arrest C st4).f_new ∧ s1.d = (arrest C st4).d ∧ s1.b = st4.b := by
  have hA := arrest_arrestFrame C st4
  have hZ := dynamic_surface_surfFrame C (arrest C st4)
  have hP := primivar_primFrame C (dynamic_surface C (arrest C st4)).f_new
    (dynamic_surface C (arrest C st4))
  have hB := update_boundaries_boundFrame C (tail_state C st4).f_new (tail_state C st4)
  unfold tail_state at hB
  unfold ArrestFrame at hA
  unfold SurfFrame at hZ
  unfold PrimFrame at hP
  unfold BoundFrame at hB
  have f1 := congrArg State.f_new hZ
  have f2 := congrArg State.f_new hP
  have f3 := congrArg State.f_new hB
  have d1 := congrArg State.d hZ
  have d2 := congrArg State.d hP
  have d3 := congrArg State.d hB
  have b0 := congrArg State.b hA
  have b1 := congrArg State.b hZ
  have b2 := congrArg State.b hP
  have b3 := congrArg State.b hB
  simp only at f1 f2 f3 d1 d2 d3 b0 b1 b2 b3
  have key := And.intro (f3.trans (f2.trans f1))
    (And.intro (d3.trans (d2.trans d1)) (b3.trans (b2.trans (b1.trans b0))))
  unfold step_tail at h
  simp only at h
  split_ifs at h with hc
  · rcases h with h | h
    · simp at h
    · simp only [Outcome.done.injEq] at h
      subst h
      exact key
  · rcases h with h | h
    · simp only [Outcome.next.injEq] at h
      subst h
      exact key
    · simp at h

/-- The state `st4` left by the transport pass of an accepted time step. -/
theorem time_step_pass (C : Config α) (pf : Nat) (st s1 : State α)
    (h : time_step C pf st = Outcome.next s1) :
    ∃ st3 st4, source_terms C (step_head C st) = some st3 ∧
      iloop C pf st3.i_min st3 = some st4 ∧ pass_result C pf st = some st4 ∧
      st4.repeat_flag ≠ -1 ∧ step_tail C st4 = Outcome.next s1 ∧
      SameDomain st st3 ∧ LoopFrame st3 st4 := by
  unfold time_step at h
  split_ifs at h with hd
  cases hs : source_terms C (step_head C st) with
  | none => rw [hs] at h; simp at h
  | some st3 =>
    rw [hs] at h
    simp only at h
    cases hi : iloop C pf st3.i_min st3 with
    | none => rw [hi] at h; simp at h
    | some st4 =>
      rw [hi] at h
      simp only at h
      split_ifs at h with hf
      obtain ⟨c1, c2, c3, c4, c5, c6⟩ := step_head_frame C st
      obtain ⟨⟨d1, d2, d3, d4, d5⟩, dd⟩ := source_terms_frame C _ _ hs
      have hdt3 : C.dt_min ≤ st3.dt := by rw [d2]; exact not_lt.mp hd
      obtain ⟨r, r1, r2, r3, r4, r5⟩ := iloop_sound C pf _ st3 st4 hi hdt3
      refine ⟨st3, st4, rfl, hi, ?_, hf, h, c5.dtrans dd, r2⟩
      unfold pass_result pass_start
      rw [hs]
      simp only [Option.some_bind]
      exact hi

/-- C21 (reversal arrest).  Let the time step from `st` be accepted with the
state `s1`, and let `(i,j)` be a cell of the Active Domain.  The transport
pass of the step has ended in a state `st4` that is not the collapsed one; with
`curve` 0 or 1 its `f_old` is the conserved state before the step.  If in `st4`
the new momentum has reversed (`f_old . f_new < 0`) and points uphill
(`f_new . (gx,gy) < 0`), then after the step both momentum components of the
cell are 0; with deposition (`dep = 1`) its mass is 0 and the deposit depth
has grown by `mass / dA`; without deposition mass and deposit depth are those
of `st4`.  Otherwise the cell has the conserved state and the deposit depth of
`st4`.  A cell whose old momentum is zero, or whose new momentum does not
point uphill, is not arrested. -/
theorem reversal_arrest (C : Config α) (pf : Nat) (st s1 : State α) (i j : Int)
    (hstep : time_step C pf st = Outcome.next s1) (hin : inDomain st i j) :
    ∃ st4, pass_result C pf st = some st4 ∧ st4.repeat_flag ≠ -1 ∧ inDomain st4 i j ∧
      (ValidCurve C → ∀ e, e < 3 → st4.f_old i j e = st.f_new i j e) ∧
      (reversal_uphill st4 i j →
        s1.f_new i j 1 = 0 ∧ s1.f_new i j 2 = 0 ∧
        (C.dep = 1 → s1.f_new i j 0 = 0 ∧
          s1.d i j = st4.d i j + st4.f_new i j 0 / st4.dA i j) ∧
        (C.dep ≠ 1 → s1.f_new i j 0 = st4.f_new i j 0 ∧ s1.d i j = st4.d i j)) ∧
      (¬ reversal_uphill st4 i j →
        (∀ e, s1.f_new i j e = st4.f_new i j e) ∧ s1.d i j = st4.d i j) ∧
      (st4.f_old i j 1 = 0 ∧ st4.f_old i j 2 = 0 → ¬ reversal_uphill st4 i j) ∧
      (0 ≤ st4.f_new i j 1 * st4.gx i j + st4.f_new i j 2 * st4.gy i j →
        ¬ reversal_uphill st4 i j) := by
  obtain ⟨st3, st4, hs, hi, hp, hf, ht, hdom, hl⟩ := time_step_pass C pf st s1 hstep
  have hin4 : inDomain st4 i j := by
    unfold inDomain at *
    rw [hl.l_i_min_eq, hl.l_i_max_eq, hl.l_j_min_eq, hl.l_j_max_eq,
      hdom.1, hdom.2.1, hdom.2.2.1, hdom.2.2.2]
    exact hin
  obtain ⟨k1, k2, _⟩ := step_tail_reservoirs C st4 s1 (Or.inl ht)
  obtain ⟨v1, v2⟩ := arrest_visit C st4 i j hin4
  obtain ⟨a1, a2⟩ := arrest_cell_at C st4 i j
  refine ⟨st4, hp, hf, hin4, ?_, ?_, ?_, ?_, ?_⟩
  · intro hc e he
    rw [hl.l_f_old_eq, (source_terms_srcFrame C _ _ hs).sfields.2.1]
    exact step_head_f_old C hc st i j hin e he
  · intro hr
    obtain ⟨b1, b2, b3, b4⟩ := a1 hr
    rw [k1, k2, v1, v1, v1, v2]
    exact ⟨b1, b2, b3, b4⟩
  · intro hr
    obtain ⟨b1, b2⟩ := a2 hr
    rw [k1, k2, v2]
    exact ⟨fun e => (v1 e).trans (b1 e), b2⟩
  · rintro ⟨h1, h2⟩ ⟨hr, _⟩
    rw [h1, h2] at hr
    simp at hr
  · rintro h0 ⟨_, hr⟩
    exact absurd h0 (not_le.mpr hr)

set_option maxRecDepth 1000000 in
theorem stR_step_isSome : (time_step cfgR 10 stR).accepted.isSome = true := by decide!

set_option maxRecDepth 1000000 in
/-- In state R the friction of the step exceeds the momentum of cell `(0,0)`:
after the pass the x-momentum is negative, the cell is arrested, its mass
`1/50` goes into the deposit (depth `2/25`). -/
theorem stR_step_values :
    (pass_result cfgR 10 stR).map (fun s => s.f_new 0 0 0) = some (1 / 50) ∧
    (pass_result cfgR 10 stR).map (fun s => s.f_new 0 0 1) = some (-17 / 200) ∧
    ((time_step cfgR 10 stR).accepted.get stR_step_isSome).f_new 0 0 0 = 0 ∧
    ((time_step cfgR 10 stR).accepted.get stR_step_isSome).f_new 0 0 1 = 0 ∧
    ((time_step cfgR 10 stR).accepted.get stR_step_isSome).d 0 0 = 2 / 25 := by
  refine ⟨?_, ?_, ?_, ?_, ?_⟩ <;> decide!

/-- Witness for C21: the time step from state R, in which cell `(0,0)` is
arrested. -/
theorem reversal_arrest_witness :
    inDomain stR 0 0 ∧
    ∃ st4, pass_result cfgR 10 stR = some st4 ∧ st4.repeat_flag ≠ -1 ∧ inDomain st4 0 0 ∧
      (ValidCurve cfgR → ∀ e, e < 3 → st4.f_old 0 0 e = stR.f_new 0 0 e) ∧
      (reversal_uphill st4 0 0 →
        ((time_step cfgR 10 stR).accepted.get stR_step_isSome).f_new 0 0 1 = 0 ∧
        ((time_step cfgR 10 stR).accepted.get stR_step_isSome).f_new 0 0 2 = 0 ∧
        (cfgR.dep = 1 → ((time_step cfgR 10 stR).accepted.get stR_step_isSome).f_new 0 0 0 = 0 ∧
          ((time_step cfgR 10 stR).accepted.get stR_step_isSome).d 0 0
            = st4.d 0 0 + st4.f_new 0 0 0 / st4.dA 0 0) ∧
        (cfgR.dep ≠ 1 →
          ((time_step cfgR 10 stR).accepted.get stR_step_isSome).f_new 0 0 0 = st4.f_new 0 0 0 ∧
          ((time_step cfgR 10 stR).accepted.get stR_step_isSome).d 0 0 = st4.d 0 0)) ∧
      (¬ reversal_uphill st4 0 0 →
        (∀ e, ((time_step cfgR 10 stR).accepted.get stR_step_isSome).f_new 0 0 e
          = st4.f_new 0 0 e) ∧
        ((time_step cfgR 10 stR).accepted.get stR_step_isSome).d 0 0 = st4.d 0 0) ∧
      (st4.f_old 0 0 1 = 0 ∧ st4.f_old 0 0 2 = 0 → ¬ reversal_uphill st4 0 0) ∧
      (0 ≤ st4.f_new 0 0 1 * st4.gx 0 0 + st4.f_new 0 0 2 * st4.gy 0 0 →
        ¬ reversal_uphill st4 0 0) :=
  ⟨by decide, reversal_arrest cfgR 10 stR _ 0 0
    (accepted_eq_next _ _ (Option.some_get stR_step_isSome).symm) (by decide)⟩

/-! Erosion reservoir and retried passes (lines 368-385, 398-406) -/

/-- One visit of a cell by the transport pass with erosion, a non-negative
bed depth and positive `dA`, `rrb`, `dt`: the bed depth removed, times
`dA/rrb`, is the eroded mass `src * dt` of this visit. -/
theorem lockstep_single_visit (C : Config α) (i j : Int) (st : State α)
    (he : C.eromod > 0) (hs : st.src i j 0 > 0) (hb : 0 ≤ st.b i j)
    (hdA : 0 < st.dA i j) (hr : 0 < C.rrb) (hdt : 0 < st.dt) :
    (st.b i j - (cell_flux C i j st).b i j) * st.dA i j / C.rrb
      = (cell_flux C i j st).src i j 0 * st.dt := by
  obtain ⟨e1, e2⟩ := limit_source_erosion C i j st he hs
  obtain ⟨f1, f2⟩ := cell_flux_src_b C i j st
  rw [f1, f2, e2, e1]
  have hle : min (st.src i j 0) (st.b i j * st.dA i j / (C.rrb * st.dt)) * C.rrb * st.dt
      / st.dA i j ≤ st.b i j := by
    have h1 : min (st.src i j 0) (st.b i j * st.dA i j / (C.rrb * st.dt))
        ≤ st.b i j * st.dA i j / (C.rrb * st.dt) := min_le_right _ _
    have hpos : 0 < C.rrb * st.dt := mul_pos hr hdt
    rw [div_le_iff₀ hdA]
    have h2 := (le_div_iff₀ hpos).mp h1
    linarith
  rw [max_eq_right (by linarith)]
  field_simp
  ring

set_option maxRecDepth 1000000 in
/-- C22 (reservoir lockstep), evaluated in state K with the erosion model
RAMMS.  The first pass of the step (`dt = 3/16`) erodes cell `(0,0)` (bed
depth 1 -> 119/128) and is then aborted in row 1, where the mass of cell
`(1,0)` becomes negative.  The retry restores `f_new` but not the bed depth:
the second pass (`dt = 3/20`) erodes the cell again (119/128 -> 559/640) and
is accepted.  Over the step the bed of cell `(0,0)` has lost the depth
`81/640`, that is the mass `81/3200`, but the eroded mass added to the
accepted flow mass is `src * dt = 9/800 = 36/3200`: the cell mass is
`1/40 - 9/400 + 9/800 = 11/800`, where `9/400` is the outflow.  The
difference `9/640` is the erosion of the aborted pass. -/
theorem bed_loss_exceeds_erosion_after_retry :
    cfgK.eromod = 1 ∧
    (pass_start cfgK stK).map (fun s => s.dt) = some (3 / 16) ∧
    (pass_start cfgK stK).map (fun s => (row_pass cfgK 0 s).b 0 0) = some (119 / 128) ∧
    (pass_start cfgK stK).map (fun s => (row_pass cfgK 0 s).repeat_flag) = some 0 ∧
    (pass_start cfgK stK).map (fun s => (row_pass cfgK 1 (row_pass cfgK 0 s)).repeat_flag)
      = some 1 ∧
    (Outcome.accepted (time_step cfgK 20 stK)).map (fun s => s.dt) = some (3 / 20) ∧
    (Outcome.accepted (time_step cfgK 20 stK)).map (fun s => s.stop_code) = some 0 ∧
    (Outcome.accepted (time_step cfgK 20 stK)).map (fun s => s.b 0 0) = some (559 / 640) ∧
    (Outcome.accepted (time_step cfgK 20 stK)).map
      (fun s => (stK.b 0 0 - s.b 0 0) * stK.dA 0 0 / cfgK.rrb) = some (81 / 3200) ∧
    (Outcome.accepted (time_step cfgK 20 stK)).map (fun s => s.src 0 0 0 * s.dt)
      = some (9 / 800) ∧
    (pass_result cfgK 20 stK).map (fun s => qhx s 0 0 + qhy s 0 0 + qhd s 0 0)
      = some (9 / 400) ∧
    stK.f_new 0 0 0 = 1 / 40 ∧
    (Outcome.accepted (time_step cfgK 20 stK)).map (fun s => s.f_new 0 0 0)
      = some (11 / 800) := by
  refine ⟨rfl, ?_, ?_, ?_, ?_, ?_, ?_, ?_, ?_, ?_, ?_, ?_, ?_⟩ <;> decide!

/-! Function `source_terms`, seen from one cell -/

/-- The fields that `source_terms` reads and does not write. -/
theorem SrcFrame.reads {a b : State α} (h : SrcFrame a b) :
    b.gz = a.gz ∧ b.k = a.k ∧ b.tau_c = a.tau_c ∧ b.b = a.b ∧ b.mu_s = a.mu_s ∧
    b.dx = a.dx ∧ b.dy = a.dy ∧ b.tD = a.tD ∧ b.d = a.d := by
  unfold SrcFrame at h
  refine ⟨?_, ?_, ?_, ?_, ?_, ?_, ?_, ?_, ?_⟩
  · have e := congrArg State.gz h; exact e
  · have e := congrArg State.k h; exact e
  · have e := congrArg State.tau_c h; exact e
  · have e := congrArg State.b h; exact e
  · have e := congrArg State.mu_s h; exact e
  · have e := congrArg State.dx h; exact e
  · have e := congrArg State.dy h; exact e
  · have e := congrArg State.tD h; exact e
  · have e := congrArg State.d h; exact e

/-- The body of `source_terms` in terms of `bed_shear` and
`erosion_source`. -/
theorem source_cell_eq (C : Config α) (i j : Int) (st : State α) :
    source_cell C i j st =
      (bed_shear C st i j).bind (fun t =>
        (erosion_source C st i j t).map (fun r =>
          forest_cell C i j (momentum_source C i j r.2 { st with src := set3 st.src i j 0 r.1 }))) := by
  unfold source_cell bed_shear
  cases hf : friction_params C st i j with
  | none => rfl
  | some pr =>
    obtain ⟨mu_loc, k_loc0⟩ := pr
    simp only [Option.some_bind]
    cases he : erosion_source C st i j
        (mu_loc * st.gz i j * st.h i j + drag_adjust C st i j k_loc0 * SQ (st.s i j)) with
    | none => rfl
    | some q => rfl

/-- While `source_terms` runs, the bed shear stress and the erosion switch of
a cell not yet visited are those of the state at the call. -/
theorem source_reads_congr (C : Config α) (st s : State α) (i j : Int)
    (hf : SrcFrame st s) (hn : s.nD i j = st.nD i j) :
    bed_shear C s i j = bed_shear C st i j ∧
    ∀ t, erosion_source C s i j t = erosion_source C st i j t := by
  obtain ⟨_, _, e_u, e_v, e_s, e_h, e_mu, e_gx, e_gy, e_dA, e_G, _⟩ := hf.sfields
  obtain ⟨e_gz, e_k, e_tc, e_b, e_ms, e_dx, e_dy, _, _⟩ := hf.reads
  constructor
  · unfold bed_shear friction_params drag_adjust
    simp only [e_dA, e_h, e_mu, e_k, e_gz, e_s, hn]
  · intro t
    unfold erosion_source tau_c_loc dbdx dbdy
    simp only [e_u, e_v, e_s, e_h, e_mu, e_dA, e_G, e_gz, e_k, e_tc, e_b, e_ms, e_dx, e_dy]

/-- A visit of `source_cell` at `(p,q)` leaves the source terms and the
forest opacity of every other cell as they are. -/
theorem source_cell_other (C : Config α) (p q i j : Int) (s s2 : State α)
    (hb : source_cell C p q s = some s2) (hij : ¬ (i = p ∧ j = q)) :
    (∀ e, s2.src i j e = s.src i j e) ∧ s2.nD i j = s.nD i j := by
  obtain ⟨src0, tb, rfl⟩ := source_cell_some C p q s s2 hb
  unfold forest_cell momentum_source
  constructor
  · intro e
    split_ifs <;> simp only [set3_other _ _ _ _ _ _ _ _ hij]
  · split_ifs <;> first | rfl | simp only [set2_other _ _ _ _ _ _ hij]

/-- What `source_terms` leaves in cell `(i,j)` of the Active Domain: with the
bed shear stress `t` of the cell and the result `r = (src0, tau_b)` of the
erosion switch, both taken in the state at the call, the mass source is
`src0`, and where `speed > u_min` the momentum sources are those of lines
771-772 with the shear stress `tau_b`. -/
theorem source_terms_visit (C : Config α) (st st1 : State α)
    (h : source_terms C st = some st1) (i j : Int) (hin : inDomain st i j) :
    ∃ t r, bed_shear C st i j = some t ∧ erosion_source C st i j t = some r ∧
      st1.src i j 0 = r.1 ∧
      (st.s i j > C.u_min →
        st1.src i j 1 = (st.gx i j * st.h i j - st.u i j / st.s i j * r.2) * st.dA i j ∧
        st1.src i j 2 = (st.gy i j * st.h i j - st.v i j / st.s i j * r.2) * st.dA i j) ∧
      (¬ st.s i j > C.u_min →
        st1.src i j 1 = st.src i j 1 ∧ st1.src i j 2 = st.src i j 2) := by
  unfold source_terms at h
  refine forRangeM2_visit
    (fun s : State α => SrcFrame st s ∧ (∀ e, s.src i j e = st.src i j e) ∧
      s.nD i j = st.nD i j)
    (fun s : State α => ∃ t r, bed_shear C st i j = some t ∧
      erosion_source C st i j t = some r ∧ s.src i j 0 = r.1 ∧
      (st.s i j > C.u_min →
        s.src i j 1 = (st.gx i j * st.h i j - st.u i j / st.s i j * r.2) * st.dA i j ∧
        s.src i j 2 = (st.gy i j * st.h i j - st.v i j / st.s i j * r.2) * st.dA i j) ∧
      (¬ st.s i j > C.u_min → s.src i j 1 = st.src i j 1 ∧ s.src i j 2 = st.src i j 2))
    (fun p q s => source_cell C p q s) st.i_min st.i_max st.j_min st.j_max i j
    ⟨hin.1, hin.2.1⟩ ⟨hin.2.2.1, hin.2.2.2⟩ ?_ ?_ ?_ st st1 ⟨rfl, fun _ => rfl, rfl⟩ h
  · rintro p q s s2 hpq ⟨a0, a1, a2⟩ hb
    have hij : ¬ (i = p ∧ j = q) := fun h => hpq ⟨h.1.symm, h.2.symm⟩
    obtain ⟨b1, b2⟩ := source_cell_other C p q i j s s2 hb hij
    refine ⟨?_, fun e => (b1 e).trans (a1 e), b2.trans a2⟩
    have hs2 : SrcFrame s s2 := by
      obtain ⟨src0, tb, rfl⟩ := source_cell_some C p q s s2 hb
      unfold forest_cell momentum_source SrcFrame
      split_ifs <;> rfl
    unfold SrcFrame at *
    rw [← a0, ← hs2]
  · rintro s s2 ⟨a0, a1, a2⟩ hb
    obtain ⟨c1, c2⟩ := source_reads_congr C st s i j a0 a2
    obtain ⟨_, _, e_u, e_v, e_s, e_h, e_mu, e_gx, e_gy, e_dA, e_G, _⟩ := a0.sfields
    simp only at hb
    rw [source_cell_eq, c1] at hb
    cases ht : bed_shear C st i j with
    | none => rw [ht] at hb; simp at hb
    | some t =>
      rw [ht] at hb
      simp only [Option.some_bind, c2] at hb
      cases hr : erosion_source C st i j t with
      | none => rw [hr] at hb; simp at hb
      | some r =>
        rw [hr] at hb
        simp only [Option.map_some', Option.some.injEq] at hb
        subst hb
        refine ⟨t, r, rfl, hr, ?_, ?_, ?_⟩
        · unfold forest_cell momentum_source
          split_ifs <;> simp [set3]
        · intro hgt
          have hgt2 : s.s i j > C.u_min := by rw [e_s]; exact hgt
          unfold forest_cell momentum_source
          simp only [if_pos hgt2]
          split_ifs <;> simp [set3, e_u, e_v, e_s, e_h, e_gx, e_gy, e_dA]
        · intro hgt
          have hgt2 : ¬ s.s i j > C.u_min := by rw [e_s]; exact hgt
          unfold forest_cell momentum_source
          simp only [if_neg hgt2]
          split_ifs <;> simp [set3, a1]
  · rintro p q s s2 hpq ⟨t, r, h1, h2, h3, h4, h5⟩ hb
    have hij : ¬ (i = p ∧ j = q) := fun h => hpq ⟨h.1.symm, h.2.symm⟩
    obtain ⟨b1, _⟩ := source_cell_other C p q i j s s2 hb hij
    refine ⟨t, r, h1, h2, (b1 0).trans h3, ?_, ?_⟩
    · intro hgt
      rw [b1 1, b1 2]
      exact h4 hgt
    · intro hgt
      rw [b1 1, b1 2]
      exact h5 hgt

/-! The erosion variants (lines 699-765) -/

/-- In the TJEM the statement of line 723 changes nothing: whenever the mass
source of a cell is positive, the bed shear stress exceeds the local bed
strength already, and `MAX(tau_c_loc, tau_b)` is `tau_b`. -/
theorem tjem_clamp_is_void (C : Config α) (st : State α) (i j : Int) (t : α) (r : α × α)
    (he : C.eromod = 2) (hr : erosion_source C st i j t = some r) (hpos : 0 < r.1) :
    r.2 = t ∧ tau_c_loc C st i j < t := by
  unfold erosion_source at hr
  simp only [he] at hr
  norm_num at hr
  have key : 0 < (if 10 * C.u_min < st.s i j ∧ 10 * C.h_min < st.h i j then
      MAX 0 (t - tau_c_loc C st i j) * st.dA i j / st.s i j else 0) →
      tau_c_loc C st i j < t := by
    intro hx
    split_ifs at hx with hc
    · by_contra hle
      have h0 : MAX 0 (t - tau_c_loc C st i j) = 0 := by
        rw [MAX_eq_max]
        exact max_eq_left (by linarith [not_lt.mp hle])
      rw [h0] at hx
      simp at hx
    · exact absurd hx (lt_irrefl 0)
  generalize (if 10 * C.u_min < st.s i j ∧ 10 * C.h_min < st.h i j then
      MAX 0 (t - tau_c_loc C st i j) * st.dA i j / st.s i j else 0) = x at hr key
  split_ifs at hr with h1
  · simp only [Option.some.injEq] at hr
    subst hr
    have hlt := key h1.1
    refine ⟨?_, hlt⟩
    show MAX (tau_c_loc C st i j) t = t
    rw [MAX_eq_max]
    exact max_eq_right (le_of_lt hlt)
  · simp only [Option.some.injEq] at hr
    subst hr
    exact ⟨rfl, key hpos⟩

set_option maxRecDepth 1000000 in
/-- C23 (TJEM stress limit), evaluated in state J with erosion variant 2.
In cell `(0,0)` the erosion source is positive (1) and erodible bed remains
(`b = 1`); the local bed strength `tau_c_loc` is `1/2`, the bed shear stress
`tau_b` is `9/2`.  The shear stress that line 723 leaves for the momentum
source is `max(1/2, 9/2) = 9/2`, which exceeds `tau_c_loc`: the momentum
source `src[0][0][1]` is `(gx*h - (u/s) * 9/2) * dA = -9/8`, where a stress
limited to `tau_c_loc` gives `-1/8`. -/
theorem tjem_stress_exceeds_strength :
    cfgJ.eromod = 2 ∧ inDomain stJ 0 0 ∧ stJ.b 0 0 > 0 ∧
    tau_c_loc cfgJ stJ 0 0 = 1 / 2 ∧
    bed_shear cfgJ stJ 0 0 = some (9 / 2) ∧
    erosion_source cfgJ stJ 0 0 (9 / 2) = some (1, 9 / 2) ∧
    (source_terms cfgJ stJ).map (fun s => s.src 0 0 0) = some 1 ∧
    (source_terms cfgJ stJ).map (fun s => s.src 0 0 1) = some (-9 / 8) ∧
    (stJ.gx 0 0 * stJ.h 0 0 - stJ.u 0 0 / stJ.s 0 0 * (9 / 2)) * stJ.dA 0 0 = -9 / 8 ∧
    (stJ.gx 0 0 * stJ.h 0 0 - stJ.u 0 0 / stJ.s 0 0 * tau_c_loc cfgJ stJ 0 0) * stJ.dA 0 0
      = -1 / 8 := by
  refine ⟨rfl, by decide, ?_, ?_, ?_, ?_, ?_, ?_, ?_, ?_⟩ <;> decide!

/-- C24 (variant 3 source), amended.  In erosion variant 3, `source_terms`
leaves in a cell of the Active Domain with `h > h_min` and `speed > 1` the mass
source `speed * dA / tau_c * (mu[i][j]*gz*h + k[i][j]*speed^2)`, computed with
the friction fields `mu`, `k` of the cell, and 0 in every other cell.  Without
forest drag, with `h_drag <= 0` and, for constant parameters, with the
friction fields holding `mu_g`, `k_g`, this is `speed * tau_b * dA / tau_c`
with the bed shear stress `tau_b` of the cell. -/
theorem variant3_source (C : Config α) (st st1 : State α)
    (h : source_terms C st = some st1) (he : C.eromod = 3) (i j : Int)
    (hin : inDomain st i j) :
    (st.h i j > C.h_min ∧ st.s i j > 1 →
      st1.src i j 0 = st.s i j * st.dA i j / st.tau_c i j
        * (st.mu i j * st.gz i j * st.h i j + st.k i j * SQ (st.s i j))) ∧
    (¬ (st.h i j > C.h_min ∧ st.s i j > 1) → st1.src i j 0 = 0) ∧
    (C.forest = 0 → C.h_drag ≤ 0 →
      (C.para = 0 → st.mu i j = C.mu_g ∧ st.k i j = C.k_g) →
      ∃ t, bed_shear C st i j = some t ∧
        (st.h i j > C.h_min ∧ st.s i j > 1 →
          st1.src i j 0 = st.s i j * t * st.dA i j / st.tau_c i j)) := by
  obtain ⟨t, r, h1, h2, h3, _, _⟩ := source_terms_visit C st st1 h i j hin
  have hr : r.1 = (if st.h i j > C.h_min ∧ st.s i j > 1 then
      st.s i j * st.dA i j / st.tau_c i j
        * (st.mu i j * st.gz i j * st.h i j + st.k i j * SQ (st.s i j)) else 0) := by
    unfold erosion_source at h2
    simp only [he] at h2
    norm_num at h2
    split_ifs at h2 with hc
    · simp only [Option.some.injEq] at h2
      subst h2
      rw [if_pos ⟨hc.1, hc.2⟩]
    · simp only [Option.some.injEq] at h2
      subst h2
      rw [if_neg]
      rintro ⟨c1, c2⟩
      exact hc ⟨c1, c2⟩
  refine ⟨?_, ?_, ?_⟩
  · intro hc
    rw [h3, hr, if_pos hc]
  · intro hc
    rw [h3, hr, if_neg hc]
  · intro hf hd hp
    refine ⟨t, h1, ?_⟩
    intro hc
    rw [h3, hr, if_pos hc]
    have hdr : ∀ x, drag_adjust C st i j x = x := by
      intro x
      unfold drag_adjust
      rw [if_neg (not_lt.mpr hd)]
    unfold bed_shear friction_params at h1
    simp only [hf, add_zero] at h1
    split_ifs at h1 with v0 v1 v2 v3
    · obtain ⟨m1, m2⟩ := hp (by omega)
      simp only [Option.some.injEq, hdr] at h1
      rw [← h1, m1, m2]
      ring
    · omega
    · simp only [Option.some.injEq, hdr] at h1
      rw [← h1]
      ring
    · omega

set_option maxRecDepth 1000000 in
theorem stV_call_isSome : (source_terms cfgV0 stV).isSome = true := by decide!

/-- Witness for C24: cell `(0,0)` of state V with configuration V0 (constant
parameters, no forest). -/
theorem variant3_source_witness :
    cfgV0.eromod = 3 ∧ inDomain stV 0 0 ∧
    ((stV.h 0 0 > cfgV0.h_min ∧ stV.s 0 0 > 1 →
      ((source_terms cfgV0 stV).get stV_call_isSome).src 0 0 0
        = stV.s 0 0 * stV.dA 0 0 / stV.tau_c 0 0
          * (stV.mu 0 0 * stV.gz 0 0 * stV.h 0 0 + stV.k 0 0 * SQ (stV.s 0 0))) ∧
    (¬ (stV.h 0 0 > cfgV0.h_min ∧ stV.s 0 0 > 1) →
      ((source_terms cfgV0 stV).get stV_call_isSome).src 0 0 0 = 0) ∧
    (cfgV0.forest = 0 → cfgV0.h_drag ≤ 0 →
      (cfgV0.para = 0 → stV.mu 0 0 = cfgV0.mu_g ∧ stV.k 0 0 = cfgV0.k_g) →
      ∃ t, bed_shear cfgV0 stV 0 0 = some t ∧
        (stV.h 0 0 > cfgV0.h_min ∧ stV.s 0 0 > 1 →
          ((source_terms cfgV0 stV).get stV_call_isSome).src 0 0 0
            = stV.s 0 0 * t * stV.dA 0 0 / stV.tau_c 0 0))) :=
  ⟨rfl, by decide,
    variant3_source cfgV0 stV _ (Option.some_get stV_call_isSome).symm rfl 0 0 (by decide)⟩

set_option maxRecDepth 1000000 in
/-- C24 as stated fails with forest drag.  In state V with configuration V
(variant 3, constant parameters with forest) cell `(0,0)` passes the
thresholds; its bed shear stress is `tau_b = 33/40` (with `mu_loc = 3/8`,
`k_loc = 1/20`), so `speed * tau_b * dA / tau_c` is `99/160`, but the mass
source that `source_terms` sets is `3/16 = speed * dA / tau_c * mu_g*gz*h`. -/
theorem variant3_ignores_forest_drag :
    cfgV.eromod = 3 ∧ inDomain stV 0 0 ∧ stV.h 0 0 > cfgV.h_min ∧ stV.s 0 0 > 1 ∧
    bed_shear cfgV stV 0 0 = some (33 / 40) ∧
    stV.s 0 0 * (33 / 40) * stV.dA 0 0 / stV.tau_c 0 0 = 99 / 160 ∧
    (source_terms cfgV stV).map (fun s => s.src 0 0 0) = some (3 / 16) := by
  refine ⟨rfl, by decide, ?_, ?_, ?_, ?_, ?_⟩ <;> decide!

/-- Where the depth-dependent part of the bed strength vanishes
(`mu_s*gz*h = 0`, as for the bed strength profile `constant` with
`mu_s0 = 0`), the excess pressure of line 758 is the one with `tau_c_loc`. -/
theorem goem_dp_constant_profile (C : Config α) (st : State α) (i j : Int) (t : α)
    (he : C.eromod = 4) (h0 : tau_c_loc C st i j = st.tau_c i j) :
    erosion_source C st i j t = some
      (C.sigma * C.sqrt (dp_with_local_strength C st i j) * st.dA i j
        * (1 / C.sqrt (1 + SQ (((st.u i j + st.v i j * st.G_xy i j) * dbdx C st i j
          + (st.v i j + st.u i j * st.G_xy i j) * dbdy C st i j) / MAX (1 / 100) (st.s i j)))),
        t) := by
  unfold erosion_source dp_with_local_strength
  simp only [he, h0]
  norm_num

set_option maxRecDepth 1000000 in
/-- C25 (variant 4 bed strength), evaluated in state O with erosion variant
4 and the bed strength profile `global` (`mu_s0 = 0.5`).  In the release cell
`(0,0)` (at rest, so `cos(alpha) = 1`, `sin(alpha) = 0`) the normal stress
`gz*h` is 1, the bed strength `tau_c` is `3/4` and the depth-dependent bed
strength `tau_c_loc = tau_c + mu_s0*gz*h` is `5/4`.  With `tau_c_loc` the
excess pressure is `max(0, 1 - 5/4) = 0` and the mass source 0; the mass
source that `source_terms` sets is `sigma * sqrt(1 - 3/4) * dA = 1/4`: line
758 subtracts `tau_c[i][j]`, and `tau_c_loc` of lines 756-757 is not used. -/
theorem goem_ignores_local_strength :
    cfgO.eromod = 4 ∧ cfgO.grad = 1 ∧ inDomain stO 0 0 ∧
    stO.gz 0 0 * stO.h 0 0 = 1 ∧ stO.tau_c 0 0 = 3 / 4 ∧
    tau_c_loc cfgO stO 0 0 = 5 / 4 ∧
    dp_with_local_strength cfgO stO 0 0 = 0 ∧
    cfgO.sigma * cfgO.sqrt (dp_with_local_strength cfgO stO 0 0) * stO.dA 0 0 = 0 ∧
    cfgO.sigma * cfgO.sqrt (1 - 3 / 4) * stO.dA 0 0 = 1 / 4 ∧
    (source_terms cfgO stO).map (fun s => s.src 0 0 0) = some (1 / 4) := by
  refine ⟨rfl, rfl, by decide, ?_, ?_, ?_, ?_, ?_, ?_, ?_⟩ <;> decide!

/-! Index ranges of the transport pass (lines 432-494) -/

/-- The earth pressures at cell `(i,j)` depend on the fields `dx`, `dy`,
`gz`, `h` only through their values in the cells of `pressure_cells`. -/
theorem pressure_reads_only (C : Config α) (st st1 : State α) (i j : Int)
    (hd : SameDomain st st1)
    (hr : ∀ x ∈ pressure_cells st i j, st1.dx x.1 x.2 = st.dx x.1 x.2 ∧
      st1.dy x.1 x.2 = st.dy x.1 x.2 ∧ st1.gz x.1 x.2 = st.gz x.1 x.2 ∧
      st1.h x.1 x.2 = st.h x.1 x.2) :
    pEx C st1 i j = pEx C st i j ∧ pWx C st1 i j = pWx C st i j ∧
    pNy C st1 i j = pNy C st i j ∧ pSy C st1 i j = pSy C st i j := by
  obtain ⟨d1, d2, d3, d4⟩ := hd
  have hx : pEx C st1 i j = pEx C st i j ∧ pWx C st1 i j = pWx C st i j := by
    unfold pEx pWx
    rw [d1, d2]
    by_cases c1 : i > st.i_min ∧ i < st.i_max - 1
    · have a0 := hr (i, j) (by unfold pressure_cells; rw [if_pos c1]; simp)
      have a1 := hr (i + 1, j) (by unfold pressure_cells; rw [if_pos c1]; simp)
      have a2 := hr (i - 1, j) (by unfold pressure_cells; rw [if_pos c1]; simp)
      simp only at a0 a1 a2
      simp only [and_self, if_pos c1, if_pos c1, if_pos c1, if_pos c1, a0.2.1, a0.2.2.1, a0.2.2.2, a1.2.1,
        a1.2.2.1, a1.2.2.2, a2.2.2.1, a2.2.2.2]
    · by_cases c2 : i = st.i_min
      · have a0 := hr (i, j) (by unfold pressure_cells; rw [if_neg c1, if_pos c2]; simp)
        have a1 := hr (i + 1, j) (by unfold pressure_cells; rw [if_neg c1, if_pos c2]; simp)
        simp only at a0 a1
        simp only [and_self, if_neg c1, if_neg c1, if_neg c1, if_neg c1, if_pos c2, if_pos c2, if_pos c2,
          if_pos c2, a0.2.2.1, a0.2.2.2, a1.2.1, a1.2.2.1, a1.2.2.2]
      · by_cases c3 : i = st.i_max - 1
        · have a0 := hr (i, j)
            (by unfold pressure_cells; rw [if_neg c1, if_neg c2, if_pos c3]; simp)
          have a2 := hr (i - 1, j)
            (by unfold pressure_cells; rw [if_neg c1, if_neg c2, if_pos c3]; simp)
          simp only at a0 a2
          simp only [and_self, if_neg c1, if_neg c1, if_neg c1, if_neg c1, if_neg c2, if_neg c2, if_neg c2,
            if_neg c2, if_pos c3, if_pos c3, if_pos c3, if_pos c3, a0.2.1, a0.2.2.1,
            a0.2.2.2, a2.2.2.1, a2.2.2.2]
        · simp only [and_self, if_neg c1, if_neg c1, if_neg c1, if_neg c1, if_neg c2, if_neg c2, if_neg c2,
            if_neg c2, if_neg c3, if_neg c3, if_neg c3, if_neg c3]
  have hy : pNy C st1 i j = pNy C st i j ∧ pSy C st1 i j = pSy C st i j := by
    unfold pNy pSy
    rw [d3, d4]
    by_cases c1 : j > st.j_min ∧ j < st.j_max - 1
    · have a0 := hr (i, j) (by unfold pressure_cells; rw [if_pos c1]; simp)
      have a1 := hr (i, j + 1) (by unfold pressure_cells; rw [if_pos c1]; simp)
      have a2 := hr (i, j - 1) (by unfold pressure_cells; rw [if_pos c1]; simp)
      simp only at a0 a1 a2
      simp only [and_self, if_pos c1, if_pos c1, if_pos c1, if_pos c1, a0.1, a0.2.2.1, a0.2.2.2, a1.1,
        a1.2.2.1, a1.2.2.2, a2.2.2.1, a2.2.2.2]
    · by_cases c2 : j = st.j_min
      · have a0 := hr (i, j) (by unfold pressure_cells; rw [if_neg c1, if_pos c2]; simp)
        have a1 := hr (i, j + 1) (by unfold pressure_cells; rw [if_neg c1, if_pos c2]; simp)
        simp only at a0 a1
        simp only [and_self, if_neg c1, if_neg c1, if_neg c1, if_neg c1, if_pos c2, if_pos c2, if_pos c2,
          if_pos c2, a0.2.2.1, a0.2.2.2, a1.1, a1.2.2.1, a1.2.2.2]
      · by_cases c3 : j = st.j_max - 1
        · have a0 := hr (i, j)
            (by unfold pressure_cells; rw [if_neg c1, if_neg c2, if_pos c3]; simp)
          have a2 := hr (i, j - 1)
            (by unfold pressure_cells; rw [if_neg c1, if_neg c2, if_pos c3]; simp)
          simp only at a0 a2
          simp only [and_self, if_neg c1, if_neg c1, if_neg c1, if_neg c1, if_neg c2, if_neg c2, if_neg c2,
            if_neg c2, if_pos c3, if_pos c3, if_pos c3, if_pos c3, a0.1, a0.2.2.1,
            a0.2.2.2, a2.2.2.1, a2.2.2.2]
        · simp only [and_self, if_neg c1, if_neg c1, if_neg c1, if_neg c1, if_neg c2, if_neg c2, if_neg c2,
            if_neg c2, if_neg c3, if_neg c3, if_neg c3, if_neg c3]
  exact ⟨hx.1, hx.2, hy.1, hy.2⟩

/-- The fluxes of the donor cell `(i,j)` are added only to the cells of
`flux_targets`. -/
theorem flux_in_writes_only (C : Config α) (i j : Int) (st : State α) (f : Grid3 α)
    (p q : Int) (e : Nat) (hpq : (p, q) ∉ flux_targets C st i j) :
    flux_in C i j st f p q e = f p q e := by
  unfold flux_targets at hpq
  simp only [List.mem_append, not_or] at hpq
  obtain ⟨⟨h1, h2⟩, h3⟩ := hpq
  unfold flux_in
  try dsimp only
  have e3 : ∀ g : Grid3 α,
      (if i + flux_di st i j ≥ 0 ∧ i + flux_di st i j < C.m
          ∧ j + flux_dj st i j ≥ 0 ∧ j + flux_dj st i j < C.n then
        add_flux g (i + flux_di st i j) (j + flux_dj st i j) (qhd st i j) (st.u i j) (st.v i j)
       else g) p q e = g p q e := by
    intro g
    split_ifs with c
    · rw [if_pos c] at h3
      apply add_flux_other
      rintro ⟨rfl, rfl⟩
      exact h3 (by simp)
    · rfl
  have e2 : ∀ g : Grid3 α,
      (if j + flux_dj st i j ≥ 0 ∧ j + flux_dj st i j < C.n then
        add_flux g i (j + flux_dj st i j) (qhy st i j) (st.u i j) (st.v i j)
       else g) p q e = g p q e := by
    intro g
    split_ifs with c
    · rw [if_pos c] at h2
      apply add_flux_other
      rintro ⟨rfl, rfl⟩
      exact h2 (by simp)
    · rfl
  have e1 : ∀ g : Grid3 α,
      (if i + flux_di st i j ≥ 0 ∧ i + flux_di st i j < C.m then
        add_flux g (i + flux_di st i j) j (qhx st i j) (st.u i j) (st.v i j)
       else g) p q e = g p q e := by
    intro g
    split_ifs with c
    · rw [if_pos c] at h1
      apply add_flux_other
      rintro ⟨rfl, rfl⟩
      exact h1 (by simp)
    · rfl
  rw [e3, e2, e1]

/-- In an Active Domain that lies within the Grid and is at least two indices
wide in each direction (or empty), the earth-pressure computation and the
flux targets of every active cell stay within the Grid. -/
theorem stencil_in_grid (C : Config α) (st : State α)
    (hg : 0 ≤ st.i_min ∧ st.i_max ≤ C.m ∧ 0 ≤ st.j_min ∧ st.j_max ≤ C.n)
    (hw : (∀ i j, ¬ inDomain st i j) ∨ (st.i_min + 2 ≤ st.i_max ∧ st.j_min + 2 ≤ st.j_max))
    (i j : Int) (hin : inDomain st i j) :
    (∀ x ∈ pressure_cells st i j, inGrid C x) ∧ (∀ x ∈ flux_targets C st i j, inGrid C x) := by
  obtain ⟨g1, g2, g3, g4⟩ := hg
  have hwide : st.i_min + 2 ≤ st.i_max ∧ st.j_min + 2 ≤ st.j_max := by
    rcases hw with h | h
    · exact absurd hin (h i j)
    · exact h
  obtain ⟨w1, w2⟩ := hwide
  obtain ⟨i1, i2, j1, j2⟩ := hin
  constructor
  · intro x hx
    unfold pressure_cells at hx
    unfold inGrid
    rw [List.mem_append] at hx
    rcases hx with hx | hx
    · split_ifs at hx with c1 c2 c3
      · simp only [List.mem_cons, List.mem_singleton, List.not_mem_nil, or_false] at hx
        rcases hx with rfl | rfl | rfl <;> simp only <;> omega
      · simp only [List.mem_cons, List.mem_singleton, List.not_mem_nil, or_false] at hx
        rcases hx with rfl | rfl <;> simp only <;> omega
      · simp only [List.mem_cons, List.mem_singleton, List.not_mem_nil, or_false] at hx
        rcases hx with rfl | rfl <;> simp only <;> omega
      · simp at hx
    · split_ifs at hx with c1 c2 c3
      · simp only [List.mem_cons, List.mem_singleton, List.not_mem_nil, or_false] at hx
        rcases hx with rfl | rfl | rfl <;> simp only <;> omega
      · simp only [List.mem_cons, List.mem_singleton, List.not_mem_nil, or_false] at hx
        rcases hx with rfl | rfl <;> simp only <;> omega
      · simp only [List.mem_cons, List.mem_singleton, List.not_mem_nil, or_false] at hx
        rcases hx with rfl | rfl <;> simp only <;> omega
      · simp at hx
  · intro x hx
    unfold flux_targets at hx
    unfold inGrid
    simp only [List.mem_append] at hx
    rcases hx with (hx | hx) | hx
    · split_ifs at hx with c
      · simp only [List.mem_singleton] at hx
        subst hx
        simp only
        omega
      · simp at hx
    · split_ifs at hx with c
      · simp only [List.mem_singleton] at hx
        subst hx
        simp only
        omega
      · simp at hx
    · split_ifs at hx with c
      · simp only [List.mem_singleton] at hx
        subst hx
        simp only
        omega
      · simp at hx

/-- The Active Domain computed by `update_boundaries` from an Active Domain
within a Grid of at least 2 x 2 nodes lies within the Grid, and it is empty
or at least two indices wide in each direction. -/
theorem update_boundaries_wide (C : Config α) (hm : 2 ≤ C.m) (hn : 2 ≤ C.n)
    (f : Grid3 α) (st : State α)
    (hg : 0 ≤ st.i_min ∧ st.i_max ≤ C.m ∧ 0 ≤ st.j_min ∧ st.j_max ≤ C.n) :
    (0 ≤ (update_boundaries C f st).1.i_min ∧ (update_boundaries C f st).1.i_max ≤ C.m ∧
      0 ≤ (update_boundaries C f st).1.j_min ∧ (update_boundaries C f st).1.j_max ≤ C.n) ∧
    ((∀ i j, ¬ inDomain (update_boundaries C f st).1 i j) ∨
      ((update_boundaries C f st).1.i_min + 2 ≤ (update_boundaries C f st).1.i_max ∧
       (update_boundaries C f st).1.j_min + 2 ≤ (update_boundaries C f st).1.j_max)) := by
  have e1 : (update_boundaries C f st).1.i_min = max 0 (boundaries_loops C f st).2.west := by
    rw [update_boundaries_eq]; simp only [MAX_eq_max]
  have e2 : (update_boundaries C f st).1.i_max
      = min C.m ((boundaries_loops C f st).2.east + 1) := by
    rw [update_boundaries_eq]; simp only [MIN_eq_min]
  have e3 : (update_boundaries C f st).1.j_min = max 0 (boundaries_loops C f st).2.south := by
    rw [update_boundaries_eq]; simp only [MAX_eq_max]
  have e4 : (update_boundaries C f st).1.j_max
      = min C.n ((boundaries_loops C f st).2.north + 1) := by
    rw [update_boundaries_eq]; simp only [MIN_eq_min]
  obtain ⟨g1, g2, g3, g4⟩ := hg
  unfold inDomain
  rw [e1, e2, e3, e4]
  refine ⟨⟨le_max_left _ _, min_le_left _ _, le_max_left _ _, min_le_left _ _⟩, ?_⟩
  by_cases hex : ∃ i j, inDomain st i j ∧ is_moving C f st i j
  · obtain ⟨i, j, hin, hmv⟩ := hex
    obtain ⟨m1, m2, m3, m4⟩ := boundaries_loops_margin C f st i j hin hmv
    obtain ⟨i1, i2, j1, j2⟩ := hin
    right
    simp only [max_def, min_def]
    constructor <;> split_ifs <;> omega
  · obtain ⟨a1, a2, a3, a4⟩ := boundaries_loops_attained C f st
    have b1 : (boundaries_loops C f st).2.west = C.m :=
      a1.resolve_right (fun ⟨i, j, h1, h2, _⟩ => hex ⟨i, j, h1, h2⟩)
    have b2 : (boundaries_loops C f st).2.east = 0 :=
      a2.resolve_right (fun ⟨i, j, h1, h2, _⟩ => hex ⟨i, j, h1, h2⟩)
    clear a1 a2 a3 a4 hex
    left
    intro i j
    rw [b1, b2]
    simp only [max_def, min_def]
    split_ifs <;> omega

/-- C26 (stencil safety).  On a Grid with `m >= 2` and `n >= 2`, every
Active Domain of a run (the initial one, or one computed by
`update_boundaries`) lies within the Grid and is empty or at least two indices
wide in each direction; for every cell `(i,j)` of it, every cell whose fields
the earth-pressure computation reads (`i-1`, `i+1`, `j-1`, `j+1` included) and
every cell to which the transport pass adds a flux is a node of the Grid
`[0,m) x [0,n)`. -/
theorem stencil_safety (C : Config α) (hm : 2 ≤ C.m) (hn : 2 ≤ C.n) (st : State α)
    (hrun : RunDomain C st) :
    (0 ≤ st.i_min ∧ st.i_max ≤ C.m ∧ 0 ≤ st.j_min ∧ st.j_max ≤ C.n) ∧
    ((∀ i j, ¬ inDomain st i j) ∨ (st.i_min + 2 ≤ st.i_max ∧ st.j_min + 2 ≤ st.j_max)) ∧
    ∀ i j, inDomain st i j →
      (∀ x ∈ pressure_cells st i j, 0 ≤ x.1 ∧ x.1 < C.m ∧ 0 ≤ x.2 ∧ x.2 < C.n) ∧
      (∀ x ∈ flux_targets C st i j, 0 ≤ x.1 ∧ x.1 < C.m ∧ 0 ≤ x.2 ∧ x.2 < C.n) := by
  have key : (0 ≤ st.i_min ∧ st.i_max ≤ C.m ∧ 0 ≤ st.j_min ∧ st.j_max ≤ C.n) ∧
      ((∀ i j, ¬ inDomain st i j) ∨
        (st.i_min + 2 ≤ st.i_max ∧ st.j_min + 2 ≤ st.j_max)) := by
    induction hrun with
    | init s h1 h2 h3 h4 =>
      refine ⟨by rw [h1, h2, h3, h4]; exact ⟨le_rfl, le_rfl, le_rfl, le_rfl⟩, Or.inr ?_⟩
      rw [h1, h2, h3, h4]
      constructor <;> omega
    | update f s _ ih => exact update_boundaries_wide C hm hn f s ih.1
    | same s s1 _ hd ih =>
      obtain ⟨d1, d2, d3, d4⟩ := hd
      unfold inDomain at *
      rw [d1, d2, d3, d4]
      exact ih
  exact ⟨key.1, key.2, fun i j hin => stencil_in_grid C st key.1 key.2 i j hin⟩

/-- Witness for C26: the Active Domain that `update_boundaries` computes
from state A, the initial state of a run with configuration A (Grid of 2 x 2
nodes). -/
theorem stencil_safety_witness :
    2 ≤ cfgA.m ∧ 2 ≤ cfgA.n ∧ RunDomain cfgA (update_boundaries cfgA stA.f_new stA).1 ∧
    ((0 ≤ (update_boundaries cfgA stA.f_new stA).1.i_min ∧
        (update_boundaries cfgA stA.f_new stA).1.i_max ≤ cfgA.m ∧
        0 ≤ (update_boundaries cfgA stA.f_new stA).1.j_min ∧
        (update_boundaries cfgA stA.f_new stA).1.j_max ≤ cfgA.n) ∧
    ((∀ i j, ¬ inDomain (update_boundaries cfgA stA.f_new stA).1 i j) ∨
      ((update_boundaries cfgA stA.f_new stA).1.i_min + 2
          ≤ (update_boundaries cfgA stA.f_new stA).1.i_max ∧
        (update_boundaries cfgA stA.f_new stA).1.j_min + 2
          ≤ (update_boundaries cfgA stA.f_new stA).1.j_max)) ∧
    ∀ i j, inDomain (update_boundaries cfgA stA.f_new stA).1 i j →
      (∀ x ∈ pressure_cells (update_boundaries cfgA stA.f_new stA).1 i j,
        0 ≤ x.1 ∧ x.1 < cfgA.m ∧ 0 ≤ x.2 ∧ x.2 < cfgA.n) ∧
      (∀ x ∈ flux_targets cfgA (update_boundaries cfgA stA.f_new stA).1 i j,
        0 ≤ x.1 ∧ x.1 < cfgA.m ∧ 0 ≤ x.2 ∧ x.2 < cfgA.n)) :=
  ⟨by decide, by decide, RunDomain.update _ _ (RunDomain.init stA rfl rfl rfl rfl),
    stencil_safety cfgA (by decide) (by decide) _
      (RunDomain.update _ _ (RunDomain.init stA rfl rfl rfl rfl))⟩

/-! Index range of the surface-elevation update (lines 539-546) -/

/-- The nodes visited by the loops of lines 541-542 are those with
`i_min <= i <= i_max` and `j_min <= j <= j_max`. -/
theorem mem_elevation_nodes (st : State α) (x : Int × Int) :
    x ∈ elevation_nodes st ↔
      st.i_min ≤ x.1 ∧ x.1 ≤ st.i_max ∧ st.j_min ≤ x.2 ∧ x.2 ≤ st.j_max := by
  unfold elevation_nodes
  simp only [List.mem_flatMap, List.mem_map, List.mem_range]
  constructor
  · rintro ⟨p, hp, q, hq, rfl⟩
    simp only
    omega
  · rintro ⟨h1, h2, h3, h4⟩
    refine ⟨(x.1 - st.i_min).toNat, by omega, (x.2 - st.j_min).toNat, by omega, ?_⟩
    apply Prod.ext
    · simp only
      rw [Int.toNat_of_nonneg (by omega)]
      omega
    · simp only
      rw [Int.toNat_of_nonneg (by omega)]
      omega

/-- The surface-elevation update writes `z` at every node of
`elevation_nodes`, from `z0`, `b`, `d` and `gz0` at that node, and leaves `z`
alone at every other index. -/
theorem elevation_visit (C : Config α) (st : State α) (i j : Int) :
    ((i, j) ∈ elevation_nodes st →
      (elevation C st).z i j = st.z0 i j + (st.b i j + st.d i j) * C.g / st.gz0 i j) ∧
    ((i, j) ∉ elevation_nodes st → (elevation C st).z i j = st.z i j) := by
  rw [mem_elevation_nodes]
  simp only
  constructor
  · rintro ⟨h1, h2, h3, h4⟩
    unfold elevation
    refine forRange2_visit
      (fun s : State α => { s with z := st.z } = st)
      (fun s : State α => { s with z := st.z } = st ∧
        s.z i j = st.z0 i j + (st.b i j + st.d i j) * C.g / st.gz0 i j)
      (fun p q (s2 : State α) =>
        { s2 with
          z := set2 s2.z p q (s2.z0 p q + (s2.b p q + s2.d p q) * C.g / s2.gz0 p q) })
      st.i_min (st.i_max + 1) st.j_min (st.j_max + 1) i j
      ⟨h1, by omega⟩ ⟨h3, by omega⟩ ?_ ?_ ?_ st rfl |>.2
    · intro p q s _ hs
      exact hs
    · intro s hs
      refine ⟨hs, ?_⟩
      have e1 : s.z0 = st.z0 := by have e := congrArg State.z0 hs; exact e
      have e2 : s.b = st.b := by have e := congrArg State.b hs; exact e
      have e3 : s.d = st.d := by have e := congrArg State.d hs; exact e
      have e4 : s.gz0 = st.gz0 := by have e := congrArg State.gz0 hs; exact e
      simp only [set2_same, e1, e2, e3, e4]
    · intro p q s hpq hs
      refine ⟨hs.1, ?_⟩
      have hij : ¬ (i = p ∧ j = q) := fun h => hpq ⟨h.1.symm, h.2.symm⟩
      simp only [set2_other _ _ _ _ _ _ hij]
      exact hs.2
  · intro hout
    unfold elevation
    refine forRange2_inv_mem (fun s : State α => s.z i j = st.z i j)
      (fun p q (s2 : State α) =>
        { s2 with
          z := set2 s2.z p q (s2.z0 p q + (s2.b p q + s2.d p q) * C.g / s2.gz0 p q) })
      st.i_min (st.i_max + 1) st.j_min (st.j_max + 1) st rfl ?_
    intro p q s hp1 hp2 hq1 hq2 hs
    have hij : ¬ (i = p ∧ j = q) := by
      rintro ⟨rfl, rfl⟩
      exact hout ⟨hp1, by omega, hq1, by omega⟩
    simp only [set2_other _ _ _ _ _ _ hij]
    exact hs

/-- Whenever the Active Domain reaches the last row of nodes (`i_max = m`, as
at the start of the run), the loops of lines 541-542 visit the index `i = m`,
which is not a node of the Grid. -/
theorem elevation_visits_row_m (C : Config α) (st : State α) (h1 : st.i_min ≤ st.i_max)
    (h2 : st.j_min ≤ st.j_max) (hm : st.i_max = C.m) :
    (C.m, st.j_min) ∈ elevation_nodes st ∧ ¬ inGrid C (C.m, st.j_min) := by
  constructor
  · rw [mem_elevation_nodes]
    simp only
    omega
  · unfold inGrid
    simp only
    omega

set_option maxRecDepth 1000000 in
/-- C27 (dynamic-surface index safety), evaluated in the first time step of
the run that starts in state D with the dynamic surface on.  After the
transport pass and the reversal check the Active Domain is still the initial
one, `[0,2) x [0,2)` with `i_max = m = 2`.  The loops of lines 541-542 run up
to `i = i_max` and `j = j_max` inclusive: the index pair `(2,0)` is visited,
`z[2][0]` is written (from `z0`, `b`, `d`, `gz0` at that index), and `(2,0)` is
not a node of the Grid of 2 x 2 nodes. -/
theorem elevation_leaves_grid :
    cfgD.dyn_surf = 1 ∧ cfgD.m = 2 ∧ MainInit cfgD stD ∧
    (pass_result cfgD 10 stD).map (fun s => (arrest cfgD s).i_min) = some 0 ∧
    (pass_result cfgD 10 stD).map (fun s => (arrest cfgD s).i_max) = some 2 ∧
    (pass_result cfgD 10 stD).map (fun s => (arrest cfgD s).j_min) = some 0 ∧
    (pass_result cfgD 10 stD).map (fun s => (arrest cfgD s).j_max) = some 2 ∧
    (pass_result cfgD 10 stD).map
      (fun s => decide ((2, 0) ∈ elevation_nodes (arrest cfgD s))) = some true ∧
    ¬ inGrid cfgD (2, 0) ∧
    (pass_result cfgD 10 stD).map (fun s => (arrest cfgD s).z 2 0) = some 0 ∧
    (pass_result cfgD 10 stD).map (fun s => (elevation cfgD (arrest cfgD s)).z 2 0)
      = some 1 := by
  refine ⟨rfl, rfl, ⟨rfl, rfl, rfl, rfl, rfl, rfl, rfl, rfl⟩, ?_, ?_, ?_, ?_, ?_, ?_, ?_, ?_⟩
  · decide!
  · decide!
  · decide!
  · decide!
  · decide!
  · unfold inGrid
    decide
  · decide!
  · decide!

/-! Metric quantities written by `update_surface` (lines 1544-1559) -/

/-- The algebra behind the metric: with non-negative `A`, `B`, `W` such that
`A^2 = 1 + a^2`, `B^2 = 1 + b^2`, `W^2 = 1 + a^2 + b^2`, the three roots are at
least 1 and `|a*b/(A*B)| < 1`. -/
theorem metric_algebra (a b A B W : α) (hA : A * A = 1 + a * a) (hB : B * B = 1 + b * b)
    (hW : W * W = 1 + a * a + b * b) (hA0 : 0 ≤ A) (hB0 : 0 ≤ B) (hW0 : 0 ≤ W) :
    1 ≤ A ∧ 1 ≤ B ∧ 1 ≤ W ∧ |a * b / (A * B)| < 1 := by
  have h1 : 1 ≤ A := by
    by_contra h
    have hlt : A < 1 := not_le.mp h
    nlinarith [mul_self_nonneg a]
  have h2 : 1 ≤ B := by
    by_contra h
    have hlt : B < 1 := not_le.mp h
    nlinarith [mul_self_nonneg b]
  have h3 : 1 ≤ W := by
    by_contra h
    have hlt : W < 1 := not_le.mp h
    nlinarith [mul_self_nonneg a, mul_self_nonneg b]
  refine ⟨h1, h2, h3, ?_⟩
  have hAB : 0 < A * B := by nlinarith
  rw [abs_div, abs_of_pos hAB, div_lt_one hAB]
  have hsq : (a * b) * (a * b) < (A * B) * (A * B) := by
    have e : (A * B) * (A * B) = (A * A) * (B * B) := by ring
    rw [e, hA, hB]
    nlinarith [mul_self_nonneg a, mul_self_nonneg b]
  have := abs_lt_iff_mul_self_lt.mpr hsq
  rwa [abs_of_pos hAB] at this

/-- With `|G| < 1` the form `u^2 + v^2 + 2*G*u*v` is non-negative, and it
vanishes only for `u = v = 0`. -/
theorem speed_form_definite (G u v : α) (hG : |G| < 1) :
    0 ≤ SQ u + SQ v + 2 * G * u * v ∧ (SQ u + SQ v + 2 * G * u * v = 0 → u = 0 ∧ v = 0) := by
  obtain ⟨g1, g2⟩ := abs_lt.mp hG
  have hpos : 0 < 1 - G * G := by nlinarith
  have e : SQ u + SQ v + 2 * G * u * v = (u + G * v) * (u + G * v) + (1 - G * G) * (v * v) := by
    unfold SQ; ring
  rw [e]
  have n1 : 0 ≤ (u + G * v) * (u + G * v) := mul_self_nonneg _
  have n2 : 0 ≤ (1 - G * G) * (v * v) := mul_nonneg (le_of_lt hpos) (mul_self_nonneg v)
  refine ⟨add_nonneg n1 n2, fun h0 => ?_⟩
  have z2 : (1 - G * G) * (v * v) = 0 := by linarith
  have z1 : (u + G * v) * (u + G * v) = 0 := by linarith
  have hv : v = 0 := by
    rcases mul_eq_zero.mp z2 with h | h
    · exact absurd h (ne_of_gt hpos)
    · exact mul_self_eq_zero.mp h
  have hu : u + G * v = 0 := mul_self_eq_zero.mp z1
  rw [hv, mul_zero, add_zero] at hu
  exact ⟨hu, hv⟩

/-- C29 (metric validity).  Let the cell size be positive and let the square
root be non-negative and exact at the three arguments that `update_surface(Z)`
uses at node `(i,j)` of the Grid (as the real square root is at every node of
every elevation grid).  Then the fields written by `update_surface` satisfy
`|G_xy| < 1`, `dx >= cellsize`, `dy >= cellsize` and
`dA >= cellsize^2 > 0`; hence the squared-speed form
`u^2 + v^2 + 2*G_xy*u*v` of `primivar` is non-negative for all `u`, `v` and
vanishes only for `u = v = 0`. -/
theorem metric_validity (C : Config α) (Z : Grid α) (st : State α) (i j : Int)
    (hi : 0 ≤ i ∧ i < C.m) (hj : 0 ≤ j ∧ j < C.n) (hcs : 0 < C.cellsize)
    (hsq : ∀ x, 0 ≤ C.sqrt x) (hroots : ExactRoots C Z i j) :
    |(update_surface C Z st).G_xy i j| < 1 ∧
    C.cellsize ≤ (update_surface C Z st).dx i j ∧
    C.cellsize ≤ (update_surface C Z st).dy i j ∧
    SQ C.cellsize ≤ (update_surface C Z st).dA i j ∧ 0 < SQ C.cellsize ∧
    ∀ u v : α,
      0 ≤ SQ u + SQ v + 2 * (update_surface C Z st).G_xy i j * u * v ∧
      (SQ u + SQ v + 2 * (update_surface C Z st).G_xy i j * u * v = 0 → u = 0 ∧ v = 0) := by
  obtain ⟨_, _, _, _, e5, e6, e7, e8⟩ := update_surface_visit C Z st i j hi hj
  obtain ⟨hA, hB, hW⟩ := hroots
  unfold SQ at hA hB hW
  obtain ⟨a1, a2, a3, a4⟩ := metric_algebra (dZdX C Z i j) (dZdY C Z i j) _ _ _ hA hB hW
    (hsq _) (hsq _) (hsq _)
  have hG : |(update_surface C Z st).G_xy i j| < 1 := by
    rw [e5]
    simp only [surface_cell, set2_same, SQ]
    exact a4
  have hc2 : 0 < SQ C.cellsize := by unfold SQ; exact mul_pos hcs hcs
  refine ⟨hG, ?_, ?_, ?_, hc2, fun u v => speed_form_definite _ u v hG⟩
  · rw [e7]
    simp only [surface_cell, set2_same, SQ]
    exact le_mul_of_one_le_right (le_of_lt hcs) a1
  · rw [e8]
    simp only [surface_cell, set2_same, SQ]
    exact le_mul_of_one_le_right (le_of_lt hcs) a2
  · rw [e6]
    simp only [surface_cell, set2_same, SQ]
    exact le_mul_of_one_le_right (le_of_lt (mul_pos hcs hcs)) a3

/-- Over the reals, with the real square root, the metric is valid at every
node of every elevation grid with positive cell size. -/
theorem metric_validity_real (C : Config ℝ) (hs : C.sqrt = Real.sqrt) (Z : Grid ℝ)
    (st : State ℝ) (i j : Int) (hi : 0 ≤ i ∧ i < C.m) (hj : 0 ≤ j ∧ j < C.n)
    (hcs : 0 < C.cellsize) :
    |(update_surface C Z st).G_xy i j| < 1 ∧
    C.cellsize ≤ (update_surface C Z st).dx i j ∧
    C.cellsize ≤ (update_surface C Z st).dy i j ∧
    SQ C.cellsize ≤ (update_surface C Z st).dA i j ∧ 0 < SQ C.cellsize := by
  obtain ⟨_, _, _, _, e5, e6, e7, e8⟩ := update_surface_visit C Z st i j hi hj
  obtain ⟨hA, hB, hW⟩ := exactRoots_real C hs Z i j
  unfold SQ at hA hB hW
  have hsq : ∀ x, 0 ≤ C.sqrt x := by
    intro x
    rw [hs]
    exact Real.sqrt_nonneg x
  obtain ⟨a1, a2, a3, a4⟩ := metric_algebra (dZdX C Z i j) (dZdY C Z i j) _ _ _ hA hB hW
    (hsq _) (hsq _) (hsq _)
  have hc2 : 0 < SQ C.cellsize := by unfold SQ; exact mul_pos hcs hcs
  refine ⟨?_, ?_, ?_, ?_, hc2⟩
  · rw [e5]
    simp only [surface_cell, set2_same, SQ]
    exact a4
  · rw [e7]
    simp only [surface_cell, set2_same, SQ]
    exact le_mul_of_one_le_right (le_of_lt hcs) a1
  · rw [e8]
    simp only [surface_cell, set2_same, SQ]
    exact le_mul_of_one_le_right (le_of_lt hcs) a2
  · rw [e6]
    simp only [surface_cell, set2_same, SQ]
    exact le_mul_of_one_le_right (le_of_lt (mul_pos hcs hcs)) a3

theorem sqrtInc_nonneg (x : ℚ) : 0 ≤ sqrtInc x := by
  unfold sqrtInc sqrtTab
  split_ifs <;> norm_num

/-- Witness for C29: node `(0,0)` of the inclined plane of configuration S. -/
theorem metric_validity_witness :
    0 < cfgS.cellsize ∧ (∀ x, 0 ≤ cfgS.sqrt x) ∧ ExactRoots cfgS planeZ 0 0 ∧
    (|(update_surface cfgS planeZ stS0).G_xy 0 0| < 1 ∧
    cfgS.cellsize ≤ (update_surface cfgS planeZ stS0).dx 0 0 ∧
    cfgS.cellsize ≤ (update_surface cfgS planeZ stS0).dy 0 0 ∧
    SQ cfgS.cellsize ≤ (update_surface cfgS planeZ stS0).dA 0 0 ∧ 0 < SQ cfgS.cellsize ∧
    ∀ u v : ℚ,
      0 ≤ SQ u + SQ v + 2 * (update_surface cfgS planeZ stS0).G_xy 0 0 * u * v ∧
      (SQ u + SQ v + 2 * (update_surface cfgS planeZ stS0).G_xy 0 0 * u * v = 0 →
        u = 0 ∧ v = 0)) :=
  ⟨by decide!, sqrtInc_nonneg, planeZ_roots,
    metric_validity cfgS planeZ stS0 0 0 (by decide) (by decide) (by decide!)
      sqrtInc_nonneg planeZ_roots⟩

/-! Curvature correction of the bed-normal gravity (lines 339-355) -/

/-- The bed-normal gravity `gz0` written by `update_surface` is non-negative
when `g >= 0` (line 1303) and the square root is non-negative. -/
theorem update_surface_gz0_nonneg (C : Config α) (Z : Grid α) (st : State α) (i j : Int)
    (hi : 0 ≤ i ∧ i < C.m) (hj : 0 ≤ j ∧ j < C.n) (hg : 0 ≤ C.g) (hsq : ∀ x, 0 ≤ C.sqrt x) :
    0 ≤ (update_surface C Z st).gz0 i j := by
  obtain ⟨_, _, e3, _⟩ := update_surface_visit C Z st i j hi hj
  rw [e3]
  simp only [surface_cell, set2_same]
  exact div_nonneg hg (hsq _)

set_option maxRecDepth 1000000 in
/-- In state C the bed-normal gravity of cell `(1,0)` with curvature is
`gz0 + IIxx = 101/10`, for the velocity `u = 3` as for `u = 6`. -/
theorem stC_gz_values :
    (step_head cfgC stC).gz 1 0 = 101 / 10 ∧ (step_head cfgC stC2).gz 1 0 = 101 / 10 := by
  constructor <;> decide!

/-- The erosion switch never gives a negative mass source in a cell with
`dA > 0`, `h, gz, speed, mu, k >= 0` and `tau_c > 0`, when `k_erod >= 0`
(lines 1163-1168), `sigma = 1/sqrt(rrb - 1)` (line 1301) and the square root
is non-negative. -/
theorem erosion_source_nonneg (C : Config α) (hsq : ∀ x, 0 ≤ C.sqrt x)
    (hsig : C.sigma = 1 / C.sqrt (C.rrb - 1)) (hk : 0 ≤ C.k_erod)
    (st : State α) (i j : Int) (t : α) (r : α × α)
    (he : erosion_source C st i j t = some r)
    (hdA : 0 < st.dA i j) (hh : 0 ≤ st.h i j) (hgz : 0 ≤ st.gz i j) (hs : 0 ≤ st.s i j)
    (hmu : 0 ≤ st.mu i j) (hkk : 0 ≤ st.k i j) (htc : 0 < st.tau_c i j) :
    0 ≤ r.1 := by
  have hsig0 : 0 ≤ C.sigma := by
    rw [hsig]
    exact div_nonneg zero_le_one (hsq _)
  have hmax : ∀ x : α, 0 ≤ MAX 0 x := by
    intro x
    rw [MAX_eq_max]
    exact le_max_left _ _
  unfold erosion_source at he
  simp only at he
  by_cases e0 : C.eromod = 0
  · rw [if_pos e0] at he
    simp only [Option.some.injEq] at he
    subst he
    exact le_refl _
  rw [if_neg e0] at he
  by_cases e1 : C.eromod = 1
  · rw [if_pos e1] at he
    split_ifs at he
    · simp only [Option.some.injEq] at he
      subst he
      exact mul_nonneg (mul_nonneg hk hs) (le_of_lt hdA)
    · simp only [Option.some.injEq] at he
      subst he
      exact le_refl _
  rw [if_neg e1] at he
  by_cases e2 : C.eromod = 2
  · rw [if_pos e2] at he
    split_ifs at he
    all_goals
      simp only [Option.some.injEq] at he
      subst he
      first
      | exact div_nonneg (mul_nonneg (hmax _) (le_of_lt hdA)) hs
      | exact le_refl _
  rw [if_neg e2] at he
  by_cases e3 : C.eromod = 3
  · rw [if_pos e3] at he
    split_ifs at he
    · simp only [Option.some.injEq] at he
      subst he
      apply mul_nonneg
      · exact div_nonneg (mul_nonneg hs (le_of_lt hdA)) (le_of_lt htc)
      · exact add_nonneg (mul_nonneg (mul_nonneg hmu hgz) hh)
          (mul_nonneg hkk (mul_self_nonneg _))
    · simp only [Option.some.injEq] at he
      subst he
      exact le_refl _
  rw [if_neg e3] at he
  by_cases e4 : C.eromod = 4
  · rw [if_pos e4] at he
    simp only [Option.some.injEq] at he
    subst he
    exact mul_nonneg (mul_nonneg (mul_nonneg hsig0 (hsq _)) (le_of_lt hdA))
      (div_nonneg zero_le_one (hsq _))
  · rw [if_neg e4] at he
    simp at he

/-- The snapshot of lines 333-355 keeps the bed-normal gravity of the active
cells non-negative. -/
theorem step_head_gz_nonneg (C : Config α) (st : State α)
    (hgz : ∀ p q, inDomain st p q → 0 ≤ st.gz p q) (i j : Int) (hin : inDomain st i j) :
    0 ≤ (step_head C st).gz i j := by
  show 0 ≤ (snapshot C st).gz i j
  unfold snapshot
  split_ifs with hc
  · refine forRange2_inv (fun s : State α => ∀ p q, inDomain st p q → 0 ≤ s.gz p q)
      (fun p q s => snapshot_cell C p q s) st.i_min st.i_max st.j_min st.j_max st hgz ?_
      i j hin
    intro p q s hs a b hab
    unfold snapshot_cell
    split_ifs
    · exact hs a b hab
    · show 0 ≤ set2 s.gz p q _ a b
      unfold set2
      split_ifs
      · rw [MAX_eq_max]
        exact le_max_left _ _
      · exact hs a b hab
  · exact hgz i j hin

/-- An accepted time step has passed the test of line 357. -/
theorem time_step_dt_min (C : Config α) (pf : Nat) (st s1 : State α)
    (h : time_step C pf st = Outcome.next s1) : C.dt_min ≤ (step_head C st).dt := by
  unfold time_step at h
  split_ifs at h with hd
  exact not_lt.mp hd

/-- The reservoir update of lines 398-413 at a cell whose mass source and bed
depth are non-negative: the deposition branch is not entered, the deposit
depth `d` stays as it is, and mass source and bed depth stay non-negative. -/
theorem limit_source_keeps_d (C : Config α) (i j : Int) (s : State α) (hr : 0 ≤ C.rrb)
    (hdt : 0 ≤ s.dt) (hdA : 0 ≤ s.dA i j) (hsrc : 0 ≤ s.src i j 0) (hb : 0 ≤ s.b i j) :
    ¬ (C.dep > 0 ∧ s.src i j 0 < 0) ∧
    (limit_source C i j s).d = s.d ∧
    0 ≤ (limit_source C i j s).src i j 0 ∧ 0 ≤ (limit_source C i j s).b i j ∧
    (∀ p q, ¬ (p = i ∧ q = j) →
      (limit_source C i j s).src p q 0 = s.src p q 0 ∧ (limit_source C i j s).b p q = s.b p q) := by
  have hnd : ¬ (C.dep > 0 ∧ s.src i j 0 < 0) := fun h => absurd h.2 (not_lt.mpr hsrc)
  refine ⟨hnd, ?_⟩
  unfold limit_source
  by_cases h1 : C.eromod > 0 ∧ s.src i j 0 > 0
  · rw [if_pos h1]
    refine ⟨rfl, ?_, ?_, ?_⟩
    · simp only [set3, and_self, if_true]
      rw [MIN_eq_min]
      exact le_min hsrc (div_nonneg (mul_nonneg hb hdA) (mul_nonneg hr hdt))
    · simp only [set2_same]
      rw [MAX_eq_max]
      exact le_max_left _ _
    · intro p q hpq
      exact ⟨set3_other _ _ _ _ _ _ _ _ hpq, set2_other _ _ _ _ _ _ hpq⟩
  · rw [if_neg h1, if_neg hnd]
    refine ⟨rfl, ?_, hb, ?_⟩
    · simp only [set3, and_self, if_true]
      exact le_refl _
    · intro p q hpq
      exact ⟨set3_other _ _ _ _ _ _ _ _ hpq, rfl⟩

/-- The transport pass, retries included, leaves the deposit depth `d` as it
is when it starts from non-negative mass sources and bed depths on the Active
Domain. -/
theorem pass_keeps_d (C : Config α) (hr : 0 ≤ C.rrb) (pf : Nat) (st3 st4 : State α)
    (hdt : 0 ≤ st3.dt) (hdA : ∀ p q, inDomain st3 p q → 0 ≤ st3.dA p q)
    (hsrc : ∀ p q, inDomain st3 p q → 0 ≤ st3.src p q 0)
    (hb : ∀ p q, inDomain st3 p q → 0 ≤ st3.b p q)
    (h : iloop C pf st3.i_min st3 = some st4) : st4.d = st3.d := by
  have key := iloop_inv C
    (fun s : State α => s.i_min = st3.i_min ∧ s.i_max = st3.i_max ∧ s.j_min = st3.j_min ∧
      s.j_max = st3.j_max ∧ s.dA = st3.dA ∧ s.d = st3.d ∧ 0 ≤ s.dt ∧
      ∀ p q, inDomain st3 p q → 0 ≤ s.src p q 0 ∧ 0 ≤ s.b p q)
    ?_ ?_ ?_ pf st3.i_min st3 st4 le_rfl
    ⟨rfl, rfl, rfl, rfl, rfl, rfl, hdt, fun p q hpq => ⟨hsrc p q hpq, hb p q hpq⟩⟩ h
  · exact key.2.2.2.2.2.1
  · intro i s hi1 hi2 hP
    obtain ⟨a1, a2, a3, a4, a5, a6, a7, a8⟩ := hP
    unfold row_pass
    refine jloop_inv C i
      (fun s : State α => s.i_min = st3.i_min ∧ s.i_max = st3.i_max ∧ s.j_min = st3.j_min ∧
        s.j_max = st3.j_max ∧ s.dA = st3.dA ∧ s.d = st3.d ∧ 0 ≤ s.dt ∧
        ∀ p q, inDomain st3 p q → 0 ≤ s.src p q 0 ∧ 0 ≤ s.b p q)
      (fun x hx => hx) _ s.j_min s ?_ ?_ ⟨a1, a2, a3, a4, a5, a6, a7, a8⟩
    · intro q x hq1 hq2 hx
      obtain ⟨b1, b2, b3, b4, b5, b6, b7, b8⟩ := hx
      have hin : inDomain st3 i q := by
        unfold inDomain
        rw [← a1, ← a2, ← a3, ← a4]
        refine ⟨hi1, hi2, hq1, ?_⟩
        omega
      obtain ⟨c0, c1, c2, c3, c4⟩ := limit_source_keeps_d C i q x hr b7
        (by rw [b5]; exact hdA i q hin) (b8 i q hin).1 (b8 i q hin).2
      have e1 : (cell_flux C i q x).d = (limit_source C i q x).d := rfl
      have e2 : (cell_flux C i q x).src = (limit_source C i q x).src := rfl
      have e3 : (cell_flux C i q x).b = (limit_source C i q x).b := rfl
      refine ⟨?_, ?_, ?_, ?_, ?_, ?_, ?_, ?_⟩
      · exact (cell_flux_frame C i q x).i_min_eq.trans b1
      · exact (cell_flux_frame C i q x).i_max_eq.trans b2
      · exact (cell_flux_frame C i q x).j_min_eq.trans b3
      · exact (cell_flux_frame C i q x).j_max_eq.trans b4
      · have := (PassFrame.toLoop (cell_flux_frame C i q x)).more.2.1
        exact this.trans b5
      · rw [e1, c1]
        exact b6
      · rw [(cell_flux_frame C i q x).dt_eq]
        exact b7
      · intro a b hab
        rw [e2, e3]
        by_cases hpq : a = i ∧ b = q
        · obtain ⟨rfl, rfl⟩ := hpq
          exact ⟨c2, c3⟩
        · rw [(c4 a b hpq).1, (c4 a b hpq).2]
          exact b8 a b hab
    · intro q x _ _ hx
      unfold cell_momentum
      split_ifs <;> exact hx
  · intro s hP
    obtain ⟨a1, a2, a3, a4, a5, a6, a7, a8⟩ := hP
    refine ⟨a1, a2, a3, a4, a5, a6, ?_, a8⟩
    show 0 ≤ s.dt * (4 / 5)
    exact mul_nonneg a7 (by norm_num)
  · intro s hP
    exact hP

/-- The reversal check leaves the deposit depth of the cells outside the
Active Domain as it is. -/
theorem arrest_outside (C : Config α) (st : State α) (i j : Int) (hout : ¬ inDomain st i j) :
    (arrest C st).d i j = st.d i j := by
  unfold arrest
  refine forRange2_inv_mem (fun s : State α => s.d i j = st.d i j)
    (fun p q s => arrest_cell C p q s) st.i_min st.i_max st.j_min st.j_max st rfl ?_
  intro p q s hp1 hp2 hq1 hq2 hs
  have hij : ¬ (i = p ∧ j = q) := by
    rintro ⟨rfl, rfl⟩
    exact hout ⟨hp1, hp2, hq1, hq2⟩
  exact ((arrest_cell_other C p q s i j hij).2).trans hs

/-- C28 (the mass source is never negative).  Let `k_erod >= 0`,
`sigma = 1/sqrt(rrb - 1)`, `rrb > 0` and `dt_min > 0` as configuration reading
leaves them, let the square root be non-negative, and let every cell of the
Active Domain have `dA > 0`, `h, gz, speed, mu, k, b >= 0` and `tau_c > 0`.  In
every accepted time step, whatever the erosion variant, `source_terms` sets a
mass source `src[i][j][0] >= 0` in every cell of the Active Domain; the
transport pass, retries included, never enters the deposition branch and leaves
the deposit depth `d` as it is; after the step `d` is what the reversal check
has made of it, and it differs from its value before the step only in a cell
of the Active Domain that the reversal check has arrested with deposition
on. -/
theorem mass_source_never_negative (C : Config α) (hsq : ∀ x, 0 ≤ C.sqrt x)
    (hsig : C.sigma = 1 / C.sqrt (C.rrb - 1)) (hk : 0 ≤ C.k_erod) (hr : 0 < C.rrb)
    (hmin : 0 < C.dt_min) (pf : Nat) (st s1 : State α)
    (hcell : ∀ p q, inDomain st p q → 0 < st.dA p q ∧ 0 ≤ st.h p q ∧ 0 ≤ st.gz p q ∧
      0 ≤ st.s p q ∧ 0 ≤ st.mu p q ∧ 0 ≤ st.k p q ∧ 0 < st.tau_c p q ∧ 0 ≤ st.b p q)
    (hstep : time_step C pf st = Outcome.next s1) :
    ∃ st3 st4, pass_start C st = some st3 ∧ iloop C pf st3.i_min st3 = some st4 ∧
      (∀ p q, inDomain st p q → 0 ≤ st3.src p q 0) ∧
      st3.d = st.d ∧ st4.d = st.d ∧ s1.d = (arrest C st4).d ∧
      (∀ p q, ¬ (inDomain st p q ∧ reversal_uphill st4 p q ∧ C.dep = 1) →
        s1.d p q = st.d p q) := by
  obtain ⟨st3, st4, hs, hi, hp, hf, ht, hdom, hl⟩ := time_step_pass C pf st s1 hstep
  have hH := step_head_headFrame C st
  obtain ⟨_, _, _, e_s, e_h, e_mu, _, _, e_dA, _⟩ := hH.hfields
  have hH1 := hH
  unfold HeadFrame at hH1
  have e_k : (step_head C st).k = st.k := by have e := congrArg State.k hH1; exact e
  have e_tc : (step_head C st).tau_c = st.tau_c := by
    have e := congrArg State.tau_c hH1; exact e
  have e_b : (step_head C st).b = st.b := by have e := congrArg State.b hH1; exact e
  have e_d : (step_head C st).d = st.d := by have e := congrArg State.d hH1; exact e
  obtain ⟨_, _, _, _, hd0, _⟩ := step_head_frame C st
  have hS := source_terms_srcFrame C _ _ hs
  obtain ⟨_, _, _, _, _, _, _, _, _, f_dA, _, f_dt, _⟩ := hS.sfields
  obtain ⟨_, _, _, f_b, _, _, _, _, f_d⟩ := hS.reads
  have hin0 : ∀ p q, inDomain st p q → inDomain (step_head C st) p q := by
    intro p q hpq
    unfold inDomain at *
    rw [hd0.1, hd0.2.1, hd0.2.2.1, hd0.2.2.2]
    exact hpq
  have hin3 : ∀ p q, inDomain st3 p q → inDomain st p q := by
    intro p q hpq
    unfold inDomain at *
    rw [hdom.1, hdom.2.1, hdom.2.2.1, hdom.2.2.2] at hpq
    exact hpq
  have hin4 : ∀ p q, inDomain st4 p q → inDomain st p q := by
    intro p q hpq
    apply hin3
    unfold inDomain at *
    rw [hl.l_i_min_eq, hl.l_i_max_eq, hl.l_j_min_eq, hl.l_j_max_eq] at hpq
    exact hpq
  have hsrc : ∀ p q, inDomain st p q → 0 ≤ st3.src p q 0 := by
    intro p q hpq
    obtain ⟨c1, c2, c3, c4, c5, c6, c7, c8⟩ := hcell p q hpq
    obtain ⟨t, r, _, h2, h3, _⟩ := source_terms_visit C _ st3 hs p q (hin0 p q hpq)
    rw [h3]
    refine erosion_source_nonneg C hsq hsig hk (step_head C st) p q t r h2 ?_ ?_ ?_ ?_ ?_ ?_ ?_
    · rw [e_dA]; exact c1
    · rw [e_h]; exact c2
    · exact step_head_gz_nonneg C st (fun a b hab => (hcell a b hab).2.2.1) p q hpq
    · rw [e_s]; exact c4
    · rw [e_mu]; exact c5
    · rw [e_k]; exact c6
    · rw [e_tc]; exact c7
  have hd3 : st3.d = st.d := f_d.trans e_d
  have hdt3 : 0 ≤ st3.dt := by
    rw [f_dt]
    exact le_trans (le_of_lt hmin) (time_step_dt_min C pf st s1 hstep)
  have hd4 : st4.d = st3.d := by
    refine pass_keeps_d C (le_of_lt hr) pf st3 st4 hdt3 ?_ ?_ ?_ hi
    · intro p q hpq
      rw [f_dA, e_dA]
      exact le_of_lt (hcell p q (hin3 p q hpq)).1
    · intro p q hpq
      exact hsrc p q (hin3 p q hpq)
    · intro p q hpq
      rw [f_b, e_b]
      exact (hcell p q (hin3 p q hpq)).2.2.2.2.2.2.2
  obtain ⟨_, k2, _⟩ := step_tail_reservoirs C st4 s1 (Or.inl ht)
  refine ⟨st3, st4, hs, hi, hsrc, hd3, hd4.trans hd3, k2, ?_⟩
  intro p q hnot
  rw [k2]
  by_cases hin : inDomain st4 p q
  · obtain ⟨_, v2⟩ := arrest_visit C st4 p q hin
    obtain ⟨a1, a2⟩ := arrest_cell_at C st4 p q
    rw [v2]
    by_cases hrev : reversal_uphill st4 p q
    · have hdep : C.dep ≠ 1 := fun hdep => hnot ⟨hin4 p q hin, hrev, hdep⟩
      rw [((a1 hrev).2.2.2 hdep).2, hd4, hd3]
    · rw [(a2 hrev).2, hd4, hd3]
  · rw [arrest_outside C st4 p q hin, hd4, hd3]

theorem sqrtTab_nonneg (x : ℚ) : 0 ≤ sqrtTab x := by
  unfold sqrtTab
  split_ifs <;> norm_num

set_option maxRecDepth 1000000 in
theorem stJ_cells : ∀ p q : Int, inDomain stJ p q →
    0 < stJ.dA p q ∧ 0 ≤ stJ.h p q ∧ 0 ≤ stJ.gz p q ∧ 0 ≤ stJ.s p q ∧ 0 ≤ stJ.mu p q ∧
    0 ≤ stJ.k p q ∧ 0 < stJ.tau_c p q ∧ 0 ≤ stJ.b p q := by
  intro p q hpq
  obtain ⟨h1, h2, h3, h4⟩ := hpq
  have h1a : (0 : Int) ≤ p := h1
  have h2a : p < 2 := h2
  have h3a : (0 : Int) ≤ q := h3
  have h4a : q < 2 := h4
  interval_cases p <;> interval_cases q <;> decide!

set_option maxRecDepth 1000000 in
theorem stJ_step_isSome : (time_step cfgJ 10 stJ).accepted.isSome = true := by decide!

/-- Witness for C28: the time step from state J with the erosion model
TJEM. -/
theorem mass_source_never_negative_witness :
    (∀ x, 0 ≤ cfgJ.sqrt x) ∧ cfgJ.sigma = 1 / cfgJ.sqrt (cfgJ.rrb - 1) ∧ 0 ≤ cfgJ.k_erod ∧
    0 < cfgJ.rrb ∧ 0 < cfgJ.dt_min ∧
    (∀ p q, inDomain stJ p q → 0 < stJ.dA p q ∧ 0 ≤ stJ.h p q ∧ 0 ≤ stJ.gz p q ∧
      0 ≤ stJ.s p q ∧ 0 ≤ stJ.mu p q ∧ 0 ≤ stJ.k p q ∧ 0 < stJ.tau_c p q ∧ 0 ≤ stJ.b p q) ∧
    ∃ st3 st4, pass_start cfgJ stJ = some st3 ∧ iloop cfgJ 10 st3.i_min st3 = some st4 ∧
      (∀ p q, inDomain stJ p q → 0 ≤ st3.src p q 0) ∧
      st3.d = stJ.d ∧ st4.d = stJ.d ∧
      ((time_step cfgJ 10 stJ).accepted.get stJ_step_isSome).d = (arrest cfgJ st4).d ∧
      (∀ p q, ¬ (inDomain stJ p q ∧ reversal_uphill st4 p q ∧ cfgJ.dep = 1) →
        ((time_step cfgJ 10 stJ).accepted.get stJ_step_isSome).d p q = stJ.d p q) :=
  ⟨sqrtTab_nonneg, by decide!, by decide!, by decide!, by decide!, stJ_cells,
    mass_source_never_negative cfgJ sqrtTab_nonneg (by decide!) (by decide!) (by decide!)
      (by decide!) 10 stJ _ stJ_cells
      (accepted_eq_next _ _ (Option.some_get stJ_step_isSome).symm)⟩

/-! Tracking coverage in a run (lines 306-308, 323-559, 853-895) -/

theorem OutsideKept.okrefl (st : State α) : OutsideKept st st :=
  ⟨⟨rfl, rfl, rfl, rfl⟩, rfl, rfl, rfl, rfl, fun _ _ _ => ⟨rfl, rfl, rfl, rfl⟩⟩

theorem OutsideKept.oktrans {a b c : State α} (h1 : OutsideKept a b) (h2 : OutsideKept b c) :
    OutsideKept a c := by
  obtain ⟨d1, a1, a2, a3, a4, a5⟩ := h1
  obtain ⟨d2, b1, b2, b3, b4, b5⟩ := h2
  refine ⟨d1.dtrans d2, b1.trans a1, b2.trans a2, b3.trans a3, b4.trans a4, ?_⟩
  intro i j hout
  have hout2 : ¬ inDomain b i j := by
    unfold inDomain at hout ⊢
    rw [d1.1, d1.2.1, d1.2.2.1, d1.2.2.2]
    exact hout
  obtain ⟨x1, x2, x3, x4⟩ := a5 i j hout
  obtain ⟨y1, y2, y3, y4⟩ := b5 i j hout2
  exact ⟨y1.trans x1, y2.trans x2, y3.trans x3, y4.trans x4⟩

/-- Lines 333-357 keep the Active Domain, the tracking fields and `h`, `s`,
`b`, `d`. -/
theorem step_head_kept (C : Config α) (st : State α) : OutsideKept st (step_head C st) := by
  have h := step_head_headFrame C st
  unfold HeadFrame at h
  refine ⟨⟨?_, ?_, ?_, ?_⟩, ?_, ?_, ?_, ?_, ?_⟩
  · have e := congrArg State.i_min h; exact e
  · have e := congrArg State.i_max h; exact e
  · have e := congrArg State.j_min h; exact e
  · have e := congrArg State.j_max h; exact e
  · have e := congrArg State.h_max h; exact e
  · have e := congrArg State.s_max h; exact e
  · have e := congrArg State.b_min h; exact e
  · have e := congrArg State.d_max h; exact e
  · intro i j _
    refine ⟨?_, ?_, ?_, ?_⟩
    · have e := congrArg State.h h; exact congrFun (congrFun e i) j
    · have e := congrArg State.s h; exact congrFun (congrFun e i) j
    · have e := congrArg State.b h; exact congrFun (congrFun e i) j
    · have e := congrArg State.d h; exact congrFun (congrFun e i) j

/-- Function `source_terms` keeps the Active Domain, the tracking fields and
`h`, `s`, `b`, `d`. -/
theorem source_terms_kept (C : Config α) (st st1 : State α)
    (hs : source_terms C st = some st1) : OutsideKept st st1 := by
  have h := source_terms_srcFrame C st st1 hs
  unfold SrcFrame at h
  refine ⟨⟨?_, ?_, ?_, ?_⟩, ?_, ?_, ?_, ?_, ?_⟩
  · have e := congrArg State.i_min h; exact e
  · have e := congrArg State.i_max h; exact e
  · have e := congrArg State.j_min h; exact e
  · have e := congrArg State.j_max h; exact e
  · have e := congrArg State.h_max h; exact e
  · have e := congrArg State.s_max h; exact e
  · have e := congrArg State.b_min h; exact e
  · have e := congrArg State.d_max h; exact e
  · intro i j _
    refine ⟨?_, ?_, ?_, ?_⟩
    · have e := congrArg State.h h; exact congrFun (congrFun e i) j
    · have e := congrArg State.s h; exact congrFun (congrFun e i) j
    · have e := congrArg State.b h; exact congrFun (congrFun e i) j
    · have e := congrArg State.d h; exact congrFun (congrFun e i) j

/-- Lines 398-413 write the reservoirs `b` and `d` of the visited cell
only. -/
theorem limit_source_reservoirs (C : Config α) (p q : Int) (st : State α) (i j : Int)
    (hij : ¬ (i = p ∧ j = q)) :
    (limit_source C p q st).b i j = st.b i j ∧ (limit_source C p q st).d i j = st.d i j := by
  unfold limit_source
  split_ifs
  · exact ⟨set2_other _ _ _ _ _ _ hij, rfl⟩
  · exact ⟨rfl, set2_other _ _ _ _ _ _ hij⟩
  · exact ⟨rfl, rfl⟩

/-- The transport pass, retries included, writes the reservoirs `b` and `d`
only in cells of the Active Domain. -/
theorem pass_reservoirs_outside (C : Config α) (pf : Nat) (st3 st4 : State α)
    (h : iloop C pf st3.i_min st3 = some st4) (i j : Int) (hout : ¬ inDomain st3 i j) :
    st4.b i j = st3.b i j ∧ st4.d i j = st3.d i j := by
  have key := iloop_inv C
    (fun s : State α => s.i_min = st3.i_min ∧ s.i_max = st3.i_max ∧ s.j_min = st3.j_min ∧
      s.j_max = st3.j_max ∧ s.b i j = st3.b i j ∧ s.d i j = st3.d i j)
    ?_ ?_ ?_ pf st3.i_min st3 st4 le_rfl ⟨rfl, rfl, rfl, rfl, rfl, rfl⟩ h
  · exact ⟨key.2.2.2.2.1, key.2.2.2.2.2⟩
  · intro p s hp1 hp2 hP
    obtain ⟨a1, a2, a3, a4, a5, a6⟩ := hP
    unfold row_pass
    refine jloop_inv C p
      (fun s : State α => s.i_min = st3.i_min ∧ s.i_max = st3.i_max ∧ s.j_min = st3.j_min ∧
        s.j_max = st3.j_max ∧ s.b i j = st3.b i j ∧ s.d i j = st3.d i j)
      (fun x hx => hx) _ s.j_min s ?_ ?_ ⟨a1, a2, a3, a4, a5, a6⟩
    · intro q x hq1 hq2 hx
      obtain ⟨b1, b2, b3, b4, b5, b6⟩ := hx
      have hin : inDomain st3 p q := by
        unfold inDomain
        rw [← a1, ← a2, ← a3, ← a4]
        refine ⟨hp1, hp2, hq1, ?_⟩
        omega
      have hij : ¬ (i = p ∧ j = q) := by
        rintro ⟨rfl, rfl⟩
        exact hout hin
      have e1 : (cell_flux C p q x).b = (limit_source C p q x).b := rfl
      have e2 : (cell_flux C p q x).d = (limit_source C p q x).d := rfl
      obtain ⟨c1, c2⟩ := limit_source_reservoirs C p q x i j hij
      refine ⟨?_, ?_, ?_, ?_, ?_, ?_⟩
      · exact (cell_flux_frame C p q x).i_min_eq.trans b1
      · exact (cell_flux_frame C p q x).i_max_eq.trans b2
      · exact (cell_flux_frame C p q x).j_min_eq.trans b3
      · exact (cell_flux_frame C p q x).j_max_eq.trans b4
      · rw [e1, c1]
        exact b5
      · rw [e2, c2]
        exact b6
    · intro q x _ _ hx
      unfold cell_momentum
      split_ifs <;> exact hx
  · intro s hP
    exact hP
  · intro s hP
    exact hP

/-- The i-loop with its retries stays in its frame, whatever the time step. -/
theorem iloop_loopFrame (C : Config α) (pf : Nat) (st3 st4 : State α)
    (h : iloop C pf st3.i_min st3 = some st4) : LoopFrame st3 st4 :=
  iloop_inv C (fun s : State α => LoopFrame st3 s)
    (fun i s _ _ hP => hP.ltrans (PassFrame.toLoop (row_pass_frame C i s)))
    (fun s hP => hP.ltrans (retry_state_frame s))
    (fun s hP => hP.ltrans (rfl : LoopFrame s (collapse s)))
    pf st3.i_min st3 st4 le_rfl (LoopFrame.lrefl _) h

/-- The transport pass, retries included, keeps the Active Domain, the
tracking fields, `h` and `s`, and outside the Active Domain `b` and `d`. -/
theorem pass_kept (C : Config α) (pf : Nat) (st3 st4 : State α)
    (hl : LoopFrame st3 st4) (h : iloop C pf st3.i_min st3 = some st4) :
    OutsideKept st3 st4 := by
  have hr := pass_reservoirs_outside C pf st3 st4 h
  unfold LoopFrame at hl
  refine ⟨⟨?_, ?_, ?_, ?_⟩, ?_, ?_, ?_, ?_, ?_⟩
  · have e := congrArg State.i_min hl; exact e
  · have e := congrArg State.i_max hl; exact e
  · have e := congrArg State.j_min hl; exact e
  · have e := congrArg State.j_max hl; exact e
  · have e := congrArg State.h_max hl; exact e
  · have e := congrArg State.s_max hl; exact e
  · have e := congrArg State.b_min hl; exact e
  · have e := congrArg State.d_max hl; exact e
  · intro i j hout
    refine ⟨?_, ?_, (hr i j hout).1, (hr i j hout).2⟩
    · have e := congrArg State.h hl; exact congrFun (congrFun e i) j
    · have e := congrArg State.s hl; exact congrFun (congrFun e i) j

/-- The reversal check of lines 526-537 keeps the Active Domain, the
tracking fields, `h`, `s` and `b`, and outside the Active Domain `d`. -/
theorem arrest_kept (C : Config α) (st : State α) : OutsideKept st (arrest C st) := by
  have h := arrest_arrestFrame C st
  unfold ArrestFrame at h
  refine ⟨⟨?_, ?_, ?_, ?_⟩, ?_, ?_, ?_, ?_, ?_⟩
  · have e := congrArg State.i_min h; exact e
  · have e := congrArg State.i_max h; exact e
  · have e := congrArg State.j_min h; exact e
  · have e := congrArg State.j_max h; exact e
  · have e := congrArg State.h_max h; exact e
  · have e := congrArg State.s_max h; exact e
  · have e := congrArg State.b_min h; exact e
  · have e := congrArg State.d_max h; exact e
  · intro i j hout
    refine ⟨?_, ?_, ?_, arrest_outside C st i j hout⟩
    · have e := congrArg State.h h; exact congrFun (congrFun e i) j
    · have e := congrArg State.s h; exact congrFun (congrFun e i) j
    · have e := congrArg State.b h; exact congrFun (congrFun e i) j

/-- The surface update of lines 540-546 keeps the Active Domain, the
tracking fields and `h`, `s`, `b`, `d`. -/
theorem dynamic_surface_kept (C : Config α) (st : State α) :
    OutsideKept st (dynamic_surface C st) := by
  have h := dynamic_surface_surfFrame C st
  unfold SurfFrame at h
  refine ⟨⟨?_, ?_, ?_, ?_⟩, ?_, ?_, ?_, ?_, ?_⟩
  · have e := congrArg State.i_min h; exact e
  · have e := congrArg State.i_max h; exact e
  · have e := congrArg State.j_min h; exact e
  · have e := congrArg State.j_max h; exact e
  · have e := congrArg State.h_max h; exact e
  · have e := congrArg State.s_max h; exact e
  · have e := congrArg State.b_min h; exact e
  · have e := congrArg State.d_max h; exact e
  · intro i j _
    refine ⟨?_, ?_, ?_, ?_⟩
    · have e := congrArg State.h h; exact congrFun (congrFun e i) j
    · have e := congrArg State.s h; exact congrFun (congrFun e i) j
    · have e := congrArg State.b h; exact congrFun (congrFun e i) j
    · have e := congrArg State.d h; exact congrFun (congrFun e i) j

/-- Function `primivar` keeps the Active Domain, the tracking fields, `b`
and `d`, and outside the Active Domain `h` and `s`. -/
theorem primivar_kept (C : Config α) (f : Grid3 α) (st : State α) :
    OutsideKept st (primivar C f st) := by
  have h := primivar_primFrame C f st
  unfold PrimFrame at h
  refine ⟨⟨?_, ?_, ?_, ?_⟩, ?_, ?_, ?_, ?_, ?_⟩
  · have e := congrArg State.i_min h; exact e
  · have e := congrArg State.i_max h; exact e
  · have e := congrArg State.j_min h; exact e
  · have e := congrArg State.j_max h; exact e
  · have e := congrArg State.h_max h; exact e
  · have e := congrArg State.s_max h; exact e
  · have e := congrArg State.b_min h; exact e
  · have e := congrArg State.d_max h; exact e
  · intro i j hout
    obtain ⟨_, _, x3, x4⟩ := primivar_outside C f st i j hout
    refine ⟨x4, x3, ?_, ?_⟩
    · have e := congrArg State.b h; exact congrFun (congrFun e i) j
    · have e := congrArg State.d h; exact congrFun (congrFun e i) j

/-- From the head of the time loop to the call of line 550 the body keeps
the Active Domain and the tracking fields, and writes `h`, `s`, `b` and `d`
only in cells of the Active Domain. -/
theorem tail_state_kept (C : Config α) (pf : Nat) (st st4 : State α)
    (hp : pass_result C pf st = some st4) : OutsideKept st (tail_state C st4) := by
  unfold pass_result pass_start at hp
  cases hs : source_terms C (step_head C st) with
  | none => rw [hs] at hp; simp at hp
  | some st3 =>
    rw [hs] at hp
    simp only [Option.some_bind] at hp
    have hl : LoopFrame st3 st4 := iloop_loopFrame C pf st3 st4 hp
    have k1 := step_head_kept C st
    have k2 := source_terms_kept C _ _ hs
    have k3 := pass_kept C pf st3 st4 hl hp
    have k4 := arrest_kept C st4
    have k5 := dynamic_surface_kept C (arrest C st4)
    have k6 := primivar_kept C (dynamic_surface C (arrest C st4)).f_new
      (dynamic_surface C (arrest C st4))
    exact ((((k1.oktrans k2).oktrans k3).oktrans k4).oktrans k5).oktrans k6

/-- A cell outside the Active Domain whose tracking fields bound its
current fields stays so up to the call of line 550. -/
theorem Tracked.kept {C : Config α} {a b : State α} {i j : Int} (hk : OutsideKept a b)
    (hout : ¬ inDomain a i j) (ht : Tracked C a i j) : Tracked C b i j := by
  obtain ⟨_, a1, a2, a3, a4, a5⟩ := hk
  obtain ⟨x1, x2, x3, x4⟩ := a5 i j hout
  obtain ⟨t1, t2, t3, t4⟩ := ht
  unfold Tracked
  rw [a1, a2, a3, a4, x1, x2, x3, x4]
  exact ⟨t1, t2, t3, t4⟩

/-- After the update of lines 876-889 the tracking fields of the cell bound
its current fields. -/
theorem Tracked.of_update {C : Config α} {st st1 : State α} {i j : Int}
    (hu : TrackUpdate C st st1 i j) (he : TrackEnv st st1) : Tracked C st1 i j := by
  obtain ⟨_, e2, e3, _, _, e6, e7⟩ := he
  obtain ⟨u1, u2, u3, u4, u5⟩ := hu
  unfold Tracked
  rw [e2, e3, e6, e7]
  refine ⟨?_, ?_, ?_, ?_⟩
  · rw [u1, MAX_eq_max]
    exact le_max_right _ _
  · by_cases hs : st.s i j > st.s_max i j
    · rw [(u2 hs).1]
    · rw [(u3 hs).1]
      exact not_lt.mp hs
  · intro hero
    rw [u4, if_pos hero, MIN_eq_min]
    exact min_le_left _ _
  · intro hdep
    rw [u5, if_pos hdep, MAX_eq_max]
    exact le_max_left _ _

/-- One call of `update_boundaries`: a cell of the Active Domain is
updated, and for a cell outside it whose tracking fields bound its current
fields the values left in place are those of the update. -/
theorem update_boundaries_tracked (C : Config α) (f : Grid3 α) (st : State α) (i j : Int)
    (ht : ¬ inDomain st i j → Tracked C st i j) :
    TrackUpdate C st (update_boundaries C f st).1 i j := by
  by_cases hin : inDomain st i j
  · exact update_boundaries_track C f st i j hin
  · obtain ⟨t1, t2, t3, t4⟩ := ht hin
    exact TrackUpdate_of_dominated C st _ i j (update_boundaries_outside C f st i j hin)
      t1 t2 t3 t4

/-- The state that an accepted time step hands to the next one is the one
left by the call of line 550, with `t` and `n_step` advanced. -/
theorem step_tail_next (C : Config α) (st4 s1 : State α)
    (h : step_tail C st4 = Outcome.next s1) :
    s1 = { (update_boundaries C (tail_state C st4).f_new (tail_state C st4)).1 with
      t := (update_boundaries C (tail_state C st4).f_new (tail_state C st4)).1.t +
        (update_boundaries C (tail_state C st4).f_new (tail_state C st4)).1.dt
      n_step := (update_boundaries C (tail_state C st4).f_new (tail_state C st4)).1.n_step + 1 } := by
  unfold step_tail at h
  simp only at h
  split_ifs at h
  simp only [Outcome.next.injEq] at h
  rw [← h]
  rfl

/-- An accepted time step that starts with the cells outside the Active
Domain tracked ends with every cell tracked. -/
theorem time_step_tracked (C : Config α) (pf : Nat) (st s1 : State α) (i j : Int)
    (hinv : ¬ inDomain st i j → Tracked C st i j)
    (h : time_step C pf st = Outcome.next s1) : Tracked C s1 i j := by
  obtain ⟨st3, st4, _, _, hp, _, ht, _, _⟩ := time_step_pass C pf st s1 h
  have hk := tail_state_kept C pf st st4 hp
  have hdom : ¬ inDomain (tail_state C st4) i j → ¬ inDomain st i j := by
    intro hab
    unfold inDomain at hab ⊢
    rw [← hk.1.1, ← hk.1.2.1, ← hk.1.2.2.1, ← hk.1.2.2.2]
    exact hab
  have hu := update_boundaries_tracked C (tail_state C st4).f_new (tail_state C st4) i j
    (fun hout => Tracked.kept hk (hdom hout) (hinv (hdom hout)))
  have he := update_boundaries_env C (tail_state C st4).f_new (tail_state C st4)
  have hT := Tracked.of_update hu he
  rw [step_tail_next C st4 s1 ht]
  exact hT

/-- At the head of the time loop of a run, the tracking fields of every
cell outside the Active Domain bound its current fields. -/
theorem run_tracked (C : Config α) (pf : Nat) (st0 s : State α) (hinit : MainInit C st0)
    (hrun : AcceptedRun C pf st0 s) (i j : Int) (hg : inGrid C (i, j))
    (hout : ¬ inDomain s i j) : Tracked C s i j := by
  induction hrun with
  | start =>
    exfalso
    apply hout
    obtain ⟨_, _, m1, m2, m3, m4, _, _⟩ := hinit
    obtain ⟨g1, g2, g3, g4⟩ := hg
    unfold inDomain
    rw [m1, m2, m3, m4]
    exact ⟨g1, g2, g3, g4⟩
  | step s s1 _ hstep ih =>
    exact time_step_tracked C pf s s1 i j ih hstep

/-- C13 (tracking coverage).  Let the run start as `main` starts it (lines
303-310, the whole Grid is the Active Domain), and let `s` be a state at the
head of the time loop after any number of accepted time steps.  When the body
of the loop goes from `s` to line 550, with `st4` the state that the transport
pass has left, the call `update_boundaries(f_new)` leaves in every cell `(i,j)`
of the whole Grid (`0 <= i < m`, `0 <= j < n`), in the Active Domain or not,
the updated tracking values: `h_max` is `MAX(h_max, h)`; when `s > s_max`,
`s_max`, `u_max`, `v_max` and `p_max` are `s`, `u`, `v` and
`0.001 * rho * s^2`, else they are as before; `b_min` is `MIN(b, b_min)` with
erosion on and `d_max` is `MAX(d, d_max)` with deposition on.  The loops of
lines 860-861 visit the Active Domain; in a cell of the Grid outside it the
values that the earlier calls have stored are the updated ones, because between
two calls `h`, `s`, `b` and `d` are written only in cells of the Active
Domain. -/
theorem tracking_covers_grid (C : Config α) (pf : Nat) (st0 s st4 : State α)
    (hinit : MainInit C st0) (hrun : AcceptedRun C pf st0 s)
    (hp : pass_result C pf s = some st4) (i j : Int) (hg : inGrid C (i, j)) :
    TrackUpdate C (tail_state C st4)
      (update_boundaries C (tail_state C st4).f_new (tail_state C st4)).1 i j := by
  have hk := tail_state_kept C pf s st4 hp
  apply update_boundaries_tracked
  intro hout
  have hout1 : ¬ inDomain s i j := by
    unfold inDomain at hout ⊢
    rw [← hk.1.1, ← hk.1.2.1, ← hk.1.2.2.1, ← hk.1.2.2.2]
    exact hout
  exact Tracked.kept hk hout1 (run_tracked C pf st0 s hinit hrun i j hg hout1)

set_option maxRecDepth 1000000 in
theorem stI_step_isSome : (time_step cfgB 20 stI).accepted.isSome = true := by decide!

set_option maxRecDepth 1000000 in
theorem stI_second_pass_isSome :
    (pass_result cfgB 20 ((time_step cfgB 20 stI).accepted.get stI_step_isSome)).isSome
      = true := by decide!

set_option maxRecDepth 1000000 in
theorem stI_second_domain :
    ((time_step cfgB 20 stI).accepted.get stI_step_isSome).i_min = 1 ∧
    ((time_step cfgB 20 stI).accepted.get stI_step_isSome).i_max = 4 ∧
    ((time_step cfgB 20 stI).accepted.get stI_step_isSome).j_min = 0 ∧
    ((time_step cfgB 20 stI).accepted.get stI_step_isSome).j_max = 2 ∧
    ((time_step cfgB 20 stI).accepted.get stI_step_isSome).h 0 1 = 1 / 400 ∧
    ((time_step cfgB 20 stI).accepted.get stI_step_isSome).h_max 0 1 = 1 / 400 := by
  decide!

/-- Witness for C13: the run that starts in state I with configuration B.
The first time step is accepted and leaves the Active Domain
`[1,4) x [0,2)`; cell `(0,1)` of the Grid, of depth 1/400 and with
`h_max = 1/400`, lies outside it.  In the second time step the call of line
550 leaves the updated tracking values in that cell. -/
theorem tracking_covers_grid_witness :
    MainInit cfgB stI ∧
    AcceptedRun cfgB 20 stI ((time_step cfgB 20 stI).accepted.get stI_step_isSome) ∧
    inGrid cfgB (0, 1) ∧
    ¬ inDomain ((time_step cfgB 20 stI).accepted.get stI_step_isSome) 0 1 ∧
    ((time_step cfgB 20 stI).accepted.get stI_step_isSome).h 0 1 = 1 / 400 ∧
    ((time_step cfgB 20 stI).accepted.get stI_step_isSome).h_max 0 1 = 1 / 400 ∧
    TrackUpdate cfgB
      (tail_state cfgB ((pass_result cfgB 20
        ((time_step cfgB 20 stI).accepted.get stI_step_isSome)).get stI_second_pass_isSome))
      (update_boundaries cfgB
        (tail_state cfgB ((pass_result cfgB 20
          ((time_step cfgB 20 stI).accepted.get stI_step_isSome)).get
            stI_second_pass_isSome)).f_new
        (tail_state cfgB ((pass_result cfgB 20
          ((time_step cfgB 20 stI).accepted.get stI_step_isSome)).get
            stI_second_pass_isSome))).1 0 1 :=
  ⟨⟨rfl, rfl, rfl, rfl, rfl, rfl, rfl, rfl⟩,
    AcceptedRun.step stI _ AcceptedRun.start
      (accepted_eq_next _ _ (Option.some_get stI_step_isSome).symm),
    ⟨by decide, by decide, by decide, by decide⟩,
    fun hin => absurd hin.1 (by rw [stI_second_domain.1]; decide),
    stI_second_domain.2.2.2.2.1, stI_second_domain.2.2.2.2.2,
    tracking_covers_grid cfgB 20 stI _ _ ⟨rfl, rfl, rfl, rfl, rfl, rfl, rfl, rfl⟩
      (AcceptedRun.step stI _ AcceptedRun.start
        (accepted_eq_next _ _ (Option.some_get stI_step_isSome).symm))
      (Option.some_get stI_second_pass_isSome).symm 0 1
      ⟨by decide, by decide, by decide, by decide⟩⟩

end Theorems

end MoTVoellmy
